import Mathlib

/-!
# Inventory management system: product variants, factory, inventory and persistence codec

A shallow embedding of the C++ sources (`perishable.cpp`, `nonperishable.cpp`,
`rawmaterial.cpp`, `food.cpp`, `chemical.cpp`, `productFactory.cpp`, `supplier.cpp`,
`inventory.cpp`, `fileManager.cpp`, `user.cpp`, `admin.cpp`, `userManager.cpp`,
`systemController.cpp`, and the classification by prefix of `dialog.cpp`) followed by
theorems about them.

Modelling conventions
* a `std::string` is the list of its characters (`Str`);
* an `int` is an `Int`; the product classes perform no `int` arithmetic (every sum and
  difference is computed in `double` and converted back), and the sum and the difference
  that the controller computes wrap around at the ends of the range of `int` (`wrapInt32`);
* a `double` is a `Double`: a finite value is the rational number it denotes; a sum or a
  difference of doubles is rounded to the nearest binary64 value, ties to even (`round64`);
  a comparison is exact, and a comparison with a NaN is false; a decimal text is read as the
  rational it denotes; the stock members of `RawMaterial`, which only ever receive an `int` or
  a sum or difference that a comparison with a finite bound has guarded, are held as
  rationals;
* an object is updated by returning the new object next to the C++ return value;
* a pointer is an address (`Ptr`), the null pointer is `none`, and a `std::set` of pointers
  is the list of its pointers in increasing order, each next to the object it points to; a
  `std::set<std::string>` is the list of its elements in increasing order;
* a `std::vector` of pointers is the list of its pointers in the order of the vector, each
  next to the object it points to;
* an input stream is what is left to read together with `eofbit` and `failbit`; the text
  that an output stream receives is a string; a file is its text;
* what C++ leaves uninitialised, and the addresses `new` returns, are parameters
  (`Indeterminate`, `Allocator`, `AccountAllocator`);
* the files the controller writes are not part of its state: the text it reads from them is
  a parameter of the call that reads, and the runs of `autoSaveData` are counted.
-/

namespace IMS

/-! ## Strings and doubles -/

/-- A `std::string`, as the list of its characters. -/
abbrev Str := List Char

/-- A C++ `double`: a finite value (the rational it denotes), an infinity or a NaN. -/
inductive Double where
  | fin (x : ℚ)
  | posInf
  | negInf
  | nan
deriving DecidableEq

/-- Truncation of a rational toward zero: the conversion `double → int` of a finite value. -/
def truncToInt (x : ℚ) : Int := if 0 ≤ x then ⌊x⌋ else ⌈x⌉

/-- The nearest integer of a rational, a tie going to the even neighbour. -/
def roundHalfEven (y : ℚ) : Int :=
  if y - ⌊y⌋ < 1 / 2 then ⌊y⌋
  else if y - ⌊y⌋ > 1 / 2 then ⌊y⌋ + 1
  else if ⌊y⌋ % 2 = 0 then ⌊y⌋ else ⌊y⌋ + 1

/-- The exponent of the binade of a positive rational in binary64: that of the largest power
of two not above it, and not below the exponent -1022 of the smallest normal number. -/
@[irreducible]
def binade (x : ℚ) : Int := max (Int.log 2 x) (-1022)

/-- The rounding of a non-negative rational to the nearest multiple of the spacing of its
binade (53 significant bits), a tie going to the even multiple. -/
@[irreducible]
def roundPos (x : ℚ) : ℚ :=
  (roundHalfEven (x / 2 ^ (binade x - 52)) : ℚ) * 2 ^ (binade x - 52)

/-- The rounding of a rational to the nearest binary64 value, ties to even, overflow apart. -/
@[irreducible]
def roundNearest (x : ℚ) : ℚ := if x < 0 then -roundPos (-x) else roundPos x

/-- The binary64 value of a real result: rounded to nearest, ties to even; a result of
magnitude `2 ^ 1024` after rounding is an infinity. -/
@[irreducible]
def round64 (x : ℚ) : Double :=
  if roundNearest x ≥ 2 ^ 1024 then .posInf
  else if roundNearest x ≤ -2 ^ 1024 then .negInf
  else .fin (roundNearest x)

/-- Whether a rational is a binary64 value. -/
@[irreducible]
def isBinary64 (x : ℚ) : Bool := decide (round64 x = .fin x)

/-- Whether a rational is a value that a stock member holds: a binary64 value of magnitude at
most `2 ^ 31`.  An `int` member converted to `double` is one, and so is a stock member of
`RawMaterial`, which receives an `int` or a sum or difference that a comparison with such a
value has guarded (`rawMaterial_stock_values`). -/
@[irreducible]
def isStock (x : ℚ) : Bool := isBinary64 x && decide (|x| ≤ 2 ^ 31)

/-- The sum `a + q` in `double` of a stock value and an amount: the binary64 value nearest to
the sum.  The operands of the program are a stock value and a binary64 value (for the stock
members this is `rawMaterial_stock_values` and `int_variant_stock_values`); for other
arguments the sum is left as it is. -/
@[irreducible]
def stockPlus (a q : ℚ) : Double :=
  if isStock a ∧ isBinary64 q then round64 (a + q) else .fin (a + q)

/-- The difference `a - q` in `double` of a stock value and an amount: the binary64 value
nearest to the difference.  The operands of the program are a stock value and a binary64 value
(for the stock members this is `rawMaterial_stock_values` and `int_variant_stock_values`);
for other arguments the difference is left as it is. -/
@[irreducible]
def stockMinus (a q : ℚ) : ℚ :=
  if isStock a ∧ isBinary64 q then roundNearest (a - q) else a - q

/-! ## Product variants -/

/-- Values of what the program leaves uninitialised: the members `NonPerishable::isFragile`,
`Chemical::childSafe` and `Chemical::hazardLevel`, which their constructors do not set, and
the `int` and `double` locals of the file manager, which hold `localInt` and `localDouble`
until an extraction assigns them. -/
structure Indeterminate where
  isFragile : Bool
  childSafe : Bool
  hazardLevel : Int
  localInt : Int
  localDouble : Double
deriving DecidableEq

/-- The data members of `class Perishable` (the member `disposalMethod`, which no code reads or
writes, is left out). -/
structure Perishable where
  id : Str
  name : Str
  price : Double
  quantity : Int
  supplier : Str
  expirationDate : Str
  storageCondition : Str
  maxQuantity : Int
  minQuantity : Int
deriving DecidableEq

/-- The data members of `class NonPerishable`. -/
structure NonPerishable where
  id : Str
  name : Str
  price : Double
  quantity : Int
  supplier : Str
  isFragile : Bool
  maxQuantity : Int
  minQuantity : Int
deriving DecidableEq

/-- The data members of `class RawMaterial`; the three stock members are doubles, always
finite. -/
structure RawMaterial where
  id : Str
  name : Str
  supplier : Str
  unitOfMeasurement : Str
  minQuantity : ℚ
  maxQuantity : ℚ
  price : Double
  quantity : ℚ
  purity : Int
deriving DecidableEq

/-- The data members of `class Food : public Perishable`; `allergens` is a `std::set<string>`,
held as the list of its elements in iteration order. -/
structure Food extends Perishable where
  allergens : List Str
  temperatureRequired : Double
  nutritionalInfo : Str
deriving DecidableEq

/-- The data members of `class Chemical : public Perishable`. -/
structure Chemical extends Perishable where
  safetyWarnings : List Str
  disposalType : Str
  childSafe : Bool
  ventilationRequired : Bool
  hazardLevel : Int
deriving DecidableEq

/-! ### Perishable -/

/-- The constructor `Perishable::Perishable`. -/
def Perishable.new (id name : Str) (price : Double) (supplier : Str) : Perishable :=
  { id := id, name := name, price := price, quantity := 0, minQuantity := 5, maxQuantity := 1,
    supplier := supplier, expirationDate := [], storageCondition := [] }

/-- The method `Perishable::setQuantity`. -/
def Perishable.setQuantity (self : Perishable) (quantity : Int) : Bool × Perishable :=
  if quantity ≥ 0 then (true, { self with quantity := quantity }) else (false, self)

/-- The method `Perishable::setTotalQuantity`. -/
def Perishable.setTotalQuantity (self : Perishable) (quantity : Int) : Perishable :=
  { self with maxQuantity := quantity }

/-- The method `Perishable::setMinimumQuantity`. -/
def Perishable.setMinimumQuantity (self : Perishable) (quantity : Int) : Perishable :=
  { self with minQuantity := quantity }

/-- The method `Perishable::useItem`.  A non-finite `quantityUsed` fails the guard
`quantityUsed > 0 && quantityUsed <= quantity`; `quantity -= quantityUsed` computes the
difference in `double`, rounded to binary64, and converts it back to the `int` member. -/
def Perishable.useItem (self : Perishable) (quantityUsed : Double) : Bool × Perishable :=
  match quantityUsed with
  | .fin q =>
    if q > 0 ∧ q ≤ (self.quantity : ℚ) then
      (true, { self with quantity := truncToInt (stockMinus self.quantity q) })
    else (false, self)
  | _ => (false, self)

/-- The method `Perishable::buyItem`.  A non-finite `quantityPurchased` fails the guard
`quantityPurchased > 0 && (quantity + quantityPurchased <= maxQuantity)`, whose sum is
computed in `double`, rounded to binary64 (a sum that overflows is not below the maximum);
`quantity += quantityPurchased` converts the same sum back to the `int` member. -/
def Perishable.buyItem (self : Perishable) (quantityPurchased : Double) : Bool × Perishable :=
  match quantityPurchased with
  | .fin q =>
    match stockPlus self.quantity q with
    | .fin s =>
      if q > 0 ∧ s ≤ (self.maxQuantity : ℚ) then
        (true, { self with quantity := truncToInt s })
      else (false, self)
    | _ => (false, self)
  | _ => (false, self)

/-! ### NonPerishable -/

/-- The constructor `NonPerishable::NonPerishable`; `isFragile` is not initialised. -/
def NonPerishable.new (id name : Str) (price : Double) (supplier : Str) (u : Indeterminate) :
    NonPerishable :=
  { id := id, name := name, price := price, quantity := 0, minQuantity := 5, maxQuantity := 1,
    supplier := supplier, isFragile := u.isFragile }

/-- The method `NonPerishable::setQuantity`. -/
def NonPerishable.setQuantity (self : NonPerishable) (quantity : Int) : Bool × NonPerishable :=
  if quantity ≥ 0 ∧ quantity ≤ self.maxQuantity then (true, { self with quantity := quantity })
  else (false, self)

/-- The method `NonPerishable::setTotalQuantity`. -/
def NonPerishable.setTotalQuantity (self : NonPerishable) (totalQuantity : Int) : NonPerishable :=
  if totalQuantity > 0 ∧ self.quantity < totalQuantity then
    { self with maxQuantity := totalQuantity }
  else self

/-- The method `NonPerishable::setMinimumQuantity`, whose body is
`this->quantity = quantity;`. -/
def NonPerishable.setMinimumQuantity (self : NonPerishable) (quantity : Int) : NonPerishable :=
  { self with quantity := quantity }

/-- The method `NonPerishable::useItem`.  A non-finite `quantityUsed` fails the guard
`quantityUsed > 0 && quantityUsed <= quantity`; `quantity -= quantityUsed` computes the
difference in `double`, rounded to binary64, and converts it back to the `int` member. -/
def NonPerishable.useItem (self : NonPerishable) (quantityUsed : Double) : Bool × NonPerishable :=
  match quantityUsed with
  | .fin q =>
    if q > 0 ∧ q ≤ (self.quantity : ℚ) then
      (true, { self with quantity := truncToInt (stockMinus self.quantity q) })
    else (false, self)
  | _ => (false, self)

/-- The method `NonPerishable::buyItem`.  A non-finite `quantityPurchased` fails the guard
`quantityPurchased > 0 && (quantity + quantityPurchased <= maxQuantity)`, whose sum is
computed in `double`, rounded to binary64; `quantity += quantityPurchased` converts the same
sum back to the `int` member. -/
def NonPerishable.buyItem (self : NonPerishable) (quantityPurchased : Double) :
    Bool × NonPerishable :=
  match quantityPurchased with
  | .fin q =>
    match stockPlus self.quantity q with
    | .fin s =>
      if q > 0 ∧ s ≤ (self.maxQuantity : ℚ) then
        (true, { self with quantity := truncToInt s })
      else (false, self)
    | _ => (false, self)
  | _ => (false, self)

/-! ### RawMaterial -/

/-- The constructor `RawMaterial::RawMaterial`. -/
def RawMaterial.new (id name : Str) (price : Double) (supplier : Str) : RawMaterial :=
  { id := id, name := name, price := price, quantity := 0, minQuantity := 5, maxQuantity := 1,
    supplier := supplier, purity := 0, unitOfMeasurement := [] }

/-- The method `RawMaterial::setQuantity`. -/
def RawMaterial.setQuantity (self : RawMaterial) (quantity : Int) : Bool × RawMaterial :=
  if quantity ≥ 0 then (true, { self with quantity := (quantity : ℚ) }) else (false, self)

/-- The method `RawMaterial::setTotalQuantity`. -/
def RawMaterial.setTotalQuantity (self : RawMaterial) (quantity : Int) : RawMaterial :=
  if quantity ≥ 0 then { self with maxQuantity := (quantity : ℚ) } else self

/-- The method `RawMaterial::setMinimumQuantity`. -/
def RawMaterial.setMinimumQuantity (self : RawMaterial) (quantity : Int) : RawMaterial :=
  { self with minQuantity := (quantity : ℚ) }

/-- The method `RawMaterial::getQuantity`: the `double` member returned as an `int`. -/
def RawMaterial.getQuantity (self : RawMaterial) : Int := truncToInt self.quantity

/-- The method `RawMaterial::getMinQuantity`. -/
def RawMaterial.getMinQuantity (self : RawMaterial) : Int := truncToInt self.minQuantity

/-- The method `RawMaterial::getMaxQuantity`. -/
def RawMaterial.getMaxQuantity (self : RawMaterial) : Int := truncToInt self.maxQuantity

/-- The method `RawMaterial::useItem`.  A non-finite `quantityUsed` fails the guard;
`quantity -= quantityUsed` stores the difference, rounded to binary64. -/
def RawMaterial.useItem (self : RawMaterial) (quantityUsed : Double) : Bool × RawMaterial :=
  match quantityUsed with
  | .fin q =>
    if q > 0 ∧ q ≤ self.quantity then
      (true, { self with quantity := stockMinus self.quantity q })
    else (false, self)
  | _ => (false, self)

/-- The method `RawMaterial::buyItem`.  A non-finite `quantityPurchased` fails the guard,
whose sum is rounded to binary64; `quantity += quantityPurchased` stores the same sum. -/
def RawMaterial.buyItem (self : RawMaterial) (quantityPurchased : Double) : Bool × RawMaterial :=
  match quantityPurchased with
  | .fin q =>
    match stockPlus self.quantity q with
    | .fin s =>
      if q > 0 ∧ s ≤ self.maxQuantity then (true, { self with quantity := s })
      else (false, self)
    | _ => (false, self)
  | _ => (false, self)

/-- The stock members of a `RawMaterial` hold values that the program can give them: binary64
values of magnitude at most `2 ^ 31`, the quantity not negative. -/
def RawMaterial.stockValid (r : RawMaterial) : Prop :=
  isStock r.quantity = true ∧ isStock r.maxQuantity = true ∧ 0 ≤ r.quantity

/-! ### Food and Chemical -/

/-- The constructor `Food::Food`. -/
def Food.new (id name : Str) (price : Double) (supplier : Str) : Food :=
  { Perishable.new id name price supplier with
    allergens := [], temperatureRequired := .fin 0, nutritionalInfo := "Not Specified".toList }

/-- The constructor `Chemical::Chemical`; `childSafe` and `hazardLevel` are not initialised. -/
def Chemical.new (id name : Str) (price : Double) (supplier : Str) (u : Indeterminate) :
    Chemical :=
  { Perishable.new id name price supplier with
    safetyWarnings := [], disposalType := "Not Specified".toList, childSafe := u.childSafe,
    ventilationRequired := false, hazardLevel := u.hazardLevel }

/-! ## The `Product` interface -/

/-- An object behind a `Product*`: one of the five concrete classes. -/
inductive Product where
  | rawMaterial (p : RawMaterial)
  | nonPerishable (p : NonPerishable)
  | perishable (p : Perishable)
  | food (p : Food)
  | chemical (p : Chemical)
deriving DecidableEq

/-- The virtual method `getId`. -/
def Product.getId : Product → Str
  | .rawMaterial p => p.id
  | .nonPerishable p => p.id
  | .perishable p => p.id
  | .food p => p.id
  | .chemical p => p.id

/-- The virtual method `getName`. -/
def Product.getName : Product → Str
  | .rawMaterial p => p.name
  | .nonPerishable p => p.name
  | .perishable p => p.name
  | .food p => p.name
  | .chemical p => p.name

/-- The virtual method `getPrice`. -/
def Product.getPrice : Product → Double
  | .rawMaterial p => p.price
  | .nonPerishable p => p.price
  | .perishable p => p.price
  | .food p => p.price
  | .chemical p => p.price

/-- The virtual method `getSupplier`. -/
def Product.getSupplier : Product → Str
  | .rawMaterial p => p.supplier
  | .nonPerishable p => p.supplier
  | .perishable p => p.supplier
  | .food p => p.supplier
  | .chemical p => p.supplier

/-- The virtual method `getQuantity`. -/
def Product.getQuantity : Product → Int
  | .rawMaterial p => p.getQuantity
  | .nonPerishable p => p.quantity
  | .perishable p => p.quantity
  | .food p => p.quantity
  | .chemical p => p.quantity

/-- The virtual method `getMinQuantity`. -/
def Product.getMinQuantity : Product → Int
  | .rawMaterial p => p.getMinQuantity
  | .nonPerishable p => p.minQuantity
  | .perishable p => p.minQuantity
  | .food p => p.minQuantity
  | .chemical p => p.minQuantity

/-- The virtual method `getMaxQuantity`. -/
def Product.getMaxQuantity : Product → Int
  | .rawMaterial p => p.getMaxQuantity
  | .nonPerishable p => p.maxQuantity
  | .perishable p => p.maxQuantity
  | .food p => p.maxQuantity
  | .chemical p => p.maxQuantity

/-- The value of the stored `quantity` member (an `int` or, for `RawMaterial`, a `double`). -/
def Product.quantity : Product → ℚ
  | .rawMaterial p => p.quantity
  | .nonPerishable p => p.quantity
  | .perishable p => p.quantity
  | .food p => p.quantity
  | .chemical p => p.quantity

/-- The value of the stored `maxQuantity` member. -/
def Product.maxQuantity : Product → ℚ
  | .rawMaterial p => p.maxQuantity
  | .nonPerishable p => p.maxQuantity
  | .perishable p => p.maxQuantity
  | .food p => p.maxQuantity
  | .chemical p => p.maxQuantity

/-- The value of the stored `minQuantity` member. -/
def Product.minQuantity : Product → ℚ
  | .rawMaterial p => p.minQuantity
  | .nonPerishable p => p.minQuantity
  | .perishable p => p.minQuantity
  | .food p => p.minQuantity
  | .chemical p => p.minQuantity

/-- The virtual method `setId`. -/
def Product.setId (self : Product) (id : Str) : Product :=
  match self with
  | .rawMaterial p => .rawMaterial { p with id := id }
  | .nonPerishable p => .nonPerishable { p with id := id }
  | .perishable p => .perishable { p with id := id }
  | .food p => .food { p with id := id }
  | .chemical p => .chemical { p with id := id }

/-- The virtual method `setName`. -/
def Product.setName (self : Product) (name : Str) : Product :=
  match self with
  | .rawMaterial p => .rawMaterial { p with name := name }
  | .nonPerishable p => .nonPerishable { p with name := name }
  | .perishable p => .perishable { p with name := name }
  | .food p => .food { p with name := name }
  | .chemical p => .chemical { p with name := name }

/-- The virtual method `setPrice`. -/
def Product.setPrice (self : Product) (price : Double) : Product :=
  match self with
  | .rawMaterial p => .rawMaterial { p with price := price }
  | .nonPerishable p => .nonPerishable { p with price := price }
  | .perishable p => .perishable { p with price := price }
  | .food p => .food { p with price := price }
  | .chemical p => .chemical { p with price := price }

/-- The virtual method `setQuantity` (`Food` and `Chemical` inherit `Perishable::setQuantity`). -/
def Product.setQuantity (self : Product) (quantity : Int) : Bool × Product :=
  match self with
  | .rawMaterial p => ((p.setQuantity quantity).1, .rawMaterial (p.setQuantity quantity).2)
  | .nonPerishable p => ((p.setQuantity quantity).1, .nonPerishable (p.setQuantity quantity).2)
  | .perishable p => ((p.setQuantity quantity).1, .perishable (p.setQuantity quantity).2)
  | .food p =>
    ((p.toPerishable.setQuantity quantity).1,
      .food { p with toPerishable := (p.toPerishable.setQuantity quantity).2 })
  | .chemical p =>
    ((p.toPerishable.setQuantity quantity).1,
      .chemical { p with toPerishable := (p.toPerishable.setQuantity quantity).2 })

/-- The virtual method `setTotalQuantity`. -/
def Product.setTotalQuantity (self : Product) (quantity : Int) : Product :=
  match self with
  | .rawMaterial p => .rawMaterial (p.setTotalQuantity quantity)
  | .nonPerishable p => .nonPerishable (p.setTotalQuantity quantity)
  | .perishable p => .perishable (p.setTotalQuantity quantity)
  | .food p => .food { p with toPerishable := p.toPerishable.setTotalQuantity quantity }
  | .chemical p => .chemical { p with toPerishable := p.toPerishable.setTotalQuantity quantity }

/-- The virtual method `setMinimumQuantity`. -/
def Product.setMinimumQuantity (self : Product) (quantity : Int) : Product :=
  match self with
  | .rawMaterial p => .rawMaterial (p.setMinimumQuantity quantity)
  | .nonPerishable p => .nonPerishable (p.setMinimumQuantity quantity)
  | .perishable p => .perishable (p.setMinimumQuantity quantity)
  | .food p => .food { p with toPerishable := p.toPerishable.setMinimumQuantity quantity }
  | .chemical p => .chemical { p with toPerishable := p.toPerishable.setMinimumQuantity quantity }

/-- The virtual method `useItem`. -/
def Product.useItem (self : Product) (quantityUsed : Double) : Bool × Product :=
  match self with
  | .rawMaterial p => ((p.useItem quantityUsed).1, .rawMaterial (p.useItem quantityUsed).2)
  | .nonPerishable p => ((p.useItem quantityUsed).1, .nonPerishable (p.useItem quantityUsed).2)
  | .perishable p => ((p.useItem quantityUsed).1, .perishable (p.useItem quantityUsed).2)
  | .food p =>
    ((p.toPerishable.useItem quantityUsed).1,
      .food { p with toPerishable := (p.toPerishable.useItem quantityUsed).2 })
  | .chemical p =>
    ((p.toPerishable.useItem quantityUsed).1,
      .chemical { p with toPerishable := (p.toPerishable.useItem quantityUsed).2 })

/-- The virtual method `buyItem`. -/
def Product.buyItem (self : Product) (quantityPurchased : Double) : Bool × Product :=
  match self with
  | .rawMaterial p =>
    ((p.buyItem quantityPurchased).1, .rawMaterial (p.buyItem quantityPurchased).2)
  | .nonPerishable p =>
    ((p.buyItem quantityPurchased).1, .nonPerishable (p.buyItem quantityPurchased).2)
  | .perishable p =>
    ((p.buyItem quantityPurchased).1, .perishable (p.buyItem quantityPurchased).2)
  | .food p =>
    ((p.toPerishable.buyItem quantityPurchased).1,
      .food { p with toPerishable := (p.toPerishable.buyItem quantityPurchased).2 })
  | .chemical p =>
    ((p.toPerishable.buyItem quantityPurchased).1,
      .chemical { p with toPerishable := (p.toPerishable.buyItem quantityPurchased).2 })

/-! ## Product factory -/

/-- The enumeration `productType` of `productFactory.h`. -/
inductive productType where
  | RAW_MATERIAL
  | NON_PERISHABLE
  | PERISHABLE
  | FOOD
  | CHEMICAL
deriving DecidableEq

/-- The call `s.substr(pos, len)`. -/
def substr (s : Str) (pos len : Nat) : Str := (s.drop pos).take len

/-- The local `finalId` that `productFactory::createProduct` computes from `id`. -/
def productFactory.finalId (type : productType) (id : Str) : Str :=
  match type with
  | .RAW_MATERIAL =>
    if id.length ≥ 2 ∧ substr id 0 2 = "RM".toList then id else "RM".toList ++ id
  | .NON_PERISHABLE =>
    if id.length ≥ 2 ∧ substr id 0 2 = "NP".toList then id else "NP".toList ++ id
  | .PERISHABLE =>
    if id.length ≥ 1 ∧ id[0]? = some 'P' ∧
        ¬ (id.length ≥ 2 ∧ (id[1]? = some 'N' ∨ id[1]? = some 'M')) then id
    else "P".toList ++ id
  | .FOOD => if id.length ≥ 1 ∧ id[0]? = some 'F' then id else "F".toList ++ id
  | .CHEMICAL => if id.length ≥ 1 ∧ id[0]? = some 'C' then id else "C".toList ++ id

/-- The function `productFactory::createProduct` (its `default:` branch, which returns a null
pointer, belongs to no value of the enumeration). -/
def productFactory.createProduct (type : productType) (id name : Str) (price : Double)
    (supplier : Str) (u : Indeterminate) : Product :=
  match type with
  | .RAW_MATERIAL =>
    .rawMaterial (RawMaterial.new (productFactory.finalId .RAW_MATERIAL id) name price supplier)
  | .NON_PERISHABLE =>
    .nonPerishable
      (NonPerishable.new (productFactory.finalId .NON_PERISHABLE id) name price supplier u)
  | .PERISHABLE =>
    .perishable (Perishable.new (productFactory.finalId .PERISHABLE id) name price supplier)
  | .FOOD => .food (Food.new (productFactory.finalId .FOOD id) name price supplier)
  | .CHEMICAL =>
    .chemical (Chemical.new (productFactory.finalId .CHEMICAL id) name price supplier u)

/-! ## Input streams -/

/-- The state of a `std::istream` (an `ifstream` or a `stringstream`) that matters here: the
characters not yet read, `eofbit` and `failbit`. -/
structure IStream where
  buf : Str
  eofbit : Bool
  failbit : Bool
deriving DecidableEq

/-- A stream over the given characters: `stringstream ss(line)`, or a file just opened. -/
def IStream.open (s : Str) : IStream := { buf := s, eofbit := false, failbit := false }

/-- The test `good()`. -/
def IStream.good (s : IStream) : Bool := !s.eofbit && !s.failbit

/-- The classification `isspace` of the "C" locale. -/
def isspace (c : Char) : Bool :=
  c = ' ' || c = '\t' || c = '\n' || c = '\x0b' || c = '\x0c' || c = '\r'

/-- The characters before the first `delim` and, when there is one, those after it. -/
def splitDelim (delim : Char) : Str → Str × Option Str
  | [] => ([], none)
  | c :: cs =>
    if c = delim then ([], some cs)
    else ((c :: (splitDelim delim cs).1), (splitDelim delim cs).2)

/-- The call `getline(is, str, delim)`: on a stream that is not good it sets `failbit` and
leaves `str` alone; otherwise it stores the characters up to `delim` (which it discards) or
to the end of the stream (setting `eofbit`), and sets `failbit` when it extracted nothing. -/
def getline (is : IStream) (str : Str) (delim : Char) : IStream × Str :=
  if is.good then
    match splitDelim delim is.buf with
    | (tok, some rest) => ({ is with buf := rest }, tok)
    | (tok, none) => ({ buf := [], eofbit := true, failbit := tok.isEmpty }, tok)
  else ({ is with failbit := true }, str)

/-- The call `is.ignore()`: discards one character. -/
def ignore (is : IStream) : IStream :=
  if is.good then
    match is.buf with
    | [] => { is with eofbit := true }
    | _ :: rest => { is with buf := rest }
  else { is with failbit := true }

/-- The sentry of a formatted extraction: skips white space; fails on a stream that is not
good or holds nothing but white space. -/
def skipws (is : IStream) : IStream :=
  if is.good then
    if (is.buf.dropWhile isspace).isEmpty then { buf := [], eofbit := true, failbit := true }
    else { is with buf := is.buf.dropWhile isspace }
  else { is with failbit := true }

/-- The number a string of decimal digits denotes. -/
def digitsValue (ds : Str) : Nat := ds.foldl (fun acc c => 10 * acc + (c.toNat - 48)) 0

/-- The largest `int`. -/
def INT_MAX : Int := 2147483647

/-- The smallest `int`. -/
def INT_MIN : Int := -2147483648

/-- The `int` an arithmetic result becomes: a result outside the range of `int` wraps
around modulo `2 ^ 32`. -/
def wrapInt32 (n : Int) : Int := (n + 2 ^ 31) % 2 ^ 32 - 2 ^ 31

/-- The characters left once an optional sign has been read. -/
def dropSign (s : Str) : Str :=
  match s with
  | '-' :: rest => rest
  | '+' :: rest => rest
  | _ => s

/-- Whether the characters start with a minus sign. -/
def hasMinus (s : Str) : Bool :=
  match s with
  | '-' :: _ => true
  | _ => false

/-- The extraction `is >> n` of an `int`: white space, an optional sign, decimal digits.
Without a digit it stores 0 and sets `failbit`; a value out of range is replaced by the
nearest `int` and sets `failbit`; reaching the end of the stream sets `eofbit`; when the
sentry fails the variable keeps its old value. -/
def extractInt (is : IStream) (old : Int) : IStream × Int :=
  if (skipws is).good then
    let body := dropSign (skipws is).buf
    let ds := body.takeWhile Char.isDigit
    let rest := body.dropWhile Char.isDigit
    let v : Int := if hasMinus (skipws is).buf then -(digitsValue ds : Int) else digitsValue ds
    if ds.isEmpty then ({ buf := rest, eofbit := rest.isEmpty, failbit := true }, 0)
    else if v > INT_MAX then ({ buf := rest, eofbit := rest.isEmpty, failbit := true }, INT_MAX)
    else if v < INT_MIN then ({ buf := rest, eofbit := rest.isEmpty, failbit := true }, INT_MIN)
    else ({ buf := rest, eofbit := rest.isEmpty, failbit := false }, v)
  else (skipws is, old)

/-- The characters after the fraction of a number: those after `.` and its digits when the
characters start with `.`, the characters themselves otherwise. -/
def dropFraction (s : Str) : Str :=
  match s with
  | '.' :: rest => rest.dropWhile Char.isDigit
  | _ => s

/-- The digits of the fraction of a number. -/
def takeFraction (s : Str) : Str :=
  match s with
  | '.' :: rest => rest.takeWhile Char.isDigit
  | _ => []

/-- Whether the characters start with an exponent marker. -/
def hasExponent (s : Str) : Bool :=
  match s with
  | 'e' :: _ => true
  | 'E' :: _ => true
  | _ => false

/-- The extraction `is >> x` of a `double`: white space, an optional sign, digits, an optional
fraction and an optional exponent.  The value is the exact decimal read: the rounding of the
decimal to binary64 is left out, and so is the range error of a text beyond the largest
`double`, after which the extraction stores the largest `double` and sets `failbit`.  Without
a digit in the mantissa, or with an exponent marker that no digit follows, it stores 0 and
sets `failbit`; when the sentry fails the variable keeps its old value. -/
def extractDouble (is : IStream) (old : Double) : IStream × Double :=
  if (skipws is).good then
    let body := dropSign (skipws is).buf
    let intDs := body.takeWhile Char.isDigit
    let afterInt := body.dropWhile Char.isDigit
    let fracDs := takeFraction afterInt
    let afterFrac := dropFraction afterInt
    let mantissa : ℚ := (digitsValue intDs : ℚ) + (digitsValue fracDs : ℚ) / 10 ^ fracDs.length
    let signed : ℚ := if hasMinus (skipws is).buf then -mantissa else mantissa
    if intDs.isEmpty ∧ fracDs.isEmpty then
      ({ buf := afterFrac, eofbit := afterFrac.isEmpty, failbit := true }, .fin 0)
    else if hasExponent afterFrac then
      let expBody := dropSign afterFrac.tail
      let expDs := expBody.takeWhile Char.isDigit
      let rest := expBody.dropWhile Char.isDigit
      let e : Int := if hasMinus afterFrac.tail then -(digitsValue expDs : Int) else digitsValue expDs
      if expDs.isEmpty then ({ buf := rest, eofbit := rest.isEmpty, failbit := true }, .fin 0)
      else ({ buf := rest, eofbit := rest.isEmpty, failbit := false }, .fin (signed * 10 ^ e))
    else ({ buf := afterFrac, eofbit := afterFrac.isEmpty, failbit := false }, .fin signed)
  else (skipws is, old)

/-! ## Output formatting -/

/-- The character of a decimal digit. -/
def digitChar (d : Nat) : Char :=
  match d with
  | 0 => '0'
  | 1 => '1'
  | 2 => '2'
  | 3 => '3'
  | 4 => '4'
  | 5 => '5'
  | 6 => '6'
  | 7 => '7'
  | 8 => '8'
  | _ => '9'

/-- The decimal digits of `n` in front of `acc` (`fuel` bounds the number of digits). -/
def printNatAux : Nat → Nat → Str → Str
  | 0, _, acc => acc
  | fuel + 1, n, acc =>
    if n < 10 then digitChar n :: acc
    else printNatAux fuel (n / 10) (digitChar (n % 10) :: acc)

/-- The output `os << n` of an unsigned integer. -/
def printNat (n : Nat) : Str := printNatAux (n + 1) n []

/-- The output `os << n` of an `int`. -/
def printInt (n : Int) : Str := if n < 0 then '-' :: printNat n.natAbs else printNat n.natAbs

/-- The output `os << x` of a `double` under `fixed << setprecision(2)`. -/
def printFixed2 : Double → Str
  | .fin x =>
    (if x < 0 then ['-'] else []) ++
      (printNat ((roundHalfEven (|x| * 100)).toNat / 100) ++
        '.' :: digitChar ((roundHalfEven (|x| * 100)).toNat % 100 / 10) ::
          [digitChar ((roundHalfEven (|x| * 100)).toNat % 10)])
  | .posInf => "inf".toList
  | .negInf => "-inf".toList
  | .nan => "nan".toList

/-- The value that `is >> x` reads back from the text that `os << x` writes for the finite
double `x` under `fixed << setprecision(2)`. -/
def reread (x : ℚ) : ℚ :=
  if x < 0 then -(((roundHalfEven (|x| * 100)).toNat : ℚ) / 100)
  else ((roundHalfEven (|x| * 100)).toNat : ℚ) / 100

/-! ## Sets of strings and of pointers -/

/-- The comparison `a < b` of two `std::string`s: lexicographic on the character codes. -/
def stringLess : Str → Str → Bool
  | [], [] => false
  | [], _ :: _ => true
  | _ :: _, [] => false
  | a :: as, b :: bs =>
    if a.toNat < b.toNat then true
    else if b.toNat < a.toNat then false
    else stringLess as bs

/-- The call `s.insert(a)` on a `std::set<std::string>`, held as the list of its elements in
increasing order. -/
def setInsert (a : Str) : List Str → List Str
  | [] => [a]
  | b :: bs =>
    if stringLess a b then a :: b :: bs
    else if stringLess b a then b :: setInsert a bs
    else b :: bs

/-- The address of an object. -/
abbrev Ptr := Nat

/-- The call `s.insert(p)` on a `std::set<T*>`, held as the list of its pointers in increasing
order, each next to the object it points to; `x` is the object behind `p`. -/
def ptrInsert {α : Type} (p : Ptr) (x : α) : List (Ptr × α) → List (Ptr × α)
  | [] => [(p, x)]
  | e :: es =>
    if p < e.1 then (p, x) :: e :: es
    else if e.1 < p then e :: ptrInsert p x es
    else e :: es

/-- The method `Perishable::setExpirationDate`. -/
def Perishable.setExpirationDate (self : Perishable) (date : Str) : Perishable :=
  { self with expirationDate := date }

/-- The method `Perishable::setStorageCondition`. -/
def Perishable.setStorageCondition (self : Perishable) (condition : Str) : Perishable :=
  { self with storageCondition := condition }

/-- The method `NonPerishable::setFragile`. -/
def NonPerishable.setFragile (self : NonPerishable) (fragile : Bool) : NonPerishable :=
  { self with isFragile := fragile }

/-- The method `RawMaterial::setUnit`. -/
def RawMaterial.setUnit (self : RawMaterial) (unit : Str) : RawMaterial :=
  { self with unitOfMeasurement := unit }

/-- The method `RawMaterial::setPurity`. -/
def RawMaterial.setPurity (self : RawMaterial) (purity : Int) : RawMaterial :=
  { self with purity := purity }

/-- The method `Food::addAllergen`. -/
def Food.addAllergen (self : Food) (allergen : Str) : Food :=
  { self with allergens := setInsert allergen self.allergens }

/-- The method `Food::setTemperatureRequired`. -/
def Food.setTemperatureRequired (self : Food) (temperature : Double) : Food :=
  { self with temperatureRequired := temperature }

/-- The method `Food::setNutritionalInfo`. -/
def Food.setNutritionalInfo (self : Food) (info : Str) : Food :=
  { self with nutritionalInfo := info }

/-- The method `Chemical::addSafetyWarning`. -/
def Chemical.addSafetyWarning (self : Chemical) (warning : Str) : Chemical :=
  { self with safetyWarnings := setInsert warning self.safetyWarnings }

/-- The method `Chemical::setDisposalType`. -/
def Chemical.setDisposalType (self : Chemical) (type : Str) : Chemical :=
  { self with disposalType := type }

/-- The method `Chemical::setChildSafe`. -/
def Chemical.setChildSafe (self : Chemical) (safe : Bool) : Chemical :=
  { self with childSafe := safe }

/-- The method `Chemical::setVentilationRequired`. -/
def Chemical.setVentilationRequired (self : Chemical) (required : Bool) : Chemical :=
  { self with ventilationRequired := required }

/-- The method `Chemical::setHazardLevel`. -/
def Chemical.setHazardLevel (self : Chemical) (level : Int) : Chemical :=
  { self with hazardLevel := level }

/-- The method `Food::removeAllergen` (`allergens.erase(allergen)`). -/
def Food.removeAllergen (self : Food) (allergen : Str) : Food :=
  { self with allergens := self.allergens.erase allergen }

/-- The method `Food::clearAllergens`. -/
def Food.clearAllergens (self : Food) : Food := { self with allergens := [] }

/-! ## Supplier -/

/-- The data members of `class Supplier`; both sets are `std::set<std::string>`. -/
structure Supplier where
  contractItems : List Str
  productIdsSupplied : List Str
  qualityRating : Double
  deliveryReliability : Str
deriving DecidableEq

/-- The constructor `Supplier::Supplier`. -/
def Supplier.new : Supplier :=
  { contractItems := [], productIdsSupplied := [], qualityRating := .fin 0,
    deliveryReliability := [] }

/-- The method `Supplier::suppliesProduct` (a `std::find` over the set). -/
def Supplier.suppliesProduct (self : Supplier) (productId : Str) : Bool :=
  self.productIdsSupplied.contains productId

/-- The method `Supplier::addProductSupplied`. -/
def Supplier.addProductSupplied (self : Supplier) (productId : Str) : Supplier :=
  if !self.suppliesProduct productId then
    { self with productIdsSupplied := setInsert productId self.productIdsSupplied }
  else self

/-- The method `Supplier::removeProductSupplied` (a `std::find` over the set, then an `erase`
of the element found). -/
def Supplier.removeProductSupplied (self : Supplier) (productId : Str) : Supplier :=
  if self.productIdsSupplied.contains productId then
    { self with productIdsSupplied := self.productIdsSupplied.erase productId }
  else self

/-- The method `Supplier::setQualityRating`; a non-finite `rating` fails the guard
`rating >= 0.0 && rating <= 5.0`. -/
def Supplier.setQualityRating (self : Supplier) (rating : Double) : Supplier :=
  match rating with
  | .fin r => if r ≥ 0 ∧ r ≤ 5 then { self with qualityRating := .fin r } else self
  | _ => self

/-- The method `Supplier::setDeliveryReliability`. -/
def Supplier.setDeliveryReliability (self : Supplier) (reliability : Str) : Supplier :=
  { self with deliveryReliability := reliability }

/-- The method `Supplier::addContractItem`. -/
def Supplier.addContractItem (self : Supplier) (item : Str) : Supplier :=
  { self with contractItems := setInsert item self.contractItems }

/-- The method `Supplier::removeContractItem` (a `std::find` over the set, then an `erase` of
the element found). -/
def Supplier.removeContractItem (self : Supplier) (item : Str) : Supplier :=
  if self.contractItems.contains item then
    { self with contractItems := self.contractItems.erase item }
  else self

/-- A call of one of the methods of `class Supplier` that are not `const`. -/
inductive Supplier.Call where
  | addProductSupplied (productId : Str)
  | removeProductSupplied (productId : Str)
  | addContractItem (item : Str)
  | removeContractItem (item : Str)
  | setQualityRating (rating : Double)
  | setDeliveryReliability (reliability : Str)

/-- The supplier after a call. -/
def Supplier.after (self : Supplier) : Supplier.Call → Supplier
  | .addProductSupplied productId => self.addProductSupplied productId
  | .removeProductSupplied productId => self.removeProductSupplied productId
  | .addContractItem item => self.addContractItem item
  | .removeContractItem item => self.removeContractItem item
  | .setQualityRating rating => self.setQualityRating rating
  | .setDeliveryReliability reliability => self.setDeliveryReliability reliability

/-! ## Inventory -/

/-- The data members of `class Inventory`: a `std::set<Product*>` and a `std::set<Supplier*>`,
each held as the list of its pointers in iteration order (increasing addresses) together with
the objects they point to. -/
structure Inventory where
  ownedProductList : List (Ptr × Product)
  supplierList : List (Ptr × Supplier)
deriving DecidableEq

/-- The constructor `Inventory::Inventory`. -/
def Inventory.new : Inventory := { ownedProductList := [], supplierList := [] }

/-- The method `Inventory::addProduct`; `none` is the null pointer. -/
def Inventory.addProduct (self : Inventory) (product : Option (Ptr × Product)) : Inventory :=
  match product with
  | none => self
  | some p => { self with ownedProductList := ptrInsert p.1 p.2 self.ownedProductList }

/-- The method `Inventory::addSupplier`; `none` is the null pointer. -/
def Inventory.addSupplier (self : Inventory) (supplier : Option (Ptr × Supplier)) : Inventory :=
  match supplier with
  | none => self
  | some s => { self with supplierList := ptrInsert s.1 s.2 self.supplierList }

/-- An update `f` of the supplier object at address `p`, seen through the inventory's set. -/
def Inventory.modifySupplier (self : Inventory) (p : Ptr) (f : Supplier → Supplier) :
    Inventory :=
  { self with
    supplierList := self.supplierList.map fun e => if e.1 = p then (e.1, f e.2) else e }

/-- The method `Inventory::searchProduct`; `none` is the null pointer. -/
def Inventory.searchProduct (self : Inventory) (productId : Str) : Option (Ptr × Product) :=
  self.ownedProductList.find? fun p => p.2.getId = productId

/-- The method `Inventory::getSupplierForProduct`; `none` is the null pointer. -/
def Inventory.getSupplierForProduct (self : Inventory) (productId : Str) :
    Option (Ptr × Supplier) :=
  self.supplierList.find? fun s => s.2.suppliesProduct productId

/-- The method `Inventory::addProductWithSupplier`; `none` is the null pointer.  The call
`supplier->addProductSupplied(...)` updates the object behind the pointer, which the set may
hold already; `addSupplier` then inserts the pointer to the updated object. -/
def Inventory.addProductWithSupplier (self : Inventory) (product : Option (Ptr × Product))
    (supplier : Option (Ptr × Supplier)) : Inventory :=
  match product, supplier with
  | some p, some s =>
    ((self.addProduct (some p)).modifySupplier s.1 fun x =>
        x.addProductSupplied p.2.getId).addSupplier
      (some (s.1, s.2.addProductSupplied p.2.getId))
  | _, _ => self

/-- The method `Inventory::removeSupplier`, which uses nothing of its argument but the
address (`getProductsFromSupplier` serves the messages only); `none` is the null pointer. -/
def Inventory.removeSupplier (self : Inventory) (supplier : Option Ptr) : Bool × Inventory :=
  match supplier with
  | none => (false, self)
  | some s =>
    match self.supplierList.find? (fun e => e.1 = s) with
    | some _ =>
      (true, { self with supplierList := self.supplierList.eraseP fun e => e.1 = s })
    | none => (false, self)

/-- An update `f` of the product object at address `p`, seen through the inventory's set. -/
def Inventory.modifyProduct (self : Inventory) (p : Ptr) (f : Product → Product) : Inventory :=
  { self with
    ownedProductList := self.ownedProductList.map fun e => if e.1 = p then (e.1, f e.2) else e }

/-- The method `Inventory::buyProduct`.  The `int` argument is converted to the `double` that
`buyItem` takes; the supplier is looked up for the messages only. -/
def Inventory.buyProduct (self : Inventory) (productId : Str) (quantity : Int) :
    Bool × Inventory :=
  match self.searchProduct productId with
  | none => (false, self)
  | some product =>
    if quantity ≤ 0 then (false, self)
    else
      ((product.2.buyItem (.fin quantity)).1,
        self.modifyProduct product.1 fun x => (x.buyItem (.fin quantity)).2)

/-- The method `Inventory::checkLowStock`, which prints and assigns nothing: the heading it
prints, the products it reports (those with `getQuantity() < getMinQuantity()`, in the order
of the set), and the inventory it leaves.  The heading is the only use of `threshold`. -/
def Inventory.checkLowStock (self : Inventory) (threshold : Int) :
    Str × List (Ptr × Product) × Inventory :=
  ("\n=== Low Stock Alert (Threshold: ".toList ++ printInt threshold ++ ") ===".toList,
    self.ownedProductList.filter (fun p => p.2.getQuantity < p.2.getMinQuantity), self)

/-- The method `Inventory::sellProduct`.  The `int` argument is converted to the `double` that
`useItem` takes; a successful sale calls `checkLowStock()` with its default threshold 10. -/
def Inventory.sellProduct (self : Inventory) (productId : Str) (quantity : Int) :
    Bool × Inventory :=
  match self.searchProduct productId with
  | none => (false, self)
  | some product =>
    if (product.2.useItem (.fin quantity)).1 then
      (true,
        ((self.modifyProduct product.1 fun x => (x.useItem (.fin quantity)).2).checkLowStock
          10).2.2)
    else (false, self.modifyProduct product.1 fun x => (x.useItem (.fin quantity)).2)

/-- The method `Inventory::removeProduct`: `ownedProductList.find(product)` looks the pointer
up by its address, `erase(it)` removes that element, and the supplier is resolved after the
product has gone. -/
def Inventory.removeProduct (self : Inventory) (productId : Str) : Bool × Inventory :=
  match self.searchProduct productId with
  | none => (false, self)
  | some product =>
    match self.ownedProductList.find? (fun e => e.1 = product.1) with
    | some _ =>
      let erased : Inventory :=
        { self with
          ownedProductList := self.ownedProductList.eraseP fun e => e.1 = product.1 }
      match erased.getSupplierForProduct productId with
      | some supplier =>
        (true, erased.modifySupplier supplier.1 fun s => s.removeProductSupplied productId)
      | none => (true, erased)
    | none => (false, self)

/-! ## Report dialog -/

/-- The search `s.find(t)` of `std::string`, from the position `i` on: the position of the
first occurrence of `t`, or `none` for `npos`. -/
def stringFindFrom (t : Str) : Str → Nat → Option Nat
  | [], i => if t = [] then some i else none
  | c :: s, i => if t.isPrefixOf (c :: s) then some i else stringFindFrom t s (i + 1)

/-- The call `s.find(t)`. -/
def stringFind (s t : Str) : Option Nat := stringFindFrom t s 0

/-- The counter that the loop of `Dialog::onGenerateReportClicked` increments for a product
with the id `id` (`rawMat`, `nonPer`, `per`, `food` or `chem`, named by the product type it
counts), or `none` if it increments none. -/
def Dialog.reportCategory (id : Str) : Option productType :=
  if stringFind id "RM".toList = some 0 then some .RAW_MATERIAL
  else if stringFind id "NP".toList = some 0 then some .NON_PERISHABLE
  else if stringFind id "P".toList = some 0 then some .PERISHABLE
  else if stringFind id "F".toList = some 0 then some .FOOD
  else if stringFind id "C".toList = some 0 then some .CHEMICAL
  else none

/-! ## File manager: writing -/

/-- The method `FileManager::getProductType` (a chain of `dynamic_cast`s that tries
`RawMaterial`, `Chemical`, `Food`, `NonPerishable` and `Perishable` in that order). -/
def FileManager.getProductType : Product → Str
  | .rawMaterial _ => "RawMaterial".toList
  | .chemical _ => "Chemical".toList
  | .food _ => "Food".toList
  | .nonPerishable _ => "NonPerishable".toList
  | .perishable _ => "Perishable".toList

/-- The output of `for (const string& s : set) outFile << "|" << s;`. -/
def FileManager.writeStrings : List Str → Str
  | [] => []
  | s :: rest => '|' :: (s ++ FileManager.writeStrings rest)

/-- The output of `(b ? "1" : "0")`. -/
def FileManager.writeBool (b : Bool) : Str := if b then ['1'] else ['0']

/-- The record `saveInventory` writes for one supplier, up to its `endl`. -/
def FileManager.supplierRecord (s : Supplier) : Str :=
  printFixed2 s.qualityRating ++ '|' :: (s.deliveryReliability ++ '|' ::
    (printNat s.productIdsSupplied.length ++ FileManager.writeStrings s.productIdsSupplied))

/-- The line `saveInventory` writes for one supplier: its record and `endl`. -/
def FileManager.writeSupplier (s : Supplier) : Str := FileManager.supplierRecord s ++ ['\n']

/-- The fields `id|name|price|supplier|quantity|minQty|maxQty` every product line holds after
its type tag, followed by `tail`. -/
def FileManager.writeCommon (id name : Str) (price : Double) (supplier : Str)
    (quantity minQty maxQty : Int) (tail : Str) : Str :=
  id ++ '|' :: (name ++ '|' :: (printFixed2 price ++ '|' :: (supplier ++ '|' ::
    (printInt quantity ++ '|' :: (printInt minQty ++ '|' :: (printInt maxQty ++ tail))))))

/-- The record `saveInventory` writes for one product, up to its `endl`. -/
def FileManager.productRecord : Product → Str
  | .rawMaterial rm =>
    "RawMaterial|".toList ++
      FileManager.writeCommon rm.id rm.name rm.price rm.supplier rm.getQuantity
        rm.getMinQuantity rm.getMaxQuantity
        ('|' :: (rm.unitOfMeasurement ++ '|' :: printInt rm.purity))
  | .chemical ch =>
    "Chemical|".toList ++
      FileManager.writeCommon ch.id ch.name ch.price ch.supplier ch.quantity ch.minQuantity
        ch.maxQuantity
        ('|' :: (ch.expirationDate ++ '|' :: (ch.storageCondition ++ '|' ::
          (printInt ch.hazardLevel ++ '|' :: (FileManager.writeBool ch.childSafe ++ '|' ::
            (FileManager.writeBool ch.ventilationRequired ++ '|' :: (ch.disposalType ++ '|' ::
              (printNat ch.safetyWarnings.length ++
                FileManager.writeStrings ch.safetyWarnings))))))))
  | .food f =>
    "Food|".toList ++
      FileManager.writeCommon f.id f.name f.price f.supplier f.quantity f.minQuantity
        f.maxQuantity
        ('|' :: (f.expirationDate ++ '|' :: (f.storageCondition ++ '|' ::
          (printFixed2 f.temperatureRequired ++ '|' :: (f.nutritionalInfo ++ '|' ::
            (printNat f.allergens.length ++
              FileManager.writeStrings f.allergens))))))
  | .nonPerishable np =>
    "NonPerishable|".toList ++
      FileManager.writeCommon np.id np.name np.price np.supplier np.quantity np.minQuantity
        np.maxQuantity ('|' :: FileManager.writeBool np.isFragile)
  | .perishable per =>
    "Perishable|".toList ++
      FileManager.writeCommon per.id per.name per.price per.supplier per.quantity
        per.minQuantity per.maxQuantity
        ('|' :: (per.expirationDate ++ '|' :: per.storageCondition))

/-- The line `saveInventory` writes for one product: its record and `endl`. -/
def FileManager.writeProduct (p : Product) : Str := FileManager.productRecord p ++ ['\n']

/-- The output of a loop that writes one record line per element. -/
def FileManager.writeAll {α : Type} (write : α → Str) : List α → Str
  | [] => []
  | x :: rest => write x ++ FileManager.writeAll write rest

/-- The local `uniqueSuppliers` of `saveInventory`: the set of the suppliers that
`getSupplierForProduct` resolves for the stored products. -/
def FileManager.uniqueSuppliers (inventory : Inventory) : List (Ptr × Supplier) :=
  inventory.ownedProductList.foldl
    (fun acc p =>
      match inventory.getSupplierForProduct p.2.getId with
      | some s => ptrInsert s.1 s.2 acc
      | none => acc)
    []

/-- The method `FileManager::saveInventory`: the text written to the file when it returns
true, `none` when it returns false (`inventory` null, or the file did not open). -/
def FileManager.saveInventory (inventory : Option Inventory) (isOpen : Bool) : Option Str :=
  match inventory with
  | none => none
  | some inv =>
    if !isOpen then none
    else
      some ("SUPPLIERS\n".toList ++
        (printNat (FileManager.uniqueSuppliers inv).length ++ '\n' ::
          (FileManager.writeAll (fun s => FileManager.writeSupplier s.2)
              (FileManager.uniqueSuppliers inv) ++
            ("PRODUCTS\n".toList ++
              (printNat inv.ownedProductList.length ++ '\n' ::
                FileManager.writeAll (fun p => FileManager.writeProduct p.2)
                  inv.ownedProductList)))))

/-! ## File manager: reading -/

/-- A loop `for (int i = 0; i < n; i++) { getline(ss, token, '|'); step(token); }`: the state
that the `n` steps leave, starting from `a`. -/
def FileManager.tokenLoop {α : Type} (step : α → Str → α) : Nat → IStream → Str → α → α
  | 0, _, _, a => a
  | n + 1, ss, token, a =>
    FileManager.tokenLoop step n (getline ss token '|').1 (getline ss token '|').2
      (step a (getline ss token '|').2)

/-- The locals that the five branches of `createProductFromLine` read alike, and the stream
once `maxQty` has been extracted. -/
structure CommonFields where
  type : Str
  id : Str
  name : Str
  price : Double
  supplier : Str
  quantity : Int
  minQty : Int
  maxQty : Int
  ss : IStream

/-- The start of `createProductFromLine`: the type tag, then the extractions with which each
of the five branches of the source begins (`id`, `name`, `price`, `supplier`, `quantity`,
`minQty`, `maxQty`), written once here. -/
def FileManager.readCommon (line : Str) (u : Indeterminate) : CommonFields :=
  let ss0 := IStream.open line
  let type := (getline ss0 [] '|').2
  let ss1 := (getline ss0 [] '|').1
  let id := (getline ss1 [] '|').2
  let ss2 := (getline ss1 [] '|').1
  let name := (getline ss2 [] '|').2
  let ss3 := (getline ss2 [] '|').1
  let price := (extractDouble ss3 u.localDouble).2
  let ss4 := ignore (extractDouble ss3 u.localDouble).1
  let supplier := (getline ss4 [] '|').2
  let ss5 := (getline ss4 [] '|').1
  let quantity := (extractInt ss5 u.localInt).2
  let ss6 := ignore (extractInt ss5 u.localInt).1
  let minQty := (extractInt ss6 u.localInt).2
  let ss7 := ignore (extractInt ss6 u.localInt).1
  { type := type, id := id, name := name, price := price, supplier := supplier,
    quantity := quantity, minQty := minQty, maxQty := (extractInt ss7 u.localInt).2,
    ss := (extractInt ss7 u.localInt).1 }

/-- The `RawMaterial` branch of `createProductFromLine`, after the common extractions. -/
def FileManager.createRawMaterial (c : CommonFields) (u : Indeterminate) : Product :=
  let ss8 := ignore c.ss
  let unit := (getline ss8 [] '|').2
  let ss9 := (getline ss8 [] '|').1
  let purity := (extractInt ss9 u.localInt).2
  match productFactory.createProduct .RAW_MATERIAL c.id c.name c.price c.supplier u with
  | .rawMaterial rm =>
    .rawMaterial
      (((((rm.setQuantity c.quantity).2.setMinimumQuantity c.minQty).setTotalQuantity
        c.maxQty).setUnit unit).setPurity purity)
  | p => p

/-- The `Chemical` branch of `createProductFromLine`, after the common extractions. -/
def FileManager.createChemical (c : CommonFields) (u : Indeterminate) : Product :=
  let ss8 := ignore c.ss
  let expDate := (getline ss8 [] '|').2
  let ss9 := (getline ss8 [] '|').1
  let storage := (getline ss9 [] '|').2
  let ss10 := (getline ss9 [] '|').1
  let hazard := (extractInt ss10 u.localInt).2
  let ss11 := ignore (extractInt ss10 u.localInt).1
  let childSafeInt := (extractInt ss11 u.localInt).2
  let ss12 := ignore (extractInt ss11 u.localInt).1
  let ventReqInt := (extractInt ss12 u.localInt).2
  let ss13 := ignore (extractInt ss12 u.localInt).1
  let disposal := (getline ss13 [] '|').2
  let ss14 := (getline ss13 [] '|').1
  let numWarnings := (extractInt ss14 u.localInt).2
  let ss15 := ignore (extractInt ss14 u.localInt).1
  match productFactory.createProduct .CHEMICAL c.id c.name c.price c.supplier u with
  | .chemical ch =>
    .chemical
      (FileManager.tokenLoop Chemical.addSafetyWarning numWarnings.toNat ss15 []
        ((((({ ch with
          toPerishable :=
            ((((ch.toPerishable.setQuantity c.quantity).2.setMinimumQuantity
              c.minQty).setTotalQuantity c.maxQty).setExpirationDate
                expDate).setStorageCondition storage } : Chemical).setHazardLevel
          hazard).setChildSafe (childSafeInt = 1)).setVentilationRequired
            (ventReqInt = 1)).setDisposalType disposal))
  | p => p

/-- The `Food` branch of `createProductFromLine`, after the common extractions. -/
def FileManager.createFood (c : CommonFields) (u : Indeterminate) : Product :=
  let ss8 := ignore c.ss
  let expDate := (getline ss8 [] '|').2
  let ss9 := (getline ss8 [] '|').1
  let storage := (getline ss9 [] '|').2
  let ss10 := (getline ss9 [] '|').1
  let temp := (extractDouble ss10 u.localDouble).2
  let ss11 := ignore (extractDouble ss10 u.localDouble).1
  let nutrition := (getline ss11 [] '|').2
  let ss12 := (getline ss11 [] '|').1
  let numAllergens := (extractInt ss12 u.localInt).2
  let ss13 := ignore (extractInt ss12 u.localInt).1
  match productFactory.createProduct .FOOD c.id c.name c.price c.supplier u with
  | .food f =>
    .food
      (FileManager.tokenLoop Food.addAllergen numAllergens.toNat ss13 []
        ((({ f with
          toPerishable :=
            ((((f.toPerishable.setQuantity c.quantity).2.setMinimumQuantity
              c.minQty).setTotalQuantity c.maxQty).setExpirationDate
                expDate).setStorageCondition storage } : Food).setTemperatureRequired
          temp).setNutritionalInfo nutrition))
  | p => p

/-- The `NonPerishable` branch of `createProductFromLine`, after the common extractions. -/
def FileManager.createNonPerishable (c : CommonFields) (u : Indeterminate) : Product :=
  let ss8 := ignore c.ss
  let fragileInt := (extractInt ss8 u.localInt).2
  match productFactory.createProduct .NON_PERISHABLE c.id c.name c.price c.supplier u with
  | .nonPerishable np =>
    .nonPerishable
      ((((np.setQuantity c.quantity).2.setMinimumQuantity c.minQty).setTotalQuantity
        c.maxQty).setFragile (fragileInt = 1))
  | p => p

/-- The `Perishable` branch of `createProductFromLine`, after the common extractions. -/
def FileManager.createPerishable (c : CommonFields) (u : Indeterminate) : Product :=
  let ss8 := ignore c.ss
  let expDate := (getline ss8 [] '|').2
  let ss9 := (getline ss8 [] '|').1
  let storage := (getline ss9 [] '\n').2
  match productFactory.createProduct .PERISHABLE c.id c.name c.price c.supplier u with
  | .perishable per =>
    .perishable
      (((((per.setQuantity c.quantity).2.setMinimumQuantity c.minQty).setTotalQuantity
        c.maxQty).setExpirationDate expDate).setStorageCondition storage)
  | p => p

/-- The method `FileManager::createProductFromLine`; `none` is the null pointer it returns
for a type tag it does not know. -/
def FileManager.createProductFromLine (line : Str) (u : Indeterminate) : Option Product :=
  if (FileManager.readCommon line u).type = "RawMaterial".toList then
    some (FileManager.createRawMaterial (FileManager.readCommon line u) u)
  else if (FileManager.readCommon line u).type = "Chemical".toList then
    some (FileManager.createChemical (FileManager.readCommon line u) u)
  else if (FileManager.readCommon line u).type = "Food".toList then
    some (FileManager.createFood (FileManager.readCommon line u) u)
  else if (FileManager.readCommon line u).type = "NonPerishable".toList then
    some (FileManager.createNonPerishable (FileManager.readCommon line u) u)
  else if (FileManager.readCommon line u).type = "Perishable".toList then
    some (FileManager.createPerishable (FileManager.readCommon line u) u)
  else none

/-- The addresses that `new` returns during a call of `loadInventory`: `supplier i` for the
`Supplier` created by the `i`-th iteration of the first loop, `product i` for the product
created by the `i`-th iteration of the second. -/
structure Allocator where
  supplier : Nat → Ptr
  product : Nat → Ptr

/-- What the supplier loop of `loadInventory` carries from one iteration to the next. -/
structure LoadState where
  inFile : IStream
  line : Str
  inventory : Inventory

/-- The body of the supplier loop of `loadInventory`, iteration `i`. -/
def FileManager.loadSupplier (u : Indeterminate) (alloc : Allocator) (i : Nat)
    (st : LoadState) : LoadState :=
  let line := (getline st.inFile st.line '\n').2
  let ss0 := IStream.open line
  let rating := (extractDouble ss0 u.localDouble).2
  let ss1 := ignore (extractDouble ss0 u.localDouble).1
  let reliability := (getline ss1 [] '|').2
  let ss2 := (getline ss1 [] '|').1
  let numProducts := (extractInt ss2 u.localInt).2
  let ss3 := ignore (extractInt ss2 u.localInt).1
  let supplier := (Supplier.new.setQualityRating rating).setDeliveryReliability reliability
  let productIdsForThisSupplier :=
    FileManager.tokenLoop (fun v token => v ++ [token]) numProducts.toNat ss3 [] []
  { inFile := (getline st.inFile st.line '\n').1
    line := line
    inventory :=
      productIdsForThisSupplier.foldl
        (fun inv prodId => inv.modifySupplier (alloc.supplier i) (·.addProductSupplied prodId))
        (st.inventory.addSupplier (some (alloc.supplier i, supplier))) }

/-- The supplier loop of `loadInventory`: `n` iterations starting with iteration `i`. -/
def FileManager.loadSuppliers (u : Indeterminate) (alloc : Allocator) :
    Nat → Nat → LoadState → LoadState
  | 0, _, st => st
  | n + 1, i, st =>
    FileManager.loadSuppliers u alloc n (i + 1) (FileManager.loadSupplier u alloc i st)

/-- The body of the product loop of `loadInventory`, iteration `i`. -/
def FileManager.loadProduct (u : Indeterminate) (alloc : Allocator) (i : Nat)
    (st : LoadState) : LoadState :=
  { inFile := (getline st.inFile st.line '\n').1
    line := (getline st.inFile st.line '\n').2
    inventory :=
      match FileManager.createProductFromLine (getline st.inFile st.line '\n').2 u with
      | some product => st.inventory.addProduct (some (alloc.product i, product))
      | none => st.inventory }

/-- The product loop of `loadInventory`: `n` iterations starting with iteration `i`. -/
def FileManager.loadProducts (u : Indeterminate) (alloc : Allocator) :
    Nat → Nat → LoadState → LoadState
  | 0, _, st => st
  | n + 1, i, st =>
    FileManager.loadProducts u alloc n (i + 1) (FileManager.loadProduct u alloc i st)

/-- The state of `loadInventory` once the supplier section has been read. -/
def FileManager.afterSuppliers (inv : Inventory) (content : Str) (u : Indeterminate)
    (alloc : Allocator) : LoadState :=
  let header := getline (IStream.open content) [] '\n'
  let numSuppliers := extractInt header.1 u.localInt
  FileManager.loadSuppliers u alloc numSuppliers.2.toNat 0
    { inFile := ignore numSuppliers.1, line := header.2, inventory := inv }

/-- The method `FileManager::loadInventory`: the value returned and the inventory afterwards.
`inventory = none` is the null pointer, `file = none` a file that does not open, `some content`
a file with that text.  (The member `productSupplierMap`, which the method clears and nothing
reads, is left out.) -/
def FileManager.loadInventory (inventory : Option Inventory) (file : Option Str)
    (u : Indeterminate) (alloc : Allocator) : Bool × Option Inventory :=
  match inventory with
  | none => (false, none)
  | some inv =>
    match file with
    | none => (false, some inv)
    | some content =>
      if (getline (IStream.open content) [] '\n').2 ≠ "SUPPLIERS".toList then (false, some inv)
      else
        let st := FileManager.afterSuppliers inv content u alloc
        let header := getline st.inFile st.line '\n'
        if header.2 ≠ "PRODUCTS".toList then (false, some st.inventory)
        else
          let numProducts := extractInt header.1 u.localInt
          (true, some (FileManager.loadProducts u alloc numProducts.2.toNat 0
            { inFile := ignore numProducts.1, line := header.2,
              inventory := st.inventory }).inventory)

/-! ## Accounts -/

/-- The data members of `class User`. -/
structure User where
  userName : Str
  password : Str
  email : Str
  isLoggedIn : Bool
deriving DecidableEq

/-- The constructor `User::User`: the account starts logged out. -/
def User.new (userName password email : Str) : User :=
  { userName := userName, password := password, email := email, isLoggedIn := false }

/-- The method `User::login`. -/
def User.login (self : User) (userName password : Str) : Bool × User :=
  if userName = self.userName ∧ password = self.password then
    (true, { self with isLoggedIn := true })
  else (false, self)

/-- The method `User::logout`. -/
def User.logout (self : User) : Bool × User :=
  if self.isLoggedIn then (true, { self with isLoggedIn := false }) else (false, self)

/-- The method `User::changePassword`. -/
def User.changePassword (self : User) (oldPassword newPassword : Str) : Bool × User :=
  if !self.isLoggedIn then (false, self)
  else if oldPassword = self.password then (true, { self with password := newPassword })
  else (false, self)

/-- The data members of `class Admin : public User`. -/
structure Admin extends User where
  adminPermissions : List Str
deriving DecidableEq

/-- The method `Admin::hasPermission`. -/
def Admin.hasPermission (self : Admin) (permission : Str) : Bool :=
  if "SUPER_ADMIN".toList ∈ self.adminPermissions then true
  else decide (permission ∈ self.adminPermissions)

/-- The method `Admin::grantPermission`. -/
def Admin.grantPermission (self : Admin) (permission : Str) : Admin :=
  if !self.hasPermission permission then
    { self with adminPermissions := self.adminPermissions ++ [permission] }
  else self

/-- The constructor `Admin::Admin`. -/
def Admin.new (userName password email : Str) : Admin :=
  { User.new userName password email with
    adminPermissions := ["VIEW_INVENTORY".toList, "VIEW_REPORTS".toList] }

/-- The addresses that `new` returns during a call of `initializeSystem`: `user i` for the
`User` created by the `i`-th iteration of the first loop of `loadAllAccounts`, `admin i` for
the `Admin` created by the `i`-th iteration of the second, `defaultAdmin` for the default
administrator. -/
structure AccountAllocator where
  user : Nat → Ptr
  admin : Nat → Ptr
  defaultAdmin : Ptr

/-- What the loops of `loadAllAccounts` carry from one iteration to the next; the two vectors
are held as the lists of their pointers, each next to the object it points to. -/
structure AccountLoadState where
  inFile : IStream
  line : Str
  users : List (Ptr × User)
  admins : List (Ptr × Admin)

/-- The body of the user loop of `loadAllAccounts`, iteration `i` (the fourth field of the
line, which is read into `loggedInStr`, is not used). -/
def UserManager.loadUser (alloc : AccountAllocator) (i : Nat) (st : AccountLoadState) :
    AccountLoadState :=
  let line := (getline st.inFile st.line '\n').2
  let username := getline (IStream.open line) [] '|'
  let password := getline username.1 [] '|'
  let email := getline password.1 [] '|'
  { st with
    inFile := (getline st.inFile st.line '\n').1
    line := line
    users := st.users ++ [(alloc.user i, User.new username.2 password.2 email.2)] }

/-- The user loop of `loadAllAccounts`: `n` iterations starting with iteration `i`. -/
def UserManager.loadUsers (alloc : AccountAllocator) :
    Nat → Nat → AccountLoadState → AccountLoadState
  | 0, _, st => st
  | n + 1, i, st => UserManager.loadUsers alloc n (i + 1) (UserManager.loadUser alloc i st)

/-- The body of the admin loop of `loadAllAccounts`, iteration `i`. -/
def UserManager.loadAdmin (alloc : AccountAllocator) (i : Nat) (st : AccountLoadState) :
    AccountLoadState :=
  let line := (getline st.inFile st.line '\n').2
  let username := getline (IStream.open line) [] '|'
  let password := getline username.1 [] '|'
  let email := getline password.1 [] '|'
  { st with
    inFile := (getline st.inFile st.line '\n').1
    line := line
    admins := st.admins ++
      [(alloc.admin i,
        (((Admin.new username.2 password.2 email.2).grantPermission
          "VIEW_INVENTORY".toList).grantPermission "MANAGE_INVENTORY".toList).grantPermission
            "VIEW_REPORTS".toList)] }

/-- The admin loop of `loadAllAccounts`: `n` iterations starting with iteration `i`. -/
def UserManager.loadAdmins (alloc : AccountAllocator) :
    Nat → Nat → AccountLoadState → AccountLoadState
  | 0, _, st => st
  | n + 1, i, st => UserManager.loadAdmins alloc n (i + 1) (UserManager.loadAdmin alloc i st)

/-- The state of `loadAllAccounts` once the user section has been read. -/
def UserManager.afterUsers (users : List (Ptr × User)) (admins : List (Ptr × Admin))
    (content : Str) (u : Indeterminate) (alloc : AccountAllocator) : AccountLoadState :=
  let header := getline (IStream.open content) [] '\n'
  let numUsers := extractInt header.1 u.localInt
  UserManager.loadUsers alloc numUsers.2.toNat 0
    { inFile := ignore numUsers.1, line := header.2, users := users, admins := admins }

/-- The method `UserManager::loadAllAccounts`: the value returned and the two vectors
afterwards.  `file = none` is a file that does not open, `some content` a file with that
text. -/
def UserManager.loadAllAccounts (users : List (Ptr × User)) (admins : List (Ptr × Admin))
    (file : Option Str) (u : Indeterminate) (alloc : AccountAllocator) :
    Bool × List (Ptr × User) × List (Ptr × Admin) :=
  match file with
  | none => (false, users, admins)
  | some content =>
    if (getline (IStream.open content) [] '\n').2 ≠ "USERS".toList then (false, users, admins)
    else
      let st := UserManager.afterUsers users admins content u alloc
      let header := getline st.inFile st.line '\n'
      if header.2 ≠ "ADMINS".toList then (false, st.users, st.admins)
      else
        let numAdmins := extractInt header.1 u.localInt
        let done := UserManager.loadAdmins alloc numAdmins.2.toNat 0
          { st with inFile := ignore numAdmins.1, line := header.2 }
        (true, done.users, done.admins)

/-! ## System controller -/

/-- The data members of `class SystemController`: the inventory, the vectors `users` and
`admins` (the lists of their pointers, each next to the object it points to), `currentUser`
(`none` is the null pointer), the operation counter and the two status messages.  The members
`userManager` and `fileManager` have no state.  The last component is not a data member: it
counts the runs of `autoSaveData`, whose effect, the two files it writes, lies outside the
object; what `initializeSystem` reads from the files is a parameter of that call. -/
structure SystemController where
  inventory : Inventory
  users : List (Ptr × User)
  admins : List (Ptr × Admin)
  currentUser : Option Ptr
  operationsSinceLastSave : Int
  lastErrorMessage : Str
  lastSuccessMessage : Str
  autoSaveRuns : Nat

/-- The constant `SystemController::AUTO_SAVE_THRESHOLD`. -/
def AUTO_SAVE_THRESHOLD : Int := 5

/-- The constructor `SystemController::SystemController`. -/
def SystemController.new : SystemController :=
  { inventory := Inventory.new, users := [], admins := [], currentUser := none,
    operationsSinceLastSave := 0, lastErrorMessage := [], lastSuccessMessage := [],
    autoSaveRuns := 0 }

/-- The method `SystemController::setError`. -/
def SystemController.setError (self : SystemController) (message : Str) : SystemController :=
  { self with lastErrorMessage := message, lastSuccessMessage := [] }

/-- The method `SystemController::setSuccess`. -/
def SystemController.setSuccess (self : SystemController) (message : Str) :
    SystemController :=
  { self with lastSuccessMessage := message, lastErrorMessage := [] }

/-- The method `SystemController::autoSaveData`: it writes the two files and changes no data
member. -/
def SystemController.autoSaveData (self : SystemController) : SystemController :=
  { self with autoSaveRuns := self.autoSaveRuns + 1 }

/-- The method `SystemController::incrementOperationCounter`. -/
def SystemController.incrementOperationCounter (self : SystemController) : SystemController :=
  if self.operationsSinceLastSave + 1 ≥ AUTO_SAVE_THRESHOLD then
    { { self with operationsSinceLastSave := self.operationsSinceLastSave + 1 }.autoSaveData with
      operationsSinceLastSave := 0 }
  else { self with operationsSinceLastSave := self.operationsSinceLastSave + 1 }

/-- The method `SystemController::isUserLoggedIn`. -/
def SystemController.isUserLoggedIn (self : SystemController) : Bool := self.currentUser.isSome

/-- The method `SystemController::isCurrentUserAdmin`: the `dynamic_cast<Admin*>` succeeds
when the object behind `currentUser` is one of the `Admin` objects. -/
def SystemController.isCurrentUserAdmin (self : SystemController) : Bool :=
  match self.currentUser with
  | none => false
  | some p => self.admins.any fun a => a.1 = p

/-- The `User` behind a pointer to one of the accounts of the two vectors; `none` when the
pointer points to none of them. -/
def SystemController.account (self : SystemController) (p : Ptr) : Option User :=
  match self.users.find? (fun e => e.1 = p) with
  | some e => some e.2
  | none => (self.admins.find? fun e => e.1 = p).map fun e => e.2.toUser

/-- An update `f` of the `User` object at address `p`, seen through the two vectors. -/
def SystemController.modifyAccount (self : SystemController) (p : Ptr) (f : User → User) :
    SystemController :=
  { self with
    users := self.users.map fun e => if e.1 = p then (e.1, f e.2) else e
    admins := self.admins.map fun e =>
      if e.1 = p then (e.1, { e.2 with toUser := f e.2.toUser }) else e }

/-- The method `SystemController::getCurrentUsername` (a `currentUser` that points to no
account does not occur in a state the controller reaches). -/
def SystemController.getCurrentUsername (self : SystemController) : Str :=
  match self.currentUser with
  | none => []
  | some p =>
    match self.account p with
    | some a => a.userName
    | none => []

/-- The method `SystemController::checkAdminPrivileges`. -/
def SystemController.checkAdminPrivileges (self : SystemController) :
    Bool × SystemController :=
  if !self.isUserLoggedIn then
    (false, self.setError "You must be logged in to perform this operation.".toList)
  else if !self.isCurrentUserAdmin then
    (false, self.setError "This operation requires administrator privileges.".toList)
  else (true, self)

/-- The method `SystemController::initializeSystem`; `inventoryFile` and `accountsFile` are
the files `inventory_data.txt` and `accounts.txt` (`none` is a file that does not open). -/
def SystemController.initializeSystem (self : SystemController)
    (inventoryFile accountsFile : Option Str) (u : Indeterminate) (alloc : Allocator)
    (accounts : AccountAllocator) : Bool × SystemController :=
  let inventory :=
    match (FileManager.loadInventory (some self.inventory) inventoryFile u alloc).2 with
    | some inv => inv
    | none => self.inventory
  let loaded := UserManager.loadAllAccounts self.users self.admins accountsFile u accounts
  let admins :=
    if loaded.1 then loaded.2.2
    else
      loaded.2.2 ++
        [(accounts.defaultAdmin,
          (Admin.new "admin".toList "admin123".toList "admin@system.com".toList).grantPermission
            "SUPER_ADMIN".toList)]
  (true,
    { self with inventory := inventory, users := loaded.2.1, admins := admins }.setSuccess
      "System initialized successfully".toList)

/-- The method `SystemController::shutdownSystem`. -/
def SystemController.shutdownSystem (self : SystemController) : Bool × SystemController :=
  (true, { self.autoSaveData with currentUser := none, users := [], admins := [] })

/-- The method `SystemController::loginUser`. -/
def SystemController.loginUser (self : SystemController) (username password : Str) :
    Bool × SystemController :=
  if self.currentUser.isSome then
    (false, self.setError "A user is already logged in. Please logout first.".toList)
  else if username.isEmpty || password.isEmpty then
    (false, self.setError "Username and password cannot be empty.".toList)
  else
    match self.users.find? (fun u => u.2.userName = username) with
    | some u =>
      if (u.2.login username password).1 then
        (true,
          { self with
            users := self.users.map fun (e : Ptr × User) =>
              if e.1 = u.1 then (e.1, (e.2.login username password).2) else e
            currentUser := some u.1 }.setSuccess
              ("Welcome, ".toList ++ username ++ "!".toList))
      else (false, self.setError ("Invalid password for user: ".toList ++ username))
    | none => (false, self.setError ("User not found: ".toList ++ username))

/-- The method `SystemController::loginAdmin`. -/
def SystemController.loginAdmin (self : SystemController) (username password : Str) :
    Bool × SystemController :=
  if self.currentUser.isSome then
    (false, self.setError "A user is already logged in. Please logout first.".toList)
  else if username.isEmpty || password.isEmpty then
    (false, self.setError "Username and password cannot be empty.".toList)
  else
    match self.admins.find? (fun a => a.2.userName = username) with
    | some a =>
      if (a.2.login username password).1 then
        (true,
          { self with
            admins := self.admins.map fun (e : Ptr × Admin) =>
              if e.1 = a.1 then
                (e.1, { e.2 with toUser := (e.2.toUser.login username password).2 })
              else e
            currentUser := some a.1 }.setSuccess
              ("Welcome, Administrator ".toList ++ username ++ "!".toList))
      else (false, self.setError ("Invalid password for admin: ".toList ++ username))
    | none => (false, self.setError ("Admin not found: ".toList ++ username))

/-- The method `SystemController::logout`. -/
def SystemController.logout (self : SystemController) : Bool × SystemController :=
  match self.currentUser with
  | none => (false, self.setError "No user is currently logged in.".toList)
  | some p =>
    (true,
      { self.modifyAccount p fun x => x.logout.2 with currentUser := none }.setSuccess
        ("Goodbye, ".toList ++ self.getCurrentUsername ++ "!".toList))

/-- The method `SystemController::viewInventory`. -/
def SystemController.viewInventory (self : SystemController) :
    List (Ptr × Product) × SystemController :=
  if !self.isUserLoggedIn then
    ([], self.setError "You must be logged in to view inventory.".toList)
  else (self.inventory.ownedProductList, self.setSuccess "Inventory retrieved successfully".toList)

/-- The method `SystemController::searchProduct`; `none` is the null pointer. -/
def SystemController.searchProduct (self : SystemController) (productId : Str) :
    Option (Ptr × Product) × SystemController :=
  if !self.isUserLoggedIn then
    (none, self.setError "You must be logged in to search products.".toList)
  else if productId.isEmpty then (none, self.setError "Product ID cannot be empty.".toList)
  else
    match self.inventory.searchProduct productId with
    | none => (none, self.setError ("Product not found: ".toList ++ productId))
    | some p => (some p, self.setSuccess ("Product found: ".toList ++ p.2.getName))

/-- The method `SystemController::purchaseProduct`.  The sum `p->getQuantity() + quantity` and
the difference `p->getMaxQuantity() - p->getQuantity()` are `int` results (`wrapInt32`).
After `buyProduct` the object behind `p` is what `buyItem` left. -/
def SystemController.purchaseProduct (self : SystemController) (productId : Str)
    (quantity : Int) : Bool × SystemController :=
  if !self.isUserLoggedIn then
    (false, self.setError "You must be logged in to purchase products.".toList)
  else if productId.isEmpty then (false, self.setError "Product ID cannot be empty.".toList)
  else if quantity ≤ 0 then
    (false,
      self.setError
        ("Quantity must be positive! (Received: ".toList ++ printInt quantity ++ ")".toList))
  else
    match self.inventory.searchProduct productId with
    | none => (false, self.setError ("Product not found: ".toList ++ productId))
    | some p =>
      if wrapInt32 (p.2.getQuantity + quantity) > p.2.getMaxQuantity then
        (false,
          self.setError
            ("Purchase would exceed maximum capacity!\n".toList ++ "Current: ".toList ++
              printInt p.2.getQuantity ++ "\n".toList ++ "Requesting: ".toList ++
              printInt quantity ++ "\n".toList ++ "Maximum: ".toList ++
              printInt p.2.getMaxQuantity ++ "\n".toList ++ "Available space: ".toList ++
              printInt (wrapInt32 (p.2.getMaxQuantity - p.2.getQuantity))))
      else if (self.inventory.buyProduct productId quantity).1 then
        (true,
          ({ self with inventory := (self.inventory.buyProduct productId quantity).2 }.setSuccess
            ("Successfully purchased ".toList ++ printInt quantity ++ " units of ".toList ++
              p.2.getName ++ "\nNew quantity: ".toList ++
              printInt (p.2.buyItem (.fin quantity)).2.getQuantity)).incrementOperationCounter)
      else
        (false,
          { self with inventory := (self.inventory.buyProduct productId quantity).2 }.setError
            ("Purchase failed for product: ".toList ++ productId))

/-- The method `SystemController::useProduct`.  After `sellProduct` the object behind `p` is
what `useItem` left. -/
def SystemController.useProduct (self : SystemController) (productId : Str) (quantity : Int) :
    Bool × SystemController :=
  if !self.isUserLoggedIn then
    (false, self.setError "You must be logged in to use products.".toList)
  else if productId.isEmpty then (false, self.setError "Product ID cannot be empty.".toList)
  else if quantity ≤ 0 then
    (false,
      self.setError
        ("Quantity must be positive! (Received: ".toList ++ printInt quantity ++ ")".toList))
  else
    match self.inventory.searchProduct productId with
    | none => (false, self.setError ("Product not found: ".toList ++ productId))
    | some p =>
      if p.2.getQuantity < quantity then
        (false,
          self.setError
            ("Not enough stock available!\n".toList ++ "Available: ".toList ++
              printInt p.2.getQuantity ++ "\n".toList ++ "Requested: ".toList ++
              printInt quantity))
      else if (self.inventory.sellProduct productId quantity).1 then
        (true,
          ({ self with inventory := (self.inventory.sellProduct productId quantity).2 }.setSuccess
            ("Successfully used ".toList ++ printInt quantity ++ " units of ".toList ++
              p.2.getName ++ "\nRemaining quantity: ".toList ++
              printInt (p.2.useItem (.fin quantity)).2.getQuantity)).incrementOperationCounter)
      else
        (false,
          { self with inventory := (self.inventory.sellProduct productId quantity).2 }.setError
            ("Failed to use product: ".toList ++ productId))

/-- The method `SystemController::changePassword` (a `currentUser` that points to no account
does not occur in a state the controller reaches; the call is then taken to fail). -/
def SystemController.changePassword (self : SystemController) (oldPass newPass : Str) :
    Bool × SystemController :=
  match self.currentUser with
  | none => (false, self.setError "You must be logged in to change password.".toList)
  | some p =>
    if newPass.isEmpty || newPass.length < 6 then
      (false, self.setError "New password must be at least 6 characters long.".toList)
    else
      match self.account p with
      | some a =>
        if (a.changePassword oldPass newPass).1 then
          (true,
            ((self.modifyAccount p fun x => (x.changePassword oldPass newPass).2).setSuccess
              "Password changed successfully!".toList).incrementOperationCounter)
        else
          (false,
            self.setError "Failed to change password. Old password may be incorrect.".toList)
      | none =>
        (false,
          self.setError "Failed to change password. Old password may be incorrect.".toList)

/-- The method `SystemController::addProduct`; `none` is the null pointer. -/
def SystemController.addProduct (self : SystemController) (product : Option (Ptr × Product))
    (supplier : Option (Ptr × Supplier)) : Bool × SystemController :=
  if !self.checkAdminPrivileges.1 then (false, self.checkAdminPrivileges.2)
  else
    match product with
    | none => (false, self.setError "Cannot add null product!".toList)
    | some p =>
      if (self.inventory.searchProduct p.2.getId).isSome then
        (false,
          self.setError
            ("Product with ID ".toList ++ p.2.getId ++ " already exists!".toList))
      else
        (true,
          ({ self with
            inventory :=
              match supplier with
              | some s => self.inventory.addProductWithSupplier (some p) (some s)
              | none => self.inventory.addProduct (some p) }.setSuccess
            ("Product added successfully: ".toList ++ p.2.getName)).incrementOperationCounter)

/-- The method `SystemController::removeProduct`. -/
def SystemController.removeProduct (self : SystemController) (productId : Str) :
    Bool × SystemController :=
  if !self.checkAdminPrivileges.1 then (false, self.checkAdminPrivileges.2)
  else if productId.isEmpty then (false, self.setError "Product ID cannot be empty.".toList)
  else
    match self.inventory.searchProduct productId with
    | none => (false, self.setError ("Product not found: ".toList ++ productId))
    | some p =>
      if (self.inventory.removeProduct productId).1 then
        (true,
          ({ self with inventory := (self.inventory.removeProduct productId).2 }.setSuccess
            ("Product removed successfully: ".toList ++
              p.2.getName)).incrementOperationCounter)
      else
        (false,
          { self with inventory := (self.inventory.removeProduct productId).2 }.setError
            ("Failed to remove product: ".toList ++ productId))

/-- The comparison `x < 0` of a `double`, which is false for a NaN. -/
def Double.isNegative : Double → Bool
  | .fin x => decide (x < 0)
  | .negInf => true
  | _ => false

/-- The method `SystemController::modifyProductPrice`. -/
def SystemController.modifyProductPrice (self : SystemController) (productId : Str)
    (newPrice : Double) : Bool × SystemController :=
  if !self.checkAdminPrivileges.1 then (false, self.checkAdminPrivileges.2)
  else if productId.isEmpty then (false, self.setError "Product ID cannot be empty.".toList)
  else
    match self.inventory.searchProduct productId with
    | none => (false, self.setError ("Product not found: ".toList ++ productId))
    | some p =>
      if newPrice.isNegative then (false, self.setError "Price cannot be negative!".toList)
      else
        (true,
          ({ self with
            inventory := self.inventory.modifyProduct p.1 fun x => x.setPrice newPrice }.setSuccess
            ("Price updated for ".toList ++ p.2.getName ++ "\n".toList ++
              "Old price: $".toList ++ printFixed2 p.2.getPrice ++ "\n".toList ++
              "New price: $".toList ++ printFixed2 newPrice)).incrementOperationCounter)

/-- The method `SystemController::addSupplier`; `none` is the null pointer. -/
def SystemController.addSupplier (self : SystemController)
    (supplier : Option (Ptr × Supplier)) : Bool × SystemController :=
  if !self.checkAdminPrivileges.1 then (false, self.checkAdminPrivileges.2)
  else
    match supplier with
    | none => (false, self.setError "Cannot add null supplier!".toList)
    | some s =>
      (true,
        ({ self with inventory := self.inventory.addSupplier (some s) }.setSuccess
          "Supplier added successfully".toList).incrementOperationCounter)

/-- The method `SystemController::removeSupplier`; `none` is the null pointer. -/
def SystemController.removeSupplier (self : SystemController) (supplier : Option Ptr) :
    Bool × SystemController :=
  if !self.checkAdminPrivileges.1 then (false, self.checkAdminPrivileges.2)
  else
    match supplier with
    | none => (false, self.setError "Cannot remove null supplier!".toList)
    | some s =>
      if (self.inventory.removeSupplier (some s)).1 then
        (true,
          ({ self with inventory := (self.inventory.removeSupplier (some s)).2 }.setSuccess
            "Supplier removed successfully".toList).incrementOperationCounter)
      else
        (false,
          { self with inventory := (self.inventory.removeSupplier (some s)).2 }.setError
            "Failed to remove supplier".toList)

/-- The test of `createUser` and `createAdmin` whether a user or an admin carries the name. -/
def SystemController.usernameExists (self : SystemController) (username : Str) : Bool :=
  (self.users.any fun u => u.2.userName = username) ||
    self.admins.any fun a => a.2.userName = username

/-- The method `SystemController::createUser`; `address` is the address `new` returns. -/
def SystemController.createUser (self : SystemController) (username password email : Str)
    (address : Ptr) : Bool × SystemController :=
  if !self.checkAdminPrivileges.1 then (false, self.checkAdminPrivileges.2)
  else if username.isEmpty || password.isEmpty then
    (false, self.setError "Username and password cannot be empty.".toList)
  else if self.usernameExists username then
    (false, self.setError ("Username already exists: ".toList ++ username))
  else
    (true,
      ({ self with
        users := self.users ++ [(address, User.new username password email)] }.setSuccess
        ("User created successfully: ".toList ++ username)).incrementOperationCounter)

/-- The method `SystemController::createAdmin`; `address` is the address `new` returns. -/
def SystemController.createAdmin (self : SystemController) (username password email : Str)
    (address : Ptr) : Bool × SystemController :=
  if !self.checkAdminPrivileges.1 then (false, self.checkAdminPrivileges.2)
  else if username.isEmpty || password.isEmpty then
    (false, self.setError "Username and password cannot be empty.".toList)
  else if self.usernameExists username then
    (false, self.setError ("Username already exists: ".toList ++ username))
  else
    (true,
      ({ self with
        admins := self.admins ++ [(address, Admin.new username password email)] }.setSuccess
        ("Admin created successfully: ".toList ++ username)).incrementOperationCounter)

/-- The method `SystemController::deleteUser`: the first user of that name is deleted and
erased, or else the first admin of that name. -/
def SystemController.deleteUser (self : SystemController) (username : Str) :
    Bool × SystemController :=
  if !self.checkAdminPrivileges.1 then (false, self.checkAdminPrivileges.2)
  else if self.currentUser.isSome && self.getCurrentUsername = username then
    (false, self.setError "Cannot delete the currently logged-in user!".toList)
  else if self.users.any fun u => u.2.userName = username then
    (true,
      ({ self with users := self.users.eraseP fun u => u.2.userName = username }.setSuccess
        ("User deleted successfully: ".toList ++ username)).incrementOperationCounter)
  else if self.admins.any fun a => a.2.userName = username then
    (true,
      ({ self with admins := self.admins.eraseP fun a => a.2.userName = username }.setSuccess
        ("Admin deleted successfully: ".toList ++ username)).incrementOperationCounter)
  else (false, self.setError ("User not found: ".toList ++ username))

/-- The state that `SystemController::generateInventoryReport` leaves (the text of the report,
which it returns, is computed from the inventory and assigns no member). -/
def SystemController.generateInventoryReport (self : SystemController) : SystemController :=
  if !self.checkAdminPrivileges.1 then self.checkAdminPrivileges.2
  else self.setSuccess "Report generated successfully".toList

/-- The method `SystemController::checkLowStock`. -/
def SystemController.checkLowStock (self : SystemController) (threshold : Int) :
    SystemController :=
  if !self.isUserLoggedIn then self.setError "You must be logged in to check stock.".toList
  else
    { self with inventory := (self.inventory.checkLowStock threshold).2.2 }.setSuccess
      "Low stock check completed".toList

/-- A call of a public method of the controller that can change its state, with the
arguments of the call and, where the method reads a file or creates an object, the text of
the file and the address of the object.  (The getters, `getAllUsers`, `getAllAdmins`,
`getAllSuppliers`, `getSupplierForProduct`, `getProductsFromSupplier`, `autoCheckLowStock` and
`autoBackup` assign no member.) -/
inductive SystemController.Call where
  | initializeSystem (inventoryFile accountsFile : Option Str) (u : Indeterminate)
      (alloc : Allocator) (accounts : AccountAllocator)
  | shutdownSystem
  | loginUser (username password : Str)
  | loginAdmin (username password : Str)
  | logout
  | viewInventory
  | searchProduct (productId : Str)
  | purchaseProduct (productId : Str) (quantity : Int)
  | useProduct (productId : Str) (quantity : Int)
  | changePassword (oldPass newPass : Str)
  | addProduct (product : Option (Ptr × Product)) (supplier : Option (Ptr × Supplier))
  | removeProduct (productId : Str)
  | modifyProductPrice (productId : Str) (newPrice : Double)
  | addSupplier (supplier : Option (Ptr × Supplier))
  | removeSupplier (supplier : Option Ptr)
  | createUser (username password email : Str) (address : Ptr)
  | createAdmin (username password email : Str) (address : Ptr)
  | deleteUser (username : Str)
  | generateInventoryReport
  | checkLowStock (threshold : Int)
  | autoSaveData

/-- The state a call leaves. -/
def SystemController.after (self : SystemController) : SystemController.Call → SystemController
  | .initializeSystem inventoryFile accountsFile u alloc accounts =>
    (self.initializeSystem inventoryFile accountsFile u alloc accounts).2
  | .shutdownSystem => self.shutdownSystem.2
  | .loginUser username password => (self.loginUser username password).2
  | .loginAdmin username password => (self.loginAdmin username password).2
  | .logout => self.logout.2
  | .viewInventory => self.viewInventory.2
  | .searchProduct productId => (self.searchProduct productId).2
  | .purchaseProduct productId quantity => (self.purchaseProduct productId quantity).2
  | .useProduct productId quantity => (self.useProduct productId quantity).2
  | .changePassword oldPass newPass => (self.changePassword oldPass newPass).2
  | .addProduct product supplier => (self.addProduct product supplier).2
  | .removeProduct productId => (self.removeProduct productId).2
  | .modifyProductPrice productId newPrice => (self.modifyProductPrice productId newPrice).2
  | .addSupplier supplier => (self.addSupplier supplier).2
  | .removeSupplier supplier => (self.removeSupplier supplier).2
  | .createUser username password email address =>
    (self.createUser username password email address).2
  | .createAdmin username password email address =>
    (self.createAdmin username password email address).2
  | .deleteUser username => (self.deleteUser username).2
  | .generateInventoryReport => self.generateInventoryReport
  | .checkLowStock threshold => self.checkLowStock threshold
  | .autoSaveData => self.autoSaveData

/-- The state a sequence of calls leaves. -/
def SystemController.run (self : SystemController) :
    List SystemController.Call → SystemController
  | [] => self
  | call :: rest => (self.after call).run rest

/-- Whether a call is one of the eleven operations that end in `incrementOperationCounter()`
and returns true. -/
def SystemController.countedSuccess (self : SystemController) : SystemController.Call → Bool
  | .purchaseProduct productId quantity => (self.purchaseProduct productId quantity).1
  | .useProduct productId quantity => (self.useProduct productId quantity).1
  | .changePassword oldPass newPass => (self.changePassword oldPass newPass).1
  | .addProduct product supplier => (self.addProduct product supplier).1
  | .removeProduct productId => (self.removeProduct productId).1
  | .modifyProductPrice productId newPrice => (self.modifyProductPrice productId newPrice).1
  | .addSupplier supplier => (self.addSupplier supplier).1
  | .removeSupplier supplier => (self.removeSupplier supplier).1
  | .createUser username password email address =>
    (self.createUser username password email address).1
  | .createAdmin username password email address =>
    (self.createAdmin username password email address).1
  | .deleteUser username => (self.deleteUser username).1
  | _ => false

/-- The number of calls of a sequence that are counted operations and return true. -/
def SystemController.countedSuccesses (self : SystemController) :
    List SystemController.Call → Nat
  | [] => 0
  | call :: rest =>
    (if self.countedSuccess call then 1 else 0) + (self.after call).countedSuccesses rest

/-- Whether a call runs `autoSaveData` without `incrementOperationCounter`: `autoSaveData`
itself, which is public, and `shutdownSystem`. -/
def SystemController.Call.savesDirectly : SystemController.Call → Bool
  | .autoSaveData => true
  | .shutdownSystem => true
  | _ => false

/-- The addresses of the accounts of the two vectors. -/
def SystemController.accountAddresses (self : SystemController) : List Ptr :=
  self.users.map (fun e => e.1) ++ self.admins.map (fun e => e.1)

/-- The addresses that `new` returns during a call are those of no living object, and differ
from each other. -/
def AccountAllocator.freshFor (alloc : AccountAllocator) (live : List Ptr) : Prop :=
  (∀ i, alloc.user i ∉ live) ∧ (∀ i, alloc.admin i ∉ live) ∧ alloc.defaultAdmin ∉ live ∧
    Function.Injective alloc.user ∧ Function.Injective alloc.admin ∧
    (∀ i j, alloc.user i ≠ alloc.admin j) ∧ (∀ i, alloc.user i ≠ alloc.defaultAdmin) ∧
    ∀ i, alloc.admin i ≠ alloc.defaultAdmin

/-- A call in which the addresses of the accounts that `new` creates are those of no account
of the two vectors, as in every execution. -/
def SystemController.admits (self : SystemController) : SystemController.Call → Prop
  | .initializeSystem _ _ _ _ accounts => accounts.freshFor self.accountAddresses
  | .createUser _ _ _ address => address ∉ self.accountAddresses
  | .createAdmin _ _ _ address => address ∉ self.accountAddresses
  | _ => True

/-- A sequence of calls each of which the state it meets admits. -/
def SystemController.admitsAll (self : SystemController) : List SystemController.Call → Prop
  | [] => True
  | call :: rest => self.admits call ∧ (self.after call).admitsAll rest

/-- The counter and the number of runs of `autoSaveData`. -/
def SystemController.counts (c : SystemController) : Int × Nat :=
  (c.operationsSinceLastSave, c.autoSaveRuns)

/-- The accounts and the current user. -/
def SystemController.session (c : SystemController) :
    List (Ptr × User) × List (Ptr × Admin) × Option Ptr :=
  (c.users, c.admins, c.currentUser)

/-- One session at a time: the accounts live at different addresses, an account that is logged
in is the current user, and the current user is an account that is logged in. -/
def SystemController.sessionInvariant (c : SystemController) : Prop :=
  c.accountAddresses.Nodup ∧
    (∀ e ∈ c.users, e.2.isLoggedIn = true → c.currentUser = some e.1) ∧
    (∀ e ∈ c.admins, e.2.isLoggedIn = true → c.currentUser = some e.1) ∧
    ∀ p, c.currentUser = some p →
      (∃ e ∈ c.users, e.1 = p ∧ e.2.isLoggedIn = true) ∨
        ∃ e ∈ c.admins, e.1 = p ∧ e.2.isLoggedIn = true

/-! ## What a record can hold -/

/-- A string that a field of a record can hold: free of the separator `|` and of line
breaks. -/
def fieldClean (s : Str) : Prop := '|' ∉ s ∧ '\n' ∉ s

/-- A value of the range of `int`. -/
def isInt32 (n : Int) : Prop := INT_MIN ≤ n ∧ n ≤ INT_MAX

/-- A finite double with at most two decimals. -/
def twoDecimals (x : Double) : Prop := ∃ k : Int, x = .fin ((k : ℚ) / 100)

/-- A `std::set<std::string>` whose elements are clean and whose size is an `int`: the list
of its elements is strictly increasing. -/
def cleanSet (l : List Str) : Prop :=
  l.Pairwise (fun a b => stringLess a b = true) ∧ (∀ s ∈ l, fieldClean s) ∧
    (l.length : Int) ≤ INT_MAX

/-- The members `Perishable` shares with its subclasses are storable: clean strings, a price
with two decimals, stock values in the range of `int`, a quantity that is not negative. -/
def Perishable.storable (p : Perishable) : Prop :=
  fieldClean p.id ∧ fieldClean p.name ∧ twoDecimals p.price ∧ fieldClean p.supplier ∧
    fieldClean p.expirationDate ∧ fieldClean p.storageCondition ∧ isInt32 p.quantity ∧
    isInt32 p.minQuantity ∧ isInt32 p.maxQuantity ∧ 0 ≤ p.quantity

/-- The products that `saveInventory` and `loadInventory` are shown to carry over: clean
strings, an id that the factory's prefix rule for the type leaves as it is, doubles with two
decimals, integers in the range of `int`, sets of clean strings; moreover a quantity that is
not negative and, for a `RawMaterial`, stock members that are whole numbers and a maximum that
is not negative. -/
def Product.storable : Product → Prop
  | .rawMaterial rm =>
    productFactory.finalId .RAW_MATERIAL rm.id = rm.id ∧ fieldClean rm.id ∧
      fieldClean rm.name ∧ twoDecimals rm.price ∧ fieldClean rm.supplier ∧
      fieldClean rm.unitOfMeasurement ∧ isInt32 rm.purity ∧
      (∃ q : Int, rm.quantity = q ∧ isInt32 q ∧ 0 ≤ q) ∧
      (∃ m : Int, rm.minQuantity = m ∧ isInt32 m) ∧
      (∃ m : Int, rm.maxQuantity = m ∧ isInt32 m ∧ 0 ≤ m)
  | .nonPerishable np =>
    productFactory.finalId .NON_PERISHABLE np.id = np.id ∧ fieldClean np.id ∧
      fieldClean np.name ∧ twoDecimals np.price ∧ fieldClean np.supplier ∧
      isInt32 np.quantity ∧ isInt32 np.minQuantity ∧ isInt32 np.maxQuantity
  | .perishable per => productFactory.finalId .PERISHABLE per.id = per.id ∧ per.storable
  | .food f =>
    productFactory.finalId .FOOD f.id = f.id ∧ f.toPerishable.storable ∧
      twoDecimals f.temperatureRequired ∧ fieldClean f.nutritionalInfo ∧ cleanSet f.allergens
  | .chemical ch =>
    productFactory.finalId .CHEMICAL ch.id = ch.id ∧ ch.toPerishable.storable ∧
      isInt32 ch.hazardLevel ∧ fieldClean ch.disposalType ∧ cleanSet ch.safetyWarnings

/-- The suppliers that `saveInventory` and `loadInventory` are shown to carry over: a rating
between 0 and 5 with two decimals, a clean reliability text, a set of clean product ids. -/
def Supplier.storable (s : Supplier) : Prop :=
  (∃ k : Int, s.qualityRating = .fin ((k : ℚ) / 100) ∧ 0 ≤ k ∧ k ≤ 500) ∧
    fieldClean s.deliveryReliability ∧ cleanSet s.productIdsSupplied

/-- What `createProductFromLine` rebuilds from the record of a storable product: the product
itself, except that a `NonPerishable` gets its saved minimum as quantity, keeps the minimum 5
of the constructor, and gets the saved maximum only if that is positive and above the saved
minimum. -/
def FileManager.reloaded : Product → Product
  | .nonPerishable np =>
    .nonPerishable
      { np with
        quantity := np.minQuantity
        minQuantity := 5
        maxQuantity :=
          if np.maxQuantity > 0 ∧ np.minQuantity < np.maxQuantity then np.maxQuantity else 1 }
  | p => p

/-- The members `Perishable` shares with its subclasses can be read back from a record:
strings free of the separator `|`, a finite price, stock values in the range of `int`. -/
def Perishable.readable (p : Perishable) : Prop :=
  '|' ∉ p.id ∧ '|' ∉ p.name ∧ (∃ x : ℚ, p.price = .fin x) ∧ '|' ∉ p.supplier ∧
    '|' ∉ p.expirationDate ∧ '|' ∉ p.storageCondition ∧ isInt32 p.quantity ∧
    isInt32 p.minQuantity ∧ isInt32 p.maxQuantity

/-- A `std::set<std::string>` whose elements are free of the separator `|` and whose size is
an `int`: the list of its elements is strictly increasing. -/
def readableSet (l : List Str) : Prop :=
  l.Pairwise (fun a b => stringLess a b = true) ∧ (∀ s ∈ l, '|' ∉ s) ∧
    (l.length : Int) ≤ INT_MAX

/-! ## Classification and sample objects -/

/-- Whether the object is a `Perishable` or one of its subclasses `Food` and `Chemical`. -/
def Product.isPerishableFamily : Product → Bool
  | .perishable _ => true
  | .food _ => true
  | .chemical _ => true
  | _ => false

/-- Some values for the members the constructors leave uninitialised. -/
def sampleIndeterminate : Indeterminate :=
  { isFragile := false, childSafe := false, hazardLevel := 0, localInt := 0,
    localDouble := .fin 0 }

/-- A `Perishable("P1", "Milk", 2, "Dairy")` after `setTotalQuantity(100)` and
`setQuantity(10)`. -/
def samplePerishable : Product :=
  .perishable
    (((Perishable.new "P1".toList "Milk".toList (.fin 2) "Dairy".toList).setTotalQuantity
      100).setQuantity 10).2

/-- A `Perishable("P1", "Milk", 2, "Dairy")` after `setTotalQuantity(100)` and
`setQuantity(100)`: the stock is at its maximum. -/
def fullPerishable : Product :=
  .perishable
    (((Perishable.new "P1".toList "Milk".toList (.fin 2) "Dairy".toList).setTotalQuantity
      100).setQuantity 100).2

/-- A `NonPerishable("NP1", "Nail", 1, "Hardware")` as constructed. -/
def sampleNonPerishable : Product :=
  .nonPerishable
    (NonPerishable.new "NP1".toList "Nail".toList (.fin 1) "Hardware".toList sampleIndeterminate)

/-- A sample `RawMaterial` in stock. -/
def storedRawMaterial : Product :=
  .rawMaterial
    { id := "RM1".toList, name := "Steel".toList, supplier := "Acme".toList,
      unitOfMeasurement := "kg".toList, minQuantity := 20, maxQuantity := 500,
      price := .fin (1250 / 100), quantity := 120, purity := 98 }

/-- A sample `NonPerishable` in stock: 10 units, minimum 3, maximum 100. -/
def storedNonPerishable : Product :=
  .nonPerishable
    { id := "NP1".toList, name := "Nail".toList, price := .fin (10 / 100), quantity := 10,
      supplier := "Hardware".toList, isFragile := true, maxQuantity := 100, minQuantity := 3 }

/-- A sample `Perishable` in stock. -/
def storedPerishable : Product :=
  .perishable
    { id := "P1".toList, name := "Milk".toList, price := .fin (200 / 100), quantity := 10,
      supplier := "Dairy".toList, expirationDate := "2025-12-31".toList,
      storageCondition := "Keep refrigerated".toList, maxQuantity := 100, minQuantity := 5 }

/-- A sample `Food` in stock, with two allergens. -/
def storedFood : Product :=
  .food
    { id := "F1".toList, name := "Apple".toList, price := .fin (199 / 100), quantity := 15,
      supplier := "Fresh Farms".toList, expirationDate := "2025-01-01".toList,
      storageCondition := "Cold".toList, maxQuantity := 100, minQuantity := 5,
      allergens := ["Dairy".toList, "Peanuts".toList],
      temperatureRequired := .fin (-1800 / 100), nutritionalInfo := "Calories: 95".toList }

/-- A sample `Chemical` in stock, without safety warnings. -/
def storedChemical : Product :=
  .chemical
    { id := "C1".toList, name := "Bleach".toList, price := .fin (350 / 100), quantity := 7,
      supplier := "CleanCo".toList, expirationDate := "2026-06-30".toList,
      storageCondition := "Dry".toList,
      maxQuantity := 50, minQuantity := 2, safetyWarnings := [],
      disposalType := "Hazardous Waste".toList, childSafe := false,
      ventilationRequired := true, hazardLevel := 4 }

/-- A sample supplier of the food and the raw material, with one contract item. -/
def supplierA : Supplier :=
  { contractItems := ["Net 30".toList], productIdsSupplied := ["F1".toList, "RM1".toList],
    qualityRating := .fin (450 / 100), deliveryReliability := "Reliable".toList }

/-- A sample supplier of the chemical, the non-perishable and the perishable. -/
def supplierB : Supplier :=
  { contractItems := [], productIdsSupplied := ["C1".toList, "NP1".toList, "P1".toList],
    qualityRating := .fin (325 / 100), deliveryReliability := "Slow".toList }

/-- A sample supplier of a product that is not in stock. -/
def supplierC : Supplier :=
  { contractItems := [], productIdsSupplied := ["X9".toList],
    qualityRating := .fin (100 / 100), deliveryReliability := "Unknown".toList }

/-- The five sample products, at the addresses 10 to 50. -/
def sampleProducts : List (Ptr × Product) :=
  [(10, storedRawMaterial), (20, storedNonPerishable), (30, storedPerishable),
    (40, storedFood), (50, storedChemical)]

/-- An inventory with one product of each variant and two suppliers, each of which supplies
some of the products. -/
def sampleInventory : Inventory :=
  { ownedProductList := sampleProducts, supplierList := [(60, supplierA), (70, supplierB)] }

/-- A `RawMaterial` that holds `2 ^ -60` units of at most 100: what
`RawMaterial("RM2", "Dust", 1, "Acme")` is after `setTotalQuantity(100)` and
`buyItem(2^-60)`. -/
def tracedRawMaterial : Product :=
  .rawMaterial
    { id := "RM2".toList, name := "Dust".toList, price := .fin 1, quantity := 1 / 2 ^ 60,
      minQuantity := 5, maxQuantity := 100, supplier := "Acme".toList, purity := 0,
      unitOfMeasurement := [] }

/-- An inventory that holds that raw material alone, at the address 100. -/
def tracedInventory : Inventory :=
  { ownedProductList := [(100, tracedRawMaterial)], supplierList := [] }

/-- An allocator that hands out the addresses 1000, 1001, ... to suppliers and 2000, 2001, ...
to products. -/
def sampleAllocator : Allocator :=
  { supplier := fun i => 1000 + i, product := fun i => 2000 + i }

/-- A `Perishable` whose supplier name holds the separator `|`. -/
def perishableWithBar : Product :=
  .perishable
    { id := "P2".toList, name := "Cream".toList, price := .fin (200 / 100), quantity := 10,
      supplier := "Farm|Co".toList, expirationDate := [], storageCondition := [],
      maxQuantity := 100, minQuantity := 5 }

/-- An inventory that holds two `Food` objects with the same id `"F001"`, added one after the
other at the addresses 100 and 200. -/
def inventoryWithSharedId : Inventory :=
  (Inventory.new.addProduct
      (some (100, .food (Food.new "F001".toList "Apple".toList (.fin 2) "Fresh Farms".toList)))).addProduct
    (some (200, .food (Food.new "F001".toList "Pear".toList (.fin 3) "Fresh Farms".toList)))

/-- A `Food("F1", "Apple", 1.99, "Fresh Farms")` after `addAllergen("Peanuts")` and
`addAllergen("Dairy")`. -/
def foodWithAllergens : Food :=
  ((Food.new "F1".toList "Apple".toList (.fin (199 / 100)) "Fresh Farms".toList).addAllergen
    "Peanuts".toList).addAllergen "Dairy".toList

/-- An inventory without products in which one supplier is registered. -/
def inventoryWithSupplierOnly : Inventory := Inventory.new.addSupplier (some (60, supplierC))

/-- A file that declares one supplier record and ends, without a line break, after the line
`PRODUCTS`. -/
def truncatedFile : Str := "SUPPLIERS\n1\nPRODUCTS".toList

/-- A file with one supplier record and no `PRODUCTS` line after it. -/
def fileWithoutProductsHeader : Str := "SUPPLIERS\n1\n4.50|Reliable|0\nGARBAGE\n".toList

/-- An inventory in which two suppliers list the id `"F1"` of the stored food: the supplier at
address 60, with whom the food was added, and the supplier at address 70. -/
def inventoryWithTwoSources : Inventory :=
  (Inventory.new.addProductWithSupplier (some (40, storedFood))
      (some (60, Supplier.new))).addSupplier
    (some (70, Supplier.new.addProductSupplied "F1".toList))

/-- A `Food` whose name holds the separator `|`, with one allergen. -/
def foodWithBar : Product :=
  .food
    { id := "F2".toList, name := "Nut|Bar".toList, price := .fin (150 / 100), quantity := 4,
      supplier := "Fresh Farms".toList, expirationDate := [], storageCondition := [],
      maxQuantity := 100, minQuantity := 5, allergens := ["Peanuts".toList],
      temperatureRequired := .fin 0, nutritionalInfo := [] }

/-- A `Chemical("C1", "Bleach", 3.5, "CleanCo")` after `setHazardLevel(4)`,
`addSafetyWarning("Irritant")` and `addSafetyWarning("Corrosive")`. -/
def chemicalWithWarnings : Chemical :=
  (((Chemical.new "C1".toList "Bleach".toList (.fin (350 / 100)) "CleanCo".toList
    sampleIndeterminate).setHazardLevel 4).addSafetyWarning
      "Irritant".toList).addSafetyWarning "Corrosive".toList

/-- An account allocator that hands out the addresses 3000, 3002, ... to users,
3001, 3003, ... to admins and 2999 to the default administrator. -/
def sampleAccountAllocator : AccountAllocator :=
  { user := fun i => 3000 + 2 * i, admin := fun i => 3001 + 2 * i, defaultAdmin := 2999 }

/-- A first start without files, followed by the login of the default administrator. -/
def adminSession : List SystemController.Call :=
  [.initializeSystem none none sampleIndeterminate sampleAllocator sampleAccountAllocator,
    .loginAdmin "admin".toList "admin123".toList]

/-- The controller after a first start without files and the login of the default
administrator. -/
def controllerWithAdmin : SystemController := SystemController.new.run adminSession

/-- One product of each variant as its constructor leaves it, created with the price 2. -/
def newProducts : List Product :=
  [.rawMaterial (RawMaterial.new "RM1".toList "Steel".toList (.fin 2) "Acme".toList),
    .nonPerishable
      (NonPerishable.new "NP1".toList "Nail".toList (.fin 2) "Hardware".toList
        sampleIndeterminate),
    .perishable (Perishable.new "P1".toList "Milk".toList (.fin 2) "Dairy".toList),
    .food (Food.new "F1".toList "Apple".toList (.fin 2) "Fresh Farms".toList),
    .chemical
      (Chemical.new "C1".toList "Bleach".toList (.fin 2) "CleanCo".toList sampleIndeterminate)]

/-- The controller with the default administrator logged in and the five sample products in
its inventory. -/
def controllerWithStock : SystemController :=
  { controllerWithAdmin with inventory := sampleInventory }

/-- Three successful operations, a direct call of `autoSaveData`, and two more successful
operations, in the session of the default administrator. -/
def savedByHand : List SystemController.Call :=
  adminSession ++
    [.addSupplier (some (60, supplierA)), .addSupplier (some (70, supplierB)),
      .addSupplier (some (80, supplierC)), .autoSaveData,
      .addSupplier (some (60, supplierA)), .addSupplier (some (70, supplierB))]

/-- The session of the default administrator, who creates the user bob and logs out, followed
by the login of bob. -/
def twoSessions : List SystemController.Call :=
  adminSession ++
    [.createUser "bob".toList "secret".toList "bob@system.com".toList 5000, .logout,
      .loginUser "bob".toList "secret".toList]

/-! # Properties -/

/-! ## Truncation -/

theorem truncToInt_intCast (n : Int) : truncToInt (n : ℚ) = n := by
  unfold truncToInt
  split <;> simp

theorem truncToInt_nonneg {x : ℚ} (h : 0 ≤ x) : 0 ≤ truncToInt x := by
  unfold truncToInt
  rw [if_pos h]
  exact Int.floor_nonneg.mpr h

theorem truncToInt_sub_int {x : ℚ} (n : Int) (h : (n : ℚ) ≤ x) (hx : 0 ≤ x) :
    truncToInt (x - n) = truncToInt x - n := by
  unfold truncToInt
  rw [if_pos hx, if_pos (by linarith), Int.floor_sub_int]

theorem truncToInt_add_int {x : ℚ} (n : Int) (hn : 0 ≤ n) (hx : 0 ≤ x) :
    truncToInt (x + n) = truncToInt x + n := by
  unfold truncToInt
  have : (0 : ℚ) ≤ n := by exact_mod_cast hn
  rw [if_pos hx, if_pos (by linarith), Int.floor_add_int]

theorem truncToInt_le_of_le_int {x : ℚ} (m : Int) (h : x ≤ m) : truncToInt x ≤ m := by
  unfold truncToInt
  split
  · have h2 : ((⌊x⌋ : Int) : ℚ) ≤ m := le_trans (Int.floor_le x) h
    exact_mod_cast h2
  · exact Int.ceil_le.mpr h

/-! ## Factory identifiers -/

theorem finalId_idempotent_iff (T : productType) (id : Str) :
    productFactory.finalId T (productFactory.finalId T id) = productFactory.finalId T id ↔
      ¬ (T = .PERISHABLE ∧ (id[0]? = some 'N' ∨ id[0]? = some 'M')) := by
  cases T <;> rcases id with _ | ⟨a, _ | ⟨b, t⟩⟩ <;>
    simp [productFactory.finalId, substr] <;> split_ifs <;> simp_all

theorem createProduct_getId (T : productType) (id name : Str) (price : Double) (supplier : Str)
    (u : Indeterminate) :
    (productFactory.createProduct T id name price supplier u).getId =
      productFactory.finalId T id := by
  cases T <;> rfl

/-- C3 (counterexample): for the type `PERISHABLE` and the id `"N1"` the factory produces
`"PN1"`, and feeding `"PN1"` back produces the different id `"PPN1"`. -/
theorem c3_perishable_prefix_applied_twice :
    (productFactory.createProduct .PERISHABLE
        (productFactory.createProduct .PERISHABLE "N1".toList "Milk".toList (.fin 2)
          "Dairy".toList sampleIndeterminate).getId
        "Milk".toList (.fin 2) "Dairy".toList sampleIndeterminate).getId ≠
      (productFactory.createProduct .PERISHABLE "N1".toList "Milk".toList (.fin 2)
        "Dairy".toList sampleIndeterminate).getId := by
  decide

/-- C3 (amended): feeding the id the factory produced back into the factory for the same type
leaves it unchanged exactly when the type is not `PERISHABLE` or the input id does not begin
with `'N'` or `'M'`. -/
theorem c3_prefix_idempotent_iff (T : productType) (id name : Str) (price : Double)
    (supplier : Str) (u : Indeterminate) :
    (productFactory.createProduct T
        (productFactory.createProduct T id name price supplier u).getId
        name price supplier u).getId =
      (productFactory.createProduct T id name price supplier u).getId ↔
    ¬ (T = .PERISHABLE ∧ (id[0]? = some 'N' ∨ id[0]? = some 'M')) := by
  rw [createProduct_getId, createProduct_getId]
  exact finalId_idempotent_iff T id

/-! ## Rounding to binary64 -/

theorem roundHalfEven_floor_le (y : ℚ) : ⌊y⌋ ≤ roundHalfEven y := by
  unfold roundHalfEven
  split_ifs <;> omega

theorem roundHalfEven_le_floor_add_one (y : ℚ) : roundHalfEven y ≤ ⌊y⌋ + 1 := by
  unfold roundHalfEven
  split_ifs <;> omega

theorem roundHalfEven_le_of_le_int (y : ℚ) (N : Int) (h : y ≤ N) : roundHalfEven y ≤ N := by
  have hf : ⌊y⌋ ≤ N := by
    have := Int.floor_le y
    exact_mod_cast (Int.floor_le y).trans h |> fun h2 => Int.cast_le.1 h2
  by_cases hfr : y - ⌊y⌋ < 1 / 2
  · unfold roundHalfEven
    rw [if_pos hfr]
    exact hf
  · have hlt : (⌊y⌋ : ℚ) < N := by linarith
    have hlt2 : ⌊y⌋ < N := by exact_mod_cast hlt
    exact (roundHalfEven_le_floor_add_one y).trans (by omega)

theorem roundHalfEven_ge_of_int_le (y : ℚ) (N : Int) (h : (N : ℚ) ≤ y) :
    N ≤ roundHalfEven y :=
  (Int.le_floor.2 h).trans (roundHalfEven_floor_le y)

theorem roundHalfEven_mono (y z : ℚ) (h : y ≤ z) : roundHalfEven y ≤ roundHalfEven z := by
  have hfl : ⌊y⌋ ≤ ⌊z⌋ := Int.floor_mono h
  rcases lt_or_eq_of_le hfl with hlt | heq
  · exact (roundHalfEven_le_floor_add_one y).trans
      ((by omega : ⌊y⌋ + 1 ≤ ⌊z⌋).trans (roundHalfEven_floor_le z))
  · have hfr : y - ⌊y⌋ ≤ z - ⌊z⌋ := by rw [heq]; linarith
    unfold roundHalfEven
    rw [heq]
    split_ifs <;> first | omega | (exfalso; linarith)

theorem roundHalfEven_of_near (y : ℚ) (N : Int) (h : |y - N| < 1 / 2) : roundHalfEven y = N := by
  rw [abs_lt] at h
  by_cases hge : (N : ℚ) ≤ y
  · have hf : ⌊y⌋ = N := by
      rw [Int.floor_eq_iff]
      constructor <;> linarith
    unfold roundHalfEven
    rw [hf, if_pos (by linarith)]
  · have hf : ⌊y⌋ = N - 1 := by
      rw [Int.floor_eq_iff]
      push_cast
      constructor <;> linarith
    unfold roundHalfEven
    rw [hf]
    push_cast
    rw [if_neg (by linarith), if_pos (by linarith)]
    ring

theorem roundHalfEven_nonneg (y : ℚ) (h : 0 ≤ y) : 0 ≤ roundHalfEven y :=
  roundHalfEven_ge_of_int_le y 0 (by simpa using h)

theorem roundHalfEven_intCast (n : Int) : roundHalfEven (n : ℚ) = n := by
  simp [roundHalfEven]

theorem binade_ge (x : ℚ) : -1022 ≤ binade x := by
  unfold binade
  exact le_max_right _ _

theorem lt_two_pow_binade (x : ℚ) : x < 2 ^ (binade x + 1) := by
  have h1 : x < (2 : ℚ) ^ (Int.log 2 x + 1) := Int.lt_zpow_succ_log_self (by norm_num) x
  have h2 : (2 : ℚ) ^ (Int.log 2 x + 1) ≤ 2 ^ (binade x + 1) :=
    zpow_le_zpow_right₀ (by norm_num) (by unfold binade; omega)
  exact lt_of_lt_of_le h1 h2

theorem two_pow_binade_le (x : ℚ) (hx : 0 < x) (h : -1022 < binade x) : 2 ^ binade x ≤ x := by
  have hb : binade x = Int.log 2 x := by
    unfold binade at h ⊢
    omega
  rw [hb]
  exact Int.zpow_log_le_self (by norm_num) hx

theorem binade_mono (x y : ℚ) (hx : 0 < x) (h : x ≤ y) : binade x ≤ binade y := by
  unfold binade
  exact max_le_max (Int.log_mono_right hx h) (le_refl _)

theorem binade_eq (x : ℚ) (b : Int) (hb : -1022 ≤ b) (h1 : 2 ^ b ≤ x) (h2 : x < 2 ^ (b + 1)) :
    binade x = b := by
  have hx : 0 < x := lt_of_lt_of_le (by positivity) h1
  have hl : Int.log 2 x = b := by
    apply le_antisymm
    · have := (Int.lt_zpow_iff_log_lt (by norm_num : 1 < 2) hx).1 h2
      omega
    · exact (Int.zpow_le_iff_le_log (by norm_num : 1 < 2) hx).1 h1
  unfold binade
  rw [hl]
  exact max_eq_left hb

theorem two_pow_53_mul (b : Int) : ((2 ^ 53 : Int) : ℚ) * 2 ^ (b - 52) = 2 ^ (b + 1) := by
  have hc : ((2 ^ 53 : Int) : ℚ) = (2 : ℚ) ^ (53 : Int) := by norm_num
  rw [hc, ← zpow_add₀ (by norm_num)]
  congr 1
  omega

theorem two_pow_52_mul (b : Int) : ((2 ^ 52 : Int) : ℚ) * 2 ^ (b - 52) = 2 ^ b := by
  have hc : ((2 ^ 52 : Int) : ℚ) = (2 : ℚ) ^ (52 : Int) := by norm_num
  rw [hc, ← zpow_add₀ (by norm_num)]
  congr 1
  omega

theorem roundPos_nonneg (x : ℚ) (h : 0 ≤ x) : 0 ≤ roundPos x := by
  unfold roundPos
  have h1 : (0 : ℚ) ≤ (roundHalfEven (x / 2 ^ (binade x - 52)) : ℚ) := by
    exact_mod_cast roundHalfEven_nonneg _ (by positivity)
  positivity

theorem roundPos_le_two_pow (x : ℚ) : roundPos x ≤ 2 ^ (binade x + 1) := by
  unfold roundPos
  have hu : (0 : ℚ) < 2 ^ (binade x - 52) := by positivity
  have h1 : x / 2 ^ (binade x - 52) ≤ ((2 ^ 53 : Int) : ℚ) := by
    rw [div_le_iff₀ hu]
    rw [two_pow_53_mul]
    exact (lt_two_pow_binade x).le
  have h3 := roundHalfEven_le_of_le_int _ _ h1
  have h4 : (roundHalfEven (x / 2 ^ (binade x - 52)) : ℚ) ≤ ((2 ^ 53 : Int) : ℚ) := by
    exact_mod_cast h3
  calc (roundHalfEven (x / 2 ^ (binade x - 52)) : ℚ) * 2 ^ (binade x - 52)
      ≤ ((2 ^ 53 : Int) : ℚ) * 2 ^ (binade x - 52) := mul_le_mul_of_nonneg_right h4 hu.le
    _ = 2 ^ (binade x + 1) := two_pow_53_mul _

theorem two_pow_le_roundPos (x : ℚ) (hx : 0 < x) (h : -1022 < binade x) :
    2 ^ binade x ≤ roundPos x := by
  unfold roundPos
  have hu : (0 : ℚ) < 2 ^ (binade x - 52) := by positivity
  have h2 : ((2 ^ 52 : Int) : ℚ) * 2 ^ (binade x - 52) = 2 ^ binade x := two_pow_52_mul _
  have h1 : ((2 ^ 52 : Int) : ℚ) ≤ x / 2 ^ (binade x - 52) := by
    rw [le_div_iff₀ hu, h2]
    exact two_pow_binade_le x hx h
  have h3 := roundHalfEven_ge_of_int_le _ _ h1
  have h4 : ((2 ^ 52 : Int) : ℚ) ≤ (roundHalfEven (x / 2 ^ (binade x - 52)) : ℚ) := by
    exact_mod_cast h3
  calc (2 : ℚ) ^ binade x = ((2 ^ 52 : Int) : ℚ) * 2 ^ (binade x - 52) := h2.symm
    _ ≤ _ := mul_le_mul_of_nonneg_right h4 hu.le

theorem roundPos_zero : roundPos 0 = 0 := by
  simp [roundPos, roundHalfEven]

theorem roundPos_mono (x y : ℚ) (hx : 0 ≤ x) (h : x ≤ y) : roundPos x ≤ roundPos y := by
  rcases eq_or_lt_of_le hx with h0 | hpos
  · rw [← h0, roundPos_zero]
    exact roundPos_nonneg y (hx.trans h)
  · have hb := binade_mono x y hpos h
    rcases eq_or_lt_of_le hb with heq | hlt
    · unfold roundPos
      rw [heq]
      have hu : (0 : ℚ) < 2 ^ (binade y - 52) := by positivity
      have : roundHalfEven (x / 2 ^ (binade y - 52)) ≤ roundHalfEven (y / 2 ^ (binade y - 52)) :=
        roundHalfEven_mono _ _ (div_le_div_of_nonneg_right h hu.le)
      exact mul_le_mul_of_nonneg_right (by exact_mod_cast this) hu.le
    · have h1 := roundPos_le_two_pow x
      have h2 : (2 : ℚ) ^ (binade x + 1) ≤ 2 ^ binade y :=
        zpow_le_zpow_right₀ (by norm_num) (by omega)
      have h3 := two_pow_le_roundPos y (lt_of_lt_of_le hpos h)
        (lt_of_le_of_lt (binade_ge x) hlt)
      linarith

theorem roundPos_dyadic (n : Nat) (e : Int) (hn : n < 2 ^ 53) (he : -1074 ≤ e) :
    roundPos ((n : ℚ) * 2 ^ e) = (n : ℚ) * 2 ^ e := by
  rcases Nat.eq_zero_or_pos n with h0 | hpos
  · rw [h0]
    simp [roundPos_zero]
  · have hx : (0 : ℚ) < (n : ℚ) * 2 ^ e := by positivity
    have hlt : (n : ℚ) * 2 ^ e < 2 ^ (e + 53) := by
      rw [zpow_add₀ (by norm_num), mul_comm]
      have : (n : ℚ) < 2 ^ (53 : Int) := by
        rw [zpow_ofNat]
        exact_mod_cast hn
      exact mul_lt_mul_of_pos_left this (by positivity)
    have hlog : Int.log 2 ((n : ℚ) * 2 ^ e) < e + 53 :=
      (Int.lt_zpow_iff_log_lt (by norm_num : 1 < 2) hx).1 hlt
    have hb : binade ((n : ℚ) * 2 ^ e) - 52 ≤ e := by
      unfold binade
      omega
    obtain ⟨k, hk⟩ : ∃ k : Nat, e = binade ((n : ℚ) * 2 ^ e) - 52 + k :=
      ⟨(e - (binade ((n : ℚ) * 2 ^ e) - 52)).toNat, by omega⟩
    unfold roundPos
    have hq : (n : ℚ) * 2 ^ e / 2 ^ (binade ((n : ℚ) * 2 ^ e) - 52) = ((n * 2 ^ k : Nat) : Int) := by
      have hu : (2 : ℚ) ^ (binade ((n : ℚ) * 2 ^ e) - 52) ≠ 0 := by positivity
      rw [div_eq_iff hu]
      push_cast
      rw [mul_assoc, ← zpow_natCast, ← zpow_add₀ (by norm_num)]
      congr 2
      omega
    rw [hq, roundHalfEven_intCast]
    have hu : (2 : ℚ) ^ (binade ((n : ℚ) * 2 ^ e) - 52) ≠ 0 := by positivity
    rw [← hq, div_mul_cancel₀ _ hu]

theorem roundNearest_neg (x : ℚ) : roundNearest (-x) = -roundNearest x := by
  unfold roundNearest
  rcases lt_trichotomy x 0 with h | h | h
  · rw [if_neg (by linarith), if_pos h, neg_neg]
  · rw [h]
    simp [roundPos_zero]
  · rw [if_pos (by linarith), if_neg (by linarith), neg_neg]

theorem roundNearest_nonneg (x : ℚ) (h : 0 ≤ x) : 0 ≤ roundNearest x := by
  unfold roundNearest
  rw [if_neg (by linarith)]
  exact roundPos_nonneg x h

theorem roundNearest_mono (x y : ℚ) (h : x ≤ y) : roundNearest x ≤ roundNearest y := by
  unfold roundNearest
  split_ifs with hx hy hy
  · exact neg_le_neg (roundPos_mono _ _ (by linarith) (by linarith))
  · have := roundPos_nonneg (-x) (by linarith)
    have := roundPos_nonneg y (by linarith)
    linarith
  · exact absurd (lt_of_le_of_lt h hy) hx
  · exact roundPos_mono _ _ (by linarith) h

theorem roundNearest_dyadic (n : Int) (e : Int) (hn : |n| < 2 ^ 53) (he : -1074 ≤ e) :
    roundNearest ((n : ℚ) * 2 ^ e) = (n : ℚ) * 2 ^ e := by
  rw [abs_lt] at hn
  rcases le_or_lt 0 n with h0 | hneg
  · obtain ⟨m, rfl⟩ := Int.eq_ofNat_of_zero_le h0
    have hx : (0 : ℚ) ≤ ((m : Int) : ℚ) * 2 ^ e := by positivity
    unfold roundNearest
    rw [if_neg (by linarith)]
    have := roundPos_dyadic m e (by omega) he
    simpa using this
  · obtain ⟨m, hm⟩ := Int.eq_ofNat_of_zero_le (by omega : 0 ≤ -n)
    have hn2 : (n : ℚ) = -(m : ℚ) := by
      have : n = -(m : Int) := by omega
      rw [this]
      push_cast
      rfl
    rw [hn2, neg_mul, roundNearest_neg]
    congr 1
    have hx : (0 : ℚ) ≤ (m : ℚ) * 2 ^ e := by positivity
    unfold roundNearest
    rw [if_neg (by linarith)]
    exact roundPos_dyadic m e (by omega) he

theorem roundNearest_intCast (k : Int) (h : |k| ≤ 2 ^ 53) : roundNearest (k : ℚ) = k := by
  rcases lt_or_eq_of_le h with hlt | heq
  · have := roundNearest_dyadic k 0 hlt (by norm_num)
    simpa using this
  · have hk : k = 2 ^ 53 ∨ k = -2 ^ 53 := by
      rcases abs_cases k with ⟨h1, -⟩ | ⟨h1, -⟩ <;> omega
    rcases hk with hk | hk
    · have := roundNearest_dyadic 1 53 (by norm_num) (by norm_num)
      rw [hk]
      norm_num at this ⊢
      exact this
    · have := roundNearest_dyadic (-1) 53 (by norm_num) (by norm_num)
      rw [hk]
      norm_num at this ⊢
      exact this

theorem round64_of_abs_lt (x : ℚ) (h : |roundNearest x| < 2 ^ 1024) :
    round64 x = .fin (roundNearest x) := by
  rw [abs_lt] at h
  unfold round64
  rw [if_neg (by linarith), if_neg (by linarith)]

theorem round64_eq_fin (x s : ℚ) (h : round64 x = .fin s) : s = roundNearest x := by
  unfold round64 at h
  split_ifs at h
  exact (Double.fin.inj h).symm

theorem roundNearest_of_isBinary64 (x : ℚ) (h : isBinary64 x = true) : roundNearest x = x := by
  unfold isBinary64 at h
  have h1 : round64 x = .fin x := by simpa using h
  exact (round64_eq_fin x x h1).symm

theorem isBinary64_of_fixed (x : ℚ) (h : roundNearest x = x) (hx : |x| < 2 ^ 1024) :
    isBinary64 x = true := by
  have h1 : round64 x = .fin x := by
    rw [round64_of_abs_lt x (by rw [h]; exact hx), h]
  simp [isBinary64, h1]

theorem isBinary64_dyadic (n e : Int) (hn : |n| < 2 ^ 53) (he : -1074 ≤ e) (he2 : e ≤ 971) :
    isBinary64 ((n : ℚ) * 2 ^ e) = true := by
  apply isBinary64_of_fixed _ (roundNearest_dyadic n e hn he)
  have h1 : |(n : ℚ)| < 2 ^ (53 : Int) := by
    rw [zpow_ofNat]
    exact_mod_cast hn
  have h2 : (2 : ℚ) ^ e ≤ 2 ^ (971 : Int) := zpow_le_zpow_right₀ (by norm_num) he2
  rw [abs_mul, abs_of_pos (by positivity : (0 : ℚ) < 2 ^ e)]
  calc |(n : ℚ)| * 2 ^ e ≤ |(n : ℚ)| * 2 ^ (971 : Int) :=
        mul_le_mul_of_nonneg_left h2 (abs_nonneg _)
    _ < 2 ^ (53 : Int) * 2 ^ (971 : Int) := mul_lt_mul_of_pos_right h1 (by positivity)
    _ = 2 ^ 1024 := by
      rw [← zpow_add₀ (by norm_num)]
      norm_num

theorem isBinary64_intCast (k : Int) (h : |k| ≤ 2 ^ 53) : isBinary64 (k : ℚ) = true := by
  apply isBinary64_of_fixed _ (roundNearest_intCast k h)
  have h1 : |(k : ℚ)| ≤ 2 ^ 53 := by exact_mod_cast h
  have h2 : (2 : ℚ) ^ 53 < 2 ^ 1024 := by norm_num
  linarith

theorem isStock_intCast (k : Int) (h : |k| ≤ 2 ^ 31) : isStock (k : ℚ) = true := by
  have h1 : |(k : ℚ)| ≤ 2 ^ 31 := by exact_mod_cast h
  simp only [isStock, Bool.and_eq_true, decide_eq_true_eq]
  exact ⟨isBinary64_intCast k (h.trans (by norm_num)), h1⟩

theorem isStock_iff (x : ℚ) : isStock x = true ↔ isBinary64 x = true ∧ |x| ≤ 2 ^ 31 := by
  simp [isStock]

theorem roundNearest_le_of_le (x k : ℚ) (hk : isBinary64 k = true) (h : x ≤ k) :
    roundNearest x ≤ k := by
  have := roundNearest_mono x k h
  rwa [roundNearest_of_isBinary64 k hk] at this

theorem le_roundNearest_of_le (x k : ℚ) (hk : isBinary64 k = true) (h : k ≤ x) :
    k ≤ roundNearest x := by
  have := roundNearest_mono k x h
  rwa [roundNearest_of_isBinary64 k hk] at this

/-- A positive binary64 value is a multiple, by less than `2 ^ 53`, of the spacing of its
binade. -/
theorem binary64_decomp (x : ℚ) (hx : 0 < x) (h : roundNearest x = x) :
    ∃ m : Nat, m < 2 ^ 53 ∧ x = (m : ℚ) * 2 ^ (binade x - 52) := by
  have hr : roundPos x = x := by
    unfold roundNearest at h
    rwa [if_neg (by linarith)] at h
  have hu : (0 : ℚ) < 2 ^ (binade x - 52) := by positivity
  have hnn : 0 ≤ roundHalfEven (x / 2 ^ (binade x - 52)) :=
    roundHalfEven_nonneg _ (by positivity)
  obtain ⟨m, hm⟩ := Int.eq_ofNat_of_zero_le hnn
  have hx2 : x = (m : ℚ) * 2 ^ (binade x - 52) := by
    have : roundPos x = ((m : Int) : ℚ) * 2 ^ (binade x - 52) := by
      unfold roundPos
      rw [hm]
    rw [hr] at this
    simpa using this
  refine ⟨m, ?_, hx2⟩
  have hlt := lt_two_pow_binade x
  rw [← two_pow_53_mul] at hlt
  have h3 : (m : ℚ) * 2 ^ (binade x - 52) < ((2 ^ 53 : Int) : ℚ) * 2 ^ (binade x - 52) := by
    rw [← hx2]
    exact hlt
  have h4 : (m : ℚ) < ((2 ^ 53 : Int) : ℚ) := lt_of_mul_lt_mul_right h3 hu.le
  have h5 : (m : Int) < 2 ^ 53 := by exact_mod_cast h4
  exact_mod_cast h5

/-- The difference of a stock value and a whole number not above it is a binary64 value. -/
theorem roundNearest_sub_int (x : ℚ) (n : Int) (hx : isStock x = true) (h0 : 0 ≤ n)
    (hn : (n : ℚ) ≤ x) : roundNearest (x - n) = x - n := by
  obtain ⟨hb, hmag⟩ := (isStock_iff x).1 hx
  have hfix := roundNearest_of_isBinary64 x hb
  rcases eq_or_lt_of_le h0 with hn0 | hnpos
  · rw [← hn0]
    simpa using hfix
  · have hnq : (0 : ℚ) < n := by exact_mod_cast hnpos
    have hxpos : 0 < x := lt_of_lt_of_le hnq hn
    obtain ⟨m, hm, hxm⟩ := binary64_decomp x hxpos hfix
    have hxlt : x < 2 ^ (32 : Int) := by
      have : |x| ≤ 2 ^ 31 := hmag
      rw [abs_of_pos hxpos] at this
      have h2 : (2 : ℚ) ^ 31 < 2 ^ (32 : Int) := by norm_num
      linarith
    have hlog : Int.log 2 x < 32 := (Int.lt_zpow_iff_log_lt (by norm_num : 1 < 2) hxpos).1 hxlt
    have hbin : binade x ≤ 31 := by
      unfold binade
      omega
    have hbge := binade_ge x
    obtain ⟨j, hj⟩ : ∃ j : Nat, (j : Int) = 52 - binade x := ⟨(52 - binade x).toNat, by omega⟩
    have hnu : (n : ℚ) = ((n * 2 ^ j : Int) : ℚ) * 2 ^ (binade x - 52) := by
      push_cast
      rw [mul_assoc, ← zpow_natCast, ← zpow_add₀ (by norm_num)]
      have : (j : Int) + (binade x - 52) = 0 := by omega
      rw [this]
      simp
    have hu : (0 : ℚ) < 2 ^ (binade x - 52) := by positivity
    have hdiff : x - n = (((m : Int) - n * 2 ^ j : Int) : ℚ) * 2 ^ (binade x - 52) := by
      rw [Int.cast_sub, sub_mul, ← hnu]
      push_cast
      rw [← hxm]
    have hnn : (0 : ℚ) ≤ (((m : Int) - n * 2 ^ j : Int) : ℚ) := by
      have : (0 : ℚ) ≤ x - n := by linarith
      rw [hdiff] at this
      exact nonneg_of_mul_nonneg_left this hu
    have hnn2 : 0 ≤ (m : Int) - n * 2 ^ j := by exact_mod_cast hnn
    have hpos2 : 0 < n * 2 ^ j := by positivity
    rw [hdiff]
    apply roundNearest_dyadic
    · rw [abs_of_nonneg hnn2]
      have : (m : Int) < 2 ^ 53 := by exact_mod_cast hm
      omega
    · omega

theorem roundPos_of_near (x : ℚ) (b N : Int) (hb : binade x = b)
    (h : |x / 2 ^ (b - 52) - N| < 1 / 2) : roundPos x = (N : ℚ) * 2 ^ (b - 52) := by
  unfold roundPos
  rw [hb, roundHalfEven_of_near _ N h]

theorem stockPlus_of_valid (a q : ℚ) (ha : isStock a = true) (hq : isBinary64 q = true) :
    stockPlus a q = round64 (a + q) := by
  unfold stockPlus
  rw [if_pos ⟨ha, hq⟩]

theorem stockMinus_of_valid (a q : ℚ) (ha : isStock a = true) (hq : isBinary64 q = true) :
    stockMinus a q = roundNearest (a - q) := by
  unfold stockMinus
  rw [if_pos ⟨ha, hq⟩]

theorem stockPlus_nonneg (a q s : ℚ) (h : stockPlus a q = .fin s) (h0 : 0 ≤ a + q) :
    0 ≤ s := by
  unfold stockPlus at h
  split_ifs at h
  · rw [round64_eq_fin _ _ h]
    exact roundNearest_nonneg _ h0
  · rw [← Double.fin.inj h]
    exact h0

/-- A sum that does not exceed a stock value does not exceed it after rounding either. -/
theorem stockPlus_le (a q M : ℚ)
    (hM : isStock M = true ∨ ¬ (isStock a = true ∧ isBinary64 q = true))
    (hq : 0 < q) (h : a + q ≤ M) : ∃ s, stockPlus a q = .fin s ∧ s ≤ M := by
  unfold stockPlus
  by_cases hv : isStock a = true ∧ isBinary64 q = true
  · rw [if_pos hv]
    have hMs : isStock M = true := by
      rcases hM with hM | hM
      · exact hM
      · exact absurd hv hM
    obtain ⟨hMb, hMm⟩ := (isStock_iff M).1 hMs
    obtain ⟨hab, ham⟩ := (isStock_iff a).1 hv.1
    have hle := roundNearest_le_of_le (a + q) M hMb h
    have hlow : (-(2 : ℚ) ^ 31) ≤ a + q := by
      have := (abs_le.1 ham).1
      linarith
    have hmin : isBinary64 (((-(2 ^ 31) : Int) : ℚ)) = true :=
      isBinary64_intCast _ (by norm_num)
    have hge := le_roundNearest_of_le (a + q) (((-(2 ^ 31) : Int) : ℚ)) hmin
      (by push_cast; linarith)
    push_cast at hge
    have hMup := (abs_le.1 hMm).2
    refine ⟨roundNearest (a + q), round64_of_abs_lt _ ?_, hle⟩
    rw [abs_lt]
    have h2 : (2 : ℚ) ^ 31 < 2 ^ 1024 := by norm_num
    constructor <;> linarith
  · rw [if_neg hv]
    exact ⟨a + q, rfl, h⟩

/-- A sum of whole numbers of magnitude at most `2 ^ 53` is exact. -/
theorem stockPlus_intCast (k n : Int) (h : |k + n| ≤ 2 ^ 53) :
    stockPlus (k : ℚ) (n : ℚ) = .fin ((k : ℚ) + n) := by
  unfold stockPlus
  split_ifs
  · rw [← Int.cast_add]
    have := isBinary64_intCast (k + n) h
    simpa [isBinary64] using this
  · rfl

/-- The difference of a stock value and a whole number not above it is exact. -/
theorem stockMinus_intCast (x : ℚ) (n : Int) (h0 : 0 ≤ n) (hn : (n : ℚ) ≤ x) :
    stockMinus x (n : ℚ) = x - n := by
  unfold stockMinus
  split_ifs with hv
  · exact roundNearest_sub_int x n hv.1 h0 hn
  · rfl

theorem stockMinus_bounds (a q : ℚ) (h0 : 0 < q) (h : q ≤ a) :
    0 ≤ stockMinus a q ∧ stockMinus a q ≤ a := by
  unfold stockMinus
  split_ifs with hv
  · exact ⟨roundNearest_nonneg _ (by linarith),
      roundNearest_le_of_le _ _ ((isStock_iff a).1 hv.1).1 (by linarith)⟩
  · constructor <;> linarith

theorem roundPos_idem (x : ℚ) (hx : 0 ≤ x) : roundPos (roundPos x) = roundPos x := by
  have hb := binade_ge x
  have hu : (0 : ℚ) < 2 ^ (binade x - 52) := by positivity
  have hN0 : 0 ≤ roundHalfEven (x / 2 ^ (binade x - 52)) :=
    roundHalfEven_nonneg _ (by positivity)
  have hN1 : roundHalfEven (x / 2 ^ (binade x - 52)) ≤ 2 ^ 53 := by
    apply roundHalfEven_le_of_le_int
    rw [div_le_iff₀ hu, two_pow_53_mul]
    exact (lt_two_pow_binade x).le
  have hr : roundPos x =
      (roundHalfEven (x / 2 ^ (binade x - 52)) : ℚ) * 2 ^ (binade x - 52) := by
    unfold roundPos
    rfl
  obtain ⟨m, hm⟩ := Int.eq_ofNat_of_zero_le hN0
  rcases lt_or_eq_of_le hN1 with hlt | heq
  · rw [hr, hm]
    have := roundPos_dyadic m (binade x - 52) (by omega) (by omega)
    simpa using this
  · rw [hr, heq, two_pow_53_mul]
    have := roundPos_dyadic 1 (binade x + 1) (by norm_num) (by omega)
    simpa using this

theorem roundNearest_idem (x : ℚ) : roundNearest (roundNearest x) = roundNearest x := by
  rcases lt_or_le x 0 with h | h
  · have h1 : roundNearest x = -roundPos (-x) := by
      unfold roundNearest
      rw [if_pos h]
    have h2 : roundNearest (roundPos (-x)) = roundPos (roundPos (-x)) := by
      unfold roundNearest
      rw [if_neg (not_lt.2 (roundPos_nonneg _ (by linarith)))]
    rw [h1, roundNearest_neg, h2, roundPos_idem _ (by linarith)]
  · have h1 : roundNearest x = roundPos x := by
      unfold roundNearest
      rw [if_neg (not_lt.2 h)]
    have h2 : roundNearest (roundPos x) = roundPos (roundPos x) := by
      unfold roundNearest
      rw [if_neg (not_lt.2 (roundPos_nonneg _ h))]
    rw [h1, h2, roundPos_idem _ h]

theorem isBinary64_roundNearest (x : ℚ) (h : |roundNearest x| < 2 ^ 1024) :
    isBinary64 (roundNearest x) = true :=
  isBinary64_of_fixed _ (roundNearest_idem x) h

theorem isStock_stockMinus (a q : ℚ) (ha : isStock a = true) (hq : isBinary64 q = true)
    (h0 : 0 < q) (h : q ≤ a) : isStock (stockMinus a q) = true := by
  have hb := stockMinus_bounds a q h0 h
  have ha2 := (isStock_iff a).1 ha
  have hle : |stockMinus a q| ≤ 2 ^ 31 := by
    rw [abs_of_nonneg hb.1]
    exact hb.2.trans ((le_abs_self a).trans ha2.2)
  rw [isStock_iff]
  refine ⟨?_, hle⟩
  rw [stockMinus_of_valid a q ha hq] at hle ⊢
  exact isBinary64_roundNearest _ (lt_of_le_of_lt hle (by norm_num))

theorem isStock_stockPlus (a q s M : ℚ) (ha : isStock a = true) (hq : isBinary64 q = true)
    (hM : isStock M = true) (h0 : 0 ≤ a + q) (hs : stockPlus a q = .fin s) (hle : s ≤ M) :
    isStock s = true := by
  have hs0 := stockPlus_nonneg a q s hs h0
  have hM2 := (isStock_iff M).1 hM
  have habs : |s| ≤ 2 ^ 31 := by
    rw [abs_of_nonneg hs0]
    exact hle.trans ((le_abs_self M).trans hM2.2)
  rw [isStock_iff]
  refine ⟨?_, habs⟩
  rw [stockPlus_of_valid a q ha hq] at hs
  have := round64_eq_fin _ _ hs
  rw [this] at habs ⊢
  exact isBinary64_roundNearest _ (lt_of_le_of_lt habs (by norm_num))

/-! ## Using and buying stock -/

/-- C4: `useItem(q)` returns true exactly when `q` is a finite amount with
`0 < q ≤ quantity`, and a call that returns false leaves the whole object unchanged. -/
theorem c4_useItem_succeeds_iff (p : Product) (q : Double) :
    ((p.useItem q).1 = true ↔ ∃ x : ℚ, q = .fin x ∧ 0 < x ∧ x ≤ p.quantity) ∧
      ((p.useItem q).1 = false → (p.useItem q).2 = p) := by
  cases p <;> cases q <;>
    simp [Product.useItem, Perishable.useItem, NonPerishable.useItem, RawMaterial.useItem,
      Product.quantity] <;>
    split_ifs <;> simp_all

theorem truncToInt_intCast_add (a n : Int) : truncToInt ((a : ℚ) + n) = a + n := by
  rw [← Int.cast_add, truncToInt_intCast]

theorem truncToInt_intCast_sub (a n : Int) : truncToInt ((a : ℚ) - n) = a - n := by
  rw [← Int.cast_sub, truncToInt_intCast]

theorem useItem_fst_iff (p : Product) (x : ℚ) :
    (p.useItem (.fin x)).1 = true ↔ 0 < x ∧ x ≤ p.quantity := by
  cases p <;>
    simp [Product.useItem, Perishable.useItem, NonPerishable.useItem, RawMaterial.useItem,
      Product.quantity] <;>
    split_ifs <;> simp_all

theorem useItem_snd_of_false (p : Product) (q : Double) (h : (p.useItem q).1 = false) :
    (p.useItem q).2 = p := by
  revert h
  cases p <;> cases q <;>
    simp [Product.useItem, Perishable.useItem, NonPerishable.useItem, RawMaterial.useItem] <;>
    split_ifs <;> simp_all

/-- What a call of `useItem` that returns true leaves: the difference `stockMinus`, stored as
it is by a `RawMaterial` and truncated toward zero by the other classes. -/
theorem useItem_result (p : Product) (q : ℚ) (h : (p.useItem (.fin q)).1 = true) :
    (p.useItem (.fin q)).2.getQuantity = truncToInt (stockMinus p.quantity q) ∧
      (p.useItem (.fin q)).2.maxQuantity = p.maxQuantity ∧
      (p.useItem (.fin q)).2.minQuantity = p.minQuantity ∧
      (p.useItem (.fin q)).2.getId = p.getId ∧
      (∀ r, p = .rawMaterial r → (p.useItem (.fin q)).2.quantity = stockMinus p.quantity q) ∧
      ((∀ r, p ≠ .rawMaterial r) →
        (p.useItem (.fin q)).2.quantity =
          ((truncToInt (stockMinus p.quantity q) : Int) : ℚ)) := by
  have hg := (useItem_fst_iff p q).1 h
  cases p with
  | rawMaterial r =>
    simp only [Product.quantity] at hg
    simp only [Product.useItem, RawMaterial.useItem, Product.quantity]
    rw [if_pos (by exact hg)]
    exact ⟨rfl, rfl, rfl, rfl, fun _ _ => rfl, fun hne => absurd rfl (hne r)⟩
  | nonPerishable r =>
    simp only [Product.quantity] at hg
    simp only [Product.useItem, NonPerishable.useItem, Product.quantity]
    rw [if_pos (by exact hg)]
    exact ⟨rfl, rfl, rfl, rfl, fun _ hr => Product.noConfusion hr, fun _ => rfl⟩
  | perishable r =>
    simp only [Product.quantity] at hg
    simp only [Product.useItem, Perishable.useItem, Product.quantity]
    rw [if_pos (by exact hg)]
    exact ⟨rfl, rfl, rfl, rfl, fun _ hr => Product.noConfusion hr, fun _ => rfl⟩
  | food r =>
    simp only [Product.quantity] at hg
    simp only [Product.useItem, Perishable.useItem, Product.quantity]
    rw [if_pos (by exact hg)]
    exact ⟨rfl, rfl, rfl, rfl, fun _ hr => Product.noConfusion hr, fun _ => rfl⟩
  | chemical r =>
    simp only [Product.quantity] at hg
    simp only [Product.useItem, Perishable.useItem, Product.quantity]
    rw [if_pos (by exact hg)]
    exact ⟨rfl, rfl, rfl, rfl, fun _ hr => Product.noConfusion hr, fun _ => rfl⟩

theorem getQuantity_eq_truncToInt (p : Product) : p.getQuantity = truncToInt p.quantity := by
  cases p <;>
    simp only [Product.getQuantity, Product.quantity, RawMaterial.getQuantity,
      truncToInt_intCast]

theorem useItem_int_quantity (p : Product) (n : Int) (h : (p.useItem (.fin n)).1 = true) :
    (p.useItem (.fin n)).2.quantity = p.quantity - n ∧
      (p.useItem (.fin n)).2.getQuantity = p.getQuantity - n ∧
      (p.useItem (.fin n)).2.maxQuantity = p.maxQuantity ∧
      (p.useItem (.fin n)).2.minQuantity = p.minQuantity ∧
      (p.useItem (.fin n)).2.getId = p.getId := by
  have hg := (useItem_fst_iff p n).1 h
  have hn : 0 ≤ n := by
    have := hg.1
    exact_mod_cast this.le
  obtain ⟨h1, h2, h3, h4, h5, h6⟩ := useItem_result p n h
  have hm := stockMinus_intCast p.quantity n hn hg.2
  rw [hm] at h1 h5 h6
  have hq : truncToInt (p.quantity - n) = p.getQuantity - n := by
    rw [getQuantity_eq_truncToInt]
    exact truncToInt_sub_int n hg.2 (by linarith [hg.1, hg.2])
  refine ⟨?_, h1.trans hq, h2, h3, h4⟩
  cases p with
  | rawMaterial r => exact h5 r rfl
  | nonPerishable r =>
    rw [h6 (fun _ hr => Product.noConfusion hr)]
    simp only [Product.quantity, truncToInt_intCast_sub]
    push_cast
    rfl
  | perishable r =>
    rw [h6 (fun _ hr => Product.noConfusion hr)]
    simp only [Product.quantity, truncToInt_intCast_sub]
    push_cast
    rfl
  | food r =>
    rw [h6 (fun _ hr => Product.noConfusion hr)]
    simp only [Product.quantity, truncToInt_intCast_sub]
    push_cast
    rfl
  | chemical r =>
    rw [h6 (fun _ hr => Product.noConfusion hr)]
    simp only [Product.quantity, truncToInt_intCast_sub]
    push_cast
    rfl

theorem rawMaterial_buyItem_of_fin (r : RawMaterial) (x s : ℚ)
    (hs : stockPlus r.quantity x = .fin s) :
    r.buyItem (.fin x) =
      if x > 0 ∧ s ≤ r.maxQuantity then (true, { r with quantity := s }) else (false, r) := by
  unfold RawMaterial.buyItem
  simp only []
  rw [hs]

theorem rawMaterial_buyItem_of_not_fin (r : RawMaterial) (x : ℚ)
    (hs : ∀ s, stockPlus r.quantity x ≠ .fin s) :
    r.buyItem (.fin x) = (false, r) := by
  unfold RawMaterial.buyItem
  simp only []

theorem rawMaterial_buyItem_not_fin (r : RawMaterial) (q : Double) (hq : ∀ x, q ≠ .fin x) :
    r.buyItem q = (false, r) := by
  unfold RawMaterial.buyItem
  cases q with
  | fin x => exact absurd rfl (hq x)
  | posInf => rfl
  | negInf => rfl
  | nan => rfl

theorem nonPerishable_buyItem_of_fin (r : NonPerishable) (x s : ℚ)
    (hs : stockPlus (r.quantity : ℚ) x = .fin s) :
    r.buyItem (.fin x) =
      if x > 0 ∧ s ≤ (r.maxQuantity : ℚ) then (true, { r with quantity := truncToInt s })
      else (false, r) := by
  unfold NonPerishable.buyItem
  simp only []
  rw [hs]

theorem nonPerishable_buyItem_of_not_fin (r : NonPerishable) (x : ℚ)
    (hs : ∀ s, stockPlus (r.quantity : ℚ) x ≠ .fin s) :
    r.buyItem (.fin x) = (false, r) := by
  unfold NonPerishable.buyItem
  simp only []

theorem nonPerishable_buyItem_not_fin (r : NonPerishable) (q : Double) (hq : ∀ x, q ≠ .fin x) :
    r.buyItem q = (false, r) := by
  unfold NonPerishable.buyItem
  cases q with
  | fin x => exact absurd rfl (hq x)
  | posInf => rfl
  | negInf => rfl
  | nan => rfl

theorem perishable_buyItem_of_fin (r : Perishable) (x s : ℚ)
    (hs : stockPlus (r.quantity : ℚ) x = .fin s) :
    r.buyItem (.fin x) =
      if x > 0 ∧ s ≤ (r.maxQuantity : ℚ) then (true, { r with quantity := truncToInt s })
      else (false, r) := by
  unfold Perishable.buyItem
  simp only []
  rw [hs]

theorem perishable_buyItem_of_not_fin (r : Perishable) (x : ℚ)
    (hs : ∀ s, stockPlus (r.quantity : ℚ) x ≠ .fin s) :
    r.buyItem (.fin x) = (false, r) := by
  unfold Perishable.buyItem
  simp only []

theorem perishable_buyItem_not_fin (r : Perishable) (q : Double) (hq : ∀ x, q ≠ .fin x) :
    r.buyItem q = (false, r) := by
  unfold Perishable.buyItem
  cases q with
  | fin x => exact absurd rfl (hq x)
  | posInf => rfl
  | negInf => rfl
  | nan => rfl

/-- The method `buyItem` on a finite amount, in terms of the rounded sum. -/
theorem buyItem_cases (p : Product) (x : ℚ) :
    (∃ s, stockPlus p.quantity x = .fin s ∧ 0 < x ∧ s ≤ p.maxQuantity ∧
        (p.buyItem (.fin x)).1 = true ∧
        (p.buyItem (.fin x)).2.getQuantity = truncToInt s ∧
        (p.buyItem (.fin x)).2.maxQuantity = p.maxQuantity ∧
        (p.buyItem (.fin x)).2.minQuantity = p.minQuantity ∧
        (p.buyItem (.fin x)).2.getId = p.getId ∧
        (∀ r, p = .rawMaterial r → (p.buyItem (.fin x)).2.quantity = s) ∧
        ((∀ r, p ≠ .rawMaterial r) →
          (p.buyItem (.fin x)).2.quantity = ((truncToInt s : Int) : ℚ))) ∨
      (p.buyItem (.fin x) = (false, p) ∧
        ¬ (0 < x ∧ ∃ s, stockPlus p.quantity x = .fin s ∧ s ≤ p.maxQuantity)) := by
  by_cases hfin : ∃ s, stockPlus p.quantity x = .fin s
  · obtain ⟨s, hs⟩ := hfin
    by_cases hg : x > 0 ∧ s ≤ p.maxQuantity
    · refine Or.inl ⟨s, hs, hg.1, hg.2, ?_⟩
      cases p with
      | rawMaterial r =>
        simp only [Product.quantity, Product.maxQuantity] at hs hg
        simp only [Product.buyItem, rawMaterial_buyItem_of_fin r x s hs]
        rw [if_pos hg]
        exact ⟨rfl, rfl, rfl, rfl, rfl, fun _ _ => rfl, fun hne => absurd rfl (hne r)⟩
      | nonPerishable r =>
        simp only [Product.quantity, Product.maxQuantity] at hs hg
        simp only [Product.buyItem, nonPerishable_buyItem_of_fin r x s hs]
        rw [if_pos hg]
        exact ⟨rfl, rfl, rfl, rfl, rfl, fun _ hr => Product.noConfusion hr, fun _ => rfl⟩
      | perishable r =>
        simp only [Product.quantity, Product.maxQuantity] at hs hg
        simp only [Product.buyItem, perishable_buyItem_of_fin r x s hs]
        rw [if_pos hg]
        exact ⟨rfl, rfl, rfl, rfl, rfl, fun _ hr => Product.noConfusion hr, fun _ => rfl⟩
      | food r =>
        simp only [Product.quantity, Product.maxQuantity] at hs hg
        simp only [Product.buyItem, perishable_buyItem_of_fin r.toPerishable x s hs]
        rw [if_pos hg]
        exact ⟨rfl, rfl, rfl, rfl, rfl, fun _ hr => Product.noConfusion hr, fun _ => rfl⟩
      | chemical r =>
        simp only [Product.quantity, Product.maxQuantity] at hs hg
        simp only [Product.buyItem, perishable_buyItem_of_fin r.toPerishable x s hs]
        rw [if_pos hg]
        exact ⟨rfl, rfl, rfl, rfl, rfl, fun _ hr => Product.noConfusion hr, fun _ => rfl⟩
    · refine Or.inr ⟨?_, ?_⟩
      · cases p with
        | rawMaterial r =>
          simp only [Product.quantity, Product.maxQuantity] at hs hg
          simp only [Product.buyItem, rawMaterial_buyItem_of_fin r x s hs]
          rw [if_neg hg]
        | nonPerishable r =>
          simp only [Product.quantity, Product.maxQuantity] at hs hg
          simp only [Product.buyItem, nonPerishable_buyItem_of_fin r x s hs]
          rw [if_neg hg]
        | perishable r =>
          simp only [Product.quantity, Product.maxQuantity] at hs hg
          simp only [Product.buyItem, perishable_buyItem_of_fin r x s hs]
          rw [if_neg hg]
        | food r =>
          simp only [Product.quantity, Product.maxQuantity] at hs hg
          simp only [Product.buyItem, perishable_buyItem_of_fin r.toPerishable x s hs]
          rw [if_neg hg]
        | chemical r =>
          simp only [Product.quantity, Product.maxQuantity] at hs hg
          simp only [Product.buyItem, perishable_buyItem_of_fin r.toPerishable x s hs]
          rw [if_neg hg]
      · rintro ⟨h0, t, ht, hle⟩
        rw [hs] at ht
        exact hg ⟨h0, (Double.fin.inj ht) ▸ hle⟩
  · have hne : ∀ s, stockPlus p.quantity x ≠ .fin s := fun s hs => hfin ⟨s, hs⟩
    refine Or.inr ⟨?_, ?_⟩
    · cases p with
      | rawMaterial r => simp only [Product.buyItem, rawMaterial_buyItem_of_not_fin r x hne]
      | nonPerishable r =>
        simp only [Product.buyItem, nonPerishable_buyItem_of_not_fin r x hne]
      | perishable r => simp only [Product.buyItem, perishable_buyItem_of_not_fin r x hne]
      | food r =>
        simp only [Product.buyItem, perishable_buyItem_of_not_fin r.toPerishable x hne]
      | chemical r =>
        simp only [Product.buyItem, perishable_buyItem_of_not_fin r.toPerishable x hne]
    · rintro ⟨-, t, ht, -⟩
      exact hne t ht

theorem buyItem_fst_iff (p : Product) (x : ℚ) :
    (p.buyItem (.fin x)).1 = true ↔
      0 < x ∧ ∃ s, stockPlus p.quantity x = .fin s ∧ s ≤ p.maxQuantity := by
  rcases buyItem_cases p x with ⟨s, hs, h0, hle, h1, -⟩ | ⟨hf, hn⟩
  · exact ⟨fun _ => ⟨h0, s, hs, hle⟩, fun _ => h1⟩
  · rw [hf]
    exact ⟨fun h => absurd h (by simp), fun h => absurd h hn⟩

theorem buyItem_not_fin (p : Product) (q : Double) (hq : ∀ x, q ≠ .fin x) :
    p.buyItem q = (false, p) := by
  cases p with
  | rawMaterial r => simp only [Product.buyItem, rawMaterial_buyItem_not_fin r q hq]
  | nonPerishable r => simp only [Product.buyItem, nonPerishable_buyItem_not_fin r q hq]
  | perishable r => simp only [Product.buyItem, perishable_buyItem_not_fin r q hq]
  | food r => simp only [Product.buyItem, perishable_buyItem_not_fin r.toPerishable q hq]
  | chemical r => simp only [Product.buyItem, perishable_buyItem_not_fin r.toPerishable q hq]

theorem buyItem_snd_of_false (p : Product) (q : Double) (h : (p.buyItem q).1 = false) :
    (p.buyItem q).2 = p := by
  cases q with
  | fin x =>
    rcases buyItem_cases p x with ⟨s, -, -, -, h1, -⟩ | ⟨hf, -⟩
    · rw [h1] at h
      exact absurd h (by simp)
    · rw [hf]
  | posInf => rw [buyItem_not_fin p _ (fun x hx => Double.noConfusion hx)]
  | negInf => rw [buyItem_not_fin p _ (fun x hx => Double.noConfusion hx)]
  | nan => rw [buyItem_not_fin p _ (fun x hx => Double.noConfusion hx)]

/-- A whole amount bought by a product whose stored quantity is a whole number: the sum is
exact. -/
theorem buyItem_int_fst_iff (p : Product) (n k : Int) (hk : p.quantity = k)
    (hb : |k + n| ≤ 2 ^ 53) :
    (p.buyItem (.fin n)).1 = true ↔ 0 < n ∧ p.quantity + n ≤ p.maxQuantity := by
  rw [buyItem_fst_iff, hk, stockPlus_intCast k n hb]
  constructor
  · rintro ⟨h0, s, hs, hle⟩
    rw [← Double.fin.inj hs] at hle
    exact ⟨by exact_mod_cast h0, hle⟩
  · rintro ⟨h0, hle⟩
    exact ⟨by exact_mod_cast h0, _, rfl, hle⟩

theorem buyItem_int_quantity (p : Product) (n k : Int) (hk : p.quantity = k)
    (hb : |k + n| ≤ 2 ^ 53) (h : (p.buyItem (.fin n)).1 = true) :
    (p.buyItem (.fin n)).2.quantity = p.quantity + n ∧
      (p.buyItem (.fin n)).2.getQuantity = p.getQuantity + n ∧
      (p.buyItem (.fin n)).2.maxQuantity = p.maxQuantity ∧
      (p.buyItem (.fin n)).2.minQuantity = p.minQuantity ∧
      (p.buyItem (.fin n)).2.getId = p.getId := by
  rcases buyItem_cases p n with ⟨s, hs, h0, hle, h1, h2, h3, h4, h5, h6, h7⟩ | ⟨hf, -⟩
  · rw [hk, stockPlus_intCast k n hb] at hs
    have hs2 : s = (k : ℚ) + n := (Double.fin.inj hs).symm
    have hg : p.getQuantity = k := by rw [getQuantity_eq_truncToInt, hk, truncToInt_intCast]
    refine ⟨?_, ?_, h3, h4, h5⟩
    · cases p with
      | rawMaterial r => rw [h6 r rfl, hs2, hk]
      | nonPerishable r =>
        rw [h7 (fun _ hr => Product.noConfusion hr), hs2, hk, truncToInt_intCast_add]
        push_cast
        rfl
      | perishable r =>
        rw [h7 (fun _ hr => Product.noConfusion hr), hs2, hk, truncToInt_intCast_add]
        push_cast
        rfl
      | food r =>
        rw [h7 (fun _ hr => Product.noConfusion hr), hs2, hk, truncToInt_intCast_add]
        push_cast
        rfl
      | chemical r =>
        rw [h7 (fun _ hr => Product.noConfusion hr), hs2, hk, truncToInt_intCast_add]
        push_cast
        rfl
    · rw [h2, hs2, hg, truncToInt_intCast_add]
  · rw [hf] at h
    exact absurd h (by simp)

theorem roundNearest_half_int (k : Int) (h : |k| < 2 ^ 53) :
    roundNearest ((k : ℚ) / 2) = (k : ℚ) / 2 := by
  have := roundNearest_dyadic k (-1) h (by norm_num)
  have h2 : (k : ℚ) * 2 ^ (-1 : Int) = (k : ℚ) / 2 := by
    rw [zpow_neg, zpow_one, div_eq_mul_inv]
  rwa [h2] at this

theorem isBinary64_two_pow_neg (j : Nat) (h : j ≤ 1074) :
    isBinary64 (1 / 2 ^ j) = true := by
  have := isBinary64_dyadic 1 (-(j : Int)) (by norm_num) (by omega) (by omega)
  have h2 : ((1 : Int) : ℚ) * 2 ^ (-(j : Int)) = 1 / 2 ^ j := by
    rw [zpow_neg, zpow_natCast]
    simp
  rwa [h2] at this

theorem isBinary64_half : isBinary64 (1 / 2) = true := by
  have := isBinary64_two_pow_neg 1 (by norm_num)
  simpa using this

theorem samplePerishable_stock :
    samplePerishable.quantity = 10 ∧ samplePerishable.maxQuantity = 100 ∧
      samplePerishable.getQuantity = 10 := by
  refine ⟨?_, ?_, ?_⟩ <;>
    norm_num [samplePerishable, Perishable.setQuantity, Perishable.setTotalQuantity,
      Perishable.new, Product.quantity, Product.maxQuantity, Product.getQuantity]

theorem fullPerishable_stock :
    fullPerishable.quantity = 100 ∧ fullPerishable.maxQuantity = 100 ∧
      fullPerishable.getQuantity = 100 := by
  refine ⟨?_, ?_, ?_⟩ <;>
    norm_num [fullPerishable, Perishable.setQuantity, Perishable.setTotalQuantity,
      Perishable.new, Product.quantity, Product.maxQuantity, Product.getQuantity]

theorem isStock_ten : isStock 10 = true := by
  have := isStock_intCast 10 (by norm_num)
  simpa using this

theorem isStock_hundred : isStock 100 = true := by
  have := isStock_intCast 100 (by norm_num)
  simpa using this

theorem stockMinus_ten_half : stockMinus 10 (1 / 2) = 19 / 2 := by
  rw [stockMinus_of_valid _ _ isStock_ten isBinary64_half]
  have := roundNearest_half_int 19 (by norm_num)
  norm_num at this ⊢
  exact this

theorem stockPlus_ten_half : stockPlus 10 (1 / 2) = .fin (21 / 2) := by
  rw [stockPlus_of_valid _ _ isStock_ten isBinary64_half]
  have h := roundNearest_half_int 21 (by norm_num)
  have h2 : (10 : ℚ) + 1 / 2 = ((21 : Int) : ℚ) / 2 := by norm_num
  rw [h2, round64_of_abs_lt _ (by rw [h, abs_of_nonneg (by norm_num)]; norm_num), h]
  norm_num

/-- Ten less `2 ^ -60` rounds to ten: the spacing of binary64 values below 16 is `2 ^ -49`. -/
theorem stockMinus_ten_tiny : stockMinus 10 (1 / 2 ^ 60) = 10 := by
  rw [stockMinus_of_valid _ _ isStock_ten (isBinary64_two_pow_neg 60 (by norm_num))]
  have hb : binade (10 - 1 / 2 ^ 60 : ℚ) = 3 :=
    binade_eq _ 3 (by norm_num) (by norm_num) (by norm_num)
  unfold roundNearest
  rw [if_neg (by norm_num), roundPos_of_near _ 3 (10 * 2 ^ 49) hb (by norm_num [abs_lt])]
  norm_num

/-- A hundred and `2 ^ -60` rounds to a hundred: the spacing of binary64 values below 128 is
`2 ^ -46`. -/
theorem stockPlus_hundred_tiny : stockPlus 100 (1 / 2 ^ 60) = .fin 100 := by
  rw [stockPlus_of_valid _ _ isStock_hundred (isBinary64_two_pow_neg 60 (by norm_num))]
  have hb : binade (100 + 1 / 2 ^ 60 : ℚ) = 6 :=
    binade_eq _ 6 (by norm_num) (by norm_num) (by norm_num)
  have hr : roundNearest (100 + 1 / 2 ^ 60) = 100 := by
    unfold roundNearest
    rw [if_neg (by norm_num), roundPos_of_near _ 6 (100 * 2 ^ 46) hb (by norm_num [abs_lt])]
    norm_num
  rw [round64_of_abs_lt _ (by rw [hr]; norm_num), hr]

theorem isStock_zero : isStock 0 = true := by
  have := isStock_intCast 0 (by norm_num)
  simpa using this

theorem isStock_two_pow_neg (j : Nat) (h : j ≤ 1074) : isStock (1 / 2 ^ j) = true := by
  rw [isStock_iff]
  refine ⟨isBinary64_two_pow_neg j h, ?_⟩
  rw [abs_of_nonneg (by positivity)]
  have h1 : (1 : ℚ) ≤ 2 ^ j := one_le_pow₀ (by norm_num)
  have h2 : (1 : ℚ) / 2 ^ j ≤ 1 := by
    rw [div_le_one (by positivity)]
    exact h1
  linarith [show (1 : ℚ) ≤ 2 ^ 31 by norm_num]

theorem stockPlus_zero_tiny : stockPlus 0 (1 / 2 ^ 60) = .fin (1 / 2 ^ 60) := by
  have hb := isBinary64_two_pow_neg 60 (by norm_num)
  rw [stockPlus_of_valid _ _ isStock_zero hb, zero_add]
  unfold isBinary64 at hb
  simpa using hb

/-- The sum of `2 ^ -60` and a hundred rounds to a hundred. -/
theorem stockPlus_tiny_hundred : stockPlus (1 / 2 ^ 60) ((100 : Int) : ℚ) = .fin 100 := by
  rw [stockPlus_of_valid _ _ (isStock_two_pow_neg 60 (by norm_num))
    (isBinary64_intCast 100 (by norm_num))]
  have hb : binade (1 / 2 ^ 60 + ((100 : Int) : ℚ)) = 6 :=
    binade_eq _ 6 (by norm_num) (by norm_num) (by norm_num)
  have hr : roundNearest (1 / 2 ^ 60 + ((100 : Int) : ℚ)) = 100 := by
    unfold roundNearest
    rw [if_neg (by norm_num), roundPos_of_near _ 6 (100 * 2 ^ 46) hb (by norm_num [abs_lt])]
    norm_num
  rw [round64_of_abs_lt _ (by rw [hr]; norm_num), hr]

theorem isBinary64_below_one : isBinary64 (1 - 1 / 2 ^ 53) = true := by
  have := isBinary64_dyadic (2 ^ 53 - 1) (-53) (by norm_num) (by norm_num) (by norm_num)
  have h2 : (((2 ^ 53 - 1 : Int)) : ℚ) * 2 ^ (-53 : Int) = 1 - 1 / 2 ^ 53 := by
    rw [zpow_neg]
    norm_num
  rwa [h2] at this

/-- Ten and `1 - 2 ^ -53` add up to eleven in binary64. -/
theorem stockPlus_ten_below_one : stockPlus 10 (1 - 1 / 2 ^ 53) = .fin 11 := by
  rw [stockPlus_of_valid _ _ isStock_ten isBinary64_below_one]
  have hb : binade (10 + (1 - 1 / 2 ^ 53) : ℚ) = 3 :=
    binade_eq _ 3 (by norm_num) (by norm_num) (by norm_num)
  have hr : roundNearest (10 + (1 - 1 / 2 ^ 53)) = 11 := by
    unfold roundNearest
    rw [if_neg (by norm_num), roundPos_of_near _ 3 (11 * 2 ^ 49) hb (by norm_num [abs_lt])]
    norm_num
  rw [round64_of_abs_lt _ (by rw [hr]; norm_num), hr]

/-- C5 (counterexample): a `Perishable` holding 10 units accepts `useItem(0.5)` and then
reports 9 units, not 10 − 0.5. -/
theorem c5_fractional_use_truncates :
    (samplePerishable.useItem (.fin (1 / 2))).1 = true ∧
      (samplePerishable.useItem (.fin (1 / 2))).2.getQuantity = 9 ∧
      (((samplePerishable.useItem (.fin (1 / 2))).2.getQuantity : Int) : ℚ) ≠
        (samplePerishable.getQuantity : ℚ) - 1 / 2 := by
  have h : (samplePerishable.useItem (.fin (1 / 2))).1 = true := by
    rw [useItem_fst_iff, samplePerishable_stock.1]
    norm_num
  have hq : (samplePerishable.useItem (.fin (1 / 2))).2.getQuantity = 9 := by
    rw [(useItem_result _ _ h).1, samplePerishable_stock.1, stockMinus_ten_half]
    norm_num [truncToInt]
  refine ⟨h, hq, ?_⟩
  rw [hq, samplePerishable_stock.2.2]
  norm_num

/-- A `Perishable` holding 10 units accepts `useItem(2^-60)` and still holds 10 units: the
difference is rounded to binary64 before it is truncated. -/
theorem useItem_below_spacing :
    (samplePerishable.useItem (.fin (1 / 2 ^ 60))).1 = true ∧
      (samplePerishable.useItem (.fin (1 / 2 ^ 60))).2.getQuantity = 10 ∧
      truncToInt (samplePerishable.quantity - 1 / 2 ^ 60) = 9 := by
  have h : (samplePerishable.useItem (.fin (1 / 2 ^ 60))).1 = true := by
    rw [useItem_fst_iff, samplePerishable_stock.1]
    norm_num
  refine ⟨h, ?_, ?_⟩
  · rw [(useItem_result _ _ h).1, samplePerishable_stock.1, stockMinus_ten_tiny]
    exact truncToInt_intCast 10
  · rw [samplePerishable_stock.1]
    unfold truncToInt
    rw [if_pos (by norm_num), Int.floor_eq_iff]
    norm_num

/-- C5 (amended): after a successful `useItem(q)` the quantity `getQuantity()` reports is the
difference of the stored quantity and `q` in `double` (the nearest binary64 value, which lies
between 0 and the stored quantity) truncated toward zero; a `RawMaterial` stores that
difference and truncates in the getter; for a whole number `q` the reported quantity is
exactly the previously reported quantity minus `q`. -/
theorem c5_useItem_quantity (p : Product) (q : ℚ) (h : (p.useItem (.fin q)).1 = true) :
    (p.useItem (.fin q)).2.getQuantity = truncToInt (stockMinus p.quantity q) ∧
      (isStock p.quantity = true → isBinary64 q = true →
        stockMinus p.quantity q = roundNearest (p.quantity - q)) ∧
      (0 ≤ stockMinus p.quantity q ∧ stockMinus p.quantity q ≤ p.quantity) ∧
      (∀ r, p = .rawMaterial r → (p.useItem (.fin q)).2.quantity = stockMinus p.quantity q) ∧
      ∀ n : Int, q = n → (p.useItem (.fin q)).2.getQuantity = p.getQuantity - n := by
  have hg := (useItem_fst_iff p q).1 h
  refine ⟨(useItem_result p q h).1, stockMinus_of_valid _ _, stockMinus_bounds _ _ hg.1 hg.2,
    (useItem_result p q h).2.2.2.2.1, ?_⟩
  intro n hn
  subst hn
  exact (useItem_int_quantity p n h).2.1

/-- C5 (witness): a `Perishable` holding 10 units, `useItem(3)`. -/
theorem c5_useItem_quantity_witness :
    (samplePerishable.useItem (.fin 3)).1 = true ∧
      (samplePerishable.useItem (.fin 3)).2.getQuantity = 7 :=
  have h : (samplePerishable.useItem (.fin 3)).1 = true := by
    rw [useItem_fst_iff, samplePerishable_stock.1]
    norm_num
  ⟨h, by
    have := (c5_useItem_quantity samplePerishable 3 h).2.2.2.2 3 (by norm_num)
    rw [this, samplePerishable_stock.2.2]
    norm_num⟩

/-- C6 (counterexample): a `Perishable` holding 100 units of at most 100 accepts
`buyItem(2^-60)`, although 100 + 2^-60 exceeds the maximum: the sum is rounded to 100 before
it is compared. -/
theorem c6_full_stock_accepts_tiny_amount :
    fullPerishable.quantity = 100 ∧ fullPerishable.maxQuantity = 100 ∧
      (fullPerishable.buyItem (.fin (1 / 2 ^ 60))).1 = true ∧
      ¬ fullPerishable.quantity + 1 / 2 ^ 60 ≤ fullPerishable.maxQuantity := by
  refine ⟨fullPerishable_stock.1, fullPerishable_stock.2.1, ?_, ?_⟩
  · rw [buyItem_fst_iff, fullPerishable_stock.1, fullPerishable_stock.2.1]
    exact ⟨by norm_num, 100, stockPlus_hundred_tiny, le_refl _⟩
  · rw [fullPerishable_stock.1, fullPerishable_stock.2.1]
    norm_num

/-- C6 (amended): `buyItem(q)` returns true exactly when `q` is a finite amount with `0 < q`
and the sum of the stored quantity and `q` in `double` (the nearest binary64 value) does not
exceed `maxQuantity`.  It does so whenever `quantity + q ≤ maxQuantity`, and for a whole
number `q` and a whole stored quantity the two conditions are the same; a call that returns
false leaves the quantity (indeed the whole object) unchanged. -/
theorem c6_buyItem_succeeds_iff (p : Product) (q : Double) :
    ((p.buyItem q).1 = true ↔
        ∃ x s : ℚ, q = .fin x ∧ 0 < x ∧ stockPlus p.quantity x = .fin s ∧
          s ≤ p.maxQuantity) ∧
      (∀ x : ℚ, isStock p.quantity = true → isBinary64 x = true →
        stockPlus p.quantity x = round64 (p.quantity + x)) ∧
      (∀ x : ℚ, q = .fin x → 0 < x → p.quantity + x ≤ p.maxQuantity →
        isStock p.maxQuantity = true → (p.buyItem q).1 = true) ∧
      (∀ n k : Int, q = .fin n → p.quantity = k → |k + n| ≤ 2 ^ 53 →
        ((p.buyItem q).1 = true ↔ 0 < n ∧ p.quantity + n ≤ p.maxQuantity)) ∧
      ((p.buyItem q).1 = false →
        (p.buyItem q).2 = p ∧ (p.buyItem q).2.getQuantity = p.getQuantity) := by
  refine ⟨?_, fun x => stockPlus_of_valid _ _, ?_, ?_, ?_⟩
  · cases q with
    | fin x =>
      rw [buyItem_fst_iff]
      constructor
      · rintro ⟨h0, s, hs, hle⟩
        exact ⟨x, s, rfl, h0, hs, hle⟩
      · rintro ⟨y, s, hy, h0, hs, hle⟩
        rw [← Double.fin.inj hy] at h0 hs
        exact ⟨h0, s, hs, hle⟩
    | posInf =>
      rw [buyItem_not_fin p _ (fun x hx => Double.noConfusion hx)]
      exact ⟨fun h => absurd h (by simp), fun ⟨_, _, hx, _⟩ => Double.noConfusion hx⟩
    | negInf =>
      rw [buyItem_not_fin p _ (fun x hx => Double.noConfusion hx)]
      exact ⟨fun h => absurd h (by simp), fun ⟨_, _, hx, _⟩ => Double.noConfusion hx⟩
    | nan =>
      rw [buyItem_not_fin p _ (fun x hx => Double.noConfusion hx)]
      exact ⟨fun h => absurd h (by simp), fun ⟨_, _, hx, _⟩ => Double.noConfusion hx⟩
  · intro x hq h0 hle hM
    subst hq
    rw [buyItem_fst_iff]
    obtain ⟨s, hs, hsle⟩ := stockPlus_le p.quantity x p.maxQuantity (Or.inl hM) h0 hle
    exact ⟨h0, s, hs, hsle⟩
  · intro n k hq hk hb
    subst hq
    exact buyItem_int_fst_iff p n k hk hb
  · intro h
    have := buyItem_snd_of_false p q h
    exact ⟨this, by rw [this]⟩

/-- C7 (counterexample): a `Perishable` holding 10 units of at most 100 accepts
`buyItem(0.5)` and then still reports 10 units, not 10 + 0.5. -/
theorem c7_fractional_buy_truncates :
    (samplePerishable.buyItem (.fin (1 / 2))).1 = true ∧
      (samplePerishable.buyItem (.fin (1 / 2))).2.getQuantity = 10 ∧
      (((samplePerishable.buyItem (.fin (1 / 2))).2.getQuantity : Int) : ℚ) ≠
        (samplePerishable.getQuantity : ℚ) + 1 / 2 := by
  rcases buyItem_cases samplePerishable (1 / 2) with
    ⟨s, hs, h0, hle, h1, h2, -⟩ | ⟨-, hn⟩
  · rw [samplePerishable_stock.1, stockPlus_ten_half] at hs
    have hs2 : s = 21 / 2 := (Double.fin.inj hs).symm
    have hq : (samplePerishable.buyItem (.fin (1 / 2))).2.getQuantity = 10 := by
      rw [h2, hs2]
      norm_num [truncToInt]
    refine ⟨h1, hq, ?_⟩
    rw [hq, samplePerishable_stock.2.2]
    norm_num
  · exfalso
    apply hn
    rw [samplePerishable_stock.1, samplePerishable_stock.2.1]
    exact ⟨by norm_num, 21 / 2, stockPlus_ten_half, by norm_num⟩

/-- A `Perishable` holding 10 units of at most 100 accepts `buyItem(1 - 2^-53)` and then
holds 11 units: the sum is rounded to binary64 before it is truncated. -/
theorem buyItem_rounds_up :
    (samplePerishable.buyItem (.fin (1 - 1 / 2 ^ 53))).1 = true ∧
      (samplePerishable.buyItem (.fin (1 - 1 / 2 ^ 53))).2.getQuantity = 11 ∧
      truncToInt (samplePerishable.quantity + (1 - 1 / 2 ^ 53)) = 10 := by
  have hs : stockPlus samplePerishable.quantity (1 - 1 / 2 ^ 53) = .fin 11 := by
    rw [samplePerishable_stock.1]
    exact stockPlus_ten_below_one
  rcases buyItem_cases samplePerishable (1 - 1 / 2 ^ 53) with
    ⟨s, hs2, -, -, h1, h2, -⟩ | ⟨-, hn⟩
  · rw [hs] at hs2
    have hs3 : s = 11 := (Double.fin.inj hs2).symm
    refine ⟨h1, ?_, ?_⟩
    · rw [h2, hs3]
      exact truncToInt_intCast 11
    · rw [samplePerishable_stock.1]
      unfold truncToInt
      rw [if_pos (by norm_num), Int.floor_eq_iff]
      norm_num
  · exfalso
    apply hn
    rw [samplePerishable_stock.2.1]
    exact ⟨by norm_num, 11, hs, by norm_num⟩

/-- C7 (amended): after a successful `buyItem(q)` the quantity `getQuantity()` reports is the
sum `s` of the stored quantity and `q` in `double` (the nearest binary64 value) truncated
toward zero; `s`, and with it the stored quantity, does not exceed the stored `maxQuantity`;
a `RawMaterial` stores `s`; and for a whole number `q` and a whole stored quantity the
reported quantity is exactly the previously reported quantity plus `q`. -/
theorem c7_buyItem_quantity (p : Product) (q : ℚ) (h : (p.buyItem (.fin q)).1 = true) :
    (∃ s : ℚ, stockPlus p.quantity q = .fin s ∧ s ≤ p.maxQuantity ∧
        (p.buyItem (.fin q)).2.getQuantity = truncToInt s ∧
        (∀ r, p = .rawMaterial r → (p.buyItem (.fin q)).2.quantity = s)) ∧
      (isStock p.quantity = true → isBinary64 q = true →
        stockPlus p.quantity q = round64 (p.quantity + q)) ∧
      (p.buyItem (.fin q)).2.quantity ≤ (p.buyItem (.fin q)).2.maxQuantity ∧
      ∀ n k : Int, q = n → p.quantity = k → |k + n| ≤ 2 ^ 53 →
        (p.buyItem (.fin q)).2.getQuantity = p.getQuantity + n := by
  rcases buyItem_cases p q with ⟨s, hs, h0, hle, h1, h2, h3, h4, h5, h6, h7⟩ | ⟨hf, -⟩
  · refine ⟨⟨s, hs, hle, h2, h6⟩, stockPlus_of_valid _ _, ?_, ?_⟩
    · rw [h3]
      cases p with
      | rawMaterial r => rw [h6 r rfl]; exact hle
      | nonPerishable r =>
        rw [h7 (fun _ hr => Product.noConfusion hr)]
        simp only [Product.maxQuantity] at hle ⊢
        exact_mod_cast truncToInt_le_of_le_int _ hle
      | perishable r =>
        rw [h7 (fun _ hr => Product.noConfusion hr)]
        simp only [Product.maxQuantity] at hle ⊢
        exact_mod_cast truncToInt_le_of_le_int _ hle
      | food r =>
        rw [h7 (fun _ hr => Product.noConfusion hr)]
        simp only [Product.maxQuantity] at hle ⊢
        exact_mod_cast truncToInt_le_of_le_int _ hle
      | chemical r =>
        rw [h7 (fun _ hr => Product.noConfusion hr)]
        simp only [Product.maxQuantity] at hle ⊢
        exact_mod_cast truncToInt_le_of_le_int _ hle
    · intro n k hn hk hb
      subst hn
      exact (buyItem_int_quantity p n k hk hb h).2.1
  · rw [hf] at h
    exact absurd h (by simp)

/-- C7 (witness): a `Perishable` holding 10 units of at most 100, `buyItem(5)`. -/
theorem c7_buyItem_quantity_witness :
    (samplePerishable.buyItem (.fin 5)).1 = true ∧
      (samplePerishable.buyItem (.fin 5)).2.getQuantity = 15 :=
  have h : (samplePerishable.buyItem (.fin 5)).1 = true := by
    have := (buyItem_int_fst_iff samplePerishable 5 10
      (by rw [samplePerishable_stock.1]; norm_num) (by norm_num)).2
    rw [samplePerishable_stock.1, samplePerishable_stock.2.1] at this
    exact this (by norm_num)
  ⟨h, by
    have := (c7_buyItem_quantity samplePerishable 5 h).2.2.2 5 10 (by norm_num)
      (by rw [samplePerishable_stock.1]; norm_num) (by norm_num)
    rw [this, samplePerishable_stock.2.2]
    norm_num⟩

/-! ### The values a stock member holds -/

theorem isStock_of_isInt32 (n : Int) (h : isInt32 n) : isStock (n : ℚ) = true := by
  obtain ⟨h1, h2⟩ := h
  simp only [INT_MIN, INT_MAX] at h1 h2
  apply isStock_intCast
  rw [abs_le]
  constructor <;> norm_num <;> omega

/-- The stock members of a `RawMaterial` hold stock values in every state the class reaches:
the constructor gives them such values, and `setQuantity`, `setTotalQuantity` and
`setMinimumQuantity` with an `int`, and `useItem` and `buyItem` with a `double`, keep them
so.  The sums and differences of `stockPlus` and `stockMinus` are therefore always the rounded
ones. -/
theorem rawMaterial_stock_values (r : RawMaterial) (n : Int) (x : Double) (h : r.stockValid)
    (hn : isInt32 n) (hx : ∀ q, x = .fin q → isBinary64 q = true) :
    (∀ id name price supplier, (RawMaterial.new id name price supplier).stockValid) ∧
      (r.setQuantity n).2.stockValid ∧ (r.setTotalQuantity n).stockValid ∧
      (r.setMinimumQuantity n).stockValid ∧ (r.useItem x).2.stockValid ∧
      (r.buyItem x).2.stockValid := by
  obtain ⟨h1, h2, h3⟩ := h
  refine ⟨?_, ?_, ?_, ⟨h1, h2, h3⟩, ?_, ?_⟩
  · intro id name price supplier
    refine ⟨?_, ?_, le_refl _⟩
    · exact isStock_zero
    · have := isStock_intCast 1 (by norm_num)
      simpa [RawMaterial.new] using this
  · unfold RawMaterial.setQuantity
    split_ifs with hg
    · exact ⟨isStock_of_isInt32 n hn, h2, Int.cast_nonneg.2 hg⟩
    · exact ⟨h1, h2, h3⟩
  · unfold RawMaterial.setTotalQuantity
    split_ifs with hg
    · exact ⟨h1, isStock_of_isInt32 n hn, h3⟩
    · exact ⟨h1, h2, h3⟩
  · cases x with
    | fin q =>
      simp only [RawMaterial.useItem]
      split_ifs with hg
      · exact ⟨isStock_stockMinus _ _ h1 (hx q rfl) hg.1 hg.2, h2,
          (stockMinus_bounds _ _ hg.1 hg.2).1⟩
      · exact ⟨h1, h2, h3⟩
    | posInf => exact ⟨h1, h2, h3⟩
    | negInf => exact ⟨h1, h2, h3⟩
    | nan => exact ⟨h1, h2, h3⟩
  · cases x with
    | fin q =>
      by_cases hfin : ∃ s, stockPlus r.quantity q = .fin s
      · obtain ⟨s, hs⟩ := hfin
        rw [rawMaterial_buyItem_of_fin r q s hs]
        split_ifs with hg
        · have h0 : 0 ≤ r.quantity + q := by linarith [hg.1]
          exact ⟨isStock_stockPlus _ _ s _ h1 (hx q rfl) h2 h0 hs hg.2, h2,
            stockPlus_nonneg _ _ s hs h0⟩
        · exact ⟨h1, h2, h3⟩
      · rw [rawMaterial_buyItem_of_not_fin r q (fun s hs => hfin ⟨s, hs⟩)]
        exact ⟨h1, h2, h3⟩
    | posInf =>
      rw [rawMaterial_buyItem_not_fin r _ (fun x hx => Double.noConfusion hx)]
      exact ⟨h1, h2, h3⟩
    | negInf =>
      rw [rawMaterial_buyItem_not_fin r _ (fun x hx => Double.noConfusion hx)]
      exact ⟨h1, h2, h3⟩
    | nan =>
      rw [rawMaterial_buyItem_not_fin r _ (fun x hx => Double.noConfusion hx)]
      exact ⟨h1, h2, h3⟩

/-- The stock members of the other variants are `int` members, whose conversion to `double`
is a stock value. -/
theorem int_variant_stock_values (p : Product) (h : ∀ r, p ≠ .rawMaterial r)
    (hq : isInt32 p.getQuantity) (hm : isInt32 p.getMaxQuantity) :
    isStock p.quantity = true ∧ isStock p.maxQuantity = true := by
  cases p with
  | rawMaterial r => exact absurd rfl (h r)
  | nonPerishable r => exact ⟨isStock_of_isInt32 _ hq, isStock_of_isInt32 _ hm⟩
  | perishable r => exact ⟨isStock_of_isInt32 _ hq, isStock_of_isInt32 _ hm⟩
  | food r => exact ⟨isStock_of_isInt32 _ hq, isStock_of_isInt32 _ hm⟩
  | chemical r => exact ⟨isStock_of_isInt32 _ hq, isStock_of_isInt32 _ hm⟩

/-! ## Stock setters -/

/-- C8 (failing input): `setMinimumQuantity(-3)` on a newly constructed `NonPerishable`
leaves it with the quantity −3. -/
theorem c8_nonPerishable_setMinimumQuantity_negative :
    0 ≤ sampleNonPerishable.getQuantity ∧
      (sampleNonPerishable.setMinimumQuantity (-3)).getQuantity = -3 ∧
      (sampleNonPerishable.setMinimumQuantity (-3)).getMinQuantity = 5 := by
  decide

/-- C9: `setQuantity(q)` returns true exactly when `q ≥ 0` for the Perishable family and
exactly when `0 ≤ q ≤ maxQuantity` for `NonPerishable`; a call that returns true makes `q` the
current quantity and keeps both bounds, a call that returns false changes nothing. -/
theorem c9_setQuantity (p : Product) (q : Int) :
    (p.isPerishableFamily = true → ((p.setQuantity q).1 = true ↔ q ≥ 0)) ∧
      ((∃ np, p = .nonPerishable np) →
        ((p.setQuantity q).1 = true ↔ 0 ≤ q ∧ q ≤ p.getMaxQuantity)) ∧
      ((p.setQuantity q).1 = true →
        (p.setQuantity q).2.getQuantity = q ∧
          (p.setQuantity q).2.getMinQuantity = p.getMinQuantity ∧
          (p.setQuantity q).2.getMaxQuantity = p.getMaxQuantity) ∧
      ((p.setQuantity q).1 = false → (p.setQuantity q).2 = p) := by
  cases p <;>
    simp [Product.setQuantity, Perishable.setQuantity, NonPerishable.setQuantity,
      RawMaterial.setQuantity, Product.isPerishableFamily, Product.getQuantity,
      Product.getMinQuantity, Product.getMaxQuantity, RawMaterial.getQuantity,
      RawMaterial.getMinQuantity, RawMaterial.getMaxQuantity] <;>
    split_ifs <;> simp_all [truncToInt_intCast]

/-- C10 (counterexample): a `Perishable` holding 10 units accepts `setTotalQuantity(5)`, which
lowers the cap below the current stock, and `setTotalQuantity(-1)`, which stores a negative
cap. -/
theorem c10_perishable_cap_lowered :
    samplePerishable.getQuantity = 10 ∧
      (samplePerishable.setTotalQuantity 5).getMaxQuantity = 5 ∧
      (samplePerishable.setTotalQuantity (-1)).getMaxQuantity = -1 ∧
      samplePerishable.setTotalQuantity 5 ≠ samplePerishable := by
  decide

/-- C10 (amended): `setTotalQuantity(max)` on a `NonPerishable` sets `maxQuantity` to `max`
if `max > 0` and the current quantity is below `max` and changes nothing otherwise; on a
`Perishable`, `Food` or `Chemical` it always sets `maxQuantity` to `max`; on a `RawMaterial`
it sets `maxQuantity` to `max` if `max ≥ 0` and changes nothing otherwise; it never changes
the quantity or the minimum. -/
theorem c10_setTotalQuantity (p : Product) (max : Int) :
    ((∃ np, p = .nonPerishable np) →
        (p.setTotalQuantity max).getMaxQuantity =
            (if max > 0 ∧ p.getQuantity < max then max else p.getMaxQuantity) ∧
          (¬ (max > 0 ∧ p.getQuantity < max) → p.setTotalQuantity max = p)) ∧
      (p.isPerishableFamily = true → (p.setTotalQuantity max).getMaxQuantity = max) ∧
      ((∃ rm, p = .rawMaterial rm) →
        (p.setTotalQuantity max).getMaxQuantity = (if max ≥ 0 then max else p.getMaxQuantity) ∧
          (¬ max ≥ 0 → p.setTotalQuantity max = p)) ∧
      (p.setTotalQuantity max).getQuantity = p.getQuantity ∧
      (p.setTotalQuantity max).getMinQuantity = p.getMinQuantity := by
  cases p <;>
    simp [Product.setTotalQuantity, Perishable.setTotalQuantity,
      NonPerishable.setTotalQuantity, RawMaterial.setTotalQuantity, Product.isPerishableFamily,
      Product.getQuantity, Product.getMinQuantity, Product.getMaxQuantity,
      RawMaterial.getQuantity, RawMaterial.getMinQuantity, RawMaterial.getMaxQuantity] <;>
    split_ifs <;> simp_all [truncToInt_intCast]

/-! ## Streams: reading back what was written -/

theorem splitDelim_field (delim : Char) (tok rest : Str) (h : delim ∉ tok) :
    splitDelim delim (tok ++ delim :: rest) = (tok, some rest) := by
  induction tok with
  | nil => simp [splitDelim]
  | cons c cs ih =>
    have hc : c ≠ delim := fun e => h (by simp [e])
    have hcs : delim ∉ cs := fun e => h (by simp [e])
    simp [splitDelim, hc, ih hcs]

theorem splitDelim_last (delim : Char) (tok : Str) (h : delim ∉ tok) :
    splitDelim delim tok = (tok, none) := by
  induction tok with
  | nil => simp [splitDelim]
  | cons c cs ih =>
    have hc : c ≠ delim := fun e => h (by simp [e])
    have hcs : delim ∉ cs := fun e => h (by simp [e])
    simp [splitDelim, hc, ih hcs]

theorem getline_field (delim : Char) (tok rest old : Str) (h : delim ∉ tok) :
    getline { buf := tok ++ delim :: rest, eofbit := false, failbit := false } old delim =
      ({ buf := rest, eofbit := false, failbit := false }, tok) := by
  simp [getline, IStream.good, splitDelim_field delim tok rest h]

theorem getline_last (delim : Char) (tok old : Str) (h : delim ∉ tok) :
    getline { buf := tok, eofbit := false, failbit := false } old delim =
      ({ buf := [], eofbit := true, failbit := tok.isEmpty }, tok) := by
  simp [getline, IStream.good, splitDelim_last delim tok h]

theorem ignore_cons (c : Char) (rest : Str) :
    ignore { buf := c :: rest, eofbit := false, failbit := false } =
      { buf := rest, eofbit := false, failbit := false } := by
  simp [ignore, IStream.good]

/-! ### Decimal digits -/

theorem digitChar_isDigit (d : Nat) (h : d < 10) : (digitChar d).isDigit = true := by
  interval_cases d <;> decide

theorem digitChar_value (d : Nat) (h : d < 10) : (digitChar d).toNat - 48 = d := by
  interval_cases d <;> decide

theorem digitsValue_append_singleton (ds : Str) (c : Char) :
    digitsValue (ds ++ [c]) = 10 * digitsValue ds + (c.toNat - 48) := by
  simp [digitsValue, List.foldl_append]

theorem printNatAux_spec (fuel : Nat) :
    ∀ (n : Nat) (acc : Str), n < fuel →
      ∃ ds : Str, printNatAux fuel n acc = ds ++ acc ∧ ds ≠ [] ∧
        (∀ c ∈ ds, c.isDigit = true) ∧ digitsValue ds = n := by
  induction fuel with
  | zero => intro n acc h; omega
  | succ fuel ih =>
    intro n acc h
    by_cases h10 : n < 10
    · refine ⟨[digitChar n], by simp [printNatAux, h10], by simp, ?_, ?_⟩
      · intro c hc
        simp at hc
        subst hc
        exact digitChar_isDigit n h10
      · simp [digitsValue, digitChar_value n h10]
    · obtain ⟨ds, h1, h2, h3, h4⟩ := ih (n / 10) (digitChar (n % 10) :: acc) (by omega)
      refine ⟨ds ++ [digitChar (n % 10)], by simp [printNatAux, h10, h1], by simp, ?_, ?_⟩
      · intro c hc
        rcases List.mem_append.mp hc with hc | hc
        · exact h3 c hc
        · simp at hc
          subst hc
          exact digitChar_isDigit _ (Nat.mod_lt _ (by norm_num))
      · rw [digitsValue_append_singleton, h4, digitChar_value _ (Nat.mod_lt _ (by norm_num))]
        omega

theorem printNat_spec (n : Nat) :
    printNat n ≠ [] ∧ (∀ c ∈ printNat n, c.isDigit = true) ∧ digitsValue (printNat n) = n := by
  obtain ⟨ds, h1, h2, h3, h4⟩ := printNatAux_spec (n + 1) n [] (by omega)
  have : printNat n = ds := by simp [printNat, h1]
  rw [this]
  exact ⟨h2, h3, h4⟩

/-- The characters that can follow a number in a record: they do not start with a digit. -/
theorem takeWhile_digits_append (ds rest : Str) (h : ∀ c ∈ ds, c.isDigit = true)
    (hr : ∀ c ∈ rest.head?, c.isDigit = false) :
    (ds ++ rest).takeWhile Char.isDigit = ds ∧ (ds ++ rest).dropWhile Char.isDigit = rest := by
  induction ds with
  | nil =>
    cases rest with
    | nil => simp
    | cons c r =>
      have : c.isDigit = false := hr c (by simp)
      simp [List.takeWhile, List.dropWhile, this]
  | cons d ds ih =>
    have hd : d.isDigit = true := h d (by simp)
    have := ih (fun c hc => h c (by simp [hc]))
    simp [List.takeWhile, List.dropWhile, hd, this]

theorem isDigit_not_space (c : Char) (h : c.isDigit = true) : isspace c = false := by
  simp only [isspace, Bool.or_eq_false_iff, decide_eq_false_iff_not]
  refine ⟨⟨⟨⟨⟨?_, ?_⟩, ?_⟩, ?_⟩, ?_⟩, ?_⟩ <;>
    · intro e
      subst e
      revert h
      decide

theorem isDigit_not_sign (c : Char) (h : c.isDigit = true) :
    c ≠ '-' ∧ c ≠ '+' ∧ c ≠ '.' ∧ c ≠ 'e' ∧ c ≠ 'E' := by
  refine ⟨?_, ?_, ?_, ?_, ?_⟩ <;>
    · intro e
      subst e
      revert h
      decide

theorem skipws_nonspace (c : Char) (t : Str) (h : isspace c = false) :
    skipws { buf := c :: t, eofbit := false, failbit := false } =
      { buf := c :: t, eofbit := false, failbit := false } := by
  simp [skipws, IStream.good, List.dropWhile, h]

theorem dropSign_cons_of_ne (c : Char) (t : Str) (h1 : c ≠ '-') (h2 : c ≠ '+') :
    dropSign (c :: t) = c :: t := by
  unfold dropSign
  split <;> simp_all

theorem hasMinus_cons_of_ne (c : Char) (t : Str) (h1 : c ≠ '-') : hasMinus (c :: t) = false := by
  unfold hasMinus
  split <;> simp_all

theorem hasExponent_cons_of_ne (c : Char) (t : Str) (h1 : c ≠ 'e') (h2 : c ≠ 'E') :
    hasExponent (c :: t) = false := by
  unfold hasExponent
  split <;> simp_all

theorem extractInt_digits (ds rest : Str) (old : Int) (hds : ds ≠ [])
    (hd : ∀ c ∈ ds, c.isDigit = true) (hr : ∀ c ∈ rest.head?, c.isDigit = false)
    (hv : (digitsValue ds : Int) ≤ INT_MAX) :
    extractInt { buf := ds ++ rest, eofbit := false, failbit := false } old =
      ({ buf := rest, eofbit := rest.isEmpty, failbit := false }, (digitsValue ds : Int)) := by
  obtain ⟨h1, h2⟩ := takeWhile_digits_append ds rest hd hr
  cases ds with
  | nil => exact absurd rfl hds
  | cons d t =>
    have hdd : d.isDigit = true := hd d (by simp)
    obtain ⟨hm, hp, _, _, _⟩ := isDigit_not_sign d hdd
    have hmin : ¬ ((digitsValue (d :: t) : Int) < INT_MIN) := by
      have : (0 : Int) ≤ (digitsValue (d :: t) : Int) := Int.natCast_nonneg _
      simp only [INT_MIN]
      omega
    rw [List.cons_append] at h1 h2 ⊢
    simp only [extractInt, skipws_nonspace d (t ++ rest) (isDigit_not_space d hdd),
      IStream.good, dropSign_cons_of_ne d (t ++ rest) hm hp, hasMinus_cons_of_ne d (t ++ rest) hm,
      h1, h2]
    simp [not_lt.mpr hv, hmin]

theorem extractInt_minus_digits (ds rest : Str) (old : Int) (hds : ds ≠ [])
    (hd : ∀ c ∈ ds, c.isDigit = true) (hr : ∀ c ∈ rest.head?, c.isDigit = false)
    (hv : INT_MIN ≤ -(digitsValue ds : Int)) :
    extractInt { buf := '-' :: (ds ++ rest), eofbit := false, failbit := false } old =
      ({ buf := rest, eofbit := rest.isEmpty, failbit := false }, -(digitsValue ds : Int)) := by
  obtain ⟨h1, h2⟩ := takeWhile_digits_append ds rest hd hr
  have hmax : ¬ (-(digitsValue ds : Int) > INT_MAX) := by
    have : (0 : Int) ≤ (digitsValue ds : Int) := Int.natCast_nonneg _
    simp only [INT_MAX]
    omega
  have hne : ds.isEmpty = false := by
    cases ds with
    | nil => exact absurd rfl hds
    | cons d t => rfl
  simp only [extractInt, skipws_nonspace '-' (ds ++ rest) (by decide), IStream.good, dropSign,
    hasMinus, h1, h2]
  simp [hne, hmax, not_lt.mpr hv]

theorem extractInt_printInt (n : Int) (rest : Str) (old : Int) (hn : isInt32 n)
    (hr : ∀ c ∈ rest.head?, c.isDigit = false) :
    extractInt { buf := printInt n ++ rest, eofbit := false, failbit := false } old =
      ({ buf := rest, eofbit := rest.isEmpty, failbit := false }, n) := by
  obtain ⟨h1, h2, h3⟩ := printNat_spec n.natAbs
  by_cases hneg : n < 0
  · have hval : -(digitsValue (printNat n.natAbs) : Int) = n := by
      rw [h3]
      omega
    have := extractInt_minus_digits (printNat n.natAbs) rest old h1 h2 hr
      (by rw [hval]; exact hn.1)
    rw [hval] at this
    simpa [printInt, hneg] using this
  · have hval : (digitsValue (printNat n.natAbs) : Int) = n := by
      rw [h3]
      omega
    have := extractInt_digits (printNat n.natAbs) rest old h1 h2 hr (by rw [hval]; exact hn.2)
    rw [hval] at this
    simpa [printInt, hneg] using this

theorem extractInt_printNat (n : Nat) (rest : Str) (old : Int) (hn : (n : Int) ≤ INT_MAX)
    (hr : ∀ c ∈ rest.head?, c.isDigit = false) :
    extractInt { buf := printNat n ++ rest, eofbit := false, failbit := false } old =
      ({ buf := rest, eofbit := rest.isEmpty, failbit := false }, (n : Int)) := by
  obtain ⟨h1, h2, h3⟩ := printNat_spec n
  have := extractInt_digits (printNat n) rest old h1 h2 hr (by rw [h3]; exact hn)
  rwa [h3] at this

/-! ### Doubles with two decimals -/

theorem digitsValue_pair (a b : Nat) (ha : a < 10) (hb : b < 10) :
    digitsValue [digitChar a, digitChar b] = 10 * a + b := by
  simp [digitsValue, digitChar_value a ha, digitChar_value b hb]

theorem extractDouble_plain (ids : Str) (d1 d0 c : Char) (rest : Str) (old : Double)
    (hne : ids ≠ []) (hids : ∀ c ∈ ids, c.isDigit = true) (hd1 : d1.isDigit = true)
    (hd0 : d0.isDigit = true) (hc : c.isDigit = false) (hce : c ≠ 'e') (hcE : c ≠ 'E') :
    extractDouble { buf := ids ++ '.' :: d1 :: d0 :: c :: rest, eofbit := false, failbit := false }
        old =
      ({ buf := c :: rest, eofbit := false, failbit := false },
        .fin ((digitsValue ids : ℚ) + (digitsValue [d1, d0] : ℚ) / 10 ^ 2)) := by
  obtain ⟨h1, h2⟩ := takeWhile_digits_append ids ('.' :: d1 :: d0 :: c :: rest) hids
    (by simp)
  cases ids with
  | nil => exact absurd rfl hne
  | cons i t =>
    have hi : i.isDigit = true := hids i (by simp)
    obtain ⟨hm, hp, _, _, _⟩ := isDigit_not_sign i hi
    rw [List.cons_append] at h1 h2 ⊢
    simp only [extractDouble, skipws_nonspace i _ (isDigit_not_space i hi), IStream.good,
      dropSign_cons_of_ne i _ hm hp, hasMinus_cons_of_ne i _ hm, h1, h2, takeFraction,
      dropFraction]
    simp [List.takeWhile, List.dropWhile, hd1, hd0, hc, hasExponent_cons_of_ne c rest hce hcE]

theorem extractDouble_minus (ids : Str) (d1 d0 c : Char) (rest : Str) (old : Double)
    (hne : ids ≠ []) (hids : ∀ c ∈ ids, c.isDigit = true) (hd1 : d1.isDigit = true)
    (hd0 : d0.isDigit = true) (hc : c.isDigit = false) (hce : c ≠ 'e') (hcE : c ≠ 'E') :
    extractDouble
        { buf := '-' :: (ids ++ '.' :: d1 :: d0 :: c :: rest), eofbit := false, failbit := false }
        old =
      ({ buf := c :: rest, eofbit := false, failbit := false },
        .fin (-((digitsValue ids : ℚ) + (digitsValue [d1, d0] : ℚ) / 10 ^ 2))) := by
  obtain ⟨h1, h2⟩ := takeWhile_digits_append ids ('.' :: d1 :: d0 :: c :: rest) hids
    (by simp)
  have hne2 : ids.isEmpty = false := by
    cases ids with
    | nil => exact absurd rfl hne
    | cons d t => rfl
  simp only [extractDouble, skipws_nonspace '-' _ (by decide), IStream.good, dropSign, hasMinus,
    h1, h2, takeFraction, dropFraction]
  simp [List.takeWhile, List.dropWhile, hd1, hd0, hc, hasExponent_cons_of_ne c rest hce hcE, hne2]

theorem hundredths_split (R : Nat) :
    ((R / 100 : Nat) : ℚ) + ((10 * (R % 100 / 10) + R % 10 : Nat) : ℚ) / 10 ^ 2 = (R : ℚ) / 100 := by
  have h1 : 10 * (R % 100 / 10) + R % 10 = R % 100 := by omega
  rw [h1]
  have h2 : (R : ℚ) = 100 * ((R / 100 : Nat) : ℚ) + ((R % 100 : Nat) : ℚ) := by
    exact_mod_cast (Nat.div_add_mod R 100).symm
  rw [h2]
  norm_num
  ring

theorem extractDouble_printFixed2 (x : ℚ) (c : Char) (rest : Str) (old : Double)
    (hc : c.isDigit = false) (hce : c ≠ 'e') (hcE : c ≠ 'E') :
    extractDouble
        { buf := printFixed2 (.fin x) ++ c :: rest, eofbit := false, failbit := false } old =
      ({ buf := c :: rest, eofbit := false, failbit := false }, .fin (reread x)) := by
  obtain ⟨h1, h2, h3⟩ := printNat_spec ((roundHalfEven (|x| * 100)).toNat / 100)
  have hd1 := digitChar_isDigit ((roundHalfEven (|x| * 100)).toNat % 100 / 10) (by omega)
  have hd0 := digitChar_isDigit ((roundHalfEven (|x| * 100)).toNat % 10) (by omega)
  have hv := digitsValue_pair ((roundHalfEven (|x| * 100)).toNat % 100 / 10)
    ((roundHalfEven (|x| * 100)).toNat % 10) (by omega) (by omega)
  have hs := hundredths_split (roundHalfEven (|x| * 100)).toNat
  by_cases hx : x < 0
  · have := extractDouble_minus _ _ _ c rest old h1 h2 hd1 hd0 hc hce hcE
    rw [h3, hv, hs] at this
    simpa [printFixed2, hx, reread] using this
  · have := extractDouble_plain _ _ _ c rest old h1 h2 hd1 hd0 hc hce hcE
    rw [h3, hv, hs] at this
    simpa [printFixed2, hx, reread] using this

theorem reread_hundredths (k : Int) : reread ((k : ℚ) / 100) = (k : ℚ) / 100 := by
  have habs : |(k : ℚ) / 100| * 100 = ((|k| : Int) : ℚ) := by
    rw [abs_div]
    simp
  unfold reread
  rw [habs, roundHalfEven_intCast]
  have hnat : (((|k|).toNat : Nat) : ℚ) = ((|k| : Int) : ℚ) := by
    have : ((|k|).toNat : Int) = |k| := Int.toNat_of_nonneg (abs_nonneg k)
    exact_mod_cast this
  rw [hnat]
  by_cases hk : k < 0
  · have hx : (k : ℚ) / 100 < 0 := by
      have : (k : ℚ) < 0 := by exact_mod_cast hk
      linarith
    rw [if_pos hx, abs_of_neg hk]
    push_cast
    ring
  · have hx : ¬ ((k : ℚ) / 100 < 0) := by
      have : (0 : ℚ) ≤ k := by exact_mod_cast (not_lt.mp hk)
      intro h
      linarith
    rw [if_neg hx, abs_of_nonneg (not_lt.mp hk)]

theorem extractDouble_twoDecimals (x : Double) (c : Char) (rest : Str) (old : Double)
    (hx : twoDecimals x) (hc : c.isDigit = false) (hce : c ≠ 'e') (hcE : c ≠ 'E') :
    extractDouble { buf := printFixed2 x ++ c :: rest, eofbit := false, failbit := false } old =
      ({ buf := c :: rest, eofbit := false, failbit := false }, x) := by
  obtain ⟨k, rfl⟩ := hx
  rw [extractDouble_printFixed2 _ c rest old hc hce hcE, reread_hundredths]

theorem extractInt_bar (n : Int) (rest : Str) (old : Int) (hn : isInt32 n) :
    extractInt { buf := printInt n ++ '|' :: rest, eofbit := false, failbit := false } old =
      ({ buf := '|' :: rest, eofbit := false, failbit := false }, n) := by
  simpa using extractInt_printInt n ('|' :: rest) old hn (by simp)

theorem extractInt_end (n : Int) (old : Int) (hn : isInt32 n) :
    extractInt { buf := printInt n, eofbit := false, failbit := false } old =
      ({ buf := [], eofbit := true, failbit := false }, n) := by
  simpa using extractInt_printInt n [] old hn (by simp)

theorem extractDouble_bar (x : ℚ) (rest : Str) (old : Double) :
    extractDouble
        { buf := printFixed2 (.fin x) ++ '|' :: rest, eofbit := false, failbit := false } old =
      ({ buf := '|' :: rest, eofbit := false, failbit := false }, .fin (reread x)) :=
  extractDouble_printFixed2 x '|' rest old (by decide) (by decide) (by decide)

/-! ### Records of products -/

theorem readCommon_record (tag id name : Str) (price : ℚ) (supplier : Str) (q mn mx : Int)
    (tail : Str) (u : Indeterminate) (htag : '|' ∉ tag) (hid : '|' ∉ id) (hname : '|' ∉ name)
    (hsup : '|' ∉ supplier) (hq : isInt32 q) (hmn : isInt32 mn) (hmx : isInt32 mx) :
    FileManager.readCommon
        (tag ++ '|' :: FileManager.writeCommon id name (.fin price) supplier q mn mx ('|' :: tail))
        u =
      { type := tag, id := id, name := name, price := .fin (reread price), supplier := supplier,
        quantity := q, minQty := mn, maxQty := mx,
        ss := { buf := '|' :: tail, eofbit := false, failbit := false } } := by
  simp only [FileManager.readCommon, FileManager.writeCommon, IStream.open,
    getline_field '|' _ _ _ htag, getline_field '|' _ _ _ hid, getline_field '|' _ _ _ hname,
    getline_field '|' _ _ _ hsup, extractDouble_bar, ignore_cons, extractInt_bar _ _ _ hq,
    extractInt_bar _ _ _ hmn, extractInt_bar _ _ _ hmx]

theorem createProductFromLine_rawMaterial (rm : RawMaterial) (u : Indeterminate)
    (h : (Product.rawMaterial rm).storable) :
    FileManager.createProductFromLine (FileManager.productRecord (.rawMaterial rm)) u =
      some (.rawMaterial rm) := by
  obtain ⟨id, name, supplier, unit, minQ, maxQ, price, quantity, purity⟩ := rm
  obtain ⟨hfix, hid, hname, ⟨k, hk⟩, hsup, hunit, hpur, ⟨q, hq, hq32, hq0⟩, ⟨m, hm, hm32⟩,
    ⟨M, hM, hM32, hM0⟩⟩ := h
  simp only at hfix hid hname hk hsup hunit hpur hq hm hM
  subst hk hq hm hM
  have hrec : FileManager.productRecord
      (.rawMaterial ⟨id, name, supplier, unit, m, M, .fin ((k : ℚ) / 100), q, purity⟩) =
      "RawMaterial".toList ++ '|' :: FileManager.writeCommon id name (.fin ((k : ℚ) / 100))
        supplier q m M ('|' :: (unit ++ '|' :: printInt purity)) := by
    simp [FileManager.productRecord, RawMaterial.getQuantity, RawMaterial.getMinQuantity,
      RawMaterial.getMaxQuantity, truncToInt_intCast]
  rw [hrec]
  unfold FileManager.createProductFromLine
  rw [readCommon_record "RawMaterial".toList id name _ supplier q m M _ u (by decide) hid.1
    hname.1 hsup.1 hq32 hm32 hM32, reread_hundredths]
  simp [FileManager.createRawMaterial, ignore_cons, getline_field '|' _ _ _ hunit.1,
    extractInt_end _ _ hpur, productFactory.createProduct, hfix, RawMaterial.new,
    RawMaterial.setQuantity, RawMaterial.setMinimumQuantity, RawMaterial.setTotalQuantity,
    RawMaterial.setUnit, RawMaterial.setPurity, hq0, hM0]

/-! ### Sets of strings -/

theorem stringLess_irrefl (a : Str) : stringLess a a = false := by
  induction a with
  | nil => rfl
  | cons c cs ih => simp [stringLess, ih]

theorem stringLess_asymm (a b : Str) (h : stringLess a b = true) : stringLess b a = false := by
  induction a generalizing b with
  | nil =>
    cases b with
    | nil => simp [stringLess] at h
    | cons d ds => rfl
  | cons c cs ih =>
    cases b with
    | nil => simp [stringLess] at h
    | cons d ds =>
      simp only [stringLess] at h ⊢
      by_cases h1 : c.toNat < d.toNat
      · have h2 : ¬ d.toNat < c.toNat := by omega
        simp [h2, h1]
      · by_cases h2 : d.toNat < c.toNat
        · simp [h1, h2] at h
        · simp only [h1, h2, if_false] at h ⊢
          exact ih ds h

theorem setInsert_last (x : Str) (l : List Str) (h : ∀ y ∈ l, stringLess y x = true) :
    setInsert x l = l ++ [x] := by
  induction l with
  | nil => rfl
  | cons b bs ih =>
    have hb : stringLess b x = true := h b (by simp)
    have hx : stringLess x b = false := stringLess_asymm b x hb
    simp [setInsert, hb, hx, ih (fun y hy => h y (by simp [hy]))]

theorem foldl_setInsert_sorted (l pre : List Str)
    (h : (pre ++ l).Pairwise (fun a b => stringLess a b = true)) :
    l.foldl (fun acc t => setInsert t acc) pre = pre ++ l := by
  induction l generalizing pre with
  | nil => simp
  | cons x xs ih =>
    have hx : ∀ y ∈ pre, stringLess y x = true := by
      intro y hy
      exact (List.pairwise_append.mp h).2.2 y hy x (by simp)
    rw [List.foldl_cons, setInsert_last x pre hx, ih (pre ++ [x]) (by simpa using h)]
    simp

theorem tokenLoop_tokens {α : Type} (step : α → Str → α) (ts : List Str) :
    ∀ (t tok : Str) (a : α), (∀ s ∈ t :: ts, '|' ∉ s) →
      FileManager.tokenLoop step (t :: ts).length
          { buf := t ++ FileManager.writeStrings ts, eofbit := false, failbit := false } tok a =
        (t :: ts).foldl step a := by
  induction ts with
  | nil =>
    intro t tok a h
    have ht : '|' ∉ t := h t (by simp)
    simp [FileManager.tokenLoop, FileManager.writeStrings, getline_last '|' t tok ht]
  | cons t2 r ih =>
    intro t tok a h
    have ht : '|' ∉ t := h t (by simp)
    have := ih t2 t (step a t) (fun s hs => h s (by simp at hs ⊢; tauto))
    show FileManager.tokenLoop step ((t2 :: r).length + 1)
        { buf := t ++ '|' :: (t2 ++ FileManager.writeStrings r), eofbit := false,
          failbit := false } tok a = _
    rw [FileManager.tokenLoop, getline_field '|' t _ tok ht]
    exact this

theorem writeStrings_head (ts : List Str) :
    ∀ c ∈ (FileManager.writeStrings ts).head?, c.isDigit = false := by
  cases ts with
  | nil => simp [FileManager.writeStrings]
  | cons t r => simp [FileManager.writeStrings]

theorem tokenLoop_counted {α : Type} (step : α → Str → α) (ts : List Str) (old : Int) (a : α)
    (hclean : ∀ s ∈ ts, '|' ∉ s) (hlen : (ts.length : Int) ≤ INT_MAX) :
    FileManager.tokenLoop step
        (extractInt
          { buf := printNat ts.length ++ FileManager.writeStrings ts, eofbit := false,
            failbit := false } old).2.toNat
        (ignore
          (extractInt
            { buf := printNat ts.length ++ FileManager.writeStrings ts, eofbit := false,
              failbit := false } old).1)
        [] a =
      ts.foldl step a := by
  rw [extractInt_printNat ts.length _ old hlen (writeStrings_head ts)]
  cases ts with
  | nil => simp [FileManager.tokenLoop]
  | cons t r =>
    have := tokenLoop_tokens step r t [] a hclean
    simpa [FileManager.writeStrings, ignore_cons] using this

theorem foldl_addAllergen (ts : List Str) (f : Food) :
    ts.foldl Food.addAllergen f =
      { f with allergens := ts.foldl (fun acc t => setInsert t acc) f.allergens } := by
  induction ts generalizing f with
  | nil => rfl
  | cons t r ih => simp [List.foldl_cons, ih, Food.addAllergen]

theorem foldl_addSafetyWarning (ts : List Str) (c : Chemical) :
    ts.foldl Chemical.addSafetyWarning c =
      { c with safetyWarnings := ts.foldl (fun acc t => setInsert t acc) c.safetyWarnings } := by
  induction ts generalizing c with
  | nil => rfl
  | cons t r ih => simp [List.foldl_cons, ih, Chemical.addSafetyWarning]

theorem writeBool_eq_printInt (b : Bool) :
    FileManager.writeBool b = printInt (if b then 1 else 0) := by
  cases b <;> decide

theorem isInt32_bool (b : Bool) : isInt32 (if b then 1 else 0) := by
  cases b <;> simp [isInt32, INT_MIN, INT_MAX]

theorem createProductFromLine_perishable (per : Perishable) (u : Indeterminate)
    (h : (Product.perishable per).storable) :
    FileManager.createProductFromLine (FileManager.productRecord (.perishable per)) u =
      some (.perishable per) := by
  obtain ⟨id, name, price, quantity, supplier, expDate, storage, maxQ, minQ⟩ := per
  obtain ⟨hfix, hid, hname, ⟨k, hk⟩, hsup, hexp, hsto, hq32, hm32, hM32, hq0⟩ := h
  simp only at hfix hid hname hk hsup hexp hsto hq32 hm32 hM32 hq0
  subst hk
  have hrec : FileManager.productRecord
      (.perishable ⟨id, name, .fin ((k : ℚ) / 100), quantity, supplier, expDate, storage, maxQ,
        minQ⟩) =
      "Perishable".toList ++ '|' :: FileManager.writeCommon id name (.fin ((k : ℚ) / 100))
        supplier quantity minQ maxQ ('|' :: (expDate ++ '|' :: storage)) := by
    simp [FileManager.productRecord]
  rw [hrec]
  unfold FileManager.createProductFromLine
  rw [readCommon_record "Perishable".toList id name _ supplier quantity minQ maxQ _ u (by decide)
    hid.1 hname.1 hsup.1 hq32 hm32 hM32, reread_hundredths]
  simp [FileManager.createPerishable, ignore_cons, getline_field '|' _ _ _ hexp.1,
    getline_last '\n' _ _ hsto.2, productFactory.createProduct, hfix, Perishable.new,
    Perishable.setQuantity, Perishable.setMinimumQuantity, Perishable.setTotalQuantity,
    Perishable.setExpirationDate, Perishable.setStorageCondition, hq0]

theorem createProductFromLine_nonPerishable (np : NonPerishable) (u : Indeterminate)
    (h : (Product.nonPerishable np).storable) :
    FileManager.createProductFromLine (FileManager.productRecord (.nonPerishable np)) u =
      some (FileManager.reloaded (.nonPerishable np)) := by
  obtain ⟨id, name, price, quantity, supplier, isFragile, maxQ, minQ⟩ := np
  obtain ⟨hfix, hid, hname, ⟨k, hk⟩, hsup, hq32, hm32, hM32⟩ := h
  simp only at hfix hid hname hk hsup hq32 hm32 hM32
  subst hk
  have hrec : FileManager.productRecord
      (.nonPerishable ⟨id, name, .fin ((k : ℚ) / 100), quantity, supplier, isFragile, maxQ,
        minQ⟩) =
      "NonPerishable".toList ++ '|' :: FileManager.writeCommon id name (.fin ((k : ℚ) / 100))
        supplier quantity minQ maxQ ('|' :: printInt (if isFragile then 1 else 0)) := by
    simp [FileManager.productRecord, writeBool_eq_printInt]
  rw [hrec]
  unfold FileManager.createProductFromLine
  rw [readCommon_record "NonPerishable".toList id name _ supplier quantity minQ maxQ _ u
    (by decide) hid.1 hname.1 hsup.1 hq32 hm32 hM32, reread_hundredths]
  simp only [FileManager.createNonPerishable, ignore_cons,
    extractInt_end _ _ (isInt32_bool isFragile), productFactory.createProduct, hfix,
    NonPerishable.new, NonPerishable.setQuantity, NonPerishable.setMinimumQuantity,
    NonPerishable.setTotalQuantity, NonPerishable.setFragile, FileManager.reloaded]
  cases isFragile <;> split_ifs <;> simp_all

theorem createProductFromLine_food (f : Food) (u : Indeterminate)
    (h : (Product.food f).storable) :
    FileManager.createProductFromLine (FileManager.productRecord (.food f)) u =
      some (.food f) := by
  obtain ⟨⟨id, name, price, quantity, supplier, expDate, storage, maxQ, minQ⟩, allergens, temp,
    nutrition⟩ := f
  obtain ⟨hfix, ⟨hid, hname, ⟨k, hk⟩, hsup, hexp, hsto, hq32, hm32, hM32, hq0⟩, ⟨k2, hk2⟩, hnut,
    hsorted, hclean, hlen⟩ := h
  simp only at hfix hid hname hk hsup hexp hsto hq32 hm32 hM32 hq0 hk2 hnut hsorted hclean hlen
  subst hk hk2
  have hrec : FileManager.productRecord
      (.food ⟨⟨id, name, .fin ((k : ℚ) / 100), quantity, supplier, expDate, storage, maxQ,
        minQ⟩, allergens, .fin ((k2 : ℚ) / 100), nutrition⟩) =
      "Food".toList ++ '|' :: FileManager.writeCommon id name (.fin ((k : ℚ) / 100))
        supplier quantity minQ maxQ
        ('|' :: (expDate ++ '|' :: (storage ++ '|' :: (printFixed2 (.fin ((k2 : ℚ) / 100)) ++
          '|' :: (nutrition ++ '|' :: (printNat allergens.length ++
            FileManager.writeStrings allergens)))))) := by
    simp [FileManager.productRecord]
  rw [hrec]
  unfold FileManager.createProductFromLine
  rw [readCommon_record "Food".toList id name _ supplier quantity minQ maxQ _ u (by decide)
    hid.1 hname.1 hsup.1 hq32 hm32 hM32, reread_hundredths]
  simp only [FileManager.createFood, ignore_cons, getline_field '|' _ _ _ hexp.1,
    getline_field '|' _ _ _ hsto.1, extractDouble_bar, reread_hundredths,
    getline_field '|' _ _ _ hnut.1,
    tokenLoop_counted Food.addAllergen allergens u.localInt _ (fun s hs => (hclean s hs).1) hlen,
    foldl_addAllergen, productFactory.createProduct, hfix, Food.new, Perishable.new,
    Perishable.setQuantity, Perishable.setMinimumQuantity, Perishable.setTotalQuantity,
    Perishable.setExpirationDate, Perishable.setStorageCondition, Food.setTemperatureRequired,
    Food.setNutritionalInfo]
  have hs := foldl_setInsert_sorted allergens [] (by simpa using hsorted)
  simp [hs, hq0]

theorem createProductFromLine_chemical (ch : Chemical) (u : Indeterminate)
    (h : (Product.chemical ch).storable) :
    FileManager.createProductFromLine (FileManager.productRecord (.chemical ch)) u =
      some (.chemical ch) := by
  obtain ⟨⟨id, name, price, quantity, supplier, expDate, storage, maxQ, minQ⟩, warnings,
    disposal, childSafe, vent, hazard⟩ := ch
  obtain ⟨hfix, ⟨hid, hname, ⟨k, hk⟩, hsup, hexp, hsto, hq32, hm32, hM32, hq0⟩, hhaz, hdis,
    hsorted, hclean, hlen⟩ := h
  simp only at hfix hid hname hk hsup hexp hsto hq32 hm32 hM32 hq0 hhaz hdis hsorted hclean hlen
  subst hk
  have hrec : FileManager.productRecord
      (.chemical ⟨⟨id, name, .fin ((k : ℚ) / 100), quantity, supplier, expDate, storage, maxQ,
        minQ⟩, warnings, disposal, childSafe, vent, hazard⟩) =
      "Chemical".toList ++ '|' :: FileManager.writeCommon id name (.fin ((k : ℚ) / 100))
        supplier quantity minQ maxQ
        ('|' :: (expDate ++ '|' :: (storage ++ '|' :: (printInt hazard ++ '|' ::
          (printInt (if childSafe then 1 else 0) ++ '|' ::
            (printInt (if vent then 1 else 0) ++ '|' :: (disposal ++ '|' ::
              (printNat warnings.length ++ FileManager.writeStrings warnings)))))))) := by
    simp [FileManager.productRecord, writeBool_eq_printInt]
  rw [hrec]
  unfold FileManager.createProductFromLine
  rw [readCommon_record "Chemical".toList id name _ supplier quantity minQ maxQ _ u (by decide)
    hid.1 hname.1 hsup.1 hq32 hm32 hM32, reread_hundredths]
  simp only [FileManager.createChemical, ignore_cons, getline_field '|' _ _ _ hexp.1,
    getline_field '|' _ _ _ hsto.1, extractInt_bar _ _ _ hhaz,
    extractInt_bar _ _ _ (isInt32_bool childSafe), extractInt_bar _ _ _ (isInt32_bool vent),
    getline_field '|' _ _ _ hdis.1,
    tokenLoop_counted Chemical.addSafetyWarning warnings u.localInt _
      (fun s hs => (hclean s hs).1) hlen,
    foldl_addSafetyWarning, productFactory.createProduct, hfix, Chemical.new, Perishable.new,
    Perishable.setQuantity, Perishable.setMinimumQuantity, Perishable.setTotalQuantity,
    Perishable.setExpirationDate, Perishable.setStorageCondition, Chemical.setHazardLevel,
    Chemical.setChildSafe, Chemical.setVentilationRequired, Chemical.setDisposalType]
  have hs := foldl_setInsert_sorted warnings [] (by simpa using hsorted)
  cases childSafe <;> cases vent <;> simp [hs, hq0]

/-- What `createProductFromLine` makes of the record of a storable product. -/
theorem createProductFromLine_record (p : Product) (u : Indeterminate) (h : p.storable) :
    FileManager.createProductFromLine (FileManager.productRecord p) u =
      some (FileManager.reloaded p) := by
  cases p with
  | rawMaterial rm => exact createProductFromLine_rawMaterial rm u h
  | nonPerishable np => exact createProductFromLine_nonPerishable np u h
  | perishable per => exact createProductFromLine_perishable per u h
  | food f => exact createProductFromLine_food f u h
  | chemical ch => exact createProductFromLine_chemical ch u h

/-! ### Records are single lines -/

theorem mem_ptrInsert {α : Type} (k : Ptr) (x : α) (l : List (Ptr × α)) (e : Ptr × α)
    (h : e ∈ ptrInsert k x l) : e = (k, x) ∨ e ∈ l := by
  induction l with
  | nil => simpa [ptrInsert] using h
  | cons a as ih =>
    simp only [ptrInsert] at h
    split_ifs at h
    · simpa using h
    · rcases List.mem_cons.mp h with h | h
      · simp [h]
      · rcases ih h with h | h
        · simp [h]
        · simp [h]
    · simp [h]

theorem ptrInsert_perm {α : Type} (k : Ptr) (x : α) (l : List (Ptr × α))
    (hk : ∀ e ∈ l, e.1 ≠ k) : (ptrInsert k x l).Perm ((k, x) :: l) := by
  induction l with
  | nil => simp [ptrInsert]
  | cons a as ih =>
    have ha : a.1 ≠ k := hk a (by simp)
    simp only [ptrInsert]
    split_ifs with h1 h2
    · exact List.Perm.refl _
    · exact ((ih (fun e he => hk e (by simp [he]))).cons a).trans (List.Perm.swap _ _ _)
    · exact absurd (Nat.le_antisymm (Nat.not_lt.mp h1) (Nat.not_lt.mp h2)) ha

theorem uniqueSuppliers_fold_subset (inv : Inventory) (ps : List (Ptr × Product)) :
    ∀ acc : List (Ptr × Supplier), (∀ e ∈ acc, e ∈ inv.supplierList) →
      ∀ e ∈ ps.foldl
          (fun acc p =>
            match inv.getSupplierForProduct p.2.getId with
            | some s => ptrInsert s.1 s.2 acc
            | none => acc)
          acc,
        e ∈ inv.supplierList := by
  induction ps with
  | nil => intro acc h e he; exact h e he
  | cons p ps ih =>
    intro acc h
    rw [List.foldl_cons]
    apply ih
    intro e he
    cases hfind : inv.getSupplierForProduct p.2.getId with
    | none =>
      rw [hfind] at he
      exact h e he
    | some s =>
      rw [hfind] at he
      rcases mem_ptrInsert _ _ _ _ he with h1 | h1
      · rw [h1]
        exact List.mem_of_find?_eq_some hfind
      · exact h e h1

theorem uniqueSuppliers_subset (inv : Inventory) :
    ∀ e ∈ FileManager.uniqueSuppliers inv, e ∈ inv.supplierList :=
  uniqueSuppliers_fold_subset inv inv.ownedProductList [] (by simp)

theorem extractInt_count (n : Nat) (rest : Str) (old : Int) (hn : (n : Int) ≤ INT_MAX) :
    extractInt { buf := printNat n ++ '\n' :: rest, eofbit := false, failbit := false } old =
      ({ buf := '\n' :: rest, eofbit := false, failbit := false }, (n : Int)) := by
  simpa using extractInt_printNat n ('\n' :: rest) old hn (by simp)

theorem mem_ptrInsert_of_mem {α : Type} (k : Ptr) (x : α) (l : List (Ptr × α)) (e : Ptr × α)
    (h : e ∈ l) : e ∈ ptrInsert k x l := by
  induction l with
  | nil => simp at h
  | cons a as ih =>
    simp only [ptrInsert]
    split_ifs
    · simp [h]
    · rcases List.mem_cons.mp h with h | h
      · simp [h]
      · simp [ih h]
    · exact h

theorem mem_ptrInsert_self {α : Type} (k : Ptr) (x : α) (l : List (Ptr × α)) :
    (k, x) ∈ ptrInsert k x l ∨ ∃ y, (k, y) ∈ l := by
  induction l with
  | nil => simp [ptrInsert]
  | cons a as ih =>
    simp only [ptrInsert]
    split_ifs with h1 h2
    · simp
    · rcases ih with h | ⟨y, hy⟩
      · simp [h]
      · exact Or.inr ⟨y, by simp [hy]⟩
    · have hk : a.1 = k := Nat.le_antisymm (Nat.not_lt.mp h1) (Nat.not_lt.mp h2)
      exact Or.inr ⟨a.2, by simp [← hk]⟩

theorem eq_of_mem_of_nodup_keys {α : Type} (l : List (Ptr × α)) (h : (l.map (·.1)).Nodup)
    (k : Ptr) (x y : α) (hx : (k, x) ∈ l) (hy : (k, y) ∈ l) : x = y := by
  induction l with
  | nil => simp at hx
  | cons a as ih =>
    simp only [List.map_cons, List.nodup_cons, List.mem_map, not_exists, not_and] at h
    rcases List.mem_cons.mp hx with hx | hx <;> rcases List.mem_cons.mp hy with hy | hy
    · rw [← hx] at hy
      exact (Prod.mk.inj hy).2.symm
    · exact absurd (by rw [← hx]) (h.1 (k, y) hy)
    · exact absurd (by rw [← hy]) (h.1 (k, x) hx)
    · exact ih h.2 hx hy

theorem uniqueSuppliers_fold_mem (inv : Inventory)
    (hkeys : (inv.supplierList.map (·.1)).Nodup) (ps : List (Ptr × Product)) :
    ∀ acc : List (Ptr × Supplier), (∀ e ∈ acc, e ∈ inv.supplierList) →
      ∀ e : Ptr × Supplier,
        (e ∈ acc ∨ ∃ p ∈ ps, inv.getSupplierForProduct p.2.getId = some e) →
          e ∈ ps.foldl
            (fun acc p =>
              match inv.getSupplierForProduct p.2.getId with
              | some s => ptrInsert s.1 s.2 acc
              | none => acc)
            acc := by
  induction ps with
  | nil =>
    intro acc _ e he
    rcases he with he | ⟨p, hp, _⟩
    · exact he
    · simp at hp
  | cons p ps ih =>
    intro acc hacc e he
    rw [List.foldl_cons]
    cases hfind : inv.getSupplierForProduct p.2.getId with
    | none =>
      apply ih acc hacc e
      rcases he with he | ⟨q, hq, hres⟩
      · exact Or.inl he
      · rcases List.mem_cons.mp hq with hq | hq
        · rw [hq, hfind] at hres
          simp at hres
        · exact Or.inr ⟨q, hq, hres⟩
    | some s =>
      have hs : s ∈ inv.supplierList := List.mem_of_find?_eq_some hfind
      apply ih (ptrInsert s.1 s.2 acc)
      · intro e' he'
        rcases mem_ptrInsert _ _ _ _ he' with h | h
        · rw [h]
          exact hs
        · exact hacc e' h
      · rcases he with he | ⟨q, hq, hres⟩
        · exact Or.inl (mem_ptrInsert_of_mem _ _ _ _ he)
        · rcases List.mem_cons.mp hq with hq | hq
          · rw [hq, hfind] at hres
            have hse : s = e := Option.some.inj hres
            subst hse
            left
            rcases mem_ptrInsert_self s.1 s.2 acc with h | ⟨y, hy⟩
            · exact h
            · have := eq_of_mem_of_nodup_keys _ hkeys s.1 y s.2 (hacc _ hy) hs
              subst this
              exact mem_ptrInsert_of_mem _ _ _ _ hy
          · exact Or.inr ⟨q, hq, hres⟩

theorem uniqueSuppliers_fold_resolved (inv : Inventory) (ps : List (Ptr × Product)) :
    ∀ acc : List (Ptr × Supplier),
      ∀ e ∈ ps.foldl
          (fun acc p =>
            match inv.getSupplierForProduct p.2.getId with
            | some s => ptrInsert s.1 s.2 acc
            | none => acc)
          acc,
        e ∈ acc ∨ ∃ p ∈ ps, inv.getSupplierForProduct p.2.getId = some e := by
  induction ps with
  | nil => intro acc e he; exact Or.inl he
  | cons p ps ih =>
    intro acc e he
    rw [List.foldl_cons] at he
    rcases ih _ e he with h | ⟨q, hq, hres⟩
    · cases hfind : inv.getSupplierForProduct p.2.getId with
      | none =>
        rw [hfind] at h
        exact Or.inl h
      | some s =>
        rw [hfind] at h
        rcases mem_ptrInsert _ _ _ _ h with h1 | h1
        · exact Or.inr ⟨p, by simp, by rw [hfind, h1]⟩
        · exact Or.inl h1
    · exact Or.inr ⟨q, by simp [hq], hres⟩

/-- The suppliers that `saveInventory` writes are those that `getSupplierForProduct` resolves
for the id of a stored product. -/
theorem mem_uniqueSuppliers_iff (inv : Inventory) (hkeys : (inv.supplierList.map (·.1)).Nodup)
    (e : Ptr × Supplier) :
    e ∈ FileManager.uniqueSuppliers inv ↔
      ∃ p ∈ inv.ownedProductList, inv.getSupplierForProduct p.2.getId = some e := by
  constructor
  · intro he
    rcases uniqueSuppliers_fold_resolved inv inv.ownedProductList [] e he with h | h
    · simp at h
    · exact h
  · intro he
    exact uniqueSuppliers_fold_mem inv hkeys inv.ownedProductList [] (by simp) e (Or.inr he)

/-! ### The stock fields of a record -/

theorem tokenLoop_addAllergen_toPerishable (n : Nat) :
    ∀ (ss : IStream) (tok : Str) (f : Food),
      (FileManager.tokenLoop Food.addAllergen n ss tok f).toPerishable = f.toPerishable := by
  induction n with
  | zero => intro ss tok f; rfl
  | succ n ih =>
    intro ss tok f
    rw [FileManager.tokenLoop, ih]
    rfl

theorem tokenLoop_addSafetyWarning_toPerishable (n : Nat) :
    ∀ (ss : IStream) (tok : Str) (c : Chemical),
      (FileManager.tokenLoop Chemical.addSafetyWarning n ss tok c).toPerishable =
        c.toPerishable := by
  induction n with
  | zero => intro ss tok c; rfl
  | succ n ih =>
    intro ss tok c
    rw [FileManager.tokenLoop, ih]
    rfl

theorem productRecord_eq (p : Product) :
    ∃ tail : Str,
      FileManager.productRecord p =
        FileManager.getProductType p ++ '|' ::
          FileManager.writeCommon p.getId p.getName p.getPrice p.getSupplier p.getQuantity
            p.getMinQuantity p.getMaxQuantity ('|' :: tail) := by
  cases p <;> exact ⟨_, by simp [FileManager.productRecord, FileManager.getProductType,
    Product.getId, Product.getName, Product.getPrice, Product.getSupplier, Product.getQuantity,
    Product.getMinQuantity, Product.getMaxQuantity]; rfl⟩

/-- C2 (amended): for a `RawMaterial`, `Perishable`, `Food` or `Chemical` whose id, name and
supplier name are free of `|`, whose price is finite and whose quantity and maximum are not
negative, the product that `createProductFromLine` rebuilds from the saved record reports the
same `getQuantity`, `getMinQuantity` and `getMaxQuantity`. -/
theorem c2_stock_roundtrip (p : Product) (u : Indeterminate) (hnp : ∀ np, p ≠ .nonPerishable np)
    (hid : '|' ∉ p.getId) (hname : '|' ∉ p.getName) (hsup : '|' ∉ p.getSupplier)
    (hprice : ∃ x : ℚ, p.getPrice = .fin x) (hq : isInt32 p.getQuantity)
    (hmn : isInt32 p.getMinQuantity) (hmx : isInt32 p.getMaxQuantity) (h0 : 0 ≤ p.getQuantity)
    (h1 : 0 ≤ p.getMaxQuantity) :
    (FileManager.createProductFromLine (FileManager.productRecord p) u).map
        (fun r => (r.getQuantity, r.getMinQuantity, r.getMaxQuantity)) =
      some (p.getQuantity, p.getMinQuantity, p.getMaxQuantity) := by
  obtain ⟨tail, hrec⟩ := productRecord_eq p
  obtain ⟨x, hx⟩ := hprice
  rw [hrec, hx]
  unfold FileManager.createProductFromLine
  have htag : '|' ∉ FileManager.getProductType p := by
    cases p <;> simp [FileManager.getProductType]
  rw [readCommon_record _ _ _ _ _ _ _ _ _ u htag hid hname hsup hq hmn hmx]
  cases p with
  | nonPerishable np => exact absurd rfl (hnp np)
  | rawMaterial rm =>
    simp only [Product.getQuantity, Product.getMaxQuantity, RawMaterial.getQuantity,
      RawMaterial.getMaxQuantity] at h0 h1
    simp [FileManager.getProductType, FileManager.createRawMaterial,
      productFactory.createProduct, RawMaterial.new, RawMaterial.setQuantity,
      RawMaterial.setMinimumQuantity, RawMaterial.setTotalQuantity, RawMaterial.setUnit,
      RawMaterial.setPurity, Product.getQuantity, Product.getMinQuantity,
      Product.getMaxQuantity, h0, h1, RawMaterial.getQuantity, RawMaterial.getMinQuantity,
      RawMaterial.getMaxQuantity, truncToInt_intCast]
  | perishable per =>
    simp only [Product.getQuantity] at h0
    simp [FileManager.getProductType, FileManager.createPerishable,
      productFactory.createProduct, Perishable.new, Perishable.setQuantity,
      Perishable.setMinimumQuantity, Perishable.setTotalQuantity, Perishable.setExpirationDate,
      Perishable.setStorageCondition, Product.getQuantity, Product.getMinQuantity,
      Product.getMaxQuantity, h0]
  | food f =>
    simp only [Product.getQuantity] at h0
    simp [FileManager.getProductType, FileManager.createFood, productFactory.createProduct,
      Food.new, Perishable.new, Perishable.setQuantity, Perishable.setMinimumQuantity,
      Perishable.setTotalQuantity, Perishable.setExpirationDate,
      Perishable.setStorageCondition, Food.setTemperatureRequired, Food.setNutritionalInfo,
      Product.getQuantity, Product.getMinQuantity, Product.getMaxQuantity, h0,
      tokenLoop_addAllergen_toPerishable]
  | chemical ch =>
    simp only [Product.getQuantity] at h0
    simp [FileManager.getProductType, FileManager.createChemical, productFactory.createProduct,
      Chemical.new, Perishable.new, Perishable.setQuantity, Perishable.setMinimumQuantity,
      Perishable.setTotalQuantity, Perishable.setExpirationDate,
      Perishable.setStorageCondition, Chemical.setHazardLevel, Chemical.setChildSafe,
      Chemical.setVentilationRequired, Chemical.setDisposalType, Product.getQuantity,
      Product.getMinQuantity, Product.getMaxQuantity, h0,
      tokenLoop_addSafetyWarning_toPerishable]

theorem ptrInsert_keys_sorted {α : Type} (k : Ptr) (x : α) (l : List (Ptr × α))
    (h : l.Pairwise (fun a b => a.1 < b.1)) :
    (ptrInsert k x l).Pairwise (fun a b => a.1 < b.1) := by
  induction l with
  | nil => simp [ptrInsert]
  | cons a as ih =>
    rw [List.pairwise_cons] at h
    simp only [ptrInsert]
    split_ifs with h1 h2
    · rw [List.pairwise_cons, List.pairwise_cons]
      refine ⟨?_, h⟩
      intro b hb
      rcases List.mem_cons.mp hb with hb | hb
      · rw [hb]
        exact h1
      · exact Nat.lt_trans h1 (h.1 b hb)
    · rw [List.pairwise_cons]
      refine ⟨?_, ih h.2⟩
      intro b hb
      rcases mem_ptrInsert _ _ _ _ hb with hb | hb
      · rw [hb]
        exact h2
      · exact h.1 b hb
    · rw [List.pairwise_cons]
      exact h

theorem uniqueSuppliers_fold_sorted (inv : Inventory) (ps : List (Ptr × Product)) :
    ∀ acc : List (Ptr × Supplier), acc.Pairwise (fun a b => a.1 < b.1) →
      (ps.foldl
          (fun acc p =>
            match inv.getSupplierForProduct p.2.getId with
            | some s => ptrInsert s.1 s.2 acc
            | none => acc)
          acc).Pairwise (fun a b => a.1 < b.1) := by
  induction ps with
  | nil => intro acc h; exact h
  | cons p ps ih =>
    intro acc h
    rw [List.foldl_cons]
    apply ih
    cases hfind : inv.getSupplierForProduct p.2.getId with
    | none => exact h
    | some s => exact ptrInsert_keys_sorted _ _ _ h

theorem uniqueSuppliers_nodup (inv : Inventory) : (FileManager.uniqueSuppliers inv).Nodup := by
  have := uniqueSuppliers_fold_sorted inv inv.ownedProductList [] List.Pairwise.nil
  refine List.Pairwise.imp ?_ this
  intro a b hab heq
  rw [heq] at hab
  exact Nat.lt_irrefl _ hab

/-- When every registered supplier is resolved for some stored product, `saveInventory`
writes all of them. -/
theorem uniqueSuppliers_perm (inv : Inventory) (hkeys : (inv.supplierList.map (·.1)).Nodup)
    (hall : ∀ e ∈ inv.supplierList,
      ∃ p ∈ inv.ownedProductList, inv.getSupplierForProduct p.2.getId = some e) :
    (FileManager.uniqueSuppliers inv).Perm inv.supplierList := by
  rw [List.perm_ext_iff_of_nodup (uniqueSuppliers_nodup inv) (List.Nodup.of_map _ hkeys)]
  intro e
  constructor
  · exact uniqueSuppliers_subset inv e
  · intro he
    exact (mem_uniqueSuppliers_iff inv hkeys e).mpr (hall e he)

theorem storedNonPerishable_storable : storedNonPerishable.storable := by
  refine ⟨by decide, ⟨by decide, by decide⟩, ⟨by decide, by decide⟩, ⟨10, by norm_num⟩,
    ⟨by decide, by decide⟩, ⟨by decide, by decide⟩, ⟨by decide, by decide⟩,
    ⟨by decide, by decide⟩⟩

theorem createProductFromLine_perishableWithBar :
    (FileManager.createProductFromLine (FileManager.productRecord perishableWithBar)
        sampleIndeterminate).map Product.getQuantity = some 0 := by
  have hrec : FileManager.productRecord perishableWithBar =
      "Perishable".toList ++ '|' :: ("P2".toList ++ '|' :: ("Cream".toList ++ '|' ::
        (printFixed2 (.fin (200 / 100)) ++ '|' :: ("Farm".toList ++ '|' ::
          "Co|10|5|100||".toList)))) := by
    rfl
  have hcommon : FileManager.readCommon (FileManager.productRecord perishableWithBar)
      sampleIndeterminate =
      { type := "Perishable".toList, id := "P2".toList, name := "Cream".toList,
        price := .fin (reread (200 / 100)), supplier := "Farm".toList, quantity := 0,
        minQty := 0, maxQty := 0,
        ss := { buf := "Co|10|5|100||".toList, eofbit := false, failbit := true } } := by
    rw [hrec]
    simp only [FileManager.readCommon, IStream.open,
      getline_field '|' "Perishable".toList _ [] (by decide),
      getline_field '|' "P2".toList _ [] (by decide),
      getline_field '|' "Cream".toList _ [] (by decide), extractDouble_bar, ignore_cons,
      getline_field '|' "Farm".toList _ [] (by decide)]
    rfl
  unfold FileManager.createProductFromLine
  rw [hcommon]
  decide

/-! ## Claims about the persistence codec -/

/-- C2 (witness): the sample `Food`. -/
theorem c2_stock_roundtrip_witness :
    (FileManager.createProductFromLine (FileManager.productRecord storedFood)
        sampleIndeterminate).map
        (fun r => (r.getQuantity, r.getMinQuantity, r.getMaxQuantity)) =
      some (storedFood.getQuantity, storedFood.getMinQuantity, storedFood.getMaxQuantity) :=
  c2_stock_roundtrip storedFood sampleIndeterminate (by intro np h; cases h) (by decide)
    (by decide) (by decide) ⟨199 / 100, rfl⟩ ⟨by decide, by decide⟩ ⟨by decide, by decide⟩
    ⟨by decide, by decide⟩ (by decide) (by decide)

/-- C2 (counterexample): the `NonPerishable` with 10 units, minimum 3 and maximum 100 is
rebuilt from its record with 3 units and minimum 5; the `Perishable` with 10 units whose
supplier name is `Farm|Co` is rebuilt from its record with 0 units. -/
theorem c2_rebuilt_stock_differs :
    (storedNonPerishable.getQuantity = 10 ∧ storedNonPerishable.getMinQuantity = 3 ∧
        storedNonPerishable.getMaxQuantity = 100 ∧
        (FileManager.createProductFromLine (FileManager.productRecord storedNonPerishable)
            sampleIndeterminate).map
            (fun r => (r.getQuantity, r.getMinQuantity, r.getMaxQuantity)) =
          some (3, 5, 100)) ∧
      (perishableWithBar.getQuantity = 10 ∧ perishableWithBar.getMaxQuantity = 100 ∧
        (FileManager.createProductFromLine (FileManager.productRecord perishableWithBar)
            sampleIndeterminate).map Product.getQuantity = some 0) := by
  refine ⟨⟨by decide, by decide, by decide, ?_⟩, by decide, by decide,
    createProductFromLine_perishableWithBar⟩
  rw [createProductFromLine_record storedNonPerishable sampleIndeterminate
    storedNonPerishable_storable]
  decide

/-! ## The minimum quantity -/

/-- C11: `setMinimumQuantity(min)` on a `Perishable`, `Food` or `Chemical` makes `min` the
minimum quantity and keeps the quantity and the maximum; on a `NonPerishable` it makes `min`
the current quantity and keeps the minimum and the maximum. -/
theorem c11_setMinimumQuantity (p : Product) (min : Int) :
    (p.isPerishableFamily = true →
        (p.setMinimumQuantity min).getMinQuantity = min ∧
          (p.setMinimumQuantity min).getQuantity = p.getQuantity ∧
          (p.setMinimumQuantity min).getMaxQuantity = p.getMaxQuantity) ∧
      (∀ np, p = .nonPerishable np →
        p.setMinimumQuantity min = .nonPerishable { np with quantity := min } ∧
          (p.setMinimumQuantity min).getQuantity = min ∧
          (p.setMinimumQuantity min).getMinQuantity = p.getMinQuantity ∧
          (p.setMinimumQuantity min).getMaxQuantity = p.getMaxQuantity) := by
  cases p <;>
    simp [Product.setMinimumQuantity, Perishable.setMinimumQuantity,
      NonPerishable.setMinimumQuantity, Product.isPerishableFamily, Product.getQuantity,
      Product.getMinQuantity, Product.getMaxQuantity]

/-! ## The identifiers the factory assigns -/

theorem two_prefix_iff (x y : Char) (id : Str) :
    [x, y] <+: id ↔ id.length ≥ 2 ∧ substr id 0 2 = [x, y] := by
  rcases id with _ | ⟨a, _ | ⟨b, t⟩⟩
  · simp [substr]
  · simp [substr]
  · simp only [List.cons_prefix_cons, List.nil_prefix, and_true, substr, List.drop_zero,
      List.take_succ_cons, List.take_zero, List.length_cons, List.cons.injEq]
    constructor
    · rintro ⟨rfl, rfl⟩
      exact ⟨by omega, rfl, rfl⟩
    · rintro ⟨-, rfl, rfl⟩
      exact ⟨rfl, rfl⟩

theorem one_prefix_iff (x : Char) (id : Str) :
    [x] <+: id ↔ id.length ≥ 1 ∧ id[0]? = some x := by
  rcases id with _ | ⟨a, t⟩
  · simp
  · simp only [List.cons_prefix_cons, List.nil_prefix, and_true, List.length_cons,
      List.getElem?_cons_zero, Option.some.injEq]
    constructor
    · rintro rfl
      exact ⟨by omega, rfl⟩
    · rintro ⟨-, rfl⟩
      rfl

/-- C12: for the types `RAW_MATERIAL`, `NON_PERISHABLE`, `FOOD` and `CHEMICAL` the id of the
product `createProduct` returns is the input id if that starts with `"RM"`, `"NP"`, `"F"` or
`"C"` respectively, and the prefix followed by the input id otherwise; the input id is
arbitrary. -/
theorem c12_prefix_rule (id name : Str) (price : Double) (supplier : Str) (u : Indeterminate) :
    (productFactory.createProduct .RAW_MATERIAL id name price supplier u).getId =
        (if "RM".toList <+: id then id else "RM".toList ++ id) ∧
      (productFactory.createProduct .NON_PERISHABLE id name price supplier u).getId =
        (if "NP".toList <+: id then id else "NP".toList ++ id) ∧
      (productFactory.createProduct .FOOD id name price supplier u).getId =
        (if "F".toList <+: id then id else "F".toList ++ id) ∧
      (productFactory.createProduct .CHEMICAL id name price supplier u).getId =
        (if "C".toList <+: id then id else "C".toList ++ id) := by
  simp only [createProduct_getId, productFactory.finalId]
  refine ⟨?_, ?_, ?_, ?_⟩
  · exact if_congr (two_prefix_iff 'R' 'M' id).symm rfl rfl
  · exact if_congr (two_prefix_iff 'N' 'P' id).symm rfl rfl
  · exact if_congr (one_prefix_iff 'F' id).symm rfl rfl
  · exact if_congr (one_prefix_iff 'C' id).symm rfl rfl

/-- C13 (counterexample): the id `"P"` is not a `'P'` followed by a character, yet the factory
keeps it for the type `PERISHABLE` instead of producing `"PP"`. -/
theorem c13_single_letter_id_kept :
    (¬ ∃ c rest, "P".toList = 'P' :: c :: rest ∧ c ≠ 'N' ∧ c ≠ 'M') ∧
      (productFactory.createProduct .PERISHABLE "P".toList "Milk".toList (.fin 2)
        "Dairy".toList sampleIndeterminate).getId = "P".toList ∧
      (productFactory.createProduct .PERISHABLE "P".toList "Milk".toList (.fin 2)
        "Dairy".toList sampleIndeterminate).getId ≠ "P".toList ++ "P".toList := by
  refine ⟨?_, by decide, by decide⟩
  rintro ⟨c, rest, h, -⟩
  simp at h

theorem finalId_perishable_kept_iff (id : Str) :
    productFactory.finalId .PERISHABLE id = id ↔
      ∃ rest, id = 'P' :: rest ∧ ∀ c ∈ rest.head?, c ≠ 'N' ∧ c ≠ 'M' := by
  rcases id with _ | ⟨a, _ | ⟨b, t⟩⟩
  · simp [productFactory.finalId]
  · simp only [productFactory.finalId]
    constructor
    · intro h
      split_ifs at h with hc
      · exact ⟨[], by simpa using hc.2.1, by simp⟩
      · simp at h
    · rintro ⟨rest, h, -⟩
      have ha : a = 'P' := by simpa using (List.cons.inj h).1
      subst ha
      simp
  · simp only [productFactory.finalId]
    constructor
    · intro h
      split_ifs at h with hc
      · have ha : a = 'P' := by simpa using hc.2.1
        subst ha
        refine ⟨b :: t, rfl, ?_⟩
        intro c hc2
        have hb : b = c := by simpa using hc2
        subst hb
        have := hc.2.2
        simp at this
        exact this
      · simp at h
    · rintro ⟨rest, h, h2⟩
      have ha : a = 'P' := (List.cons.inj h).1
      have hr : b :: t = rest := (List.cons.inj h).2
      subst ha
      subst hr
      have := h2 b (by simp)
      simp [this.1, this.2]

theorem finalId_perishable_otherwise (id : Str) :
    productFactory.finalId .PERISHABLE id = id ∨
      productFactory.finalId .PERISHABLE id = "P".toList ++ id := by
  simp only [productFactory.finalId]
  split_ifs
  · exact Or.inl rfl
  · exact Or.inr rfl

/-- C13 (amended): for the type `PERISHABLE` the factory keeps the input id exactly when it
starts with `'P'` and the character after that `'P'`, if there is one, is neither `'N'` nor
`'M'`; otherwise the id of the product is `"P"` followed by the input id. -/
theorem c13_perishable_prefix_rule (id name : Str) (price : Double) (supplier : Str)
    (u : Indeterminate) :
    ((productFactory.createProduct .PERISHABLE id name price supplier u).getId = id ↔
        ∃ rest, id = 'P' :: rest ∧ ∀ c ∈ rest.head?, c ≠ 'N' ∧ c ≠ 'M') ∧
      ((¬ ∃ rest, id = 'P' :: rest ∧ ∀ c ∈ rest.head?, c ≠ 'N' ∧ c ≠ 'M') →
        (productFactory.createProduct .PERISHABLE id name price supplier u).getId =
          "P".toList ++ id) := by
  simp only [createProduct_getId]
  refine ⟨finalId_perishable_kept_iff id, fun h => ?_⟩
  rcases finalId_perishable_otherwise id with h1 | h1
  · exact absurd ((finalId_perishable_kept_iff id).mp h1) h
  · exact h1

/-! ## The report's classification by prefix -/

theorem stringFindFrom_ge (t : Str) (s : Str) (i j : Nat) (h : stringFindFrom t s i = some j) :
    i ≤ j := by
  induction s generalizing i with
  | nil =>
    simp only [stringFindFrom] at h
    split_ifs at h
    simp at h
    omega
  | cons c s ih =>
    simp only [stringFindFrom] at h
    split_ifs at h
    · simp at h
      omega
    · have := ih (i + 1) h
      omega

theorem stringFind_eq_zero_iff (s t : Str) : stringFind s t = some 0 ↔ t <+: s := by
  unfold stringFind
  cases s with
  | nil => simp [stringFindFrom]
  | cons c s =>
    simp only [stringFindFrom]
    split_ifs with h
    · simpa using h
    · constructor
      · intro h0
        have := stringFindFrom_ge t s 1 0 h0
        omega
      · intro hp
        exact absurd (List.isPrefixOf_iff_prefix.mpr hp) h

/-- C14: for each of the five product types and every input id, the report's classification
of the id that `createProduct` assigns (prefixes tried in the order `RM`, `NP`, `P`, `F`, `C`)
is the type the product was created with. -/
theorem c14_report_category_recovers_type (T : productType) (id name : Str) (price : Double)
    (supplier : Str) (u : Indeterminate) :
    Dialog.reportCategory (productFactory.createProduct T id name price supplier u).getId =
      some T := by
  rw [createProduct_getId]
  simp only [Dialog.reportCategory, stringFind_eq_zero_iff]
  cases T <;> rcases id with _ | ⟨a, _ | ⟨b, t⟩⟩ <;>
    simp [productFactory.finalId, substr] <;> split_ifs <;> simp_all

/-! ## Newly constructed products -/

/-- C15: for each of the five product types, the product `createProduct` returns reports the
given name, price and supplier, the quantity 0, the minimum 5 and the maximum 1. -/
theorem c15_createProduct_fields (T : productType) (id name : Str) (price : Double)
    (supplier : Str) (u : Indeterminate) :
    (productFactory.createProduct T id name price supplier u).getName = name ∧
      (productFactory.createProduct T id name price supplier u).getPrice = price ∧
      (productFactory.createProduct T id name price supplier u).getSupplier = supplier ∧
      (productFactory.createProduct T id name price supplier u).getQuantity = 0 ∧
      (productFactory.createProduct T id name price supplier u).getMinQuantity = 5 ∧
      (productFactory.createProduct T id name price supplier u).getMaxQuantity = 1 ∧
      (productFactory.createProduct T id name price supplier u).quantity = 0 ∧
      (productFactory.createProduct T id name price supplier u).minQuantity = 5 ∧
      (productFactory.createProduct T id name price supplier u).maxQuantity = 1 := by
  cases T <;>
    simp [productFactory.createProduct, RawMaterial.new, NonPerishable.new, Perishable.new,
      Food.new, Chemical.new, Product.getName, Product.getPrice, Product.getSupplier,
      Product.getQuantity, Product.getMinQuantity, Product.getMaxQuantity, Product.quantity,
      Product.minQuantity, Product.maxQuantity, RawMaterial.getQuantity,
      RawMaterial.getMinQuantity, RawMaterial.getMaxQuantity, truncToInt]

/-! ## The inventory's operations -/

/-! ### Looking a product up -/

theorem searchProduct_eq_none_iff (inv : Inventory) (id : Str) :
    inv.searchProduct id = none ↔ ∀ p ∈ inv.ownedProductList, p.2.getId ≠ id := by
  simp [Inventory.searchProduct, List.find?_eq_none]

theorem searchProduct_eq_some (inv : Inventory) (id : Str) (p : Ptr × Product)
    (h : inv.searchProduct id = some p) :
    p.2.getId = id ∧
      ∃ l1 l2, inv.ownedProductList = l1 ++ p :: l2 ∧ ∀ x ∈ l1, x.2.getId ≠ id := by
  unfold Inventory.searchProduct at h
  obtain ⟨h1, l1, l2, h2, h3⟩ := List.find?_eq_some.mp h
  exact ⟨by simpa using h1, l1, l2, h2, fun x hx => by simpa using h3 x hx⟩

theorem searchProduct_isSome_iff (inv : Inventory) (id : Str) :
    (∃ p, inv.searchProduct id = some p) ↔ ∃ p ∈ inv.ownedProductList, p.2.getId = id := by
  constructor
  · rintro ⟨p, h⟩
    obtain ⟨h1, l1, l2, h2, -⟩ := searchProduct_eq_some inv id p h
    exact ⟨p, by simp [h2], h1⟩
  · rintro ⟨p, hp, hid⟩
    cases h : inv.searchProduct id with
    | none => exact absurd hid ((searchProduct_eq_none_iff inv id).mp h p hp)
    | some q => exact ⟨q, rfl⟩

/-! ### One pointer, one element -/

theorem keys_ne_of_nodup {α : Type} (l1 l2 : List (Ptr × α)) (p : Ptr × α)
    (h : ((l1 ++ p :: l2).map (·.1)).Nodup) :
    (∀ x ∈ l1, x.1 ≠ p.1) ∧ ∀ x ∈ l2, x.1 ≠ p.1 := by
  rw [List.map_append, List.map_cons, List.nodup_append, List.nodup_cons] at h
  obtain ⟨-, ⟨h2, -⟩, h3⟩ := h
  constructor
  · intro x hx he
    exact h3 (List.mem_map_of_mem (·.1) hx) (by simp [he])
  · intro x hx he
    exact h2 (by rw [← he]; exact List.mem_map_of_mem (·.1) hx)

theorem eraseP_key {α : Type} (l1 l2 : List (Ptr × α)) (p : Ptr × α)
    (h : ((l1 ++ p :: l2).map (·.1)).Nodup) :
    (l1 ++ p :: l2).eraseP (fun e => e.1 = p.1) = l1 ++ l2 := by
  rw [List.eraseP_append_right _ (fun b hb => by simpa using (keys_ne_of_nodup l1 l2 p h).1 b hb),
    List.eraseP_cons_of_pos (by simp)]

theorem map_key {α : Type} (l1 l2 : List (Ptr × α)) (p : Ptr × α) (f : α → α)
    (h : ((l1 ++ p :: l2).map (·.1)).Nodup) :
    (l1 ++ p :: l2).map (fun e => if e.1 = p.1 then (e.1, f e.2) else e) =
      l1 ++ (p.1, f p.2) :: l2 := by
  have h1 : l1.map (fun e => if e.1 = p.1 then (e.1, f e.2) else e) = l1 := by
    rw [List.map_congr_left (g := id)]
    · simp
    · intro a ha
      simp [(keys_ne_of_nodup l1 l2 p h).1 a ha]
  have h2 : l2.map (fun e => if e.1 = p.1 then (e.1, f e.2) else e) = l2 := by
    rw [List.map_congr_left (g := id)]
    · simp
    · intro a ha
      simp [(keys_ne_of_nodup l1 l2 p h).2 a ha]
  rw [List.map_append, List.map_cons, h1, h2]
  simp

/-! ### What the three operations leave behind -/

theorem removeProduct_of_found (inv : Inventory) (id : Str) (p : Ptr × Product)
    (l1 l2 : List (Ptr × Product)) (hl : inv.ownedProductList = l1 ++ p :: l2)
    (hs : inv.searchProduct id = some p)
    (hkeys : (inv.ownedProductList.map (·.1)).Nodup) :
    (inv.removeProduct id).1 = true ∧
      (inv.removeProduct id).2.ownedProductList = l1 ++ l2 ∧
      (inv.removeProduct id).2.supplierList =
        match inv.getSupplierForProduct id with
        | some s =>
          inv.supplierList.map fun e =>
            if e.1 = s.1 then (e.1, e.2.removeProductSupplied id) else e
        | none => inv.supplierList := by
  have hf : ∃ x, inv.ownedProductList.find? (fun e => e.1 = p.1) = some x := by
    cases hx : inv.ownedProductList.find? (fun e => e.1 = p.1) with
    | some x => exact ⟨x, rfl⟩
    | none =>
      have := List.find?_eq_none.mp hx p (by simp [hl])
      simp at this
  obtain ⟨x, hx⟩ := hf
  have he : inv.ownedProductList.eraseP (fun e => e.1 = p.1) = l1 ++ l2 := by
    rw [hl]
    exact eraseP_key l1 l2 p (hl ▸ hkeys)
  unfold Inventory.removeProduct
  simp only [hs, hx, he]
  cases hsup : inv.getSupplierForProduct id with
  | none =>
    have : Inventory.getSupplierForProduct
        { ownedProductList := l1 ++ l2, supplierList := inv.supplierList } id = none := hsup
    simp [this]
  | some s =>
    have : Inventory.getSupplierForProduct
        { ownedProductList := l1 ++ l2, supplierList := inv.supplierList } id = some s := hsup
    simp [this, Inventory.modifySupplier]

theorem removeProduct_of_not_found (inv : Inventory) (id : Str)
    (hs : inv.searchProduct id = none) : inv.removeProduct id = (false, inv) := by
  unfold Inventory.removeProduct
  simp [hs]

theorem removeProduct_fst_iff (inv : Inventory) (id : Str) :
    (inv.removeProduct id).1 = true ↔ ∃ p, inv.searchProduct id = some p := by
  cases hs : inv.searchProduct id with
  | none => simp [removeProduct_of_not_found inv id hs]
  | some p =>
    have hmem : p ∈ inv.ownedProductList := List.mem_of_find?_eq_some hs
    cases hx : inv.ownedProductList.find? (fun e => e.1 = p.1) with
    | none =>
      have := List.find?_eq_none.mp hx p hmem
      simp at this
    | some x =>
      unfold Inventory.removeProduct
      simp only [hs, hx]
      split <;> simp

theorem modifyProduct_of_found (inv : Inventory) (p : Ptr × Product) (f : Product → Product)
    (l1 l2 : List (Ptr × Product)) (hl : inv.ownedProductList = l1 ++ p :: l2)
    (hkeys : (inv.ownedProductList.map (·.1)).Nodup) :
    inv.modifyProduct p.1 f =
      { inv with ownedProductList := l1 ++ (p.1, f p.2) :: l2 } := by
  unfold Inventory.modifyProduct
  rw [hl, map_key l1 l2 p f (hl ▸ hkeys)]

theorem modifyProduct_same (inv : Inventory) (p : Ptr × Product) (f : Product → Product)
    (hmem : p ∈ inv.ownedProductList) (hf : f p.2 = p.2)
    (hkeys : (inv.ownedProductList.map (·.1)).Nodup) :
    inv.modifyProduct p.1 f = inv := by
  obtain ⟨l1, l2, hl⟩ := List.append_of_mem hmem
  rw [modifyProduct_of_found inv p f l1 l2 hl hkeys, hf]
  cases inv
  simp only at hl
  simp [hl]

theorem removeProduct_supplierList (inv : Inventory) (id : Str)
    (h : (inv.removeProduct id).1 = true) :
    (inv.removeProduct id).2.supplierList =
      match inv.getSupplierForProduct id with
      | some s =>
        inv.supplierList.map fun e =>
          if e.1 = s.1 then (e.1, e.2.removeProductSupplied id) else e
      | none => inv.supplierList := by
  cases hs : inv.searchProduct id with
  | none => simp [removeProduct_of_not_found inv id hs] at h
  | some p =>
    cases hx : inv.ownedProductList.find? (fun e => e.1 = p.1) with
    | none =>
      have := List.find?_eq_none.mp hx p (List.mem_of_find?_eq_some hs)
      simp at this
    | some x =>
      unfold Inventory.removeProduct
      simp only [hs, hx]
      cases hsup : inv.getSupplierForProduct id with
      | none =>
        have : Inventory.getSupplierForProduct
            { ownedProductList := inv.ownedProductList.eraseP fun e => e.1 = p.1,
              supplierList := inv.supplierList } id = none := hsup
        simp [this]
      | some s =>
        have : Inventory.getSupplierForProduct
            { ownedProductList := inv.ownedProductList.eraseP fun e => e.1 = p.1,
              supplierList := inv.supplierList } id = some s := hsup
        simp [this, Inventory.modifySupplier]

theorem removeProductSupplied_not_supplied (s : Supplier) (id : Str)
    (h : s.productIdsSupplied.Nodup) : (s.removeProductSupplied id).suppliesProduct id = false := by
  unfold Supplier.removeProductSupplied
  split_ifs with hc
  · simpa [Supplier.suppliesProduct] using h.not_mem_erase
  · simpa [Supplier.suppliesProduct] using hc

theorem removeProductSupplied_other (s : Supplier) (id t : Str) (h : t ≠ id) :
    (s.removeProductSupplied id).suppliesProduct t = s.suppliesProduct t := by
  unfold Supplier.removeProductSupplied
  split_ifs with hc
  · rw [Bool.eq_iff_iff]
    simp [Supplier.suppliesProduct, List.mem_erase_of_ne h]
  · rfl

/-! ### Removing a product -/

/-- C16: in an inventory whose set holds each pointer once, `removeProduct(id)` returns false
and changes nothing if no product has the id `id`; if some product has it, the call returns
true, the product collection shrinks by exactly one, and what has gone is the product with the
id `id` that `searchProduct(id)` found, the others staying in place. -/
theorem c16_removeProduct (inv : Inventory) (id : Str)
    (hkeys : (inv.ownedProductList.map (·.1)).Nodup) :
    ((∀ p ∈ inv.ownedProductList, p.2.getId ≠ id) → inv.removeProduct id = (false, inv)) ∧
      ((∃ p ∈ inv.ownedProductList, p.2.getId = id) →
        (inv.removeProduct id).1 = true ∧
          (inv.removeProduct id).2.ownedProductList.length + 1 =
            inv.ownedProductList.length ∧
          ∃ l1 e l2, inv.ownedProductList = l1 ++ e :: l2 ∧
            (inv.removeProduct id).2.ownedProductList = l1 ++ l2 ∧
            e.2.getId = id ∧ inv.searchProduct id = some e) := by
  constructor
  · intro h
    exact removeProduct_of_not_found inv id ((searchProduct_eq_none_iff inv id).mpr h)
  · intro h
    obtain ⟨p, hs⟩ := (searchProduct_isSome_iff inv id).mpr h
    obtain ⟨hid, l1, l2, hl, -⟩ := searchProduct_eq_some inv id p hs
    obtain ⟨h1, h2, -⟩ := removeProduct_of_found inv id p l1 l2 hl hs hkeys
    refine ⟨h1, ?_, l1, p, l2, hl, h2, hid, hs⟩
    rw [h2, hl]
    simp
    omega

/-- C16 (witness): the sample inventory and the id `"F1"` of its food. -/
theorem c16_removeProduct_witness :
    (sampleInventory.ownedProductList.map (·.1)).Nodup ∧
      ((∀ p ∈ sampleInventory.ownedProductList, p.2.getId ≠ "F1".toList) →
        sampleInventory.removeProduct "F1".toList = (false, sampleInventory)) ∧
      ((∃ p ∈ sampleInventory.ownedProductList, p.2.getId = "F1".toList) →
        (sampleInventory.removeProduct "F1".toList).1 = true ∧
          (sampleInventory.removeProduct "F1".toList).2.ownedProductList.length + 1 =
            sampleInventory.ownedProductList.length ∧
          ∃ l1 e l2, sampleInventory.ownedProductList = l1 ++ e :: l2 ∧
            (sampleInventory.removeProduct "F1".toList).2.ownedProductList = l1 ++ l2 ∧
            e.2.getId = "F1".toList ∧ sampleInventory.searchProduct "F1".toList = some e) :=
  ⟨by decide, c16_removeProduct sampleInventory "F1".toList (by decide)⟩

/-- C17 (counterexample): two `Food` objects with the id `"F001"` were added; `removeProduct`
returns true and `searchProduct("F001")` still finds a product, the one at address 200. -/
theorem c17_shared_id_still_found :
    (inventoryWithSharedId.removeProduct "F001".toList).1 = true ∧
      ((inventoryWithSharedId.removeProduct "F001".toList).2.searchProduct
        "F001".toList).map (·.1) = some 200 := by
  decide

/-- C17 (amended): in an inventory whose set holds each pointer once, after a call
`removeProduct(id)` that returned true, `searchProduct(id)` returns the null pointer exactly
when one product only had the id `id` before the call. -/
theorem c17_not_findable_iff (inv : Inventory) (id : Str)
    (hkeys : (inv.ownedProductList.map (·.1)).Nodup)
    (h : (inv.removeProduct id).1 = true) :
    (inv.removeProduct id).2.searchProduct id = none ↔
      inv.ownedProductList.countP (fun p => p.2.getId = id) = 1 := by
  obtain ⟨p, hs⟩ := (removeProduct_fst_iff inv id).mp h
  obtain ⟨hid, l1, l2, hl, hl1⟩ := searchProduct_eq_some inv id p hs
  obtain ⟨-, h2, -⟩ := removeProduct_of_found inv id p l1 l2 hl hs hkeys
  have hc1 : l1.countP (fun p => p.2.getId = id) = 0 :=
    List.countP_eq_zero.mpr fun a ha => by simpa using hl1 a ha
  have hf1 : l1.find? (fun p => p.2.getId = id) = none :=
    List.find?_eq_none.mpr fun a ha => by simpa using hl1 a ha
  rw [Inventory.searchProduct, h2, hl, List.find?_append, hf1, List.countP_append, hc1,
    List.countP_cons_of_pos _ _ (by simpa using hid)]
  simp only [Option.none_or, List.find?_eq_none, zero_add, add_left_eq_self,
    List.countP_eq_zero]

/-- C17 (witness): the sample inventory and the id `"F1"` of its food. -/
theorem c17_not_findable_iff_witness :
    (sampleInventory.ownedProductList.map (·.1)).Nodup ∧
      (sampleInventory.removeProduct "F1".toList).1 = true ∧
      ((sampleInventory.removeProduct "F1".toList).2.searchProduct "F1".toList = none ↔
        sampleInventory.ownedProductList.countP (fun p => p.2.getId = "F1".toList) = 1) :=
  ⟨by decide, by decide, c17_not_findable_iff sampleInventory "F1".toList (by decide) (by decide)⟩

/-- C18: when every supplier's set of supplied ids holds each id once, a call
`removeProduct(id)` that returned true leaves the same supplier pointers in the set; the
supplier `getSupplierForProduct(id)` resolved before the call is still there and no longer
supplies `id`, while it supplies every other id as before; every supplier at another address
is unchanged; and if no supplier was resolved, nothing changes. -/
theorem c18_removeProduct_suppliers (inv : Inventory) (id : Str)
    (hsets : ∀ e ∈ inv.supplierList, e.2.productIdsSupplied.Nodup)
    (h : (inv.removeProduct id).1 = true) :
    (inv.removeProduct id).2.supplierList.map (·.1) = inv.supplierList.map (·.1) ∧
      (∀ s, inv.getSupplierForProduct id = some s →
        (s.1, s.2.removeProductSupplied id) ∈ (inv.removeProduct id).2.supplierList ∧
          (∀ e ∈ (inv.removeProduct id).2.supplierList, e.1 = s.1 →
            e.2.suppliesProduct id = false) ∧
          (∀ t, t ≠ id →
            (s.2.removeProductSupplied id).suppliesProduct t = s.2.suppliesProduct t) ∧
          ∀ e, e.1 ≠ s.1 →
            (e ∈ (inv.removeProduct id).2.supplierList ↔ e ∈ inv.supplierList)) ∧
      (inv.getSupplierForProduct id = none →
        (inv.removeProduct id).2.supplierList = inv.supplierList) := by
  have hsl := removeProduct_supplierList inv id h
  refine ⟨?_, ?_, ?_⟩
  · rw [hsl]
    cases inv.getSupplierForProduct id with
    | none => rfl
    | some s =>
      simp only [List.map_map]
      apply List.map_congr_left
      intro a _
      simp only [Function.comp]
      split_ifs <;> rfl
  · intro s hs
    rw [hs] at hsl
    simp only at hsl
    have hmem : s ∈ inv.supplierList := List.mem_of_find?_eq_some hs
    refine ⟨?_, ?_, fun t ht => removeProductSupplied_other s.2 id t ht, ?_⟩
    · rw [hsl]
      exact List.mem_map.mpr ⟨s, hmem, by simp⟩
    · intro e he hk
      rw [hsl] at he
      obtain ⟨e0, he0, rfl⟩ := List.mem_map.mp he
      split_ifs with hc
      · exact removeProductSupplied_not_supplied e0.2 id (hsets e0 he0)
      · split_ifs at hk
        exact absurd hk hc
    · intro e hk
      rw [hsl]
      constructor
      · intro he
        obtain ⟨e0, he0, heq⟩ := List.mem_map.mp he
        split_ifs at heq with hc
        · exact absurd (by rw [← heq]; exact hc) hk
        · exact heq ▸ he0
      · intro he
        exact List.mem_map.mpr ⟨e, he, by simp [hk]⟩
  · intro hs
    rw [hsl, hs]

/-- C18 (witness): the sample inventory and the id `"F1"`, which the supplier at address 60
supplies. -/
theorem c18_removeProduct_suppliers_witness :
    (∀ e ∈ sampleInventory.supplierList, e.2.productIdsSupplied.Nodup) ∧
      (sampleInventory.removeProduct "F1".toList).1 = true ∧
      (sampleInventory.removeProduct "F1".toList).2.supplierList.map (·.1) =
        sampleInventory.supplierList.map (·.1) ∧
      (∀ s, sampleInventory.getSupplierForProduct "F1".toList = some s →
        (s.1, s.2.removeProductSupplied "F1".toList) ∈
            (sampleInventory.removeProduct "F1".toList).2.supplierList ∧
          (∀ e ∈ (sampleInventory.removeProduct "F1".toList).2.supplierList, e.1 = s.1 →
            e.2.suppliesProduct "F1".toList = false) ∧
          (∀ t, t ≠ "F1".toList →
            (s.2.removeProductSupplied "F1".toList).suppliesProduct t =
              s.2.suppliesProduct t) ∧
          ∀ e, e.1 ≠ s.1 →
            (e ∈ (sampleInventory.removeProduct "F1".toList).2.supplierList ↔
              e ∈ sampleInventory.supplierList)) ∧
      (sampleInventory.getSupplierForProduct "F1".toList = none →
        (sampleInventory.removeProduct "F1".toList).2.supplierList =
          sampleInventory.supplierList) :=
  ⟨by decide, by decide,
    c18_removeProduct_suppliers sampleInventory "F1".toList (by decide) (by decide)⟩

/-! ### Buying and selling through the inventory -/

theorem buyProduct_of_found (inv : Inventory) (id : Str) (qty : Int) (p : Ptr × Product)
    (hs : inv.searchProduct id = some p) (hq : 0 < qty) :
    inv.buyProduct id qty =
      ((p.2.buyItem (.fin qty)).1,
        inv.modifyProduct p.1 fun x => (x.buyItem (.fin qty)).2) := by
  unfold Inventory.buyProduct
  simp only [hs]
  rw [if_neg (by omega)]

theorem sellProduct_of_found (inv : Inventory) (id : Str) (qty : Int) (p : Ptr × Product)
    (hs : inv.searchProduct id = some p) :
    inv.sellProduct id qty =
      ((p.2.useItem (.fin qty)).1,
        inv.modifyProduct p.1 fun x => (x.useItem (.fin qty)).2) := by
  unfold Inventory.sellProduct
  simp only [hs]
  split_ifs with h
  · simp [h, Inventory.checkLowStock]
  · simp [h]

theorem tracedRawMaterial_reached :
    Product.rawMaterial
        (((RawMaterial.new "RM2".toList "Dust".toList (.fin 1) "Acme".toList).setTotalQuantity
          100).buyItem (.fin (1 / 2 ^ 60))).2 = tracedRawMaterial := by
  rw [rawMaterial_buyItem_of_fin _ _ (1 / 2 ^ 60) (by
    simp only [RawMaterial.setTotalQuantity, RawMaterial.new]
    exact stockPlus_zero_tiny)]
  rw [if_pos (by norm_num [RawMaterial.setTotalQuantity, RawMaterial.new])]
  norm_num [RawMaterial.setTotalQuantity, RawMaterial.new, tracedRawMaterial]

theorem tracedRawMaterial_sum :
    stockPlus tracedRawMaterial.quantity ((100 : Int) : ℚ) = .fin 100 :=
  stockPlus_tiny_hundred

theorem tracedRawMaterial_guard :
    0 < ((100 : Int) : ℚ) ∧
      ∃ s, stockPlus tracedRawMaterial.quantity ((100 : Int) : ℚ) = .fin s ∧
        s ≤ tracedRawMaterial.maxQuantity :=
  ⟨by norm_num, 100, tracedRawMaterial_sum, le_refl _⟩

theorem tracedRawMaterial_buyItem :
    (tracedRawMaterial.buyItem (.fin ((100 : Int) : ℚ))).1 = true ∧
      (tracedRawMaterial.buyItem (.fin ((100 : Int) : ℚ))).2.quantity = 100 := by
  rcases buyItem_cases tracedRawMaterial ((100 : Int) : ℚ) with
    ⟨s, hs2, -, -, h1, -, -, -, -, h6, -⟩ | ⟨-, hn⟩
  · rw [tracedRawMaterial_sum] at hs2
    have h100 : s = 100 := (Double.fin.inj hs2).symm
    have hr := h6 _ rfl
    rw [h100] at hr
    exact ⟨h1, hr⟩
  · exact absurd tracedRawMaterial_guard hn

theorem buyProduct_of_single (inv : Inventory) (a : Ptr) (x : Product) (qty : Int)
    (hl : inv.ownedProductList = [(a, x)]) (hq : 0 < qty) :
    (inv.buyProduct x.getId qty).1 = (x.buyItem (.fin qty)).1 ∧
      (inv.buyProduct x.getId qty).2.ownedProductList.map (fun p => p.2.quantity) =
        [(x.buyItem (.fin qty)).2.quantity] := by
  have hs : inv.searchProduct x.getId = some (a, x) := by
    unfold Inventory.searchProduct
    rw [hl]
    simp
  rw [buyProduct_of_found inv x.getId qty (a, x) hs hq]
  refine ⟨rfl, ?_⟩
  simp only [Inventory.modifyProduct, hl, List.map_cons, List.map_nil, if_true]

/-- C19 (counterexample): a `RawMaterial` that holds `2 ^ -60` units of at most 100 (it was
constructed, given the maximum 100, and bought `2 ^ -60` units).  In the inventory that holds
it, `buyProduct("RM2", 100)` returns true although `quantity + 100` exceeds the maximum, and
the stored quantity becomes 100: it has grown by less than 100. -/
theorem c19_rounded_sum_accepted :
    Product.rawMaterial
        (((RawMaterial.new "RM2".toList "Dust".toList (.fin 1) "Acme".toList).setTotalQuantity
          100).buyItem (.fin (1 / 2 ^ 60))).2 = tracedRawMaterial ∧
      tracedInventory.searchProduct "RM2".toList = some (100, tracedRawMaterial) ∧
      tracedRawMaterial.quantity = 1 / 2 ^ 60 ∧ tracedRawMaterial.maxQuantity = 100 ∧
      (tracedInventory.buyProduct "RM2".toList 100).1 = true ∧
      ¬ tracedRawMaterial.quantity + ((100 : Int) : ℚ) ≤ tracedRawMaterial.maxQuantity ∧
      (tracedInventory.buyProduct "RM2".toList 100).2.ownedProductList.map
        (fun p => p.2.quantity) = [100] := by
  have hb := buyProduct_of_single tracedInventory 100 tracedRawMaterial 100 rfl (by norm_num)
  have hid : tracedRawMaterial.getId = "RM2".toList := rfl
  rw [hid] at hb
  refine ⟨tracedRawMaterial_reached, rfl, rfl, rfl, ?_, ?_, ?_⟩
  · rw [hb.1]
    exact tracedRawMaterial_buyItem.1
  · norm_num [tracedRawMaterial, Product.quantity, Product.maxQuantity]
  · rw [hb.2, tracedRawMaterial_buyItem.2]

/-- C19 (amended): in an inventory whose set holds each pointer once, `buyProduct(id, qty)`
returns false and changes nothing if no product has the id `id` or `qty ≤ 0`; otherwise it
returns true exactly when the sum `s` of the stored quantity of the product `p` that
`searchProduct(id)` finds and `qty`, taken in `double` (the nearest binary64 value), does not
exceed `maxQuantity`; then `getQuantity()` of `p` reports `s` truncated (a `RawMaterial`
stores `s`) while every other product, and the suppliers, are as before.  When the stored
quantity of `p` is a whole number the condition is `quantity + qty ≤ maxQuantity` and the
quantity grows by exactly `qty`.  A call that returns false changes nothing. -/
theorem c19_buyProduct (inv : Inventory) (id : Str) (qty : Int)
    (hkeys : (inv.ownedProductList.map (·.1)).Nodup) :
    (((∀ p ∈ inv.ownedProductList, p.2.getId ≠ id) ∨ qty ≤ 0) →
        inv.buyProduct id qty = (false, inv)) ∧
      (∀ p, inv.searchProduct id = some p → 0 < qty →
        ((inv.buyProduct id qty).1 = true ↔
            ∃ s : ℚ, stockPlus p.2.quantity qty = .fin s ∧ s ≤ p.2.maxQuantity) ∧
          (isStock p.2.quantity = true → isInt32 qty →
            stockPlus p.2.quantity qty = round64 (p.2.quantity + qty)) ∧
          (∀ k : Int, p.2.quantity = k → |k + qty| ≤ 2 ^ 53 →
            ((inv.buyProduct id qty).1 = true ↔ p.2.quantity + qty ≤ p.2.maxQuantity)) ∧
          ((inv.buyProduct id qty).1 = true →
            ∃ l1 l2 p' s, inv.ownedProductList = l1 ++ p :: l2 ∧
              (inv.buyProduct id qty).2.ownedProductList = l1 ++ (p.1, p') :: l2 ∧
              stockPlus p.2.quantity qty = .fin s ∧ p'.getQuantity = truncToInt s ∧
              (∀ r, p.2 = .rawMaterial r → p'.quantity = s) ∧
              (∀ k : Int, p.2.quantity = k → |k + qty| ≤ 2 ^ 53 →
                p'.quantity = p.2.quantity + qty ∧
                  p'.getQuantity = p.2.getQuantity + qty) ∧
              p'.maxQuantity = p.2.maxQuantity ∧ p'.minQuantity = p.2.minQuantity ∧
              p'.getId = id ∧
              (inv.buyProduct id qty).2.supplierList = inv.supplierList)) ∧
      ((inv.buyProduct id qty).1 = false → (inv.buyProduct id qty).2 = inv) := by
  refine ⟨?_, ?_, ?_⟩
  · intro h
    unfold Inventory.buyProduct
    cases hs : inv.searchProduct id with
    | none => rfl
    | some p =>
      rcases h with h | h
      · have := (searchProduct_eq_none_iff inv id).mpr h
        rw [hs] at this
        simp at this
      · simp only
        rw [if_pos h]
  · intro p hs hq
    have hq2 : (0 : ℚ) < qty := by exact_mod_cast hq
    rw [buyProduct_of_found inv id qty p hs hq]
    refine ⟨?_, ?_, ?_, ?_⟩
    · simp only [buyItem_fst_iff, hq2, true_and]
    · intro hv hi
      refine stockPlus_of_valid _ _ hv (isBinary64_intCast qty ?_)
      have h1 := hi.1
      have h2 := hi.2
      simp only [INT_MIN, INT_MAX] at h1 h2
      rw [abs_le]
      constructor <;> norm_num <;> omega
    · intro k hk hb
      simp only []
      rw [buyItem_int_fst_iff p.2 qty k hk hb]
      simp only [hq, true_and]
    · intro h
      obtain ⟨hid, l1, l2, hl, -⟩ := searchProduct_eq_some inv id p hs
      rcases buyItem_cases p.2 qty with ⟨s, hs2, -, -, -, h2, h3, h4, h5, h6, -⟩ | ⟨hf, -⟩
      · refine ⟨l1, l2, (p.2.buyItem (.fin qty)).2, s, hl, ?_, hs2, h2, h6, ?_, h3, h4,
          h5.trans hid, ?_⟩
        · simp only
          rw [modifyProduct_of_found inv p _ l1 l2 hl hkeys]
        · intro k hk hb
          have := buyItem_int_quantity p.2 qty k hk hb h
          exact ⟨this.1, this.2.1⟩
        · rfl
      · simp only [] at h
        rw [hf] at h
        exact absurd h (by simp)
  · intro h
    cases hs : inv.searchProduct id with
    | none =>
      unfold Inventory.buyProduct
      rw [hs]
    | some p =>
      by_cases hq : qty ≤ 0
      · unfold Inventory.buyProduct
        simp only [hs]
        rw [if_pos hq]
      · rw [buyProduct_of_found inv id qty p hs (by omega)] at h ⊢
        exact modifyProduct_same inv p (fun x => (x.buyItem (.fin qty)).2)
          (List.mem_of_find?_eq_some hs) (buyItem_snd_of_false p.2 _ h) hkeys

/-- C19 (witness): the sample inventory, whose food `"F1"` holds 15 units of at most 100;
`buyProduct("F1", 5)` returns true. -/
theorem c19_buyProduct_witness :
    (sampleInventory.ownedProductList.map (·.1)).Nodup ∧
      sampleInventory.searchProduct "F1".toList = some (40, storedFood) ∧
      (sampleInventory.buyProduct "F1".toList 5).1 = true :=
  have hs : sampleInventory.searchProduct "F1".toList = some (40, storedFood) := rfl
  ⟨by decide, hs,
    (((c19_buyProduct sampleInventory "F1".toList 5 (by decide)).2.1 (40, storedFood) hs
      (by decide)).2.2.1 15
        (by norm_num [storedFood, Product.quantity]) (by norm_num)).2 (by
        norm_num [storedFood, Product.quantity, Product.maxQuantity])⟩

/-- C20: in an inventory whose set holds each pointer once, `sellProduct(id, qty)` returns
true exactly when `searchProduct(id)` finds a product `p` and `0 < qty ≤ p.quantity`; then the
quantity of `p` has dropped by exactly `qty` while every other product, and the suppliers,
are as before (`checkLowStock` leaves the inventory as it finds it); a call that returns false
changes nothing. -/
theorem c20_sellProduct (inv : Inventory) (id : Str) (qty : Int)
    (hkeys : (inv.ownedProductList.map (·.1)).Nodup) :
    ((inv.sellProduct id qty).1 = true ↔
        ∃ p, inv.searchProduct id = some p ∧ 0 < qty ∧ (qty : ℚ) ≤ p.2.quantity) ∧
      (∀ p, inv.searchProduct id = some p → (inv.sellProduct id qty).1 = true →
        ∃ l1 l2 p', inv.ownedProductList = l1 ++ p :: l2 ∧
          (inv.sellProduct id qty).2.ownedProductList = l1 ++ (p.1, p') :: l2 ∧
          p'.quantity = p.2.quantity - qty ∧ p'.getQuantity = p.2.getQuantity - qty ∧
          p'.maxQuantity = p.2.maxQuantity ∧ p'.minQuantity = p.2.minQuantity ∧
          p'.getId = id ∧
          (inv.sellProduct id qty).2.supplierList = inv.supplierList) ∧
      (∀ (i : Inventory) (t : Int), (i.checkLowStock t).2.2 = i) ∧
      ((inv.sellProduct id qty).1 = false → (inv.sellProduct id qty).2 = inv) := by
  refine ⟨?_, ?_, fun _ _ => rfl, ?_⟩
  · cases hs : inv.searchProduct id with
    | none =>
      unfold Inventory.sellProduct
      simp [hs]
    | some p =>
      rw [sellProduct_of_found inv id qty p hs]
      simp only [useItem_fst_iff, Option.some.injEq, exists_eq_left', Int.cast_pos]
  · intro p hs h
    rw [sellProduct_of_found inv id qty p hs] at h ⊢
    obtain ⟨hid, l1, l2, hl, -⟩ := searchProduct_eq_some inv id p hs
    obtain ⟨h1, h2, h3, h4, h5⟩ := useItem_int_quantity p.2 qty h
    refine ⟨l1, l2, (p.2.useItem (.fin qty)).2, hl, ?_, h1, h2, h3, h4, h5.trans hid, ?_⟩
    · simp only
      rw [modifyProduct_of_found inv p _ l1 l2 hl hkeys]
    · rfl
  · intro h
    cases hs : inv.searchProduct id with
    | none =>
      unfold Inventory.sellProduct
      rw [hs]
    | some p =>
      rw [sellProduct_of_found inv id qty p hs] at h ⊢
      exact modifyProduct_same inv p (fun x => (x.useItem (.fin qty)).2)
        (List.mem_of_find?_eq_some hs) (useItem_snd_of_false p.2 _ h) hkeys

/-- C20 (witness): the sample inventory, five units of the food `"F1"` sold. -/
theorem c20_sellProduct_witness :
    (sampleInventory.ownedProductList.map (·.1)).Nodup ∧
      ((sampleInventory.sellProduct "F1".toList 5).1 = true ↔
        ∃ p, sampleInventory.searchProduct "F1".toList = some p ∧ (0 : Int) < 5 ∧
          ((5 : Int) : ℚ) ≤ p.2.quantity) ∧
      (∀ p, sampleInventory.searchProduct "F1".toList = some p →
        (sampleInventory.sellProduct "F1".toList 5).1 = true →
        ∃ l1 l2 p', sampleInventory.ownedProductList = l1 ++ p :: l2 ∧
          (sampleInventory.sellProduct "F1".toList 5).2.ownedProductList =
            l1 ++ (p.1, p') :: l2 ∧
          p'.quantity = p.2.quantity - (5 : Int) ∧ p'.getQuantity = p.2.getQuantity - 5 ∧
          p'.maxQuantity = p.2.maxQuantity ∧ p'.minQuantity = p.2.minQuantity ∧
          p'.getId = "F1".toList ∧
          (sampleInventory.sellProduct "F1".toList 5).2.supplierList =
            sampleInventory.supplierList) ∧
      (∀ (i : Inventory) (t : Int), (i.checkLowStock t).2.2 = i) ∧
      ((sampleInventory.sellProduct "F1".toList 5).1 = false →
        (sampleInventory.sellProduct "F1".toList 5).2 = sampleInventory) :=
  ⟨by decide, c20_sellProduct sampleInventory "F1".toList 5 (by decide)⟩

/-! ### The sets stay sets

The theorems about the inventory assume that a set holds each pointer, or each id, once.
The operations keep it so: the pointers of a set stay in increasing order, and a supplier's
ids stay distinct. -/

theorem ptrInsert_pairwise {α : Type} (k : Ptr) (x : α) (l : List (Ptr × α))
    (h : l.Pairwise (fun a b => a.1 < b.1)) :
    (ptrInsert k x l).Pairwise (fun a b => a.1 < b.1) := by
  induction l with
  | nil => simp [ptrInsert]
  | cons e es ih =>
    obtain ⟨h1, h2⟩ := List.pairwise_cons.mp h
    simp only [ptrInsert]
    split_ifs with hlt hgt
    · refine List.pairwise_cons.mpr ⟨?_, h⟩
      intro y hy
      rcases List.mem_cons.mp hy with hy | hy
      · rw [hy]
        exact hlt
      · exact Nat.lt_trans hlt (h1 y hy)
    · refine List.pairwise_cons.mpr ⟨?_, ih h2⟩
      intro y hy
      rcases mem_ptrInsert k x es y hy with hy | hy
      · rw [hy]
        exact hgt
      · exact h1 y hy
    · exact h

theorem keys_nodup_of_pairwise {α : Type} (l : List (Ptr × α))
    (h : l.Pairwise (fun a b => a.1 < b.1)) : (l.map (·.1)).Nodup := by
  rw [List.Nodup, List.pairwise_map]
  exact h.imp fun hab => Nat.ne_of_lt hab

theorem addProduct_pairwise (inv : Inventory) (p : Option (Ptr × Product))
    (h : inv.ownedProductList.Pairwise (fun a b => a.1 < b.1)) :
    (inv.addProduct p).ownedProductList.Pairwise (fun a b => a.1 < b.1) := by
  cases p with
  | none => exact h
  | some p => exact ptrInsert_pairwise p.1 p.2 _ h

theorem removeProduct_pairwise (inv : Inventory) (id : Str)
    (h : inv.ownedProductList.Pairwise (fun a b => a.1 < b.1)) :
    (inv.removeProduct id).2.ownedProductList.Pairwise (fun a b => a.1 < b.1) := by
  cases hs : inv.searchProduct id with
  | none =>
    rw [removeProduct_of_not_found inv id hs]
    exact h
  | some p =>
    obtain ⟨-, l1, l2, hl, -⟩ := searchProduct_eq_some inv id p hs
    rw [(removeProduct_of_found inv id p l1 l2 hl hs (keys_nodup_of_pairwise _ h)).2.1]
    rw [hl] at h
    exact h.sublist ((List.sublist_cons_self p l2).append_left l1)

theorem modifyProduct_keys (inv : Inventory) (p : Ptr) (f : Product → Product) :
    (inv.modifyProduct p f).ownedProductList.map (·.1) = inv.ownedProductList.map (·.1) := by
  simp only [Inventory.modifyProduct, List.map_map]
  apply List.map_congr_left
  intro a _
  simp only [Function.comp]
  split_ifs <;> rfl

theorem buyProduct_keys (inv : Inventory) (id : Str) (qty : Int) :
    (inv.buyProduct id qty).2.ownedProductList.map (·.1) = inv.ownedProductList.map (·.1) := by
  unfold Inventory.buyProduct
  cases inv.searchProduct id with
  | none => rfl
  | some p =>
    simp only
    split_ifs
    · rfl
    · exact modifyProduct_keys inv p.1 _

theorem sellProduct_keys (inv : Inventory) (id : Str) (qty : Int) :
    (inv.sellProduct id qty).2.ownedProductList.map (·.1) = inv.ownedProductList.map (·.1) := by
  cases hs : inv.searchProduct id with
  | none =>
    unfold Inventory.sellProduct
    rw [hs]
  | some p =>
    rw [sellProduct_of_found inv id qty p hs]
    exact modifyProduct_keys inv p.1 _

theorem mem_setInsert (a : Str) (l : List Str) (y : Str) (h : y ∈ setInsert a l) :
    y = a ∨ y ∈ l := by
  induction l with
  | nil => simpa [setInsert] using h
  | cons b bs ih =>
    simp only [setInsert] at h
    split_ifs at h
    · simpa using h
    · rcases List.mem_cons.mp h with h | h
      · simp [h]
      · rcases ih h with h | h
        · simp [h]
        · simp [h]
    · simp [h]

theorem setInsert_nodup (a : Str) (l : List Str) (ha : a ∉ l) (h : l.Nodup) :
    (setInsert a l).Nodup := by
  induction l with
  | nil => simp [setInsert]
  | cons b bs ih =>
    obtain ⟨hb, hbs⟩ := List.nodup_cons.mp h
    simp only [setInsert]
    split_ifs with h1 h2
    · exact List.nodup_cons.mpr ⟨ha, h⟩
    · refine List.nodup_cons.mpr ⟨?_, ih (fun hm => ha (by simp [hm])) hbs⟩
      intro hm
      rcases mem_setInsert a bs b hm with hm | hm
      · rw [hm, stringLess_irrefl] at h2
        exact Bool.false_ne_true h2
      · exact hb hm
    · exact h

theorem addProductSupplied_nodup (s : Supplier) (id : Str) (h : s.productIdsSupplied.Nodup) :
    (s.addProductSupplied id).productIdsSupplied.Nodup := by
  unfold Supplier.addProductSupplied
  split_ifs with hc
  · exact setInsert_nodup id _ (by simpa [Supplier.suppliesProduct] using hc) h
  · exact h

theorem removeProductSupplied_nodup (s : Supplier) (id : Str) (h : s.productIdsSupplied.Nodup) :
    (s.removeProductSupplied id).productIdsSupplied.Nodup := by
  unfold Supplier.removeProductSupplied
  split_ifs
  · exact h.erase id
  · exact h

/-! ## Adding to the inventory and looking things up -/

theorem ptrInsert_idem {α : Type} (k : Ptr) (x : α) (l : List (Ptr × α)) :
    ptrInsert k x (ptrInsert k x l) = ptrInsert k x l := by
  induction l with
  | nil => simp [ptrInsert]
  | cons e es ih =>
    simp only [ptrInsert]
    split_ifs with h1 h2
    · simp [ptrInsert]
    · simp only [ptrInsert, if_neg h1, if_pos h2, ih]
    · simp only [ptrInsert, if_neg h1, if_neg h2]

theorem ptrInsert_of_key_mem {α : Type} (k : Ptr) (x : α) (l : List (Ptr × α))
    (hs : l.Pairwise (fun a b => a.1 < b.1)) (hk : k ∈ l.map (·.1)) : ptrInsert k x l = l := by
  induction l with
  | nil => simp at hk
  | cons e es ih =>
    obtain ⟨h1, h2⟩ := List.pairwise_cons.mp hs
    simp only [ptrInsert]
    rcases List.mem_cons.mp hk with hk | hk
    · have hk1 : k = e.1 := hk
      rw [if_neg (by rw [hk1]; exact Nat.lt_irrefl _),
        if_neg (by rw [hk1]; exact Nat.lt_irrefl _)]
    · obtain ⟨y, hy, hyk⟩ := List.mem_map.mp hk
      have hlt : e.1 < k := by
        have hyk1 : y.1 = k := hyk
        rw [← hyk1]
        exact h1 y hy
      rw [if_neg (Nat.lt_asymm hlt), if_pos hlt, ih h2 hk]

/-- C21: `addProduct(nullptr)` leaves the inventory as it is; `addProduct(p)` for a pointer
that the collection does not hold yet adds exactly that pointer, so the product count grows by
one, whatever the ids of the stored products are; adding the same pointer a second time
changes nothing, and neither does adding a pointer that a set in increasing order holds
already.  The suppliers are never touched. -/
theorem c21_addProduct (inv : Inventory) (p : Ptr × Product) :
    inv.addProduct none = inv ∧
      ((∀ e ∈ inv.ownedProductList, e.1 ≠ p.1) →
        (inv.addProduct (some p)).ownedProductList.length = inv.ownedProductList.length + 1 ∧
          (inv.addProduct (some p)).ownedProductList.Perm (p :: inv.ownedProductList)) ∧
      (inv.addProduct (some p)).addProduct (some p) = inv.addProduct (some p) ∧
      (inv.ownedProductList.Pairwise (fun a b => a.1 < b.1) →
        p.1 ∈ inv.ownedProductList.map (·.1) → inv.addProduct (some p) = inv) ∧
      (inv.addProduct (some p)).supplierList = inv.supplierList := by
  refine ⟨rfl, ?_, ?_, ?_, rfl⟩
  · intro h
    have hp := ptrInsert_perm p.1 p.2 inv.ownedProductList h
    exact ⟨by simpa using hp.length_eq, hp⟩
  · simp only [Inventory.addProduct, ptrInsert_idem]
  · intro hs hk
    simp only [Inventory.addProduct, ptrInsert_of_key_mem p.1 p.2 _ hs hk]

/-- C22: `searchProduct(id)` returns only products that are stored and have the id `id`, the
first of them in the order of the set; it returns one whenever a stored product has the id,
and the null pointer exactly when none has, so for every id on an empty inventory. -/
theorem c22_searchProduct (inv : Inventory) (id : Str) :
    (∀ p, inv.searchProduct id = some p →
        p ∈ inv.ownedProductList ∧ p.2.getId = id ∧
          ∃ l1 l2, inv.ownedProductList = l1 ++ p :: l2 ∧ ∀ x ∈ l1, x.2.getId ≠ id) ∧
      ((∃ p ∈ inv.ownedProductList, p.2.getId = id) → ∃ q, inv.searchProduct id = some q) ∧
      (inv.searchProduct id = none ↔ ∀ p ∈ inv.ownedProductList, p.2.getId ≠ id) ∧
      Inventory.new.searchProduct id = none := by
  refine ⟨?_, (searchProduct_isSome_iff inv id).mpr, searchProduct_eq_none_iff inv id, rfl⟩
  intro p h
  obtain ⟨h1, l1, l2, h2, h3⟩ := searchProduct_eq_some inv id p h
  exact ⟨by simp [h2], h1, l1, l2, h2, h3⟩

theorem stringLess_trichotomy (a b : Str) (h1 : stringLess a b = false)
    (h2 : stringLess b a = false) : a = b := by
  induction a generalizing b with
  | nil =>
    cases b with
    | nil => rfl
    | cons d ds => simp [stringLess] at h1
  | cons c cs ih =>
    cases b with
    | nil => simp [stringLess] at h2
    | cons d ds =>
      simp only [stringLess] at h1 h2
      split_ifs at h1 h2 with h3 h4
      have hn : c.toNat = d.toNat := Nat.le_antisymm (Nat.not_lt.mp h4) (Nat.not_lt.mp h3)
      have hcd : c = d := by rw [← Char.ofNat_toNat c, ← Char.ofNat_toNat d, hn]
      rw [hcd, ih ds h1 h2]

theorem mem_setInsert_self (a : Str) (l : List Str) : a ∈ setInsert a l := by
  induction l with
  | nil => simp [setInsert]
  | cons b bs ih =>
    simp only [setInsert]
    split_ifs with h1 h2
    · simp
    · simp [ih]
    · have : a = b := stringLess_trichotomy a b (by simpa using h1) (by simpa using h2)
      simp [this]

theorem mem_setInsert_of_mem (a : Str) (l : List Str) (y : Str) (h : y ∈ l) :
    y ∈ setInsert a l := by
  induction l with
  | nil => simp at h
  | cons b bs ih =>
    simp only [setInsert]
    split_ifs
    · simp [h]
    · rcases List.mem_cons.mp h with h | h
      · simp [h]
      · simp [ih h]
    · exact h

theorem addProductSupplied_supplies (s : Supplier) (id : Str) :
    (s.addProductSupplied id).suppliesProduct id = true := by
  unfold Supplier.addProductSupplied
  split_ifs with hc
  · simpa [Supplier.suppliesProduct] using mem_setInsert_self id s.productIdsSupplied
  · simpa using hc

theorem addProductSupplied_other (s : Supplier) (id t : Str) (h : t ≠ id) :
    (s.addProductSupplied id).suppliesProduct t = s.suppliesProduct t := by
  unfold Supplier.addProductSupplied
  split_ifs with hc
  · rw [Bool.eq_iff_iff]
    simp only [Supplier.suppliesProduct, List.contains_iff_exists_mem_beq, beq_iff_eq,
      exists_eq_right']
    constructor
    · intro hm
      rcases mem_setInsert id _ t hm with hm | hm
      · exact absurd hm h
      · exact hm
    · exact mem_setInsert_of_mem id _ t
  · rfl

theorem getSupplierForProduct_eq_none_iff (inv : Inventory) (id : Str) :
    inv.getSupplierForProduct id = none ↔
      ∀ s ∈ inv.supplierList, s.2.suppliesProduct id = false := by
  simp [Inventory.getSupplierForProduct, List.find?_eq_none]

theorem getSupplierForProduct_eq_some (inv : Inventory) (id : Str) (s : Ptr × Supplier)
    (h : inv.getSupplierForProduct id = some s) :
    s.2.suppliesProduct id = true ∧
      ∃ l1 l2, inv.supplierList = l1 ++ s :: l2 ∧ ∀ x ∈ l1, x.2.suppliesProduct id = false := by
  unfold Inventory.getSupplierForProduct at h
  obtain ⟨h1, l1, l2, h2, h3⟩ := List.find?_eq_some.mp h
  exact ⟨h1, l1, l2, h2, fun x hx => by simpa using h3 x hx⟩

theorem getSupplierForProduct_isSome (inv : Inventory) (id : Str)
    (h : ∃ s ∈ inv.supplierList, s.2.suppliesProduct id = true) :
    ∃ r, inv.getSupplierForProduct id = some r := by
  obtain ⟨s, hs, hid⟩ := h
  cases hr : inv.getSupplierForProduct id with
  | none =>
    have := (getSupplierForProduct_eq_none_iff inv id).mp hr s hs
    rw [hid] at this
    exact absurd this (by decide)
  | some r => exact ⟨r, rfl⟩

/-- C23: `addProductWithSupplier(p, s)` with a null pointer for `p` or for `s` leaves the
inventory as it is.  With two objects, the product collection afterwards holds the pointer
`p` (next to the object `p` unless the set held that pointer next to another object), the
supplier collection holds the pointer `s`, whatever it holds at the address of `s` supplies
the id of `p`, and `getSupplierForProduct` returns, for that id, a registered supplier that
supplies it. -/
theorem c23_addProductWithSupplier (inv : Inventory) (p : Option (Ptr × Product))
    (s : Option (Ptr × Supplier)) :
    ((p = none ∨ s = none) → inv.addProductWithSupplier p s = inv) ∧
      ∀ p0 s0, p = some p0 → s = some s0 →
        (∃ x, (p0.1, x) ∈ (inv.addProductWithSupplier p s).ownedProductList) ∧
          ((∀ x, (p0.1, x) ∈ inv.ownedProductList → x = p0.2) →
            p0 ∈ (inv.addProductWithSupplier p s).ownedProductList) ∧
          (∃ y, (s0.1, y) ∈ (inv.addProductWithSupplier p s).supplierList) ∧
          ((∀ y, (s0.1, y) ∈ inv.supplierList → y = s0.2) →
            (s0.1, s0.2.addProductSupplied p0.2.getId) ∈
              (inv.addProductWithSupplier p s).supplierList) ∧
          (∀ e ∈ (inv.addProductWithSupplier p s).supplierList, e.1 = s0.1 →
            e.2.suppliesProduct p0.2.getId = true) ∧
          ∃ r, (inv.addProductWithSupplier p s).getSupplierForProduct p0.2.getId = some r ∧
            r ∈ (inv.addProductWithSupplier p s).supplierList ∧
            r.2.suppliesProduct p0.2.getId = true := by
  constructor
  · rintro (h | h)
    · subst h
      rfl
    · subst h
      cases p <;> rfl
  · intro p0 s0 hp hs
    subst hp
    subst hs
    have hP : (inv.addProductWithSupplier (some p0) (some s0)).ownedProductList =
        ptrInsert p0.1 p0.2 inv.ownedProductList := rfl
    have hS : (inv.addProductWithSupplier (some p0) (some s0)).supplierList =
        ptrInsert s0.1 (s0.2.addProductSupplied p0.2.getId)
          (inv.supplierList.map fun e =>
            if e.1 = s0.1 then (e.1, e.2.addProductSupplied p0.2.getId) else e) := rfl
    have hmemS : ∀ e ∈ (inv.addProductWithSupplier (some p0) (some s0)).supplierList,
        e.1 = s0.1 → e.2.suppliesProduct p0.2.getId = true := by
      intro e he hk
      rw [hS] at he
      rcases mem_ptrInsert _ _ _ e he with h | h
      · rw [h]
        exact addProductSupplied_supplies _ _
      · obtain ⟨e0, -, rfl⟩ := List.mem_map.mp h
        split_ifs with hc
        · exact addProductSupplied_supplies _ _
        · split_ifs at hk
          exact absurd hk hc
    have hexS : ∃ y, (s0.1, y) ∈ (inv.addProductWithSupplier (some p0) (some s0)).supplierList := by
      rw [hS]
      rcases mem_ptrInsert_self s0.1 (s0.2.addProductSupplied p0.2.getId)
          (inv.supplierList.map fun e =>
            if e.1 = s0.1 then (e.1, e.2.addProductSupplied p0.2.getId) else e) with h | ⟨y, hy⟩
      · exact ⟨_, h⟩
      · exact ⟨y, mem_ptrInsert_of_mem _ _ _ _ hy⟩
    refine ⟨?_, ?_, hexS, ?_, hmemS, ?_⟩
    · rw [hP]
      rcases mem_ptrInsert_self p0.1 p0.2 inv.ownedProductList with h | ⟨y, hy⟩
      · exact ⟨_, h⟩
      · exact ⟨y, mem_ptrInsert_of_mem _ _ _ _ hy⟩
    · intro hal
      rw [hP]
      rcases mem_ptrInsert_self p0.1 p0.2 inv.ownedProductList with h | ⟨y, hy⟩
      · exact h
      · have := hal y hy
        subst this
        exact mem_ptrInsert_of_mem _ _ _ _ hy
    · intro hal
      rw [hS]
      rcases mem_ptrInsert_self s0.1 (s0.2.addProductSupplied p0.2.getId)
          (inv.supplierList.map fun e =>
            if e.1 = s0.1 then (e.1, e.2.addProductSupplied p0.2.getId) else e) with h | ⟨y, hy⟩
      · exact h
      · apply mem_ptrInsert_of_mem
        obtain ⟨e0, he0, heq⟩ := List.mem_map.mp hy
        split_ifs at heq with hc
        · have h0 : e0.2 = s0.2 := hal e0.2 (by rw [← hc]; exact he0)
          exact List.mem_map.mpr ⟨e0, he0, by simp [hc, h0]⟩
        · have : e0.1 = s0.1 := by rw [heq]
          exact absurd this hc
    · obtain ⟨y, hy⟩ := hexS
      obtain ⟨r, hr⟩ := getSupplierForProduct_isSome
        (inv.addProductWithSupplier (some p0) (some s0)) p0.2.getId
        ⟨(s0.1, y), hy, hmemS _ hy rfl⟩
      exact ⟨r, hr, List.mem_of_find?_eq_some hr, (getSupplierForProduct_eq_some _ _ r hr).1⟩

/-! ## Removing a supplier, resolving a supplier, the low-stock scan -/

/-- C24: `removeSupplier(s)` returns true exactly when `s` is not the null pointer and the
supplier collection holds it; then the collection loses that one pointer, the others staying
in place; a call that returns false changes nothing; in every case the product collection,
with every product in it, is as before. -/
theorem c24_removeSupplier (inv : Inventory) (s : Option Ptr) :
    ((inv.removeSupplier s).1 = true ↔ ∃ a, s = some a ∧ a ∈ inv.supplierList.map (·.1)) ∧
      ((inv.removeSupplier s).1 = true →
        ∃ a x l1 l2, s = some a ∧ inv.supplierList = l1 ++ (a, x) :: l2 ∧
          (∀ e ∈ l1, e.1 ≠ a) ∧ (inv.removeSupplier s).2.supplierList = l1 ++ l2) ∧
      ((inv.removeSupplier s).1 = false → (inv.removeSupplier s).2 = inv) ∧
      (inv.removeSupplier s).2.ownedProductList = inv.ownedProductList := by
  cases s with
  | none => simp [Inventory.removeSupplier]
  | some a =>
    cases hf : inv.supplierList.find? (fun e => e.1 = a) with
    | none =>
      have hn := List.find?_eq_none.mp hf
      have hnot : a ∉ inv.supplierList.map (·.1) := by
        intro hm
        obtain ⟨e, he, hea⟩ := List.mem_map.mp hm
        exact hn e he (by simpa using hea)
      have hr : inv.removeSupplier (some a) = (false, inv) := by
        simp only [Inventory.removeSupplier, hf]
      rw [hr]
      refine ⟨⟨fun h => absurd h Bool.false_ne_true, ?_⟩, fun h => absurd h Bool.false_ne_true,
        fun _ => rfl, rfl⟩
      rintro ⟨b, hb, hm⟩
      rw [Option.some.inj hb] at hnot
      exact absurd hm hnot
    | some x =>
      obtain ⟨hx, l1, l2, hl, hl1⟩ := List.find?_eq_some.mp hf
      have hxa : x.1 = a := by simpa using hx
      have hne : ∀ e ∈ l1, e.1 ≠ a := fun e he => by simpa using hl1 e he
      have her : inv.supplierList.eraseP (fun e => e.1 = a) = l1 ++ l2 := by
        rw [hl, List.eraseP_append_right _ (fun b hb => by simpa using hne b hb),
          List.eraseP_cons_of_pos (by simpa using hxa)]
      have hmem : a ∈ inv.supplierList.map (·.1) :=
        List.mem_map.mpr ⟨x, List.mem_of_find?_eq_some hf, hxa⟩
      have hr : inv.removeSupplier (some a) =
          (true, { inv with supplierList := l1 ++ l2 }) := by
        simp only [Inventory.removeSupplier, hf, her]
      rw [hr]
      refine ⟨⟨fun _ => ⟨a, rfl, hmem⟩, fun _ => rfl⟩,
        fun _ => ⟨a, x.2, l1, l2, rfl, ?_, hne, rfl⟩,
        fun h => absurd h (Bool.noConfusion), rfl⟩
      rw [hl, ← hxa]

/-- C25: `getSupplierForProduct(id)` returns only registered suppliers whose set of supplied
ids holds `id`, the first of them in the order of the set; it returns one whenever a
registered supplier supplies `id`, and the null pointer exactly when none does. -/
theorem c25_getSupplierForProduct (inv : Inventory) (id : Str) :
    (∀ s, inv.getSupplierForProduct id = some s →
        s ∈ inv.supplierList ∧ id ∈ s.2.productIdsSupplied ∧
          ∃ l1 l2, inv.supplierList = l1 ++ s :: l2 ∧
            ∀ x ∈ l1, id ∉ x.2.productIdsSupplied) ∧
      ((∃ s ∈ inv.supplierList, id ∈ s.2.productIdsSupplied) →
        ∃ r, inv.getSupplierForProduct id = some r) ∧
      (inv.getSupplierForProduct id = none ↔
        ∀ s ∈ inv.supplierList, id ∉ s.2.productIdsSupplied) := by
  refine ⟨?_, ?_, ?_⟩
  · intro s h
    obtain ⟨h1, l1, l2, h2, h3⟩ := getSupplierForProduct_eq_some inv id s h
    refine ⟨by simp [h2], by simpa [Supplier.suppliesProduct] using h1, l1, l2, h2, ?_⟩
    intro x hx
    simpa [Supplier.suppliesProduct] using h3 x hx
  · rintro ⟨s, hs, hid⟩
    exact getSupplierForProduct_isSome inv id
      ⟨s, hs, by simpa [Supplier.suppliesProduct] using hid⟩
  · rw [getSupplierForProduct_eq_none_iff]
    simp [Supplier.suppliesProduct]

/-- C26: `checkLowStock(threshold)` reports exactly the stored products whose `getQuantity()`
is below their own `getMinQuantity()`, in the order of the set; the products reported are the
same for any two thresholds; and the call leaves the inventory, products and suppliers, as it
finds it. -/
theorem c26_checkLowStock (inv : Inventory) (threshold other : Int) :
    (∀ p, p ∈ (inv.checkLowStock threshold).2.1 ↔
        p ∈ inv.ownedProductList ∧ p.2.getQuantity < p.2.getMinQuantity) ∧
      (inv.checkLowStock threshold).2.1.Sublist inv.ownedProductList ∧
      (inv.checkLowStock threshold).2.1 = (inv.checkLowStock other).2.1 ∧
      (inv.checkLowStock threshold).2.2 = inv := by
  refine ⟨fun p => ?_, ?_, rfl, rfl⟩
  · simp [Inventory.checkLowStock]
  · exact List.filter_sublist _

/-! ## Allergens -/

theorem setInsert_idem (a : Str) (l : List Str) : setInsert a (setInsert a l) = setInsert a l := by
  induction l with
  | nil => simp [setInsert, stringLess_irrefl]
  | cons b bs ih =>
    simp only [setInsert]
    split_ifs with h1 h2
    · simp [setInsert, stringLess_irrefl]
    · simp only [setInsert, if_neg h1, if_pos h2, ih]
    · simp only [setInsert, if_neg h1, if_neg h2]

theorem setInsert_of_mem (a : Str) (l : List Str)
    (hs : l.Pairwise (fun x y => stringLess x y = true)) (ha : a ∈ l) : setInsert a l = l := by
  induction l with
  | nil => simp at ha
  | cons b bs ih =>
    obtain ⟨h1, h2⟩ := List.pairwise_cons.mp hs
    simp only [setInsert]
    rcases List.mem_cons.mp ha with ha | ha
    · rw [ha, stringLess_irrefl]
      simp
    · have hlt := h1 a ha
      rw [stringLess_asymm b a hlt, hlt, ih h2 ha]
      simp

theorem setInsert_perm (a : Str) (l : List Str) (ha : a ∉ l) : (setInsert a l).Perm (a :: l) := by
  induction l with
  | nil => simp [setInsert]
  | cons b bs ih =>
    simp only [setInsert]
    split_ifs with h1 h2
    · exact List.Perm.refl _
    · exact ((ih (fun hm => ha (by simp [hm]))).cons b).trans (List.Perm.swap a b bs)
    · have : a = b := stringLess_trichotomy a b (by simpa using h1) (by simpa using h2)
      exact absurd (by simp [this]) ha

/-- C30: for a `Food` whose allergen set is in increasing order (as every `std::set` is),
`addAllergen(a)` called once or more leaves the same set as one call; that set holds `a`, has
exactly one element more than before (namely `a`) if `a` was absent, and is the set as it was
if `a` was present; no other member changes. -/
theorem c30_addAllergen (f : Food) (a : Str) (n : Nat)
    (hs : f.allergens.Pairwise (fun x y => stringLess x y = true)) :
    (fun g : Food => g.addAllergen a)^[n + 1] f = f.addAllergen a ∧
      a ∈ (f.addAllergen a).allergens ∧
      (a ∉ f.allergens →
        (f.addAllergen a).allergens.length = f.allergens.length + 1 ∧
          (f.addAllergen a).allergens.Perm (a :: f.allergens)) ∧
      (a ∈ f.allergens → f.addAllergen a = f) ∧
      f.addAllergen a = { f with allergens := (f.addAllergen a).allergens } := by
  refine ⟨?_, mem_setInsert_self a _, ?_, ?_, rfl⟩
  · induction n with
    | zero => rfl
    | succ k ih =>
      rw [Function.iterate_succ_apply', ih]
      simp only [Food.addAllergen, setInsert_idem]
  · intro ha
    have hp := setInsert_perm a f.allergens ha
    exact ⟨by simpa using hp.length_eq, hp⟩
  · intro ha
    simp only [Food.addAllergen, setInsert_of_mem a _ hs ha]

/-- C30 (witness): a food with the allergens Dairy and Peanuts, `addAllergen("Soy")` three
times. -/
theorem c30_addAllergen_witness :
    foodWithAllergens.allergens.Pairwise (fun x y => stringLess x y = true) ∧
      ((fun g : Food => g.addAllergen "Soy".toList)^[2 + 1] foodWithAllergens =
          foodWithAllergens.addAllergen "Soy".toList ∧
        "Soy".toList ∈ (foodWithAllergens.addAllergen "Soy".toList).allergens ∧
        ("Soy".toList ∉ foodWithAllergens.allergens →
          (foodWithAllergens.addAllergen "Soy".toList).allergens.length =
              foodWithAllergens.allergens.length + 1 ∧
            (foodWithAllergens.addAllergen "Soy".toList).allergens.Perm
              ("Soy".toList :: foodWithAllergens.allergens)) ∧
        ("Soy".toList ∈ foodWithAllergens.allergens →
          foodWithAllergens.addAllergen "Soy".toList = foodWithAllergens) ∧
        foodWithAllergens.addAllergen "Soy".toList =
          { foodWithAllergens with
            allergens := (foodWithAllergens.addAllergen "Soy".toList).allergens }) :=
  ⟨by decide, c30_addAllergen foodWithAllergens "Soy".toList 2 (by decide)⟩

/-! ## Loading: the two headers -/

theorem splitDelim_fst (d : Char) (s : Str) : (splitDelim d s).1 = s.takeWhile (· ≠ d) := by
  induction s with
  | nil => rfl
  | cons c cs ih =>
    simp only [splitDelim, List.takeWhile]
    by_cases h : c = d
    · simp [h]
    · simp [h, ih]

theorem getline_good_snd (is : IStream) (old : Str) (d : Char) (h : is.good = true) :
    (getline is old d).2 = is.buf.takeWhile (· ≠ d) := by
  unfold getline
  rw [if_pos h, ← splitDelim_fst]
  split <;> simp_all

theorem getline_not_good_snd (is : IStream) (old : Str) (d : Char) (h : is.good = false) :
    (getline is old d).2 = old := by
  unfold getline
  simp [h]

/-- A file whose first line (the characters before its first line break) is not `SUPPLIERS`
is rejected, and the inventory is left as it is. -/
theorem loadInventory_first_line (inv : Inventory) (content : Str) (u : Indeterminate)
    (alloc : Allocator) (h : content.takeWhile (· ≠ '\n') ≠ "SUPPLIERS".toList) :
    FileManager.loadInventory (some inv) (some content) u alloc = (false, some inv) := by
  have hg : (getline (IStream.open content) [] '\n').2 = content.takeWhile (· ≠ '\n') :=
    getline_good_snd _ _ _ rfl
  unfold FileManager.loadInventory
  simp only [hg]
  rw [if_pos h]

theorem loadInventory_fst_eq_false_iff (inv : Inventory) (content : Str) (u : Indeterminate)
    (alloc : Allocator) :
    (FileManager.loadInventory (some inv) (some content) u alloc).1 = false ↔
      content.takeWhile (· ≠ '\n') ≠ "SUPPLIERS".toList ∨
        (getline (FileManager.afterSuppliers inv content u alloc).inFile
          (FileManager.afterSuppliers inv content u alloc).line '\n').2 ≠
            "PRODUCTS".toList := by
  have hg : (getline (IStream.open content) [] '\n').2 = content.takeWhile (· ≠ '\n') :=
    getline_good_snd _ _ _ rfl
  unfold FileManager.loadInventory
  simp only [hg]
  split_ifs with h1 h2
  · exact ⟨fun _ => Or.inl h1, fun _ => rfl⟩
  · exact ⟨fun _ => Or.inr h2, fun _ => rfl⟩
  · refine ⟨fun h => absurd h (by simp), fun h => ?_⟩
    rcases h with h | h
    · exact absurd h h1
    · exact absurd h h2

theorem loadSuppliers_stream (u : Indeterminate) (alloc : Allocator) (ls : List Str)
    (hl : ∀ l ∈ ls, '\n' ∉ l) :
    ∀ (i : Nat) (rest line : Str) (inv : Inventory),
      (FileManager.loadSuppliers u alloc ls.length i
          { inFile :=
              { buf := FileManager.writeAll (fun l => l ++ ['\n']) ls ++ rest
                eofbit := false
                failbit := false }
            line := line
            inventory := inv }).inFile =
        { buf := rest, eofbit := false, failbit := false } := by
  induction ls with
  | nil =>
    intro i rest line inv
    rfl
  | cons l r ih =>
    intro i rest line inv
    have hw : FileManager.writeAll (fun l => l ++ ['\n']) (l :: r) ++ rest =
        l ++ '\n' :: (FileManager.writeAll (fun l => l ++ ['\n']) r ++ rest) := by
      simp [FileManager.writeAll]
    have hstep : FileManager.loadSupplier u alloc i
        { inFile :=
            { buf := FileManager.writeAll (fun l => l ++ ['\n']) (l :: r) ++ rest
              eofbit := false
              failbit := false }
          line := line
          inventory := inv } =
        { inFile :=
            { buf := FileManager.writeAll (fun l => l ++ ['\n']) r ++ rest
              eofbit := false
              failbit := false }
          line := (FileManager.loadSupplier u alloc i
            { inFile :=
                { buf := FileManager.writeAll (fun l => l ++ ['\n']) (l :: r) ++ rest
                  eofbit := false
                  failbit := false }
              line := line
              inventory := inv }).line
          inventory := (FileManager.loadSupplier u alloc i
            { inFile :=
                { buf := FileManager.writeAll (fun l => l ++ ['\n']) (l :: r) ++ rest
                  eofbit := false
                  failbit := false }
              line := line
              inventory := inv }).inventory } := by
      have hin : (FileManager.loadSupplier u alloc i
          { inFile :=
              { buf := FileManager.writeAll (fun l => l ++ ['\n']) (l :: r) ++ rest
                eofbit := false
                failbit := false }
            line := line
            inventory := inv }).inFile =
          { buf := FileManager.writeAll (fun l => l ++ ['\n']) r ++ rest
            eofbit := false
            failbit := false } := by
        simp only [FileManager.loadSupplier]
        rw [hw, getline_field '\n' l _ line (hl l (by simp))]
      rw [← hin]
    rw [List.length_cons, FileManager.loadSuppliers, hstep]
    exact ih (fun x hx => hl x (by simp [hx])) (i + 1) rest _ _

/-- A file that holds the line `SUPPLIERS`, a count, as many complete lines as the count says
and then a line other than `PRODUCTS` is rejected. -/
theorem loadInventory_products_header (inv : Inventory) (ls : List Str) (rest : Str)
    (u : Indeterminate) (alloc : Allocator) (hl : ∀ l ∈ ls, '\n' ∉ l)
    (hn : (ls.length : Int) ≤ INT_MAX)
    (h : rest.takeWhile (· ≠ '\n') ≠ "PRODUCTS".toList) :
    (FileManager.loadInventory (some inv)
      (some ("SUPPLIERS\n".toList ++ (printNat ls.length ++ '\n' ::
        (FileManager.writeAll (fun l => l ++ ['\n']) ls ++ rest)))) u alloc).1 = false := by
  rw [loadInventory_fst_eq_false_iff]
  right
  have h0 : getline (IStream.open ("SUPPLIERS\n".toList ++ (printNat ls.length ++ '\n' ::
      (FileManager.writeAll (fun l => l ++ ['\n']) ls ++ rest)))) [] '\n' =
      ({ buf := printNat ls.length ++ '\n' ::
          (FileManager.writeAll (fun l => l ++ ['\n']) ls ++ rest),
         eofbit := false, failbit := false }, "SUPPLIERS".toList) :=
    getline_field '\n' "SUPPLIERS".toList _ [] (by decide)
  have hin : (FileManager.afterSuppliers inv ("SUPPLIERS\n".toList ++ (printNat ls.length ++
      '\n' :: (FileManager.writeAll (fun l => l ++ ['\n']) ls ++ rest))) u alloc).inFile =
      { buf := rest, eofbit := false, failbit := false } := by
    unfold FileManager.afterSuppliers
    simp only [h0, extractInt_count ls.length _ u.localInt hn, ignore_cons, Int.toNat_ofNat]
    exact loadSuppliers_stream u alloc ls hl 0 rest _ inv
  rw [hin, getline_good_snd { buf := rest, eofbit := false, failbit := false } _ '\n' rfl]
  exact h

/-- C27 (failing input): the file `SUPPLIERS`, `1`, `PRODUCTS` that ends without a line break
declares one supplier record, which is its last line, and has no line after it; all the same
`loadInventory` returns true. -/
theorem c27_truncated_file_accepted :
    truncatedFile = "SUPPLIERS\n1\nPRODUCTS".toList ∧
      (FileManager.loadInventory (some Inventory.new) (some truncatedFile) sampleIndeterminate
        sampleAllocator).1 = true ∧
      (FileManager.afterSuppliers Inventory.new truncatedFile sampleIndeterminate
        sampleAllocator).inFile = { buf := [], eofbit := true, failbit := false } ∧
      (FileManager.afterSuppliers Inventory.new truncatedFile sampleIndeterminate
        sampleAllocator).line = "PRODUCTS".toList := by
  decide

/-- The truncated file is accepted whatever the inventory, the values of the uninitialised
locals and the addresses are. -/
theorem truncatedFile_accepted (inv : Inventory) (u : Indeterminate) (alloc : Allocator) :
    (FileManager.loadInventory (some inv) (some truncatedFile) u alloc).1 = true :=
  rfl

/-! ## Loading: what a failed call leaves behind -/

theorem mem_modify_of_ne (l : List (Ptr × Supplier)) (k : Ptr) (f : Supplier → Supplier)
    (e : Ptr × Supplier) (he : e.1 ≠ k) :
    e ∈ l.map (fun x => if x.1 = k then (x.1, f x.2) else x) ↔ e ∈ l := by
  constructor
  · intro h
    obtain ⟨e0, he0, heq⟩ := List.mem_map.mp h
    split_ifs at heq with hc
    · have : e.1 = k := by rw [← heq]; exact hc
      exact absurd this he
    · exact heq ▸ he0
  · intro h
    exact List.mem_map.mpr ⟨e, h, by simp [he]⟩

theorem foldl_modifySupplier_frame (ids : List Str) (k : Ptr) :
    ∀ inv : Inventory,
      (ids.foldl (fun inv prodId => inv.modifySupplier k (·.addProductSupplied prodId))
          inv).ownedProductList = inv.ownedProductList ∧
        ∀ e : Ptr × Supplier, e.1 ≠ k →
          (e ∈ (ids.foldl
              (fun inv prodId => inv.modifySupplier k (·.addProductSupplied prodId))
              inv).supplierList ↔ e ∈ inv.supplierList) := by
  induction ids with
  | nil => intro inv; exact ⟨rfl, fun _ _ => Iff.rfl⟩
  | cons t r ih =>
    intro inv
    rw [List.foldl_cons]
    obtain ⟨h1, h2⟩ := ih (inv.modifySupplier k (·.addProductSupplied t))
    refine ⟨h1, fun e he => ?_⟩
    rw [h2 e he]
    exact mem_modify_of_ne inv.supplierList k (fun x => x.addProductSupplied t) e he

theorem mem_ptrInsert_iff_of_ne {α : Type} (k : Ptr) (x : α) (l : List (Ptr × α))
    (e : Ptr × α) (he : e.1 ≠ k) : e ∈ ptrInsert k x l ↔ e ∈ l := by
  constructor
  · intro h
    rcases mem_ptrInsert k x l e h with h | h
    · rw [h] at he
      exact absurd rfl he
    · exact h
  · exact mem_ptrInsert_of_mem k x l e

theorem loadSupplier_frame (u : Indeterminate) (alloc : Allocator) (i : Nat) (st : LoadState) :
    (FileManager.loadSupplier u alloc i st).inventory.ownedProductList =
        st.inventory.ownedProductList ∧
      ∀ e : Ptr × Supplier, e.1 ≠ alloc.supplier i →
        (e ∈ (FileManager.loadSupplier u alloc i st).inventory.supplierList ↔
          e ∈ st.inventory.supplierList) := by
  simp only [FileManager.loadSupplier]
  obtain ⟨h1, h2⟩ := foldl_modifySupplier_frame
    (FileManager.tokenLoop (fun v token => v ++ [token])
      (extractInt
        (getline
          (ignore (extractDouble (IStream.open (getline st.inFile st.line '\n').2)
            u.localDouble).1) [] '|').1 u.localInt).2.toNat
      (ignore (extractInt
        (getline
          (ignore (extractDouble (IStream.open (getline st.inFile st.line '\n').2)
            u.localDouble).1) [] '|').1 u.localInt).1) [] [])
    (alloc.supplier i)
    (st.inventory.addSupplier (some (alloc.supplier i,
      (Supplier.new.setQualityRating
        (extractDouble (IStream.open (getline st.inFile st.line '\n').2)
          u.localDouble).2).setDeliveryReliability
        (getline
          (ignore (extractDouble (IStream.open (getline st.inFile st.line '\n').2)
            u.localDouble).1) [] '|').2)))
  refine ⟨h1, fun e he => ?_⟩
  rw [h2 e he]
  exact mem_ptrInsert_iff_of_ne _ _ _ e he

theorem loadSuppliers_frame (u : Indeterminate) (alloc : Allocator) (n : Nat) :
    ∀ (i : Nat) (st : LoadState),
      (FileManager.loadSuppliers u alloc n i st).inventory.ownedProductList =
          st.inventory.ownedProductList ∧
        ∀ e : Ptr × Supplier, (∀ j, e.1 ≠ alloc.supplier j) →
          (e ∈ (FileManager.loadSuppliers u alloc n i st).inventory.supplierList ↔
            e ∈ st.inventory.supplierList) := by
  induction n with
  | zero => intro i st; exact ⟨rfl, fun _ _ => Iff.rfl⟩
  | succ m ih =>
    intro i st
    rw [FileManager.loadSuppliers]
    obtain ⟨h1, h2⟩ := ih (i + 1) (FileManager.loadSupplier u alloc i st)
    obtain ⟨h3, h4⟩ := loadSupplier_frame u alloc i st
    exact ⟨h1.trans h3, fun e he => (h2 e he).trans (h4 e (he i))⟩

/-- C28 (counterexample): loading a file with one supplier record and no `PRODUCTS` line into
an empty inventory returns false, and the inventory holds a supplier afterwards. -/
theorem c28_supplier_added_by_failed_load :
    Inventory.new.supplierList = [] ∧
      (FileManager.loadInventory (some Inventory.new) (some fileWithoutProductsHeader)
        sampleIndeterminate sampleAllocator).1 = false ∧
      (FileManager.loadInventory (some Inventory.new) (some fileWithoutProductsHeader)
        sampleIndeterminate sampleAllocator).2.map
          (fun inv => inv.supplierList.map fun e => (e.1, e.2.deliveryReliability)) =
        some [(1000, "Reliable".toList)] := by
  decide

/-- C28 (amended): a call of `loadInventory` that returns false leaves the product collection
as it was and keeps every supplier that was registered, unchanged; what it may add are
suppliers it created, at the addresses `new` returned.  Nothing at all changes when the
inventory is the null pointer, the file does not open, or the first line is not `SUPPLIERS`.
(The suppliers are assumed to live at addresses other than those `new` returns.) -/
theorem c28_failed_load (inv : Inventory) (file : Option Str) (u : Indeterminate)
    (alloc : Allocator) (hfresh : ∀ i, ∀ e ∈ inv.supplierList, e.1 ≠ alloc.supplier i)
    (h : (FileManager.loadInventory (some inv) file u alloc).1 = false) :
    FileManager.loadInventory none file u alloc = (false, none) ∧
      ∃ inv1, (FileManager.loadInventory (some inv) file u alloc).2 = some inv1 ∧
        inv1.ownedProductList = inv.ownedProductList ∧
        (∀ e ∈ inv.supplierList, e ∈ inv1.supplierList) ∧
        (∀ e ∈ inv1.supplierList, e ∈ inv.supplierList ∨ ∃ i, e.1 = alloc.supplier i) ∧
        ((file = none ∨ ∃ content, file = some content ∧
            content.takeWhile (· ≠ '\n') ≠ "SUPPLIERS".toList) → inv1 = inv) := by
  refine ⟨rfl, ?_⟩
  cases file with
  | none => exact ⟨inv, rfl, rfl, fun e he => he, fun e he => Or.inl he, fun _ => rfl⟩
  | some content =>
    by_cases hfirst : content.takeWhile (· ≠ '\n') ≠ "SUPPLIERS".toList
    · rw [loadInventory_first_line inv content u alloc hfirst]
      exact ⟨inv, rfl, rfl, fun e he => he, fun e he => Or.inl he, fun _ => rfl⟩
    · have hp := (loadInventory_fst_eq_false_iff inv content u alloc).mp h
      rcases hp with hp | hp
      · exact absurd hp hfirst
      · have hg : (getline (IStream.open content) [] '\n').2 =
            content.takeWhile (· ≠ '\n') := getline_good_snd _ _ _ rfl
        have hres : (FileManager.loadInventory (some inv) (some content) u alloc).2 =
            some (FileManager.afterSuppliers inv content u alloc).inventory := by
          unfold FileManager.loadInventory
          simp only [hg]
          rw [if_neg hfirst, if_pos hp]
        obtain ⟨h1, h2⟩ := loadSuppliers_frame u alloc
          (extractInt (getline (IStream.open content) [] '\n').1 u.localInt).2.toNat 0
          { inFile := ignore (extractInt (getline (IStream.open content) [] '\n').1
              u.localInt).1,
            line := (getline (IStream.open content) [] '\n').2, inventory := inv }
        refine ⟨_, hres, h1, ?_, ?_, ?_⟩
        · intro e he
          exact (h2 e (fun j => hfresh j e he)).mpr he
        · intro e he
          by_cases hj : ∃ i, e.1 = alloc.supplier i
          · exact Or.inr hj
          · exact Or.inl ((h2 e (fun j hj2 => hj ⟨j, hj2⟩)).mp he)
        · rintro (hn | ⟨c, hc, hc2⟩)
          · exact absurd hn (by simp)
          · rw [← Option.some.inj hc] at hc2
            exact absurd hc2 hfirst

/-- C28 (witness): the sample inventory and the file with one supplier record and no
`PRODUCTS` line. -/
theorem c28_failed_load_witness :
    (∀ i, ∀ e ∈ sampleInventory.supplierList, e.1 ≠ sampleAllocator.supplier i) ∧
      (FileManager.loadInventory (some sampleInventory) (some fileWithoutProductsHeader)
        sampleIndeterminate sampleAllocator).1 = false ∧
      (FileManager.loadInventory none (some fileWithoutProductsHeader) sampleIndeterminate
          sampleAllocator = (false, none) ∧
        ∃ inv1, (FileManager.loadInventory (some sampleInventory)
            (some fileWithoutProductsHeader) sampleIndeterminate sampleAllocator).2 =
              some inv1 ∧
          inv1.ownedProductList = sampleInventory.ownedProductList ∧
          (∀ e ∈ sampleInventory.supplierList, e ∈ inv1.supplierList) ∧
          (∀ e ∈ inv1.supplierList,
            e ∈ sampleInventory.supplierList ∨ ∃ i, e.1 = sampleAllocator.supplier i) ∧
          ((some fileWithoutProductsHeader = none ∨
              ∃ content, some fileWithoutProductsHeader = some content ∧
                content.takeWhile (· ≠ '\n') ≠ "SUPPLIERS".toList) →
            inv1 = sampleInventory)) :=
  have hfresh : ∀ i, ∀ e ∈ sampleInventory.supplierList, e.1 ≠ sampleAllocator.supplier i := by
    intro i e he
    simp only [sampleInventory, List.mem_cons, List.mem_singleton, List.not_mem_nil,
      or_false] at he
    rcases he with he | he
    · rw [he]
      show (60 : Nat) ≠ 1000 + i
      omega
    · rw [he]
      show (70 : Nat) ≠ 1000 + i
      omega
  ⟨hfresh, rfl,
    c28_failed_load sampleInventory (some fileWithoutProductsHeader) sampleIndeterminate
      sampleAllocator hfresh rfl⟩

/-! ## Saving: which suppliers are written -/

/-- C29 (counterexample): an inventory with a registered supplier and no product is saved
with the supplier count 0 and without a supplier record. -/
theorem c29_supplier_without_product_not_written :
    inventoryWithSupplierOnly.supplierList.length = 1 ∧
      FileManager.saveInventory (some inventoryWithSupplierOnly) true =
        some "SUPPLIERS\n0\nPRODUCTS\n0\n".toList := by
  decide

/-- C29 (amended): `saveInventory` writes, after the line `SUPPLIERS`, the number of the
suppliers that `getSupplierForProduct` resolves for the id of at least one stored product and
one record line for each of them, each once; after the line `PRODUCTS` it writes the number of
stored products and one record line for each.  The supplier count equals the size of the
supplier collection exactly when every registered supplier is resolved for some stored
product. -/
theorem c29_suppliers_written (inv : Inventory)
    (hkeys : (inv.supplierList.map (·.1)).Nodup) :
    ∃ written : List (Ptr × Supplier),
      FileManager.saveInventory (some inv) true =
          some ("SUPPLIERS\n".toList ++
            (printNat written.length ++ '\n' ::
              (FileManager.writeAll (fun s => FileManager.writeSupplier s.2) written ++
                ("PRODUCTS\n".toList ++
                  (printNat inv.ownedProductList.length ++ '\n' ::
                    FileManager.writeAll (fun p => FileManager.writeProduct p.2)
                      inv.ownedProductList))))) ∧
        (∀ e, e ∈ written ↔
          ∃ p ∈ inv.ownedProductList, inv.getSupplierForProduct p.2.getId = some e) ∧
        written.Nodup ∧
        written.length ≤ inv.supplierList.length ∧
        (written.length = inv.supplierList.length ↔
          ∀ e ∈ inv.supplierList,
            ∃ p ∈ inv.ownedProductList, inv.getSupplierForProduct p.2.getId = some e) := by
  have hsub : (FileManager.uniqueSuppliers inv).Subperm inv.supplierList :=
    (uniqueSuppliers_nodup inv).subperm (uniqueSuppliers_subset inv)
  refine ⟨FileManager.uniqueSuppliers inv, rfl, mem_uniqueSuppliers_iff inv hkeys,
    uniqueSuppliers_nodup inv, hsub.length_le, ?_, ?_⟩
  · intro hlen e he
    have hperm := hsub.perm_of_length_le (by omega)
    exact (mem_uniqueSuppliers_iff inv hkeys e).mp (hperm.mem_iff.mpr he)
  · intro hall
    exact (uniqueSuppliers_perm inv hkeys hall).length_eq

/-- C29 (witness): the sample inventory, whose two suppliers both supply a stored product. -/
theorem c29_suppliers_written_witness :
    (sampleInventory.supplierList.map (·.1)).Nodup ∧
      ∃ written : List (Ptr × Supplier),
        FileManager.saveInventory (some sampleInventory) true =
            some ("SUPPLIERS\n".toList ++
              (printNat written.length ++ '\n' ::
                (FileManager.writeAll (fun s => FileManager.writeSupplier s.2) written ++
                  ("PRODUCTS\n".toList ++
                    (printNat sampleInventory.ownedProductList.length ++ '\n' ::
                      FileManager.writeAll (fun p => FileManager.writeProduct p.2)
                        sampleInventory.ownedProductList))))) ∧
          (∀ e, e ∈ written ↔
            ∃ p ∈ sampleInventory.ownedProductList,
              sampleInventory.getSupplierForProduct p.2.getId = some e) ∧
          written.Nodup ∧
          written.length ≤ sampleInventory.supplierList.length ∧
          (written.length = sampleInventory.supplierList.length ↔
            ∀ e ∈ sampleInventory.supplierList,
              ∃ p ∈ sampleInventory.ownedProductList,
                sampleInventory.getSupplierForProduct p.2.getId = some e) :=
  ⟨by decide, c29_suppliers_written sampleInventory (by decide)⟩

/-! ## Removing allergens -/

theorem nodup_of_sorted (l : List Str)
    (hs : l.Pairwise (fun x y => stringLess x y = true)) : l.Nodup := by
  refine List.Pairwise.imp ?_ hs
  intro a b hab heq
  rw [heq, stringLess_irrefl] at hab
  exact Bool.false_ne_true hab

/-- C31: for a `Food` whose allergen set is in increasing order (as every `std::set` is),
after `removeAllergen(a)` the set does not hold `a` and holds exactly the other allergens it
held, in the same order; removing an allergen that is absent changes nothing; after
`clearAllergens()` the set is empty; both leave every other member as it is. -/
theorem c31_removeAllergen (f : Food) (a : Str)
    (hs : f.allergens.Pairwise (fun x y => stringLess x y = true)) :
    a ∉ (f.removeAllergen a).allergens ∧
      (∀ b, b ≠ a → (b ∈ (f.removeAllergen a).allergens ↔ b ∈ f.allergens)) ∧
      (f.removeAllergen a).allergens.Sublist f.allergens ∧
      (a ∉ f.allergens → f.removeAllergen a = f) ∧
      f.clearAllergens.allergens = [] ∧
      f.removeAllergen a = { f with allergens := (f.removeAllergen a).allergens } ∧
      f.clearAllergens = { f with allergens := [] } := by
  refine ⟨(nodup_of_sorted _ hs).not_mem_erase, fun b hb => List.mem_erase_of_ne hb,
    List.erase_sublist a _, ?_, rfl, rfl, rfl⟩
  intro ha
  simp only [Food.removeAllergen, List.erase_of_not_mem ha]

/-- C31 (witness): the food with the allergens Dairy and Peanuts, `removeAllergen("Peanuts")`. -/
theorem c31_removeAllergen_witness :
    foodWithAllergens.allergens.Pairwise (fun x y => stringLess x y = true) ∧
      ("Peanuts".toList ∉ (foodWithAllergens.removeAllergen "Peanuts".toList).allergens ∧
        (∀ b, b ≠ "Peanuts".toList →
          (b ∈ (foodWithAllergens.removeAllergen "Peanuts".toList).allergens ↔
            b ∈ foodWithAllergens.allergens)) ∧
        (foodWithAllergens.removeAllergen "Peanuts".toList).allergens.Sublist
          foodWithAllergens.allergens ∧
        ("Peanuts".toList ∉ foodWithAllergens.allergens →
          foodWithAllergens.removeAllergen "Peanuts".toList = foodWithAllergens) ∧
        foodWithAllergens.clearAllergens.allergens = [] ∧
        foodWithAllergens.removeAllergen "Peanuts".toList =
          { foodWithAllergens with
            allergens := (foodWithAllergens.removeAllergen "Peanuts".toList).allergens } ∧
        foodWithAllergens.clearAllergens = { foodWithAllergens with allergens := [] }) :=
  ⟨by decide, c31_removeAllergen foodWithAllergens "Peanuts".toList (by decide)⟩

/-! ## The quality rating -/

theorem after_rating_range (s : Supplier) (c : Supplier.Call)
    (h : ∃ q : ℚ, s.qualityRating = .fin q ∧ 0 ≤ q ∧ q ≤ 5) :
    ∃ q : ℚ, (s.after c).qualityRating = .fin q ∧ 0 ≤ q ∧ q ≤ 5 := by
  cases c with
  | addProductSupplied productId =>
    simp only [Supplier.after, Supplier.addProductSupplied]
    split_ifs <;> exact h
  | removeProductSupplied productId =>
    simp only [Supplier.after, Supplier.removeProductSupplied]
    split_ifs <;> exact h
  | addContractItem item => exact h
  | removeContractItem item =>
    simp only [Supplier.after, Supplier.removeContractItem]
    split_ifs <;> exact h
  | setQualityRating rating =>
    simp only [Supplier.after, Supplier.setQualityRating]
    cases rating with
    | fin r =>
      simp only
      split_ifs with hr
      · exact ⟨r, rfl, hr.1, hr.2⟩
      · exact h
    | posInf => exact h
    | negInf => exact h
    | nan => exact h
  | setDeliveryReliability reliability => exact h

theorem foldl_after_rating_range (calls : List Supplier.Call) :
    ∀ s : Supplier, (∃ q : ℚ, s.qualityRating = .fin q ∧ 0 ≤ q ∧ q ≤ 5) →
      ∃ q : ℚ, (calls.foldl Supplier.after s).qualityRating = .fin q ∧ 0 ≤ q ∧ q ≤ 5 := by
  induction calls with
  | nil => intro s h; exact h
  | cons c cs ih =>
    intro s h
    rw [List.foldl_cons]
    exact ih _ (after_rating_range s c h)

/-- C32: `setQualityRating(r)` stores `r` when `0 ≤ r ≤ 5` and otherwise (a value out of
range, an infinity, a NaN) leaves the supplier as it is; it never changes another member; a
newly constructed supplier has the rating 0; and after any sequence of calls of the methods of
`Supplier` on a newly constructed supplier the rating is a number between 0 and 5. -/
theorem c32_setQualityRating (s : Supplier) (r : Double) (calls : List Supplier.Call) :
    (∀ x : ℚ, r = .fin x → 0 ≤ x → x ≤ 5 → (s.setQualityRating r).qualityRating = r) ∧
      ((¬ ∃ x : ℚ, r = .fin x ∧ 0 ≤ x ∧ x ≤ 5) → s.setQualityRating r = s) ∧
      s.setQualityRating r = { s with qualityRating := (s.setQualityRating r).qualityRating } ∧
      Supplier.new.qualityRating = .fin 0 ∧
      ∃ q : ℚ, (calls.foldl Supplier.after Supplier.new).qualityRating = .fin q ∧
        0 ≤ q ∧ q ≤ 5 := by
  refine ⟨?_, ?_, ?_, rfl, foldl_after_rating_range calls _ ⟨0, rfl, le_refl 0, by norm_num⟩⟩
  · intro x hx h0 h5
    subst hx
    simp [Supplier.setQualityRating, h0, h5]
  · intro h
    cases r with
    | fin x =>
      simp only [Supplier.setQualityRating]
      rw [if_neg]
      intro hx
      exact h ⟨x, rfl, hx.1, hx.2⟩
    | posInf => rfl
    | negInf => rfl
    | nan => rfl
  · cases r with
    | fin x =>
      simp only [Supplier.setQualityRating]
      split_ifs <;> rfl
    | posInf => rfl
    | negInf => rfl
    | nan => rfl

/-! ## After a supplier has gone -/

/-- C34 (counterexample): two suppliers list the id `"F1"`; after the one at address 60 has
been removed, `getSupplierForProduct("F1")` returns the one at address 70. -/
theorem c34_other_supplier_resolved :
    (inventoryWithTwoSources.getSupplierForProduct "F1".toList).map (·.1) = some 60 ∧
      (inventoryWithTwoSources.removeSupplier (some 60)).1 = true ∧
      ((inventoryWithTwoSources.removeSupplier (some 60)).2.getSupplierForProduct
        "F1".toList).map (·.1) = some 70 := by
  decide

/-- C34 (amended): after a call `removeSupplier(s)` that returned true, in an inventory whose
supplier set holds each pointer once, the product collection is as before, the supplier
collection no longer holds `s`, and `getSupplierForProduct(id)` returns the null pointer
exactly when no other registered supplier lists `id`. -/
theorem c34_removeSupplier_resolution (inv : Inventory) (a : Ptr)
    (hkeys : (inv.supplierList.map (·.1)).Nodup)
    (h : (inv.removeSupplier (some a)).1 = true) :
    (inv.removeSupplier (some a)).2.ownedProductList = inv.ownedProductList ∧
      (∀ e ∈ (inv.removeSupplier (some a)).2.supplierList, e.1 ≠ a) ∧
      ∀ id, ((inv.removeSupplier (some a)).2.getSupplierForProduct id = none ↔
        ∀ e ∈ inv.supplierList, e.1 ≠ a → id ∉ e.2.productIdsSupplied) := by
  cases hf : inv.supplierList.find? (fun e => e.1 = a) with
  | none =>
    have hr : inv.removeSupplier (some a) = (false, inv) := by
      simp only [Inventory.removeSupplier, hf]
    rw [hr] at h
    exact absurd h Bool.false_ne_true
  | some x =>
    obtain ⟨hx, l1, l2, hl, -⟩ := List.find?_eq_some.mp hf
    have hxa : x.1 = a := by simpa using hx
    have hne := keys_ne_of_nodup l1 l2 x (hl ▸ hkeys)
    have her : inv.supplierList.eraseP (fun e => e.1 = a) = l1 ++ l2 := by
      rw [hl, ← hxa]
      exact eraseP_key l1 l2 x (hl ▸ hkeys)
    have hr : inv.removeSupplier (some a) =
        (true, { inv with supplierList := l1 ++ l2 }) := by
      simp only [Inventory.removeSupplier, hf, her]
    rw [hr]
    refine ⟨rfl, ?_, fun id => ?_⟩
    · intro e he
      rw [← hxa]
      rcases List.mem_append.mp he with he | he
      · exact hne.1 e he
      · exact hne.2 e he
    · rw [getSupplierForProduct_eq_none_iff]
      simp only [Supplier.suppliesProduct, hl]
      constructor
      · intro hall e he hea
        have hmem : e ∈ l1 ++ l2 := by
          rcases List.mem_append.mp he with he | he
          · exact List.mem_append.mpr (Or.inl he)
          · rcases List.mem_cons.mp he with he | he
            · rw [he] at hea
              exact absurd hxa hea
            · exact List.mem_append.mpr (Or.inr he)
        simpa using hall e hmem
      · intro hall e he
        have hmem : e ∈ l1 ++ x :: l2 := by
          rcases List.mem_append.mp he with he | he
          · exact List.mem_append.mpr (Or.inl he)
          · exact List.mem_append.mpr (Or.inr (List.mem_cons_of_mem _ he))
        have hea : e.1 ≠ a := by
          rw [← hxa]
          rcases List.mem_append.mp he with he | he
          · exact hne.1 e he
          · exact hne.2 e he
        simpa using hall e hmem hea

/-- C34 (witness): the sample inventory and its supplier at address 60. -/
theorem c34_removeSupplier_resolution_witness :
    (sampleInventory.supplierList.map (·.1)).Nodup ∧
      (sampleInventory.removeSupplier (some 60)).1 = true ∧
      (sampleInventory.removeSupplier (some 60)).2.ownedProductList =
        sampleInventory.ownedProductList ∧
      (∀ e ∈ (sampleInventory.removeSupplier (some 60)).2.supplierList, e.1 ≠ 60) ∧
      ∀ id, ((sampleInventory.removeSupplier (some 60)).2.getSupplierForProduct id = none ↔
        ∀ e ∈ sampleInventory.supplierList, e.1 ≠ 60 → id ∉ e.2.productIdsSupplied) :=
  ⟨by decide, by decide,
    c34_removeSupplier_resolution sampleInventory 60 (by decide) (by decide)⟩

/-! ## The stock of a NonPerishable -/

/-- C40: a newly constructed `NonPerishable` has `0 ≤ quantity ≤ maxQuantity`, and
`setQuantity`, `setTotalQuantity`, `useItem` and `buyItem` keep it so whatever their argument
is, as does `setFragile`; the setters of id, name and price assign neither member, and
`setMinimumQuantity(n)`, the exception, assigns `n` to `quantity`. -/
theorem c40_nonPerishable_stock (np : NonPerishable) (n : Int) (x : Double) (b : Bool)
    (h : 0 ≤ np.quantity ∧ np.quantity ≤ np.maxQuantity) :
    (∀ id name price supplier u,
        0 ≤ (NonPerishable.new id name price supplier u).quantity ∧
          (NonPerishable.new id name price supplier u).quantity ≤
            (NonPerishable.new id name price supplier u).maxQuantity) ∧
      (0 ≤ (np.setQuantity n).2.quantity ∧
        (np.setQuantity n).2.quantity ≤ (np.setQuantity n).2.maxQuantity) ∧
      (0 ≤ (np.setTotalQuantity n).quantity ∧
        (np.setTotalQuantity n).quantity ≤ (np.setTotalQuantity n).maxQuantity) ∧
      (0 ≤ (np.useItem x).2.quantity ∧
        (np.useItem x).2.quantity ≤ (np.useItem x).2.maxQuantity) ∧
      (0 ≤ (np.buyItem x).2.quantity ∧
        (np.buyItem x).2.quantity ≤ (np.buyItem x).2.maxQuantity) ∧
      (0 ≤ (np.setFragile b).quantity ∧
        (np.setFragile b).quantity ≤ (np.setFragile b).maxQuantity) ∧
      (∀ s, ∃ r, (Product.nonPerishable np).setId s = .nonPerishable r ∧
        r.quantity = np.quantity ∧ r.maxQuantity = np.maxQuantity) ∧
      (∀ s, ∃ r, (Product.nonPerishable np).setName s = .nonPerishable r ∧
        r.quantity = np.quantity ∧ r.maxQuantity = np.maxQuantity) ∧
      (∀ y, ∃ r, (Product.nonPerishable np).setPrice y = .nonPerishable r ∧
        r.quantity = np.quantity ∧ r.maxQuantity = np.maxQuantity) ∧
      (np.setMinimumQuantity n).quantity = n ∧
      (np.setMinimumQuantity n).maxQuantity = np.maxQuantity := by
  obtain ⟨h0, h1⟩ := h
  refine ⟨fun _ _ _ _ _ => ⟨le_refl _, Int.zero_le_ofNat 1⟩, ?_, ?_, ?_, ?_, ⟨h0, h1⟩,
    fun _ => ⟨_, rfl, rfl, rfl⟩, fun _ => ⟨_, rfl, rfl, rfl⟩, fun _ => ⟨_, rfl, rfl, rfl⟩,
    rfl, rfl⟩
  · simp only [NonPerishable.setQuantity]
    split_ifs with hg
    · exact ⟨hg.1, hg.2⟩
    · exact ⟨h0, h1⟩
  · simp only [NonPerishable.setTotalQuantity]
    split_ifs with hg
    · exact ⟨h0, le_of_lt hg.2⟩
    · exact ⟨h0, h1⟩
  · cases x with
    | fin q =>
      simp only [NonPerishable.useItem]
      split_ifs with hg
      · have hb := stockMinus_bounds (np.quantity : ℚ) q hg.1 hg.2
        refine ⟨truncToInt_nonneg hb.1, ?_⟩
        exact le_trans (truncToInt_le_of_le_int np.quantity hb.2) h1
      · exact ⟨h0, h1⟩
    | posInf => exact ⟨h0, h1⟩
    | negInf => exact ⟨h0, h1⟩
    | nan => exact ⟨h0, h1⟩
  · cases x with
    | fin q =>
      by_cases hfin : ∃ s, stockPlus (np.quantity : ℚ) q = .fin s
      · obtain ⟨s, hs⟩ := hfin
        rw [nonPerishable_buyItem_of_fin np q s hs]
        split_ifs with hg
        · have hq : (0 : ℚ) ≤ np.quantity := by exact_mod_cast h0
          exact ⟨truncToInt_nonneg (stockPlus_nonneg _ _ s hs (by linarith [hg.1])),
            truncToInt_le_of_le_int _ hg.2⟩
        · exact ⟨h0, h1⟩
      · rw [nonPerishable_buyItem_of_not_fin np q (fun s hs => hfin ⟨s, hs⟩)]
        exact ⟨h0, h1⟩
    | posInf => exact ⟨h0, h1⟩
    | negInf => exact ⟨h0, h1⟩
    | nan => exact ⟨h0, h1⟩

/-! ## The sets of a record -/

theorem food_allergens_rebuilt (f : Food) (u : Indeterminate) (hp : f.toPerishable.readable)
    (ht : ∃ t : ℚ, f.temperatureRequired = .fin t) (hn : '|' ∉ f.nutritionalInfo)
    (hs : readableSet f.allergens) :
    ∃ r : Food, FileManager.createProductFromLine (FileManager.productRecord (.food f)) u =
        some (.food r) ∧ r.allergens = f.allergens := by
  obtain ⟨⟨id, name, price, quantity, supplier, expDate, storage, maxQ, minQ⟩, allergens, temp,
    nutrition⟩ := f
  obtain ⟨hid, hname, ⟨x, hx⟩, hsup, hexp, hsto, hq32, hm32, hM32⟩ := hp
  obtain ⟨t, ht⟩ := ht
  obtain ⟨hsorted, hclean, hlen⟩ := hs
  simp only at hid hname hx hsup hexp hsto hq32 hm32 hM32 ht hn hsorted hclean hlen
  subst hx ht
  have hrec : FileManager.productRecord
      (.food ⟨⟨id, name, .fin x, quantity, supplier, expDate, storage, maxQ,
        minQ⟩, allergens, .fin t, nutrition⟩) =
      "Food".toList ++ '|' :: FileManager.writeCommon id name (.fin x)
        supplier quantity minQ maxQ
        ('|' :: (expDate ++ '|' :: (storage ++ '|' :: (printFixed2 (.fin t) ++
          '|' :: (nutrition ++ '|' :: (printNat allergens.length ++
            FileManager.writeStrings allergens)))))) := by
    simp [FileManager.productRecord]
  rw [hrec]
  unfold FileManager.createProductFromLine
  rw [readCommon_record "Food".toList id name _ supplier quantity minQ maxQ _ u (by decide)
    hid hname hsup hq32 hm32 hM32]
  simp only [FileManager.createFood, ignore_cons, getline_field '|' _ _ _ hexp,
    getline_field '|' _ _ _ hsto, extractDouble_bar,
    getline_field '|' _ _ _ hn,
    tokenLoop_counted Food.addAllergen allergens u.localInt _ hclean hlen,
    foldl_addAllergen, productFactory.createProduct, Food.new, Perishable.new,
    Food.setTemperatureRequired, Food.setNutritionalInfo]
  have hs := foldl_setInsert_sorted allergens [] (by simpa using hsorted)
  simp [hs]

theorem chemical_warnings_rebuilt (ch : Chemical) (u : Indeterminate)
    (hp : ch.toPerishable.readable) (hh : isInt32 ch.hazardLevel) (hd : '|' ∉ ch.disposalType)
    (hs : readableSet ch.safetyWarnings) :
    ∃ r : Chemical,
      FileManager.createProductFromLine (FileManager.productRecord (.chemical ch)) u =
        some (.chemical r) ∧ r.safetyWarnings = ch.safetyWarnings := by
  obtain ⟨⟨id, name, price, quantity, supplier, expDate, storage, maxQ, minQ⟩, warnings,
    disposal, childSafe, vent, hazard⟩ := ch
  obtain ⟨hid, hname, ⟨x, hx⟩, hsup, hexp, hsto, hq32, hm32, hM32⟩ := hp
  obtain ⟨hsorted, hclean, hlen⟩ := hs
  simp only at hid hname hx hsup hexp hsto hq32 hm32 hM32 hh hd hsorted hclean hlen
  subst hx
  have hrec : FileManager.productRecord
      (.chemical ⟨⟨id, name, .fin x, quantity, supplier, expDate, storage, maxQ,
        minQ⟩, warnings, disposal, childSafe, vent, hazard⟩) =
      "Chemical".toList ++ '|' :: FileManager.writeCommon id name (.fin x)
        supplier quantity minQ maxQ
        ('|' :: (expDate ++ '|' :: (storage ++ '|' :: (printInt hazard ++ '|' ::
          (printInt (if childSafe then 1 else 0) ++ '|' ::
            (printInt (if vent then 1 else 0) ++ '|' :: (disposal ++ '|' ::
              (printNat warnings.length ++ FileManager.writeStrings warnings)))))))) := by
    simp [FileManager.productRecord, writeBool_eq_printInt]
  rw [hrec]
  unfold FileManager.createProductFromLine
  rw [readCommon_record "Chemical".toList id name _ supplier quantity minQ maxQ _ u (by decide)
    hid hname hsup hq32 hm32 hM32]
  simp only [FileManager.createChemical, ignore_cons, getline_field '|' _ _ _ hexp,
    getline_field '|' _ _ _ hsto, extractInt_bar _ _ _ hh,
    extractInt_bar _ _ _ (isInt32_bool childSafe), extractInt_bar _ _ _ (isInt32_bool vent),
    getline_field '|' _ _ _ hd,
    tokenLoop_counted Chemical.addSafetyWarning warnings u.localInt _ hclean hlen,
    foldl_addSafetyWarning, productFactory.createProduct, Chemical.new, Perishable.new,
    Chemical.setHazardLevel, Chemical.setChildSafe, Chemical.setVentilationRequired,
    Chemical.setDisposalType]
  have hs := foldl_setInsert_sorted warnings [] (by simpa using hsorted)
  simp [hs]

/-- C35 (counterexample): a `Food` with the allergen Peanuts whose name holds a `|` is rebuilt
from its record without an allergen. -/
theorem c35_allergens_lost :
    (∃ f : Food, foodWithBar = .food f ∧ f.allergens = ["Peanuts".toList]) ∧
      ∃ r : Food,
        FileManager.createProductFromLine (FileManager.productRecord foodWithBar)
          sampleIndeterminate = some (.food r) ∧ r.allergens = [] := by
  refine ⟨⟨_, rfl, rfl⟩, ⟨_, rfl, ?_⟩⟩
  decide

/-- C35 (amended): for a `Food` whose id, name, supplier, expiration date, storage condition
and nutritional info are free of `|` and whose price and temperature are finite, the allergen
set that `createProductFromLine` rebuilds from the saved record equals the saved set, if the
elements of that set are free of `|` (the set may be empty, and may hold the empty string);
likewise for the safety warnings of a `Chemical` whose id, name, supplier, expiration date,
storage condition and disposal type are free of `|` and whose price is finite. -/
theorem c35_sets_rebuilt (f : Food) (ch : Chemical) (u : Indeterminate)
    (hf : f.toPerishable.readable ∧ (∃ t : ℚ, f.temperatureRequired = .fin t) ∧
      '|' ∉ f.nutritionalInfo ∧ readableSet f.allergens)
    (hc : ch.toPerishable.readable ∧ isInt32 ch.hazardLevel ∧ '|' ∉ ch.disposalType ∧
      readableSet ch.safetyWarnings) :
    (∃ r : Food, FileManager.createProductFromLine (FileManager.productRecord (.food f)) u =
        some (.food r) ∧ r.allergens = f.allergens) ∧
      ∃ r : Chemical,
        FileManager.createProductFromLine (FileManager.productRecord (.chemical ch)) u =
          some (.chemical r) ∧ r.safetyWarnings = ch.safetyWarnings :=
  ⟨food_allergens_rebuilt f u hf.1 hf.2.1 hf.2.2.1 hf.2.2.2,
    chemical_warnings_rebuilt ch u hc.1 hc.2.1 hc.2.2.1 hc.2.2.2⟩

theorem foodWithAllergens_readable :
    foodWithAllergens.toPerishable.readable ∧
      (∃ t : ℚ, foodWithAllergens.temperatureRequired = .fin t) ∧
      '|' ∉ foodWithAllergens.nutritionalInfo ∧ readableSet foodWithAllergens.allergens :=
  ⟨⟨by decide, by decide, ⟨_, rfl⟩, by decide, by decide, by decide, ⟨by decide, by decide⟩,
    ⟨by decide, by decide⟩, ⟨by decide, by decide⟩⟩, ⟨_, rfl⟩, by decide, by decide, by decide,
    by decide⟩

theorem chemicalWithWarnings_readable :
    chemicalWithWarnings.toPerishable.readable ∧ isInt32 chemicalWithWarnings.hazardLevel ∧
      '|' ∉ chemicalWithWarnings.disposalType ∧
      readableSet chemicalWithWarnings.safetyWarnings :=
  ⟨⟨by decide, by decide, ⟨_, rfl⟩, by decide, by decide, by decide, ⟨by decide, by decide⟩,
    ⟨by decide, by decide⟩, ⟨by decide, by decide⟩⟩, ⟨by decide, by decide⟩, by decide,
    by decide, by decide, by decide⟩

/-- C35 (witness): a food with two allergens and a chemical with two safety warnings. -/
theorem c35_sets_rebuilt_witness :
    (foodWithAllergens.toPerishable.readable ∧
        (∃ t : ℚ, foodWithAllergens.temperatureRequired = .fin t) ∧
        '|' ∉ foodWithAllergens.nutritionalInfo ∧ readableSet foodWithAllergens.allergens) ∧
      (chemicalWithWarnings.toPerishable.readable ∧ isInt32 chemicalWithWarnings.hazardLevel ∧
        '|' ∉ chemicalWithWarnings.disposalType ∧
        readableSet chemicalWithWarnings.safetyWarnings) ∧
      (∃ r : Food,
        FileManager.createProductFromLine (FileManager.productRecord (.food foodWithAllergens))
          sampleIndeterminate = some (.food r) ∧ r.allergens = foodWithAllergens.allergens) ∧
      ∃ r : Chemical,
        FileManager.createProductFromLine
            (FileManager.productRecord (.chemical chemicalWithWarnings)) sampleIndeterminate =
          some (.chemical r) ∧ r.safetyWarnings = chemicalWithWarnings.safetyWarnings :=
  ⟨foodWithAllergens_readable, chemicalWithWarnings_readable,
    c35_sets_rebuilt foodWithAllergens chemicalWithWarnings sampleIndeterminate
      foodWithAllergens_readable chemicalWithWarnings_readable⟩

/-! ## The type tag -/

theorem readCommon_type (line : Str) (u : Indeterminate) :
    (FileManager.readCommon line u).type = line.takeWhile (· ≠ '|') := by
  simp only [FileManager.readCommon]
  exact getline_good_snd (IStream.open line) [] '|' rfl

theorem takeWhile_tag (tag rest : Str) (h : '|' ∉ tag) :
    (tag ++ '|' :: rest).takeWhile (· ≠ '|') = tag := by
  induction tag with
  | nil => simp
  | cons c cs ih =>
    have hc : c ≠ '|' := fun e => h (by simp [e])
    have hcs : '|' ∉ cs := fun hm => h (by simp [hm])
    have ih2 := ih hcs
    simp only [List.cons_append, List.takeWhile_cons, ne_eq, hc, not_false_eq_true,
      decide_True, if_true]
    rw [ih2]

theorem getProductType_bar_free (p : Product) : '|' ∉ FileManager.getProductType p := by
  cases p <;> simp [FileManager.getProductType]

theorem createProductFromLine_of_tag (line : Str) (u : Indeterminate) :
    (line.takeWhile (· ≠ '|') = "RawMaterial".toList →
        ∃ r, FileManager.createProductFromLine line u = some (.rawMaterial r)) ∧
      (line.takeWhile (· ≠ '|') = "NonPerishable".toList →
        ∃ r, FileManager.createProductFromLine line u = some (.nonPerishable r)) ∧
      (line.takeWhile (· ≠ '|') = "Perishable".toList →
        ∃ r, FileManager.createProductFromLine line u = some (.perishable r)) ∧
      (line.takeWhile (· ≠ '|') = "Food".toList →
        ∃ r, FileManager.createProductFromLine line u = some (.food r)) ∧
      (line.takeWhile (· ≠ '|') = "Chemical".toList →
        ∃ r, FileManager.createProductFromLine line u = some (.chemical r)) ∧
      (line.takeWhile (· ≠ '|') ∉ ["RawMaterial".toList, "NonPerishable".toList,
          "Perishable".toList, "Food".toList, "Chemical".toList] →
        FileManager.createProductFromLine line u = none) := by
  rw [← readCommon_type line u]
  unfold FileManager.createProductFromLine
  refine ⟨?_, ?_, ?_, ?_, ?_, ?_⟩
  · intro h
    rw [if_pos h]
    exact ⟨_, rfl⟩
  · intro h
    rw [h]
    exact ⟨_, rfl⟩
  · intro h
    rw [h]
    exact ⟨_, rfl⟩
  · intro h
    rw [h]
    exact ⟨_, rfl⟩
  · intro h
    rw [h]
    exact ⟨_, rfl⟩
  · intro h
    simp only [List.mem_cons, List.mem_singleton, List.not_mem_nil, or_false, not_or] at h
    rw [if_neg h.1, if_neg h.2.2.2.2, if_neg h.2.2.2.1, if_neg h.2.1, if_neg h.2.2.1]

/-- C36: `getProductType` writes the tag of the most derived class of the object (`Food` and
`Chemical` for the two subclasses of `Perishable`); a record line whose first field is one of
the five tags makes `createProductFromLine` build an object of that class, whatever follows
the tag, so the record of a product is rebuilt as a product of the same class; and a line
whose first field is none of the five tags yields the null pointer. -/
theorem c36_type_tag (p : Product) (line : Str) (u : Indeterminate) :
    ((∃ x, p = .rawMaterial x) ↔ FileManager.getProductType p = "RawMaterial".toList) ∧
      ((∃ x, p = .nonPerishable x) ↔ FileManager.getProductType p = "NonPerishable".toList) ∧
      ((∃ x, p = .perishable x) ↔ FileManager.getProductType p = "Perishable".toList) ∧
      ((∃ x, p = .food x) ↔ FileManager.getProductType p = "Food".toList) ∧
      ((∃ x, p = .chemical x) ↔ FileManager.getProductType p = "Chemical".toList) ∧
      (FileManager.productRecord p).takeWhile (· ≠ '|') = FileManager.getProductType p ∧
      (line.takeWhile (· ≠ '|') = FileManager.getProductType p →
        ∃ r, FileManager.createProductFromLine line u = some r ∧
          FileManager.getProductType r = FileManager.getProductType p) ∧
      (∃ r, FileManager.createProductFromLine (FileManager.productRecord p) u = some r ∧
        FileManager.getProductType r = FileManager.getProductType p) ∧
      (line.takeWhile (· ≠ '|') ∉ ["RawMaterial".toList, "NonPerishable".toList,
          "Perishable".toList, "Food".toList, "Chemical".toList] →
        FileManager.createProductFromLine line u = none) := by
  have htag : (FileManager.productRecord p).takeWhile (· ≠ '|') =
      FileManager.getProductType p := by
    obtain ⟨tail, ht⟩ := productRecord_eq p
    rw [ht]
    exact takeWhile_tag _ _ (getProductType_bar_free p)
  have hline : ∀ l : Str, l.takeWhile (· ≠ '|') = FileManager.getProductType p →
      ∃ r, FileManager.createProductFromLine l u = some r ∧
        FileManager.getProductType r = FileManager.getProductType p := by
    intro l hl
    obtain ⟨h1, h2, h3, h4, h5, -⟩ := createProductFromLine_of_tag l u
    cases p with
    | rawMaterial x =>
      obtain ⟨r, hr⟩ := h1 hl
      exact ⟨_, hr, rfl⟩
    | nonPerishable x =>
      obtain ⟨r, hr⟩ := h2 hl
      exact ⟨_, hr, rfl⟩
    | perishable x =>
      obtain ⟨r, hr⟩ := h3 hl
      exact ⟨_, hr, rfl⟩
    | food x =>
      obtain ⟨r, hr⟩ := h4 hl
      exact ⟨_, hr, rfl⟩
    | chemical x =>
      obtain ⟨r, hr⟩ := h5 hl
      exact ⟨_, hr, rfl⟩
  refine ⟨?_, ?_, ?_, ?_, ?_, htag, hline line, hline _ htag,
    (createProductFromLine_of_tag line u).2.2.2.2.2⟩ <;>
  · cases p <;> simp [FileManager.getProductType]

/-! ## Prices -/

/-- C33 (counterexample): a product of each of the five variants, created with the price 2,
holds the price -1 after `setPrice(-1)`. -/
theorem c33_negative_price_stored :
    newProducts.map Product.getPrice = List.replicate 5 (.fin 2) ∧
      newProducts.map (fun p => (p.setPrice (.fin (-1))).getPrice) =
        List.replicate 5 (.fin (-1)) :=
  ⟨rfl, rfl⟩

theorem checkAdminPrivileges_inventory (c : SystemController) :
    c.checkAdminPrivileges.2.inventory = c.inventory ∧
      c.checkAdminPrivileges.2.operationsSinceLastSave = c.operationsSinceLastSave ∧
      c.checkAdminPrivileges.2.autoSaveRuns = c.autoSaveRuns ∧
      c.checkAdminPrivileges.2.users = c.users ∧
      c.checkAdminPrivileges.2.admins = c.admins ∧
      c.checkAdminPrivileges.2.currentUser = c.currentUser := by
  unfold SystemController.checkAdminPrivileges
  split_ifs <;> simp [SystemController.setError]

theorem incrementOperationCounter_frame (c : SystemController) :
    c.incrementOperationCounter.inventory = c.inventory ∧
      c.incrementOperationCounter.users = c.users ∧
      c.incrementOperationCounter.admins = c.admins ∧
      c.incrementOperationCounter.currentUser = c.currentUser ∧
      c.incrementOperationCounter.lastErrorMessage = c.lastErrorMessage ∧
      c.incrementOperationCounter.lastSuccessMessage = c.lastSuccessMessage := by
  unfold SystemController.incrementOperationCounter
  split_ifs <;> simp [SystemController.autoSaveData]

/-- C33 (amended): `setPrice` of every variant stores its argument, whatever it is, and
changes no other member: the object differs from the old one in `price` alone, and setting the
old price again gives the old object back.  The only test of a price is in
`SystemController::modifyProductPrice`: when `newPrice < 0` it returns false and leaves the
inventory and the operation counter alone, and for an administrator and the non-empty id of a
stored product the error it leaves is "Price cannot be negative!"; when `newPrice` is not below
0, for an administrator and the non-empty id of a stored product, it hands `newPrice` to
`setPrice` of that product and returns true; a NaN is not below 0. -/
theorem c33_setPrice (p : Product) (x : Double) (c : SystemController) (productId : Str) :
    (p.setPrice x).getPrice = x ∧
      ((∀ r, p = .rawMaterial r → p.setPrice x = .rawMaterial { r with price := x }) ∧
        (∀ r, p = .nonPerishable r → p.setPrice x = .nonPerishable { r with price := x }) ∧
        (∀ r, p = .perishable r → p.setPrice x = .perishable { r with price := x }) ∧
        (∀ r, p = .food r → p.setPrice x = .food { r with price := x }) ∧
        (∀ r, p = .chemical r → p.setPrice x = .chemical { r with price := x })) ∧
      (p.setPrice x).setPrice p.getPrice = p ∧
      (p.setPrice x).getId = p.getId ∧ (p.setPrice x).getName = p.getName ∧
      (p.setPrice x).quantity = p.quantity ∧ (p.setPrice x).maxQuantity = p.maxQuantity ∧
      (x.isNegative = true →
        (c.modifyProductPrice productId x).1 = false ∧
          (c.modifyProductPrice productId x).2.inventory = c.inventory ∧
          (c.modifyProductPrice productId x).2.operationsSinceLastSave =
            c.operationsSinceLastSave) ∧
      (∀ e, x.isNegative = true → c.checkAdminPrivileges.1 = true → productId ≠ [] →
        c.inventory.searchProduct productId = some e →
        c.modifyProductPrice productId x =
          (false, c.setError "Price cannot be negative!".toList)) ∧
      (∀ e, x.isNegative = false → c.checkAdminPrivileges.1 = true → productId ≠ [] →
        c.inventory.searchProduct productId = some e →
        (c.modifyProductPrice productId x).1 = true ∧
          (c.modifyProductPrice productId x).2.inventory =
            c.inventory.modifyProduct e.1 fun y => y.setPrice x) ∧
      Double.nan.isNegative = false ∧
      ∀ q : ℚ, (Double.fin q).isNegative = true ↔ q < 0 := by
  refine ⟨?_, ⟨?_, ?_, ?_, ?_, ?_⟩, ?_, ?_, ?_, ?_, ?_, ?_, ?_, ?_, rfl, ?_⟩
  · cases p <;> rfl
  · rintro r rfl
    rfl
  · rintro r rfl
    rfl
  · rintro r rfl
    rfl
  · rintro r rfl
    rfl
  · rintro r rfl
    rfl
  · cases p <;> rfl
  · cases p <;> rfl
  · cases p <;> rfl
  · cases p <;> rfl
  · cases p <;> rfl
  · intro hx
    obtain ⟨h1, h2, -⟩ := checkAdminPrivileges_inventory c
    have key : c.modifyProductPrice productId x = (false, c.checkAdminPrivileges.2) ∨
        ∃ m, c.modifyProductPrice productId x = (false, c.setError m) := by
      unfold SystemController.modifyProductPrice
      by_cases ha : (!c.checkAdminPrivileges.1) = true
      · rw [if_pos ha]
        exact Or.inl rfl
      · rw [if_neg ha]
        by_cases he : productId.isEmpty = true
        · rw [if_pos he]
          exact Or.inr ⟨_, rfl⟩
        · rw [if_neg he]
          cases hs : c.inventory.searchProduct productId with
          | none => exact Or.inr ⟨_, rfl⟩
          | some e =>
            simp only [hx, if_true]
            exact Or.inr ⟨_, rfl⟩
    rcases key with h | ⟨m, h⟩
    · rw [h]
      exact ⟨rfl, h1, h2⟩
    · rw [h]
      exact ⟨rfl, rfl, rfl⟩
  · intro e hx hadm hid hs
    have hne : productId.isEmpty = false := by
      cases productId with
      | nil => exact absurd rfl hid
      | cons a l => rfl
    unfold SystemController.modifyProductPrice
    simp only [hadm, hne, hs, hx, Bool.not_true, Bool.false_eq_true, if_false, if_true]
  · intro e hx hadm hid hs
    have hne : productId.isEmpty = false := by
      cases productId with
      | nil => exact absurd rfl hid
      | cons a l => rfl
    unfold SystemController.modifyProductPrice
    simp only [hadm, hne, hs, hx, Bool.not_true, Bool.false_eq_true, if_false, true_and]
    exact (incrementOperationCounter_frame _).1
  · intro q
    simp [Double.isNegative]

/-! ## Purchases through the controller -/

theorem wrapInt32_of_isInt32 (n : Int) (h : isInt32 n) : wrapInt32 n = n := by
  obtain ⟨h1, h2⟩ := h
  simp only [INT_MIN, INT_MAX] at h1 h2
  unfold wrapInt32
  omega

theorem getQuantity_of_whole (p : Product) (k : Int) (h : p.quantity = (k : ℚ)) :
    p.getQuantity = k := by
  cases p with
  | rawMaterial r =>
    simp only [Product.quantity] at h
    simp only [Product.getQuantity, RawMaterial.getQuantity, h, truncToInt_intCast]
  | nonPerishable r => simp only [Product.quantity] at h; simp only [Product.getQuantity]; exact_mod_cast h
  | perishable r => simp only [Product.quantity] at h; simp only [Product.getQuantity]; exact_mod_cast h
  | food r => simp only [Product.quantity] at h; simp only [Product.getQuantity]; exact_mod_cast h
  | chemical r => simp only [Product.quantity] at h; simp only [Product.getQuantity]; exact_mod_cast h

theorem getMaxQuantity_of_whole (p : Product) (k : Int) (h : p.maxQuantity = (k : ℚ)) :
    p.getMaxQuantity = k := by
  cases p with
  | rawMaterial r =>
    simp only [Product.maxQuantity] at h
    simp only [Product.getMaxQuantity, RawMaterial.getMaxQuantity, h, truncToInt_intCast]
  | nonPerishable r => simp only [Product.maxQuantity] at h; simp only [Product.getMaxQuantity]; exact_mod_cast h
  | perishable r => simp only [Product.maxQuantity] at h; simp only [Product.getMaxQuantity]; exact_mod_cast h
  | food r => simp only [Product.maxQuantity] at h; simp only [Product.getMaxQuantity]; exact_mod_cast h
  | chemical r => simp only [Product.maxQuantity] at h; simp only [Product.getMaxQuantity]; exact_mod_cast h

theorem whole_of_int_variant (p : Product) (h : ∀ r, p ≠ .rawMaterial r) :
    ∃ k m : Int, p.quantity = (k : ℚ) ∧ p.maxQuantity = (m : ℚ) := by
  cases p with
  | rawMaterial r => exact absurd rfl (h r)
  | nonPerishable r => exact ⟨_, _, rfl, rfl⟩
  | perishable r => exact ⟨_, _, rfl, rfl⟩
  | food r => exact ⟨_, _, rfl, rfl⟩
  | chemical r => exact ⟨_, _, rfl, rfl⟩

/-- C39: in `purchaseProduct`, for a logged-in user, a non-empty id, a positive quantity and a
product `p` found under the id with `p->getQuantity() + quantity <= p->getMaxQuantity()`
(the sum being an `int`), the call `inventory.buyProduct(productId, quantity)` returns true
whenever the stored quantity and maximum of `p` are whole numbers, which they are for every
variant but `RawMaterial`; so `purchaseProduct` returns true and leaves no error message. -/
theorem c39_purchase_succeeds (c : SystemController) (productId : Str) (quantity : Int)
    (p : Ptr × Product) (hlogged : c.isUserLoggedIn = true) (hid : productId ≠ [])
    (hq : 0 < quantity) (hfound : c.inventory.searchProduct productId = some p)
    (hcap : p.2.getQuantity + quantity ≤ p.2.getMaxQuantity)
    (_hint : isInt32 quantity ∧ isInt32 (p.2.getQuantity + quantity))
    (hwhole : ∃ k m : Int, p.2.quantity = (k : ℚ) ∧ p.2.maxQuantity = (m : ℚ)) :
    (c.inventory.buyProduct productId quantity).1 = true ∧
      (c.purchaseProduct productId quantity).1 = true ∧
      (c.purchaseProduct productId quantity).2.lastErrorMessage = [] ∧
      (c.purchaseProduct productId quantity).2.inventory =
        c.inventory.modifyProduct p.1 (fun x => (x.buyItem (.fin quantity)).2) ∧
      ((∀ r, p.2 ≠ .rawMaterial r) →
        ∃ k m : Int, p.2.quantity = (k : ℚ) ∧ p.2.maxQuantity = (m : ℚ)) := by
  obtain ⟨k, m, hk, hm⟩ := hwhole
  have hgk := getQuantity_of_whole p.2 k hk
  have hgm := getMaxQuantity_of_whole p.2 m hm
  have hsum : wrapInt32 (p.2.getQuantity + quantity) = p.2.getQuantity + quantity :=
    wrapInt32_of_isInt32 _ _hint.2
  have hbound : |k + quantity| ≤ 2 ^ 53 := by
    have h1 := _hint.2.1
    have h2 := _hint.2.2
    rw [hgk] at h1 h2
    simp only [INT_MIN, INT_MAX] at h1 h2
    rw [abs_le]
    constructor <;> norm_num <;> omega
  have hbuy : (p.2.buyItem (.fin quantity)).1 = true := by
    rw [buyItem_int_fst_iff p.2 quantity k hk hbound, hk, hm]
    refine ⟨hq, ?_⟩
    rw [hgk, hgm] at hcap
    exact_mod_cast hcap
  have hbp := buyProduct_of_found c.inventory productId quantity p hfound hq
  have hb1 : (c.inventory.buyProduct productId quantity).1 = true := by rw [hbp]; exact hbuy
  have hne : productId.isEmpty = false := by
    cases productId with
    | nil => exact absurd rfl hid
    | cons a l => rfl
  have hres : c.purchaseProduct productId quantity =
      (true,
        ({ c with inventory := (c.inventory.buyProduct productId quantity).2 }.setSuccess
          ("Successfully purchased ".toList ++ printInt quantity ++ " units of ".toList ++
            p.2.getName ++ "\nNew quantity: ".toList ++
            printInt (p.2.buyItem (.fin quantity)).2.getQuantity)).incrementOperationCounter) := by
    unfold SystemController.purchaseProduct
    simp only [hlogged, hne, hfound, hb1, Bool.not_true, Bool.false_eq_true, if_false, if_true]
    rw [hsum, if_neg (by omega), if_neg (by omega)]
  refine ⟨hb1, ?_, ?_, ?_, whole_of_int_variant p.2⟩
  · rw [hres]
  · rw [hres]
    exact (incrementOperationCounter_frame _).2.2.2.2.1
  · rw [hres]
    exact ((incrementOperationCounter_frame _).1).trans (by rw [hbp]; rfl)

/-! ## The operation counter -/

theorem incrementOperationCounter_counts (c : SystemController) :
    c.incrementOperationCounter.operationsSinceLastSave =
        (if c.operationsSinceLastSave + 1 ≥ AUTO_SAVE_THRESHOLD then 0
          else c.operationsSinceLastSave + 1) ∧
      c.incrementOperationCounter.autoSaveRuns =
        (if c.operationsSinceLastSave + 1 ≥ AUTO_SAVE_THRESHOLD then c.autoSaveRuns + 1
          else c.autoSaveRuns) := by
  unfold SystemController.incrementOperationCounter
  split_ifs <;> exact ⟨rfl, rfl⟩

theorem counts_setError (c : SystemController) (m : Str) : (c.setError m).counts = c.counts :=
  rfl

theorem counts_setSuccess (c : SystemController) (m : Str) :
    (c.setSuccess m).counts = c.counts :=
  rfl

theorem counts_checkAdminPrivileges (c : SystemController) :
    c.checkAdminPrivileges.2.counts = c.counts := by
  unfold SystemController.checkAdminPrivileges
  split_ifs <;> rfl

theorem counts_increment (a b : SystemController) (h : a.counts = b.counts) :
    a.incrementOperationCounter.counts = b.incrementOperationCounter.counts := by
  have h1 : a.operationsSinceLastSave = b.operationsSinceLastSave := congrArg Prod.fst h
  have h2 : a.autoSaveRuns = b.autoSaveRuns := congrArg Prod.snd h
  unfold SystemController.counts
  rw [(incrementOperationCounter_counts a).1, (incrementOperationCounter_counts a).2,
    (incrementOperationCounter_counts b).1, (incrementOperationCounter_counts b).2, h1, h2]

theorem after_counts (c : SystemController) (call : SystemController.Call) :
    (c.after call).counts =
      if c.countedSuccess call then c.incrementOperationCounter.counts
      else if call.savesDirectly then (c.operationsSinceLastSave, c.autoSaveRuns + 1)
      else c.counts := by
  cases call <;>
    simp only [SystemController.after, SystemController.countedSuccess,
      SystemController.Call.savesDirectly, Bool.false_eq_true, if_false, if_true]
  case initializeSystem => rfl
  case shutdownSystem => rfl
  case autoSaveData => rfl
  case loginUser username password =>
    unfold SystemController.loginUser
    repeat' split
    all_goals rfl
  case loginAdmin username password =>
    unfold SystemController.loginAdmin
    repeat' split
    all_goals rfl
  case logout =>
    unfold SystemController.logout
    repeat' split
    all_goals rfl
  case viewInventory =>
    unfold SystemController.viewInventory
    repeat' split
    all_goals rfl
  case searchProduct productId =>
    unfold SystemController.searchProduct
    repeat' split
    all_goals rfl
  case generateInventoryReport =>
    unfold SystemController.generateInventoryReport
    repeat' split
    all_goals first
      | rfl
      | exact counts_checkAdminPrivileges c
  case checkLowStock threshold =>
    unfold SystemController.checkLowStock
    repeat' split
    all_goals rfl
  case purchaseProduct productId quantity =>
    unfold SystemController.purchaseProduct
    repeat' split
    all_goals first
      | rfl
      | exact counts_increment _ _ rfl
      | (rename_i h; simp at h)
  case useProduct productId quantity =>
    unfold SystemController.useProduct
    repeat' split
    all_goals first
      | rfl
      | exact counts_increment _ _ rfl
      | (rename_i h; simp at h)
  case changePassword oldPass newPass =>
    unfold SystemController.changePassword
    repeat' split
    all_goals first
      | rfl
      | exact counts_increment _ _ rfl
      | (rename_i h; simp at h)
  case addProduct product supplier =>
    unfold SystemController.addProduct
    repeat' split
    all_goals first
      | rfl
      | exact counts_checkAdminPrivileges c
      | exact counts_increment _ _ rfl
      | (rename_i h; simp at h)
  case removeProduct productId =>
    unfold SystemController.removeProduct
    repeat' split
    all_goals first
      | rfl
      | exact counts_checkAdminPrivileges c
      | exact counts_increment _ _ rfl
      | (rename_i h; simp at h)
  case modifyProductPrice productId newPrice =>
    unfold SystemController.modifyProductPrice
    repeat' split
    all_goals first
      | rfl
      | exact counts_checkAdminPrivileges c
      | exact counts_increment _ _ rfl
      | (rename_i h; simp at h)
  case addSupplier supplier =>
    unfold SystemController.addSupplier
    repeat' split
    all_goals first
      | rfl
      | exact counts_checkAdminPrivileges c
      | exact counts_increment _ _ rfl
      | (rename_i h; simp at h)
  case removeSupplier supplier =>
    unfold SystemController.removeSupplier
    repeat' split
    all_goals first
      | rfl
      | exact counts_checkAdminPrivileges c
      | exact counts_increment _ _ rfl
      | (rename_i h; simp at h)
  case createUser username password email address =>
    unfold SystemController.createUser
    repeat' split
    all_goals first
      | rfl
      | exact counts_checkAdminPrivileges c
      | exact counts_increment _ _ rfl
      | (rename_i h; simp at h)
  case createAdmin username password email address =>
    unfold SystemController.createAdmin
    repeat' split
    all_goals first
      | rfl
      | exact counts_checkAdminPrivileges c
      | exact counts_increment _ _ rfl
      | (rename_i h; simp at h)
  case deleteUser username =>
    unfold SystemController.deleteUser
    repeat' split
    all_goals first
      | rfl
      | exact counts_checkAdminPrivileges c
      | exact counts_increment _ _ rfl
      | (rename_i h; simp at h)

theorem run_counts (calls : List SystemController.Call) (c : SystemController)
    (h0 : 0 ≤ c.operationsSinceLastSave) (h5 : c.operationsSinceLastSave < 5) :
    (c.run calls).operationsSinceLastSave =
        (c.operationsSinceLastSave + (c.countedSuccesses calls : Int)) % 5 ∧
      ((c.run calls).autoSaveRuns : Int) =
        (c.autoSaveRuns : Int) +
          (c.operationsSinceLastSave + (c.countedSuccesses calls : Int)) / 5 +
          ((calls.filter SystemController.Call.savesDirectly).length : Int) := by
  induction calls generalizing c with
  | nil =>
    simp only [SystemController.run, SystemController.countedSuccesses, List.filter_nil,
      List.length_nil]
    constructor <;> omega
  | cons call rest ih =>
    have hc := after_counts c call
    have hi := incrementOperationCounter_counts c
    simp only [AUTO_SAVE_THRESHOLD] at hi
    simp only [SystemController.run, SystemController.countedSuccesses, List.filter_cons]
    by_cases hs : c.countedSuccess call = true
    · have hd : call.savesDirectly = false := by
        cases call <;> first | rfl | exact absurd hs (by simp [SystemController.countedSuccess])
      rw [if_pos hs] at hc
      have h1 : (c.after call).operationsSinceLastSave =
          c.incrementOperationCounter.operationsSinceLastSave := congrArg Prod.fst hc
      have h2 : (c.after call).autoSaveRuns = c.incrementOperationCounter.autoSaveRuns :=
        congrArg Prod.snd hc
      rw [hi.1] at h1
      rw [hi.2] at h2
      simp only [hs, hd, if_true, Bool.false_eq_true, if_false]
      by_cases h4 : c.operationsSinceLastSave + 1 ≥ 5
      · rw [if_pos h4] at h1 h2
        obtain ⟨ih1, ih2⟩ := ih (c.after call) (by omega) (by omega)
        rw [ih1, ih2, h1, h2]
        push_cast
        constructor <;> omega
      · rw [if_neg h4] at h1 h2
        obtain ⟨ih1, ih2⟩ := ih (c.after call) (by omega) (by omega)
        rw [ih1, ih2, h1, h2]
        push_cast
        constructor <;> omega
    · rw [if_neg hs] at hc
      simp only [hs, Bool.false_eq_true, if_false]
      by_cases hd : call.savesDirectly = true
      · rw [if_pos hd] at hc
        have h1 : (c.after call).operationsSinceLastSave = c.operationsSinceLastSave :=
          congrArg Prod.fst hc
        have h2 : (c.after call).autoSaveRuns = c.autoSaveRuns + 1 := congrArg Prod.snd hc
        obtain ⟨ih1, ih2⟩ := ih (c.after call) (by omega) (by omega)
        rw [ih1, ih2, h1, h2]
        simp only [hd, if_true, List.length_cons]
        push_cast
        constructor <;> omega
      · rw [if_neg hd] at hc
        have h1 : (c.after call).operationsSinceLastSave = c.operationsSinceLastSave :=
          congrArg Prod.fst hc
        have h2 : (c.after call).autoSaveRuns = c.autoSaveRuns := congrArg Prod.snd hc
        obtain ⟨ih1, ih2⟩ := ih (c.after call) (by omega) (by omega)
        rw [ih1, ih2, h1, h2]
        simp only [hd, Bool.false_eq_true, if_false]
        push_cast
        constructor <;> omega

/-- C38 (counterexample): in the session of the default administrator, three successful
operations bring the counter to 3, a direct call of `autoSaveData` saves and leaves it at 3,
and the next save runs at the second successful operation after that one. -/
theorem c38_save_after_two_operations :
    (SystemController.new.run (savedByHand.take 5)).operationsSinceLastSave = 3 ∧
      (SystemController.new.run (savedByHand.take 5)).autoSaveRuns = 0 ∧
      (SystemController.new.run (savedByHand.take 6)).operationsSinceLastSave = 3 ∧
      (SystemController.new.run (savedByHand.take 6)).autoSaveRuns = 1 ∧
      (SystemController.new.run (savedByHand.take 6)).countedSuccesses (savedByHand.drop 6) =
        2 ∧
      (SystemController.new.run (savedByHand.take 7)).autoSaveRuns = 1 ∧
      (SystemController.new.run savedByHand).autoSaveRuns = 2 ∧
      (SystemController.new.run savedByHand).operationsSinceLastSave = 0 := by
  decide

/-- C38 (amended): `incrementOperationCounter` adds 1 to the counter and, when that makes it
5, runs `autoSaveData` and sets the counter to 0.  A call that returns true of one of the
eleven operations that end in it (`purchaseProduct`, `useProduct`, `changePassword`,
`addProduct`, `removeProduct`, `modifyProductPrice`, `addSupplier`, `removeSupplier`,
`createUser`, `createAdmin`, `deleteUser`) does exactly that to the counter and to the number
of saves; a call of them that returns false, and every other call, leaves the counter as it
is, and of the other calls `autoSaveData` and `shutdownSystem` save without resetting it.  So
after every sequence of calls on a new controller the counter is the number of successful
counted calls modulo 5, hence at least 0 and below 5, and the number of saves is that number
divided by 5 plus the number of direct saves. -/
theorem c38_operation_counter (c : SystemController) (call : SystemController.Call)
    (calls : List SystemController.Call) :
    c.incrementOperationCounter.operationsSinceLastSave =
        (if c.operationsSinceLastSave + 1 ≥ AUTO_SAVE_THRESHOLD then 0
          else c.operationsSinceLastSave + 1) ∧
      c.incrementOperationCounter.autoSaveRuns =
        (if c.operationsSinceLastSave + 1 ≥ AUTO_SAVE_THRESHOLD then c.autoSaveRuns + 1
          else c.autoSaveRuns) ∧
      (c.after call).operationsSinceLastSave =
        (if c.countedSuccess call then c.incrementOperationCounter.operationsSinceLastSave
          else c.operationsSinceLastSave) ∧
      (c.after call).autoSaveRuns =
        (if c.countedSuccess call then c.incrementOperationCounter.autoSaveRuns
          else if call.savesDirectly then c.autoSaveRuns + 1 else c.autoSaveRuns) ∧
      (SystemController.new.run calls).operationsSinceLastSave =
        ((SystemController.new.countedSuccesses calls : Nat) : Int) % 5 ∧
      0 ≤ (SystemController.new.run calls).operationsSinceLastSave ∧
      (SystemController.new.run calls).operationsSinceLastSave < AUTO_SAVE_THRESHOLD ∧
      (SystemController.new.run calls).autoSaveRuns =
        SystemController.new.countedSuccesses calls / 5 +
          (calls.filter SystemController.Call.savesDirectly).length := by
  have hc := after_counts c call
  have hr := run_counts calls SystemController.new (le_refl _) (by decide)
  have hn : SystemController.new.operationsSinceLastSave = 0 := rfl
  have hn2 : SystemController.new.autoSaveRuns = 0 := rfl
  rw [hn, hn2] at hr
  refine ⟨(incrementOperationCounter_counts c).1, (incrementOperationCounter_counts c).2, ?_, ?_,
    ?_, ?_, ?_, ?_⟩
  · have h1 := congrArg Prod.fst hc
    rw [show ((c.after call).counts).1 = (c.after call).operationsSinceLastSave from rfl] at h1
    rw [h1]
    split_ifs <;> rfl
  · have h2 := congrArg Prod.snd hc
    rw [show ((c.after call).counts).2 = (c.after call).autoSaveRuns from rfl] at h2
    rw [h2]
    split_ifs <;> rfl
  · rw [hr.1]
    simp
  · rw [hr.1]
    omega
  · rw [hr.1]
    simp only [AUTO_SAVE_THRESHOLD]
    omega
  · have := hr.2
    omega

/-! ## One session at a time -/

theorem sessionInvariant_of_session (a b : SystemController) (h : b.session = a.session)
    (ha : a.sessionInvariant) : b.sessionInvariant := by
  have h1 : b.users = a.users := congrArg Prod.fst h
  have h2 : b.admins = a.admins := congrArg (fun x => x.2.1) h
  have h3 : b.currentUser = a.currentUser := congrArg (fun x => x.2.2) h
  unfold SystemController.sessionInvariant SystemController.accountAddresses at *
  rw [h1, h2, h3]
  exact ha

theorem session_checkAdminPrivileges (c : SystemController) :
    c.checkAdminPrivileges.2.session = c.session := by
  unfold SystemController.checkAdminPrivileges
  split_ifs <;> rfl

theorem session_increment (c : SystemController) :
    c.incrementOperationCounter.session = c.session := by
  unfold SystemController.incrementOperationCounter
  split_ifs <;> rfl

theorem find_key_of_mem {α : Type} (l : List (Ptr × α)) (e : Ptr × α)
    (h : (l.map (fun x => x.1)).Nodup) (he : e ∈ l) :
    l.find? (fun x => x.1 = e.1) = some e := by
  cases hf : l.find? (fun x => x.1 = e.1) with
  | none =>
    have := List.find?_eq_none.1 hf e he
    simp at this
  | some x =>
    have hx : x ∈ l := List.mem_of_find?_eq_some hf
    have hk : x.1 = e.1 := by simpa using List.find?_some hf
    rw [List.inj_on_of_nodup_map h hx he hk]

theorem find_key_eq_none {α : Type} (l : List (Ptr × α)) (p : Ptr)
    (h : p ∉ l.map (fun x => x.1)) : l.find? (fun x => x.1 = p) = none := by
  rw [List.find?_eq_none]
  intro x hx hp
  exact h (List.mem_map.2 ⟨x, hx, by simpa using hp⟩)

theorem account_of_mem_users (c : SystemController) (e : Ptr × User)
    (h : c.accountAddresses.Nodup) (he : e ∈ c.users) : c.account e.1 = some e.2 := by
  unfold SystemController.accountAddresses at h
  unfold SystemController.account
  rw [find_key_of_mem c.users e (List.nodup_append.1 h).1 he]

theorem account_of_mem_admins (c : SystemController) (e : Ptr × Admin)
    (h : c.accountAddresses.Nodup) (he : e ∈ c.admins) : c.account e.1 = some e.2.toUser := by
  unfold SystemController.accountAddresses at h
  unfold SystemController.account
  have hnot : e.1 ∉ c.users.map (fun x => x.1) := fun hm =>
    (List.nodup_append.1 h).2.2 hm (List.mem_map.2 ⟨e, he, rfl⟩)
  rw [find_key_eq_none c.users e.1 hnot, find_key_of_mem c.admins e (List.nodup_append.1 h).2.1 he]
  rfl

theorem sessionInvariant_account (c : SystemController) (h : c.sessionInvariant) (p : Ptr)
    (hp : c.currentUser = some p) : ∃ a, c.account p = some a ∧ a.isLoggedIn = true := by
  rcases h.2.2.2 p hp with ⟨e, he, hk, hl⟩ | ⟨e, he, hk, hl⟩
  · exact ⟨e.2, hk ▸ account_of_mem_users c e h.1 he, hl⟩
  · exact ⟨e.2.toUser, hk ▸ account_of_mem_admins c e h.1 he, hl⟩

theorem login_isLoggedIn (x : User) (u p : Str) (h : (x.login u p).1 = true) :
    (x.login u p).2.isLoggedIn = true := by
  unfold User.login at h ⊢
  split_ifs at h ⊢
  rfl

theorem logout_isLoggedIn (x : User) : x.logout.2.isLoggedIn = false := by
  unfold User.logout
  split_ifs with h
  · rfl
  · simpa using h

theorem changePassword_isLoggedIn (x : User) (o n : Str) :
    (x.changePassword o n).2.isLoggedIn = x.isLoggedIn := by
  unfold User.changePassword
  split_ifs <;> rfl

theorem grantPermission_toUser (a : Admin) (p : Str) : (a.grantPermission p).toUser = a.toUser := by
  unfold Admin.grantPermission
  split_ifs <;> rfl

theorem map_key_fst {α : Type} (l : List (Ptr × α)) (p : Ptr) (f : α → α) :
    (l.map fun e => if e.1 = p then (e.1, f e.2) else e).map (fun x => x.1) =
      l.map fun x => x.1 := by
  rw [List.map_map]
  apply List.map_congr_left
  intro a _
  simp only [Function.comp]
  split_ifs <;> rfl

theorem sessionInvariant_new : SystemController.new.sessionInvariant := by
  refine ⟨List.nodup_nil, ?_, ?_, ?_⟩
  · intro e he
    exact absurd he (List.not_mem_nil e)
  · intro e he
    exact absurd he (List.not_mem_nil e)
  · intro p hp
    exact absurd hp (by simp [SystemController.new])

theorem sessionInvariant_loginUser (c : SystemController) (username password : Str)
    (h : c.sessionInvariant) : (c.loginUser username password).2.sessionInvariant := by
  unfold SystemController.loginUser
  split_ifs with h1 h2
  · exact sessionInvariant_of_session c _ rfl h
  · exact sessionInvariant_of_session c _ rfl h
  · have hnone : c.currentUser = none := by
      cases hc : c.currentUser with
      | none => rfl
      | some p => rw [hc] at h1; exact absurd rfl h1
    cases hf : c.users.find? (fun u => u.2.userName = username) with
    | none => exact sessionInvariant_of_session c _ rfl h
    | some u =>
      simp only []
      split_ifs with hl
      · have hu : u ∈ c.users := List.mem_of_find?_eq_some hf
        refine ⟨?_, ?_, ?_, ?_⟩
        · have := h.1
          unfold SystemController.accountAddresses at this ⊢
          simp only [SystemController.setSuccess]
          rw [map_key_fst c.users u.1 (fun x => (x.login username password).2)]
          exact this
        · intro e he hlog
          simp only [SystemController.setSuccess] at he ⊢
          obtain ⟨x, hx, rfl⟩ := List.mem_map.1 he
          by_cases hk : x.1 = u.1
          · simp only [hk, if_true]
          · rw [if_neg hk] at hlog
            have := h.2.1 x hx hlog
            rw [hnone] at this
            exact absurd this (by simp)
        · intro e he hlog
          simp only [SystemController.setSuccess] at he ⊢
          have := h.2.2.1 e he hlog
          rw [hnone] at this
          exact absurd this (by simp)
        · intro p hp
          simp only [SystemController.setSuccess] at hp ⊢
          have hp2 : u.1 = p := by simpa using hp
          refine Or.inl ⟨(u.1, (u.2.login username password).2), ?_, hp2, ?_⟩
          · exact List.mem_map.2 ⟨u, hu, by simp⟩
          · exact login_isLoggedIn _ _ _ hl
      · exact sessionInvariant_of_session c _ rfl h

theorem sessionInvariant_loginAdmin (c : SystemController) (username password : Str)
    (h : c.sessionInvariant) : (c.loginAdmin username password).2.sessionInvariant := by
  unfold SystemController.loginAdmin
  split_ifs with h1 h2
  · exact sessionInvariant_of_session c _ rfl h
  · exact sessionInvariant_of_session c _ rfl h
  · have hnone : c.currentUser = none := by
      cases hc : c.currentUser with
      | none => rfl
      | some p => rw [hc] at h1; exact absurd rfl h1
    cases hf : c.admins.find? (fun u => u.2.userName = username) with
    | none => exact sessionInvariant_of_session c _ rfl h
    | some u =>
      simp only []
      split_ifs with hl
      · have hu : u ∈ c.admins := List.mem_of_find?_eq_some hf
        refine ⟨?_, ?_, ?_, ?_⟩
        · have := h.1
          unfold SystemController.accountAddresses at this ⊢
          simp only [SystemController.setSuccess]
          rw [map_key_fst c.admins u.1
            (fun x => { x with toUser := (x.toUser.login username password).2 })]
          exact this
        · intro e he hlog
          simp only [SystemController.setSuccess] at he ⊢
          have := h.2.1 e he hlog
          rw [hnone] at this
          exact absurd this (by simp)
        · intro e he hlog
          simp only [SystemController.setSuccess] at he ⊢
          obtain ⟨x, hx, rfl⟩ := List.mem_map.1 he
          by_cases hk : x.1 = u.1
          · simp only [hk, if_true]
          · rw [if_neg hk] at hlog
            have := h.2.2.1 x hx hlog
            rw [hnone] at this
            exact absurd this (by simp)
        · intro p hp
          simp only [SystemController.setSuccess] at hp ⊢
          have hp2 : u.1 = p := by simpa using hp
          refine Or.inr
            ⟨(u.1, { u.2 with toUser := (u.2.toUser.login username password).2 }), ?_, hp2, ?_⟩
          · exact List.mem_map.2 ⟨u, hu, by simp⟩
          · exact login_isLoggedIn _ _ _ hl
      · exact sessionInvariant_of_session c _ rfl h

theorem sessionInvariant_logout (c : SystemController) (h : c.sessionInvariant) :
    c.logout.2.sessionInvariant := by
  unfold SystemController.logout
  cases hc : c.currentUser with
  | none => exact sessionInvariant_of_session c _ rfl h
  | some p =>
    simp only []
    refine ⟨?_, ?_, ?_, ?_⟩
    · have := h.1
      unfold SystemController.accountAddresses at this ⊢
      simp only [SystemController.setSuccess, SystemController.modifyAccount]
      rw [map_key_fst c.users p (fun x => x.logout.2),
        map_key_fst c.admins p (fun x => { x with toUser := x.toUser.logout.2 })]
      exact this
    · intro e he hlog
      simp only [SystemController.setSuccess, SystemController.modifyAccount] at he
      obtain ⟨x, hx, rfl⟩ := List.mem_map.1 he
      by_cases hk : x.1 = p
      · rw [if_pos hk] at hlog
        rw [logout_isLoggedIn] at hlog
        exact absurd hlog (by simp)
      · rw [if_neg hk] at hlog
        have := h.2.1 x hx hlog
        rw [hc] at this
        exact absurd (Option.some.inj this).symm hk
    · intro e he hlog
      simp only [SystemController.setSuccess, SystemController.modifyAccount] at he
      obtain ⟨x, hx, rfl⟩ := List.mem_map.1 he
      by_cases hk : x.1 = p
      · rw [if_pos hk] at hlog
        simp only [logout_isLoggedIn] at hlog
        exact absurd hlog (by simp)
      · rw [if_neg hk] at hlog
        have := h.2.2.1 x hx hlog
        rw [hc] at this
        exact absurd (Option.some.inj this).symm hk
    · intro q hq
      exact absurd hq (by simp [SystemController.setSuccess])

theorem sessionInvariant_modifyAccount (c : SystemController) (p : Ptr) (f : User → User)
    (hf : ∀ x, (f x).isLoggedIn = x.isLoggedIn) (h : c.sessionInvariant) :
    (c.modifyAccount p f).sessionInvariant := by
  refine ⟨?_, ?_, ?_, ?_⟩
  · have := h.1
    unfold SystemController.accountAddresses at this ⊢
    simp only [SystemController.modifyAccount]
    rw [map_key_fst c.users p f, map_key_fst c.admins p (fun x => { x with toUser := f x.toUser })]
    exact this
  · intro e he hlog
    simp only [SystemController.modifyAccount] at he ⊢
    obtain ⟨x, hx, rfl⟩ := List.mem_map.1 he
    by_cases hk : x.1 = p
    · rw [if_pos hk] at hlog ⊢
      simp only [hf] at hlog
      exact h.2.1 x hx hlog
    · rw [if_neg hk] at hlog ⊢
      exact h.2.1 x hx hlog
  · intro e he hlog
    simp only [SystemController.modifyAccount] at he ⊢
    obtain ⟨x, hx, rfl⟩ := List.mem_map.1 he
    by_cases hk : x.1 = p
    · rw [if_pos hk] at hlog ⊢
      simp only [hf] at hlog
      exact h.2.2.1 x hx hlog
    · rw [if_neg hk] at hlog ⊢
      exact h.2.2.1 x hx hlog
  · intro q hq
    simp only [SystemController.modifyAccount] at hq ⊢
    rcases h.2.2.2 q hq with ⟨e, he, hk, hl⟩ | ⟨e, he, hk, hl⟩
    · refine Or.inl ⟨if e.1 = p then (e.1, f e.2) else e, List.mem_map.2 ⟨e, he, rfl⟩, ?_, ?_⟩
      · split_ifs <;> exact hk
      · split_ifs
        · simpa only [hf] using hl
        · exact hl
    · refine Or.inr ⟨if e.1 = p then (e.1, { e.2 with toUser := f e.2.toUser }) else e,
        List.mem_map.2 ⟨e, he, rfl⟩, ?_, ?_⟩
      · split_ifs <;> exact hk
      · split_ifs
        · simpa only [hf] using hl
        · exact hl

theorem sessionInvariant_changePassword (c : SystemController) (oldPass newPass : Str)
    (h : c.sessionInvariant) : (c.changePassword oldPass newPass).2.sessionInvariant := by
  unfold SystemController.changePassword
  repeat' split
  all_goals first
    | exact sessionInvariant_of_session c _ rfl h
    | exact sessionInvariant_of_session _ _ ((session_increment _).trans rfl)
        (sessionInvariant_modifyAccount c _ _ (fun x => changePassword_isLoggedIn x _ _) h)

theorem checkAdminPrivileges_true (c : SystemController) (h : c.checkAdminPrivileges.1 = true) :
    ∃ p, c.currentUser = some p := by
  unfold SystemController.checkAdminPrivileges at h
  split_ifs at h with h1
  cases hc : c.currentUser with
  | none => simp [SystemController.isUserLoggedIn, hc] at h1
  | some p => exact ⟨p, rfl⟩

theorem sessionInvariant_append_user (c : SystemController) (address : Ptr) (x : User)
    (hx : x.isLoggedIn = false) (hfresh : address ∉ c.accountAddresses)
    (h : c.sessionInvariant) :
    ({ c with users := c.users ++ [(address, x)] } : SystemController).sessionInvariant := by
  refine ⟨?_, ?_, ?_, ?_⟩
  · have hn := h.1
    unfold SystemController.accountAddresses at hn hfresh ⊢
    simp only [List.map_append, List.map_cons, List.map_nil, List.mem_append, not_or] at hfresh ⊢
    rw [List.nodup_append] at hn ⊢
    refine ⟨?_, hn.2.1, ?_⟩
    · rw [List.nodup_append]
      refine ⟨hn.1, List.nodup_singleton _, ?_⟩
      intro a ha hb
      rw [List.mem_singleton] at hb
      exact hfresh.1 (hb ▸ ha)
    · intro a ha hb
      rcases List.mem_append.1 ha with ha | ha
      · exact hn.2.2 ha hb
      · rw [List.mem_singleton] at ha
        exact hfresh.2 (ha ▸ hb)
  · intro e he hlog
    rcases List.mem_append.1 he with he | he
    · exact h.2.1 e he hlog
    · rw [List.mem_singleton] at he
      rw [he] at hlog
      rw [hx] at hlog
      exact absurd hlog (by simp)
  · exact h.2.2.1
  · intro p hp
    rcases h.2.2.2 p hp with ⟨e, he, hk⟩ | hr
    · exact Or.inl ⟨e, List.mem_append_left _ he, hk⟩
    · exact Or.inr hr

theorem sessionInvariant_append_admin (c : SystemController) (address : Ptr) (x : Admin)
    (hx : x.isLoggedIn = false) (hfresh : address ∉ c.accountAddresses)
    (h : c.sessionInvariant) :
    ({ c with admins := c.admins ++ [(address, x)] } : SystemController).sessionInvariant := by
  refine ⟨?_, ?_, ?_, ?_⟩
  · have hn := h.1
    unfold SystemController.accountAddresses at hn hfresh ⊢
    simp only [List.map_append, List.map_cons, List.map_nil, List.mem_append, not_or] at hfresh ⊢
    rw [List.nodup_append] at hn ⊢
    refine ⟨hn.1, ?_, ?_⟩
    · rw [List.nodup_append]
      refine ⟨hn.2.1, List.nodup_singleton _, ?_⟩
      intro a ha hb
      rw [List.mem_singleton] at hb
      exact hfresh.2 (hb ▸ ha)
    · intro a ha hb
      rcases List.mem_append.1 hb with hb | hb
      · exact hn.2.2 ha hb
      · rw [List.mem_singleton] at hb
        exact hfresh.1 (hb ▸ ha)
  · exact h.2.1
  · intro e he hlog
    rcases List.mem_append.1 he with he | he
    · exact h.2.2.1 e he hlog
    · rw [List.mem_singleton] at he
      rw [he] at hlog
      rw [hx] at hlog
      exact absurd hlog (by simp)
  · intro p hp
    rcases h.2.2.2 p hp with hl | ⟨e, he, hk⟩
    · exact Or.inl hl
    · exact Or.inr ⟨e, List.mem_append_left _ he, hk⟩

theorem sessionInvariant_createUser (c : SystemController) (username password email : Str)
    (address : Ptr) (hfresh : address ∉ c.accountAddresses) (h : c.sessionInvariant) :
    (c.createUser username password email address).2.sessionInvariant := by
  unfold SystemController.createUser
  repeat' split
  all_goals first
    | exact sessionInvariant_of_session c _ rfl h
    | exact sessionInvariant_of_session c _ (session_checkAdminPrivileges c) h
    | exact sessionInvariant_of_session _ _ ((session_increment _).trans rfl)
        (sessionInvariant_append_user c address _ rfl hfresh h)

theorem sessionInvariant_createAdmin (c : SystemController) (username password email : Str)
    (address : Ptr) (hfresh : address ∉ c.accountAddresses) (h : c.sessionInvariant) :
    (c.createAdmin username password email address).2.sessionInvariant := by
  unfold SystemController.createAdmin
  repeat' split
  all_goals first
    | exact sessionInvariant_of_session c _ rfl h
    | exact sessionInvariant_of_session c _ (session_checkAdminPrivileges c) h
    | exact sessionInvariant_of_session _ _ ((session_increment _).trans rfl)
        (sessionInvariant_append_admin c address _ rfl hfresh h)

theorem getCurrentUsername_of_user (c : SystemController) (h : c.sessionInvariant)
    (e : Ptr × User) (he : e ∈ c.users) (hc : c.currentUser = some e.1) :
    c.getCurrentUsername = e.2.userName := by
  unfold SystemController.getCurrentUsername
  simp only [hc, account_of_mem_users c e h.1 he]

theorem getCurrentUsername_of_admin (c : SystemController) (h : c.sessionInvariant)
    (e : Ptr × Admin) (he : e ∈ c.admins) (hc : c.currentUser = some e.1) :
    c.getCurrentUsername = e.2.userName := by
  unfold SystemController.getCurrentUsername
  simp only [hc, account_of_mem_admins c e h.1 he]

theorem sessionInvariant_erase_user (c : SystemController) (username : Str)
    (hname : c.getCurrentUsername ≠ username) (h : c.sessionInvariant) :
    ({ c with users := c.users.eraseP fun u => u.2.userName = username } :
      SystemController).sessionInvariant := by
  have hsub : (c.users.eraseP fun u => u.2.userName = username).Sublist c.users :=
    List.eraseP_sublist _
  refine ⟨?_, ?_, h.2.2.1, ?_⟩
  · have hn := h.1
    unfold SystemController.accountAddresses at hn ⊢
    exact List.Nodup.sublist ((hsub.map _).append (List.Sublist.refl _)) hn
  · intro e he hlog
    exact h.2.1 e (hsub.subset he) hlog
  · intro p hp
    rcases h.2.2.2 p hp with ⟨e, he, hk, hl⟩ | hr
    · refine Or.inl ⟨e, ?_, hk, hl⟩
      have hcur : c.currentUser = some e.1 := by rw [hk]; exact hp
      have hn : c.getCurrentUsername = e.2.userName := getCurrentUsername_of_user c h e he hcur
      have hne : ¬ ((fun u : Ptr × User => decide (u.2.userName = username)) e = true) := by
        simp only [decide_eq_true_eq]
        rw [← hn]
        exact hname
      exact (@List.mem_eraseP_of_neg _ (fun u : Ptr × User => decide (u.2.userName = username))
        e c.users hne).2 he
    · exact Or.inr hr

theorem sessionInvariant_erase_admin (c : SystemController) (username : Str)
    (hname : c.getCurrentUsername ≠ username) (h : c.sessionInvariant) :
    ({ c with admins := c.admins.eraseP fun u => u.2.userName = username } :
      SystemController).sessionInvariant := by
  have hsub : (c.admins.eraseP fun u => u.2.userName = username).Sublist c.admins :=
    List.eraseP_sublist _
  refine ⟨?_, h.2.1, ?_, ?_⟩
  · have hn := h.1
    unfold SystemController.accountAddresses at hn ⊢
    exact List.Nodup.sublist ((List.Sublist.refl _).append (hsub.map _)) hn
  · intro e he hlog
    exact h.2.2.1 e (hsub.subset he) hlog
  · intro p hp
    rcases h.2.2.2 p hp with hl | ⟨e, he, hk, hl⟩
    · exact Or.inl hl
    · refine Or.inr ⟨e, ?_, hk, hl⟩
      have hcur : c.currentUser = some e.1 := by rw [hk]; exact hp
      have hn : c.getCurrentUsername = e.2.userName := getCurrentUsername_of_admin c h e he hcur
      have hne : ¬ ((fun u : Ptr × Admin => decide (u.2.userName = username)) e = true) := by
        simp only [decide_eq_true_eq]
        rw [← hn]
        exact hname
      exact (@List.mem_eraseP_of_neg _ (fun u : Ptr × Admin => decide (u.2.userName = username))
        e c.admins hne).2 he

theorem sessionInvariant_deleteUser (c : SystemController) (username : Str)
    (h : c.sessionInvariant) : (c.deleteUser username).2.sessionInvariant := by
  unfold SystemController.deleteUser
  by_cases ha : (!c.checkAdminPrivileges.1) = true
  · rw [if_pos ha]
    exact sessionInvariant_of_session c _ (session_checkAdminPrivileges c) h
  · rw [if_neg ha]
    have hadm : c.checkAdminPrivileges.1 = true := by simpa using ha
    obtain ⟨p, hp⟩ := checkAdminPrivileges_true c hadm
    by_cases hself : (c.currentUser.isSome && decide (c.getCurrentUsername = username)) = true
    · rw [if_pos hself]
      exact sessionInvariant_of_session c _ rfl h
    · rw [if_neg hself]
      have hname : c.getCurrentUsername ≠ username := by
        intro heq
        apply hself
        simp [hp, heq]
      split_ifs
      · exact sessionInvariant_of_session _ _ ((session_increment _).trans rfl)
          (sessionInvariant_erase_user c username hname h)
      · exact sessionInvariant_of_session _ _ ((session_increment _).trans rfl)
          (sessionInvariant_erase_admin c username hname h)
      · exact sessionInvariant_of_session c _ rfl h

theorem loadUsers_spec (alloc : AccountAllocator) (n i : Nat) (st : AccountLoadState) :
    ∃ extra : List (Ptr × User),
      (UserManager.loadUsers alloc n i st).users = st.users ++ extra ∧
        (UserManager.loadUsers alloc n i st).admins = st.admins ∧
        extra.map (fun x => x.1) = (List.range' i n).map alloc.user ∧
        ∀ e ∈ extra, e.2.isLoggedIn = false := by
  induction n generalizing i st with
  | zero => exact ⟨[], by simp [UserManager.loadUsers], rfl, rfl, by simp⟩
  | succ n ih =>
    obtain ⟨extra, h1, h2, h3, h4⟩ := ih (i + 1) (UserManager.loadUser alloc i st)
    obtain ⟨x, hx1, hx2, hx3⟩ : ∃ x : User,
        (UserManager.loadUser alloc i st).users = st.users ++ [(alloc.user i, x)] ∧
          x.isLoggedIn = false ∧ (UserManager.loadUser alloc i st).admins = st.admins :=
      ⟨_, rfl, rfl, rfl⟩
    refine ⟨(alloc.user i, x) :: extra, ?_, ?_, ?_, ?_⟩
    · rw [UserManager.loadUsers, h1, hx1]
      simp only [List.append_assoc, List.singleton_append]
    · rw [UserManager.loadUsers, h2, hx3]
    · rw [List.range'_succ, List.map_cons, List.map_cons, h3]
    · intro e he
      rcases List.mem_cons.1 he with he | he
      · rw [he]
        exact hx2
      · exact h4 e he

theorem loadAdmins_spec (alloc : AccountAllocator) (n i : Nat) (st : AccountLoadState) :
    ∃ extra : List (Ptr × Admin),
      (UserManager.loadAdmins alloc n i st).admins = st.admins ++ extra ∧
        (UserManager.loadAdmins alloc n i st).users = st.users ∧
        extra.map (fun x => x.1) = (List.range' i n).map alloc.admin ∧
        ∀ e ∈ extra, e.2.isLoggedIn = false := by
  induction n generalizing i st with
  | zero => exact ⟨[], by simp [UserManager.loadAdmins], rfl, rfl, by simp⟩
  | succ n ih =>
    obtain ⟨extra, h1, h2, h3, h4⟩ := ih (i + 1) (UserManager.loadAdmin alloc i st)
    obtain ⟨x, hx1, hx2, hx3⟩ : ∃ x : Admin,
        (UserManager.loadAdmin alloc i st).admins = st.admins ++ [(alloc.admin i, x)] ∧
          x.isLoggedIn = false ∧ (UserManager.loadAdmin alloc i st).users = st.users :=
      ⟨_, rfl, by simp only [grantPermission_toUser]; rfl, rfl⟩
    refine ⟨(alloc.admin i, x) :: extra, ?_, ?_, ?_, ?_⟩
    · rw [UserManager.loadAdmins, h1, hx1]
      simp only [List.append_assoc, List.singleton_append]
    · rw [UserManager.loadAdmins, h2, hx3]
    · rw [List.range'_succ, List.map_cons, List.map_cons, h3]
    · intro e he
      rcases List.mem_cons.1 he with he | he
      · rw [he]
        exact hx2
      · exact h4 e he

/-- What `loadAllAccounts` appends: accounts that are logged out, at the addresses the
allocator hands out. -/
theorem loadAllAccounts_spec (users : List (Ptr × User)) (admins : List (Ptr × Admin))
    (file : Option Str) (u : Indeterminate) (alloc : AccountAllocator) :
    ∃ (xu : List (Ptr × User)) (xa : List (Ptr × Admin)) (n m : Nat),
      (UserManager.loadAllAccounts users admins file u alloc).2.1 = users ++ xu ∧
        (UserManager.loadAllAccounts users admins file u alloc).2.2 = admins ++ xa ∧
        xu.map (fun x => x.1) = (List.range' 0 n).map alloc.user ∧
        xa.map (fun x => x.1) = (List.range' 0 m).map alloc.admin ∧
        (∀ e ∈ xu, e.2.isLoggedIn = false) ∧ ∀ e ∈ xa, e.2.isLoggedIn = false := by
  have hnil : ∃ (xu : List (Ptr × User)) (xa : List (Ptr × Admin)) (n m : Nat),
      users = users ++ xu ∧ admins = admins ++ xa ∧
        xu.map (fun x => x.1) = (List.range' 0 n).map alloc.user ∧
        xa.map (fun x => x.1) = (List.range' 0 m).map alloc.admin ∧
        (∀ e ∈ xu, e.2.isLoggedIn = false) ∧ ∀ e ∈ xa, e.2.isLoggedIn = false :=
    ⟨[], [], 0, 0, by simp, by simp, rfl, rfl, by simp, by simp⟩
  unfold UserManager.loadAllAccounts
  cases file with
  | none => exact hnil
  | some content =>
    simp only []
    split_ifs with h1 h2
    · exact hnil
    · unfold UserManager.afterUsers
      simp only []
      obtain ⟨xu, hu1, hu2, hu3, hu4⟩ := loadUsers_spec alloc
        (extractInt (getline (IStream.open content) [] '\n').1 u.localInt).2.toNat 0
        { inFile := ignore (extractInt (getline (IStream.open content) [] '\n').1 u.localInt).1,
          line := (getline (IStream.open content) [] '\n').2, users := users, admins := admins }
      exact ⟨xu, [], _, 0, hu1, by rw [hu2]; simp, hu3, rfl, hu4, by simp⟩
    · obtain ⟨xu, hu1, hu2, hu3, hu4⟩ := loadUsers_spec alloc
        (extractInt (getline (IStream.open content) [] '\n').1 u.localInt).2.toNat 0
        { inFile := ignore (extractInt (getline (IStream.open content) [] '\n').1 u.localInt).1,
          line := (getline (IStream.open content) [] '\n').2, users := users, admins := admins }
      have hst : UserManager.afterUsers users admins content u alloc =
          UserManager.loadUsers alloc
            (extractInt (getline (IStream.open content) [] '\n').1 u.localInt).2.toNat 0
            { inFile :=
                ignore (extractInt (getline (IStream.open content) [] '\n').1 u.localInt).1,
              line := (getline (IStream.open content) [] '\n').2, users := users,
              admins := admins } := rfl
      obtain ⟨xa, ha1, ha2, ha3, ha4⟩ := loadAdmins_spec alloc
        (extractInt
          (getline (UserManager.afterUsers users admins content u alloc).inFile
            (UserManager.afterUsers users admins content u alloc).line '\n').1
          u.localInt).2.toNat 0
        { UserManager.afterUsers users admins content u alloc with
          inFile := ignore (extractInt
            (getline (UserManager.afterUsers users admins content u alloc).inFile
              (UserManager.afterUsers users admins content u alloc).line '\n').1
            u.localInt).1
          line := (getline (UserManager.afterUsers users admins content u alloc).inFile
            (UserManager.afterUsers users admins content u alloc).line '\n').2 }
      refine ⟨xu, xa, _, _, ?_, ?_, hu3, ha3, hu4, ha4⟩
      · rw [ha2]
        simp only []
        rw [hst, hu1]
      · rw [ha1]
        simp only []
        rw [hst, hu2]

theorem nodup_extend (U A Xu Xa D : List Ptr) (h : (U ++ A).Nodup) (hxu : Xu.Nodup)
    (hxa : Xa.Nodup) (hd : D.Nodup) (h1 : ∀ x ∈ Xu, x ∉ U ++ A) (h2 : ∀ x ∈ Xa, x ∉ U ++ A)
    (h3 : ∀ x ∈ D, x ∉ U ++ A) (h4 : ∀ x ∈ Xu, x ∉ Xa) (h5 : ∀ x ∈ Xu, x ∉ D)
    (h6 : ∀ x ∈ Xa, x ∉ D) : ((U ++ Xu) ++ ((A ++ Xa) ++ D)).Nodup := by
  simp only [List.nodup_append, List.Disjoint, List.mem_append, not_or] at *
  refine ⟨⟨h.1, hxu, ?_⟩, ⟨⟨h.2.1, hxa, ?_⟩, hd, ?_⟩, ?_⟩
  · intro a ha hb
    exact (h1 a hb).1 ha
  · intro a ha hb
    exact (h2 a hb).2 ha
  · intro a ha hb
    rcases ha with ha | ha
    · exact (h3 a hb).2 ha
    · exact h6 a ha hb
  · intro a ha hb
    rcases ha with ha | ha
    · rcases hb with (hb | hb) | hb
      · exact h.2.2 ha hb
      · exact (h2 a hb).1 ha
      · exact (h3 a hb).1 ha
    · rcases hb with (hb | hb) | hb
      · exact (h1 a ha).2 hb
      · exact h4 a ha hb
      · exact h5 a ha hb

theorem sessionInvariant_extend (c : SystemController) (xu : List (Ptr × User))
    (xa : List (Ptr × Admin))
    (hn : ((c.users ++ xu).map (fun x => x.1) ++ (c.admins ++ xa).map (fun x => x.1)).Nodup)
    (hu : ∀ e ∈ xu, e.2.isLoggedIn = false) (ha : ∀ e ∈ xa, e.2.isLoggedIn = false)
    (h : c.sessionInvariant) :
    ({ c with users := c.users ++ xu, admins := c.admins ++ xa } :
      SystemController).sessionInvariant := by
  refine ⟨hn, ?_, ?_, ?_⟩
  · intro e he hlog
    rcases List.mem_append.1 he with he | he
    · exact h.2.1 e he hlog
    · rw [hu e he] at hlog
      exact absurd hlog (by simp)
  · intro e he hlog
    rcases List.mem_append.1 he with he | he
    · exact h.2.2.1 e he hlog
    · rw [ha e he] at hlog
      exact absurd hlog (by simp)
  · intro p hp
    rcases h.2.2.2 p hp with ⟨e, he, hk⟩ | ⟨e, he, hk⟩
    · exact Or.inl ⟨e, List.mem_append_left _ he, hk⟩
    · exact Or.inr ⟨e, List.mem_append_left _ he, hk⟩

theorem sessionInvariant_initializeSystem (c : SystemController)
    (inventoryFile accountsFile : Option Str) (u : Indeterminate) (alloc : Allocator)
    (accounts : AccountAllocator) (hfresh : accounts.freshFor c.accountAddresses)
    (h : c.sessionInvariant) :
    (c.initializeSystem inventoryFile accountsFile u alloc accounts).2.sessionInvariant := by
  obtain ⟨f1, f2, f3, f4, f5, f6, f7, f8⟩ := hfresh
  obtain ⟨xu, xa, n, m, h1, h2, h3, h4, h5, h6⟩ :=
    loadAllAccounts_spec c.users c.admins accountsFile u accounts
  have hxu : (xu.map fun x => x.1).Nodup := by
    rw [h3]
    exact List.Nodup.map f4 (List.nodup_range' 0 n)
  have hxa : (xa.map fun x => x.1).Nodup := by
    rw [h4]
    exact List.Nodup.map f5 (List.nodup_range' 0 m)
  have hmu : ∀ x ∈ xu.map (fun x => x.1), ∃ i, x = accounts.user i := by
    intro x hx
    rw [h3] at hx
    obtain ⟨i, -, hi⟩ := List.mem_map.1 hx
    exact ⟨i, hi.symm⟩
  have hma : ∀ x ∈ xa.map (fun x => x.1), ∃ i, x = accounts.admin i := by
    intro x hx
    rw [h4] at hx
    obtain ⟨i, -, hi⟩ := List.mem_map.1 hx
    exact ⟨i, hi.symm⟩
  have key : ∀ (d : List (Ptr × Admin)), (d.map fun x => x.1).Nodup →
      (∀ x ∈ d.map (fun x => x.1), x = accounts.defaultAdmin) →
      (∀ e ∈ d, e.2.isLoggedIn = false) →
      ({ c with users := c.users ++ xu, admins := c.admins ++ (xa ++ d) } :
        SystemController).sessionInvariant := by
    intro d hd hdm hdl
    apply sessionInvariant_extend c xu (xa ++ d) _ h5 _ h
    · simp only [List.map_append]
      rw [← List.append_assoc (c.admins.map fun x => x.1)]
      apply nodup_extend _ _ _ _ _ h.1 hxu hxa hd
      · intro x hx
        obtain ⟨i, rfl⟩ := hmu x hx
        exact f1 i
      · intro x hx
        obtain ⟨i, rfl⟩ := hma x hx
        exact f2 i
      · intro x hx
        rw [hdm x hx]
        exact f3
      · intro x hx hx2
        obtain ⟨i, rfl⟩ := hmu x hx
        obtain ⟨j, hj⟩ := hma _ hx2
        exact f6 i j hj
      · intro x hx hx2
        obtain ⟨i, rfl⟩ := hmu x hx
        exact f7 i (hdm _ hx2)
      · intro x hx hx2
        obtain ⟨i, rfl⟩ := hma x hx
        exact f8 i (hdm _ hx2)
    · intro e he
      rcases List.mem_append.1 he with he | he
      · exact h6 e he
      · exact hdl e he
  unfold SystemController.initializeSystem
  simp only []
  split_ifs with hl
  · have := key [] List.nodup_nil (by simp) (by simp)
    rw [List.append_nil] at this
    refine sessionInvariant_of_session _ _ ?_ this
    simp only [SystemController.session, SystemController.setSuccess, h1, h2]
  · have := key [(accounts.defaultAdmin,
      (Admin.new "admin".toList "admin123".toList "admin@system.com".toList).grantPermission
        "SUPER_ADMIN".toList)] (List.nodup_singleton _) (by simp)
      (by
        intro e he
        rw [List.mem_singleton] at he
        rw [he]
        simp only [grantPermission_toUser]
        rfl)
    refine sessionInvariant_of_session _ _ ?_ this
    simp only [SystemController.session, SystemController.setSuccess, h1, h2,
      List.append_assoc]

theorem sessionInvariant_after (c : SystemController) (call : SystemController.Call)
    (hadm : c.admits call) (h : c.sessionInvariant) : (c.after call).sessionInvariant := by
  cases call with
  | initializeSystem inventoryFile accountsFile u alloc accounts =>
    exact sessionInvariant_initializeSystem c _ _ _ _ _ hadm h
  | shutdownSystem =>
    refine ⟨List.nodup_nil, ?_, ?_, ?_⟩
    · intro e he
      exact absurd he (List.not_mem_nil e)
    · intro e he
      exact absurd he (List.not_mem_nil e)
    · intro p hp
      exact absurd hp (by simp [SystemController.after, SystemController.shutdownSystem])
  | loginUser username password => exact sessionInvariant_loginUser c _ _ h
  | loginAdmin username password => exact sessionInvariant_loginAdmin c _ _ h
  | logout => exact sessionInvariant_logout c h
  | changePassword oldPass newPass => exact sessionInvariant_changePassword c _ _ h
  | createUser username password email address =>
    exact sessionInvariant_createUser c _ _ _ _ hadm h
  | createAdmin username password email address =>
    exact sessionInvariant_createAdmin c _ _ _ _ hadm h
  | deleteUser username => exact sessionInvariant_deleteUser c _ h
  | autoSaveData => exact sessionInvariant_of_session c _ rfl h
  | viewInventory =>
    apply sessionInvariant_of_session c _ _ h
    simp only [SystemController.after]
    unfold SystemController.viewInventory
    repeat' split
    all_goals rfl
  | searchProduct productId =>
    apply sessionInvariant_of_session c _ _ h
    simp only [SystemController.after]
    unfold SystemController.searchProduct
    repeat' split
    all_goals rfl
  | generateInventoryReport =>
    apply sessionInvariant_of_session c _ _ h
    simp only [SystemController.after]
    unfold SystemController.generateInventoryReport
    repeat' split
    all_goals first
      | rfl
      | exact session_checkAdminPrivileges c
  | checkLowStock threshold =>
    apply sessionInvariant_of_session c _ _ h
    simp only [SystemController.after]
    unfold SystemController.checkLowStock
    repeat' split
    all_goals rfl
  | purchaseProduct productId quantity =>
    apply sessionInvariant_of_session c _ _ h
    simp only [SystemController.after]
    unfold SystemController.purchaseProduct
    repeat' split
    all_goals first
      | rfl
      | exact (session_increment _).trans rfl
  | useProduct productId quantity =>
    apply sessionInvariant_of_session c _ _ h
    simp only [SystemController.after]
    unfold SystemController.useProduct
    repeat' split
    all_goals first
      | rfl
      | exact (session_increment _).trans rfl
  | addProduct product supplier =>
    apply sessionInvariant_of_session c _ _ h
    simp only [SystemController.after]
    unfold SystemController.addProduct
    repeat' split
    all_goals first
      | rfl
      | exact session_checkAdminPrivileges c
      | exact (session_increment _).trans rfl
  | removeProduct productId =>
    apply sessionInvariant_of_session c _ _ h
    simp only [SystemController.after]
    unfold SystemController.removeProduct
    repeat' split
    all_goals first
      | rfl
      | exact session_checkAdminPrivileges c
      | exact (session_increment _).trans rfl
  | modifyProductPrice productId newPrice =>
    apply sessionInvariant_of_session c _ _ h
    simp only [SystemController.after]
    unfold SystemController.modifyProductPrice
    repeat' split
    all_goals first
      | rfl
      | exact session_checkAdminPrivileges c
      | exact (session_increment _).trans rfl
  | addSupplier supplier =>
    apply sessionInvariant_of_session c _ _ h
    simp only [SystemController.after]
    unfold SystemController.addSupplier
    repeat' split
    all_goals first
      | rfl
      | exact session_checkAdminPrivileges c
      | exact (session_increment _).trans rfl
  | removeSupplier supplier =>
    apply sessionInvariant_of_session c _ _ h
    simp only [SystemController.after]
    unfold SystemController.removeSupplier
    repeat' split
    all_goals first
      | rfl
      | exact session_checkAdminPrivileges c
      | exact (session_increment _).trans rfl

theorem sessionInvariant_run (calls : List SystemController.Call) (c : SystemController)
    (hadm : c.admitsAll calls) (h : c.sessionInvariant) : (c.run calls).sessionInvariant := by
  induction calls generalizing c with
  | nil => exact h
  | cons call rest ih =>
    exact ih (c.after call) hadm.2 (sessionInvariant_after c call hadm.1 h)

theorem length_le_one_of_all_eq (l : List Ptr) (hn : l.Nodup)
    (h : ∀ x ∈ l, ∀ y ∈ l, x = y) : l.length ≤ 1 := by
  cases l with
  | nil => simp
  | cons a t =>
    cases t with
    | nil => simp
    | cons b t2 =>
      have hab : a = b := h a (by simp) b (by simp)
      rw [hab] at hn
      exact absurd (List.nodup_cons.1 hn).1 (by simp)

theorem loggedIn_le_one (c : SystemController) (h : c.sessionInvariant) :
    (c.users.filter fun e => e.2.isLoggedIn).length +
      (c.admins.filter fun e => e.2.isLoggedIn).length ≤ 1 := by
  have hsub : (((c.users.filter fun e => e.2.isLoggedIn).map fun e => e.1) ++
      ((c.admins.filter fun e => e.2.isLoggedIn).map fun e => e.1)).Sublist
      c.accountAddresses :=
    (List.Sublist.map _ (List.filter_sublist _)).append
      (List.Sublist.map _ (List.filter_sublist _))
  have hcur : ∀ x ∈ ((c.users.filter fun e => e.2.isLoggedIn).map fun e => e.1) ++
      ((c.admins.filter fun e => e.2.isLoggedIn).map fun e => e.1), c.currentUser = some x := by
    intro x hx
    rcases List.mem_append.1 hx with hx | hx
    · obtain ⟨e, he, rfl⟩ := List.mem_map.1 hx
      rw [List.mem_filter] at he
      exact h.2.1 e he.1 he.2
    · obtain ⟨e, he, rfl⟩ := List.mem_map.1 hx
      rw [List.mem_filter] at he
      exact h.2.2.1 e he.1 he.2
  have := length_le_one_of_all_eq _ (List.Nodup.sublist hsub h.1) (fun x hx y hy =>
    Option.some.inj ((hcur x hx).symm.trans (hcur y hy)))
  simpa using this

/-- C37 (counterexample): with the default administrator logged in, `loginUser` returns false
and replaces the two status messages of the controller. -/
theorem c37_login_changes_messages :
    controllerWithAdmin = SystemController.new.run adminSession ∧
      controllerWithAdmin.currentUser = some 2999 ∧
      controllerWithAdmin.lastSuccessMessage = "Welcome, Administrator admin!".toList ∧
      controllerWithAdmin.lastErrorMessage = [] ∧
      (controllerWithAdmin.loginUser "bob".toList "secret".toList).1 = false ∧
      (controllerWithAdmin.loginUser "bob".toList "secret".toList).2.lastSuccessMessage = [] ∧
      (controllerWithAdmin.loginUser "bob".toList "secret".toList).2.lastErrorMessage =
        "A user is already logged in. Please logout first.".toList := by
  refine ⟨rfl, ?_, ?_, ?_, ?_, ?_, ?_⟩ <;> decide

/-- C37 (amended): in every state `c` that a sequence of calls of the controller's operations
leaves of a newly constructed controller, at most one account is logged in, an account that is
logged in is the current user, and the current user is an account that is logged in; while a
user is logged in, `loginUser` and `loginAdmin` return false and change neither the accounts,
the current user, the inventory nor the operation counter: they set the error message and
clear the success message. -/
theorem c37_one_session (calls : List SystemController.Call) (c : SystemController)
    (username password : Str) (hadm : SystemController.new.admitsAll calls)
    (hc : c = SystemController.new.run calls) :
    (c.users.filter fun e => e.2.isLoggedIn).length +
        (c.admins.filter fun e => e.2.isLoggedIn).length ≤ 1 ∧
      (∀ e ∈ c.users, e.2.isLoggedIn = true → c.currentUser = some e.1) ∧
      (∀ e ∈ c.admins, e.2.isLoggedIn = true → c.currentUser = some e.1) ∧
      (∀ p, c.currentUser = some p → ∃ a, c.account p = some a ∧ a.isLoggedIn = true) ∧
      (c.currentUser.isSome = true →
        c.loginUser username password =
            (false, c.setError "A user is already logged in. Please logout first.".toList) ∧
          c.loginAdmin username password =
            (false, c.setError "A user is already logged in. Please logout first.".toList) ∧
          (c.loginUser username password).2.users = c.users ∧
          (c.loginUser username password).2.admins = c.admins ∧
          (c.loginUser username password).2.currentUser = c.currentUser ∧
          (c.loginUser username password).2.inventory = c.inventory ∧
          (c.loginUser username password).2.operationsSinceLastSave =
            c.operationsSinceLastSave ∧
          (c.loginAdmin username password).2.users = c.users ∧
          (c.loginAdmin username password).2.admins = c.admins ∧
          (c.loginAdmin username password).2.currentUser = c.currentUser ∧
          (c.loginAdmin username password).2.inventory = c.inventory ∧
          (c.loginAdmin username password).2.operationsSinceLastSave =
            c.operationsSinceLastSave) := by
  have h : c.sessionInvariant := by
    rw [hc]
    exact sessionInvariant_run calls _ hadm sessionInvariant_new
  refine ⟨loggedIn_le_one c h, h.2.1, h.2.2.1, sessionInvariant_account c h, ?_⟩
  intro hlog
  have h1 : c.loginUser username password =
      (false, c.setError "A user is already logged in. Please logout first.".toList) := by
    unfold SystemController.loginUser
    rw [if_pos hlog]
  have h2 : c.loginAdmin username password =
      (false, c.setError "A user is already logged in. Please logout first.".toList) := by
    unfold SystemController.loginAdmin
    rw [if_pos hlog]
  refine ⟨h1, h2, ?_⟩
  rw [h1, h2]
  exact ⟨rfl, rfl, rfl, rfl, rfl, rfl, rfl, rfl, rfl, rfl⟩

theorem sampleAccountAllocator_fresh : sampleAccountAllocator.freshFor [] := by
  refine ⟨by simp, by simp, by simp, ?_, ?_, ?_, ?_, ?_⟩
  · intro i j hij
    have h : 3000 + 2 * i = 3000 + 2 * j := hij
    omega
  · intro i j hij
    have h : 3001 + 2 * i = 3001 + 2 * j := hij
    omega
  · intro i j hij
    have h : 3000 + 2 * i = 3001 + 2 * j := hij
    omega
  · intro i hi
    have h : 3000 + 2 * i = 2999 := hi
    omega
  · intro i hi
    have h : 3001 + 2 * i = 2999 := hi
    omega

theorem twoSessions_admitted : SystemController.new.admitsAll twoSessions :=
  ⟨sampleAccountAllocator_fresh, trivial,
    (by decide : (5000 : Ptr) ∉ (SystemController.new.run adminSession).accountAddresses),
    trivial, trivial, trivial⟩

/-- C37 (witness): the default administrator creates the user bob and logs out, bob logs in;
bob is then the one account that is logged in, and a login of the administrator fails. -/
theorem c37_one_session_witness :
    SystemController.new.admitsAll twoSessions ∧
      (SystemController.new.run twoSessions).currentUser = some 5000 ∧
      ((SystemController.new.run twoSessions).users.filter fun e => e.2.isLoggedIn).length +
          ((SystemController.new.run twoSessions).admins.filter
            fun e => e.2.isLoggedIn).length ≤ 1 ∧
      (SystemController.new.run twoSessions).loginAdmin "admin".toList "admin123".toList =
        (false,
          (SystemController.new.run twoSessions).setError
            "A user is already logged in. Please logout first.".toList) :=
  ⟨twoSessions_admitted, by decide,
    (c37_one_session twoSessions _ "admin".toList "admin123".toList twoSessions_admitted rfl).1,
    ((c37_one_session twoSessions _ "admin".toList "admin123".toList twoSessions_admitted
      rfl).2.2.2.2 (by decide)).2.1⟩

/-- C39 (witness): the purchase of 5 units of the raw material of the sample inventory, which
holds 120 of at most 500. -/
theorem c39_purchase_succeeds_witness :
    controllerWithStock.isUserLoggedIn = true ∧
      controllerWithStock.inventory.searchProduct "RM1".toList = some (10, storedRawMaterial) ∧
      storedRawMaterial.getQuantity = 120 ∧ storedRawMaterial.getMaxQuantity = 500 ∧
      (controllerWithStock.inventory.buyProduct "RM1".toList 5).1 = true ∧
      (controllerWithStock.purchaseProduct "RM1".toList 5).1 = true :=
  have hq : storedRawMaterial.getQuantity = 120 :=
    getQuantity_of_whole storedRawMaterial 120 (by simp [storedRawMaterial, Product.quantity])
  have hm : storedRawMaterial.getMaxQuantity = 500 :=
    getMaxQuantity_of_whole storedRawMaterial 500
      (by simp [storedRawMaterial, Product.maxQuantity])
  have hs : controllerWithStock.inventory.searchProduct "RM1".toList =
      some (10, storedRawMaterial) := rfl
  have h := c39_purchase_succeeds controllerWithStock "RM1".toList 5 (10, storedRawMaterial)
    (by decide) (by decide) (by decide) hs
    (by
      show storedRawMaterial.getQuantity + 5 ≤ storedRawMaterial.getMaxQuantity
      rw [hq, hm]
      decide)
    ⟨⟨by decide, by decide⟩, by
      show isInt32 (storedRawMaterial.getQuantity + 5)
      rw [hq]
      exact ⟨by decide, by decide⟩⟩
    ⟨120, 500, by simp [storedRawMaterial, Product.quantity],
      by simp [storedRawMaterial, Product.maxQuantity]⟩
  ⟨by decide, hs, hq, hm, h.1, h.2.1⟩

/-- C40 (witness): a `NonPerishable` as constructed, with `setQuantity(3)`, `useItem(2.5)` and
`setFragile(true)`. -/
theorem c40_nonPerishable_stock_witness :
    (0 ≤ (NonPerishable.new "NP1".toList "Nail".toList (.fin 1) "Hardware".toList
          sampleIndeterminate).quantity ∧
        (NonPerishable.new "NP1".toList "Nail".toList (.fin 1) "Hardware".toList
            sampleIndeterminate).quantity ≤
          (NonPerishable.new "NP1".toList "Nail".toList (.fin 1) "Hardware".toList
            sampleIndeterminate).maxQuantity) ∧
      0 ≤ ((NonPerishable.new "NP1".toList "Nail".toList (.fin 1) "Hardware".toList
        sampleIndeterminate).buyItem (.fin (5 / 2))).2.quantity :=
  ⟨⟨by decide, by decide⟩,
    (c40_nonPerishable_stock
      (NonPerishable.new "NP1".toList "Nail".toList (.fin 1) "Hardware".toList
        sampleIndeterminate) 3 (.fin (5 / 2)) true ⟨by decide, by decide⟩).2.2.2.2.1.1⟩

end IMS
